import Mathlib

/-!
PrismGL: a verification development.

A shallow embedding of the core of PrismGL (`src/native/src/*.c`) and theorems
about it.

Conventions of the embedding.

* A C string is the list of its `char`s before the terminating NUL
  (`CStr`); one `Char` stands for one `char`. A `char*` that may be `NULL`
  is an `Option CStr`.
* `malloc`/`strdup` are taken to succeed: the paths of the source that handle
  a failed allocation are not part of the embedding.
* In the immediate-mode engine a floating-point value is a finite rational, an
  infinity or a NaN (`FloatValue`; the sign of a zero is not kept), and the casts
  and the division of the emitters round to binary32. The adaptive-resolution
  section computes with exact rationals, as it states.
* Calls into the GL driver are recorded in a trace (a list of `GLCall`), and
  what the driver answers is a parameter of the operation that asks.
-/

namespace PrismGL

set_option maxRecDepth 100000

/-! ## C strings -/

/-- A C string: the chars before the terminating NUL. -/
abbrev CStr := List Char

/-- The libc `strstr`: offset of the first occurrence of `needle` in `hay`, `none` for `NULL`. -/
def strstr : CStr → CStr → Option Nat
  | [], needle => if needle.isPrefixOf [] then some 0 else none
  | c :: cs, needle =>
    if needle.isPrefixOf (c :: cs) then some 0
    else (strstr cs needle).map (· + 1)

/-! ## Procedure-address resolver (`proc_address.c`) -/

/-- A function pointer: an implementation of this library (by its C symbol) or an
address handed out by the native driver. -/
inductive FuncPtr where
  | impl (symbol : String)
  | native (addr : Nat)
  deriving DecidableEq, Repr

/-- The C struct `GLFuncEntry` of `proc_address.c`. -/
structure GLFuncEntry where
  name : CStr
  func : FuncPtr
  deriving DecidableEq, Repr

/-- The table `g_overrides` of `proc_address.c`, without its `{NULL, NULL}` sentinel. -/
def g_overrides : List GLFuncEntry := [
  ⟨"glBegin".toList, .impl "prismgl_glBegin"⟩,
  ⟨"glEnd".toList, .impl "prismgl_glEnd"⟩,
  ⟨"glVertex2f".toList, .impl "prismgl_glVertex2f"⟩,
  ⟨"glVertex3f".toList, .impl "prismgl_glVertex3f"⟩,
  ⟨"glVertex2d".toList, .impl "prismgl_glVertex2d"⟩,
  ⟨"glVertex3d".toList, .impl "prismgl_glVertex3d"⟩,
  ⟨"glTexCoord2f".toList, .impl "prismgl_glTexCoord2f"⟩,
  ⟨"glTexCoord2d".toList, .impl "prismgl_glTexCoord2d"⟩,
  ⟨"glColor3f".toList, .impl "prismgl_glColor3f"⟩,
  ⟨"glColor3d".toList, .impl "prismgl_glColor3d"⟩,
  ⟨"glColor4f".toList, .impl "prismgl_glColor4f"⟩,
  ⟨"glColor4d".toList, .impl "prismgl_glColor4d"⟩,
  ⟨"glColor3ub".toList, .impl "prismgl_glColor3ub"⟩,
  ⟨"glColor4ub".toList, .impl "prismgl_glColor4ub"⟩,
  ⟨"glNormal3f".toList, .impl "prismgl_glNormal3f"⟩,
  ⟨"glPolygonMode".toList, .impl "prismgl_glPolygonMode"⟩,
  ⟨"glClipControl".toList, .impl "prismgl_glClipControl"⟩,
  ⟨"glProvokingVertex".toList, .impl "prismgl_glProvokingVertex"⟩,
  ⟨"glShadeModel".toList, .impl "prismgl_glShadeModel"⟩,
  ⟨"glAlphaFunc".toList, .impl "prismgl_glAlphaFunc"⟩,
  ⟨"glEnable".toList, .impl "prismgl_glEnable_wrapper"⟩,
  ⟨"glDisable".toList, .impl "prismgl_glDisable_wrapper"⟩,
  ⟨"glGetIntegerv".toList, .impl "prismgl_glGetIntegerv_wrapper"⟩,
  ⟨"glGetFloatv".toList, .impl "prismgl_glGetFloatv_wrapper"⟩,
  ⟨"glGetString".toList, .impl "prismgl_glGetString_wrapper"⟩,
  ⟨"glGetStringi".toList, .impl "prismgl_glGetStringi_wrapper"⟩,
  ⟨"glTexImage1D".toList, .impl "prismgl_glTexImage1D"⟩,
  ⟨"glGetTexImage".toList, .impl "prismgl_glGetTexImage"⟩,
  ⟨"glDrawBuffer".toList, .impl "prismgl_glDrawBuffer"⟩,
  ⟨"glReadBuffer".toList, .impl "prismgl_glReadBuffer_wrapper"⟩,
  ⟨"glPushMatrix".toList, .impl "prismgl_glPushMatrix"⟩,
  ⟨"glPopMatrix".toList, .impl "prismgl_glPopMatrix"⟩,
  ⟨"glLoadIdentity".toList, .impl "prismgl_glLoadIdentity"⟩,
  ⟨"glMatrixMode".toList, .impl "prismgl_glMatrixMode"⟩,
  ⟨"glOrtho".toList, .impl "prismgl_glOrtho"⟩,
  ⟨"glFrustum".toList, .impl "prismgl_glFrustum"⟩,
  ⟨"glTranslatef".toList, .impl "prismgl_glTranslatef"⟩,
  ⟨"glRotatef".toList, .impl "prismgl_glRotatef"⟩,
  ⟨"glScalef".toList, .impl "prismgl_glScalef"⟩,
  ⟨"glMultMatrixf".toList, .impl "prismgl_glMultMatrixf"⟩,
  ⟨"glLoadMatrixf".toList, .impl "prismgl_glLoadMatrixf"⟩,
  ⟨"glEnableClientState".toList, .impl "prismgl_glEnableClientState"⟩,
  ⟨"glDisableClientState".toList, .impl "prismgl_glDisableClientState"⟩,
  ⟨"glVertexPointer".toList, .impl "prismgl_glVertexPointer"⟩,
  ⟨"glColorPointer".toList, .impl "prismgl_glColorPointer"⟩,
  ⟨"glTexCoordPointer".toList, .impl "prismgl_glTexCoordPointer"⟩,
  ⟨"glNormalPointer".toList, .impl "prismgl_glNormalPointer"⟩,
  ⟨"glGenQueries".toList, .impl "prismgl_glGenQueries"⟩,
  ⟨"glDeleteQueries".toList, .impl "prismgl_glDeleteQueries"⟩,
  ⟨"glBeginQuery".toList, .impl "prismgl_glBeginQuery_wrapper"⟩,
  ⟨"glEndQuery".toList, .impl "prismgl_glEndQuery_wrapper"⟩,
  ⟨"glGetQueryObjectuiv".toList, .impl "prismgl_glGetQueryObjectuiv_wrapper"⟩,
  ⟨"glGetQueryObjecti64v".toList, .impl "prismgl_glGetQueryObjecti64v"⟩,
  ⟨"glGetQueryObjectui64v".toList, .impl "prismgl_glGetQueryObjectui64v"⟩,
  ⟨"glQueryCounter".toList, .impl "prismgl_glQueryCounter"⟩,
  ⟨"glPushAttrib".toList, .impl "stub_noop_1i"⟩,
  ⟨"glPopAttrib".toList, .impl "stub_noop"⟩,
  ⟨"glPushClientAttrib".toList, .impl "stub_noop_1i"⟩,
  ⟨"glPopClientAttrib".toList, .impl "stub_noop"⟩,
  ⟨"glLineWidth".toList, .impl "stub_noop_1f"⟩,
  ⟨"glPointSize".toList, .impl "stub_noop_1f"⟩,
  ⟨"glLogicOp".toList, .impl "stub_noop_1i"⟩,
  ⟨"glClampColor".toList, .impl "stub_noop"⟩]

/-- What the platform answers to the resolver: `dlsym` on each of the three libraries
that `ensure_libs_loaded` opens (`none` when `dlopen` failed), and what the driver's
`eglGetProcAddress` returns for a name. A `none` result is `NULL`. -/
structure Driver where
  /-- The `dlsym` of `libGLESv3.so` (`g_gles_lib`), `none` when the library did not load. -/
  gles_lib : Option (CStr → Option FuncPtr)
  /-- The `dlsym` of `libGLESv2.so` (`g_gles2_lib`). -/
  gles2_lib : Option (CStr → Option FuncPtr)
  /-- The function `dlsym(g_egl_lib, "eglGetProcAddress")`; `none` when `libEGL.so` did not
  load or does not export it. -/
  eglGetProcAddr : Option (CStr → Option FuncPtr)

/-- The override scan of `prismgl_get_proc_address`: the first table entry whose name
`strcmp`s equal. -/
def find_override (name : CStr) : List GLFuncEntry → Option FuncPtr
  | [] => none
  | e :: es => if name = e.name then some e.func else find_override name es

/-- The statement `if (eglGetProcAddr) func = eglGetProcAddr(n);`. -/
def try_egl (d : Driver) (func : Option FuncPtr) (n : CStr) : Option FuncPtr :=
  match d.eglGetProcAddr with
  | some f => f n
  | none => func

/-- The statement `if (!func && lib) func = dlsym(lib, n);`. -/
def try_dlsym (lib : Option (CStr → Option FuncPtr)) (func : Option FuncPtr) (n : CStr) :
    Option FuncPtr :=
  match func, lib with
  | none, some sym => sym n
  | _, _ => func

/-- The text written by `snprintf(buf, 256, "%s<suffix>", name)`. -/
def snprintf_suffix (name suffix : CStr) : CStr := (name ++ suffix).take 255

/-- The chain of `strstr` calls that looks for a vendor suffix in `base_name`. -/
def find_suffix (base_name : CStr) : Option Nat :=
  (strstr base_name "EXT".toList).orElse fun _ =>
  (strstr base_name "ARB".toList).orElse fun _ =>
  (strstr base_name "NV".toList).orElse fun _ =>
  (strstr base_name "AMD".toList).orElse fun _ =>
  strstr base_name "OES".toList

/-- The function `prismgl_get_proc_address` of `proc_address.c`. -/
def prismgl_get_proc_address (d : Driver) (name : Option CStr) : Option FuncPtr :=
  match name with
  | none => none
  | some name =>
    match find_override name g_overrides with
    | some f => some f
    | none =>
      let func := try_egl d none name
      let func := try_dlsym d.gles_lib func name
      let func := try_dlsym d.gles2_lib func name
      match func with
      | some f => some f
      | none =>
        let base_name := name.take 255
        let oes_name := snprintf_suffix name "OES".toList
        let func := try_egl d none oes_name
        let func := try_dlsym d.gles_lib func oes_name
        let func :=
          match func with
          | some f => some f
          | none =>
            let ext_name := snprintf_suffix name "EXT".toList
            let func := try_egl d none ext_name
            try_dlsym d.gles_lib func ext_name
        match func with
        | some f => some f
        | none =>
          match find_suffix base_name with
          | some ext =>
            let base_name := base_name.take ext
            let func := try_egl d none base_name
            let func := try_dlsym d.gles_lib func base_name
            try_dlsym d.gles2_lib func base_name
          | none => none

/-- A driver on which every lookup of every name succeeds (used to instantiate theorems). -/
def driver_exporting_all : Driver :=
  { gles_lib := some (fun _ => some (.native 3)),
    gles2_lib := some (fun _ => some (.native 2)),
    eglGetProcAddr := some (fun _ => some (.native 1)) }

/-! ## GL types, constants and the driver-call trace -/

/-! The C types `GLenum` and `GLuint` are `Nat`, `GLint` and `GLsizei` are `Int`. -/

/-- A value of a binary floating-point format: a finite number as the rational it denotes
(the sign of a zero is not kept), an infinity, or a NaN. -/
inductive FloatValue where
  | finite (q : Rat)
  | infinity (negative : Bool)
  | nan
  deriving DecidableEq, Repr

/-- The numerals `0`, `1`, ... as floating-point values. -/
instance (n : Nat) : OfNat FloatValue n := ⟨.finite n⟩

/-- The C type `GLfloat`: a value of the format binary32. -/
abbrev GLfloat := FloatValue

/-- The C type `double`: a value of the format binary64. -/
abbrev GLdouble := FloatValue

/-- The quotient `n / d` (`d > 0`) rounded to the nearest integer, a tie to the even one. -/
def round_half_even (n d : Nat) : Nat :=
  let q := n / d
  let r := n % d
  if 2 * r < d then q else if 2 * r > d then q + 1 else if q % 2 = 0 then q else q + 1

/-- The number of binary digits of `n`; `fuel` bounds the rounds, and `n` rounds are
enough. -/
def bit_length : Nat → Nat → Nat
  | 0, _ => 0
  | fuel + 1, n => if n = 0 then 0 else bit_length fuel (n / 2) + 1

/-- The exponent `e` with `2^e ≤ n / d < 2^(e+1)`, for `n > 0` and `d > 0`. -/
def floor_log2 (n d : Nat) : Int :=
  let e : Int := (bit_length n n : Int) - (bit_length d d : Int)
  if (if 0 ≤ e then d * 2 ^ e.toNat ≤ n else d ≤ n * 2 ^ (-e).toNat) then e else e - 1

/-- The rational `q` rounded to the format binary32 (24 bits of precision, exponents from
-126 to 127, subnormal numbers below), to the nearest value and a tie to the even one, as
the arithmetic of the target does: the result of a `float` operation whose exact value is
`q`. A value that rounds to `2^128` or beyond gives an infinity. -/
def round_binary32 (q : Rat) : FloatValue :=
  if q = 0 then .finite 0
  else
    let n := q.num.natAbs
    let d := q.den
    let e := max (floor_log2 n d) (-126)
    let k := e - 23
    let m :=
      if 0 ≤ k then round_half_even n (d * 2 ^ k.toNat)
      else round_half_even (n * 2 ^ (-k).toNat) d
    if 128 ≤ e ∨ (e = 127 ∧ m = 16777216) then .infinity (decide (q < 0))
    else .finite ((if q < 0 then -1 else 1) * (m : Rat) * 2 ^ k)

/-- The cast `(GLfloat)x` of a `double`: the value rounded to binary32, an infinity for a
finite value beyond the range of binary32, as the conversion of IEEE 754 does. -/
def to_GLfloat : GLdouble → GLfloat
  | .finite q => round_binary32 q
  | .infinity negative => .infinity negative
  | .nan => .nan

/-- The quotient `v / 255.0f` for a `GLubyte` argument `v`: the argument keeps the low
eight bits of what is passed, is converted to `float` without loss, and the division is
rounded to binary32. -/
def ubyte_to_GLfloat (v : Nat) : GLfloat := round_binary32 (((v % 256 : Nat) : Rat) / 255)

/-- The constant `GL_QUADS` of `prismgl.h`. -/
def GL_QUADS : Nat := 0x0007
/-- The constant `GL_QUAD_STRIP` of `prismgl.h`. -/
def GL_QUAD_STRIP : Nat := 0x0008
/-- Modelled from the spec: the constant `GL_TRIANGLES` of the GLES headers, which are not
part of the repository (value of the Khronos header). -/
def GL_TRIANGLES : Nat := 0x0004
/-- Modelled from the spec: the constant `GL_TRIANGLE_STRIP` of the GLES headers, which are
not part of the repository (value of the Khronos header). -/
def GL_TRIANGLE_STRIP : Nat := 0x0005
/-- Modelled from the spec: the constant `GL_UNSIGNED_SHORT` of the GLES headers, which are
not part of the repository (value of the Khronos header). -/
def GL_UNSIGNED_SHORT : Nat := 0x1403
/-- Modelled from the spec: the constant `GL_FLOAT` of the GLES headers, which are not part
of the repository (value of the Khronos header). -/
def GL_FLOAT : Nat := 0x1406
/-- Modelled from the spec: the constant `GL_ARRAY_BUFFER` of the GLES headers, which are
not part of the repository (value of the Khronos header). -/
def GL_ARRAY_BUFFER : Nat := 0x8892
/-- Modelled from the spec: the constant `GL_ELEMENT_ARRAY_BUFFER` of the GLES headers,
which are not part of the repository (value of the Khronos header). -/
def GL_ELEMENT_ARRAY_BUFFER : Nat := 0x8893
/-- Modelled from the spec: the constant `GL_DYNAMIC_DRAW` of the GLES headers, which are
not part of the repository (value of the Khronos header). -/
def GL_DYNAMIC_DRAW : Nat := 0x88E8
/-- Modelled from the spec: the constant `GL_VERTEX_SHADER` of the GLES headers, which are
not part of the repository (value of the Khronos header). -/
def GL_VERTEX_SHADER : Nat := 0x8B31
/-- Modelled from the spec: the constant `GL_FRAGMENT_SHADER` of the GLES headers, which are
not part of the repository (value of the Khronos header). -/
def GL_FRAGMENT_SHADER : Nat := 0x8B30

/-- The C struct `ImmediateVertex` of `gl_wrapper.c` (twelve floats, 48 bytes). -/
structure ImmediateVertex where
  x : GLfloat
  y : GLfloat
  z : GLfloat
  r : GLfloat
  g : GLfloat
  b : GLfloat
  a : GLfloat
  s : GLfloat
  t : GLfloat
  nx : GLfloat
  ny : GLfloat
  nz : GLfloat
  deriving DecidableEq, Repr

/-- A call issued to the GL driver, with its arguments. Buffers passed by pointer are
recorded by their contents; values the driver writes back are recorded as `out`. -/
inductive GLCall where
  | glGenVertexArrays (n : Int) (out : Nat)
  | glGenBuffers (n : Int) (out : Nat)
  | glBindVertexArray (array : Nat)
  | glBindBuffer (target : Nat) (buffer : Nat)
  | glBufferData_vertices (target : Nat) (size : Int) (data : List ImmediateVertex)
      (usage : Nat)
  | glBufferData_indices (target : Nat) (size : Int) (data : List Nat) (usage : Nat)
  | glEnableVertexAttribArray (index : Nat)
  | glVertexAttribPointer (index : Nat) (size : Int) (type : Nat) (normalized : Bool)
      (stride : Int) (offset : Nat)
  | glDrawElements (mode : Nat) (count : Int) (type : Nat) (indices : Nat)
  | glDrawArrays (mode : Nat) (first : Int) (count : Int)
  | glDisableVertexAttribArray (index : Nat)
  | glCreateProgram (out : Nat)
  | glDeleteProgram (program : Nat)
  | glProgramBinary (program : Nat) (binaryFormat : Nat) (binary : List Nat) (length : Int)
  | glGetProgramiv (program : Nat) (pname : Nat) (out : Int)
  | glGetProgramBinary (program : Nat) (bufSize : Int) (length_out : Int)
      (binaryFormat_out : Nat) (binary_out : List Nat)
  | glGetIntegerv (pname : Nat) (out : Int)
  | glGetString (name : Nat) (out : Option CStr)
  | glEnable (cap : Nat)
  | glDisable (cap : Nat)
  | glDrawBuffers (n : Int) (bufs : List Nat)
  | glReadBuffer (src : Nat)
  | glBeginQuery (target : Nat) (id : Nat)
  | glEndQuery (target : Nat)
  | glGetQueryObjectuiv (id : Nat) (pname : Nat) (out : Option Nat)
  | glGetIntegerv_vec (pname : Nat) (out : List Int)
  | glGenFramebuffers (n : Int) (out : Nat)
  | glBindFramebuffer (target : Nat) (framebuffer : Nat)
  | glFramebufferTexture2D (target : Nat) (attachment : Nat) (textarget : Nat)
      (texture : Nat) (level : Int)
  | glCheckFramebufferStatus (target : Nat) (out : Nat)
  | glReadPixels (x : Int) (y : Int) (width : Int) (height : Int) (format : Nat) (type : Nat)
  | glDeleteFramebuffers (n : Int) (framebuffers : List Nat)
  deriving DecidableEq, Repr

/-- Whether a driver call is a draw call. -/
def GLCall.isDraw : GLCall → Bool
  | .glDrawElements .. => true
  | .glDrawArrays .. => true
  | _ => false

/-! ## Immediate-mode emulation (`gl_wrapper.c`) -/

/-- The constant `MAX_IMMEDIATE_VERTICES` of `gl_wrapper.c`. -/
def MAX_IMMEDIATE_VERTICES : Nat := 65536

/-- The global `g_immediate` of `gl_wrapper.c`; the array `vertices` is a function of the
slot number. -/
structure ImmediateState where
  vertices : Nat → ImmediateVertex
  count : Nat
  mode : Nat
  cur_r : GLfloat
  cur_g : GLfloat
  cur_b : GLfloat
  cur_a : GLfloat
  cur_s : GLfloat
  cur_t : GLfloat
  cur_nx : GLfloat
  cur_ny : GLfloat
  cur_nz : GLfloat
  active : Bool
  vao : Nat
  vbo : Nat
  ibo : Nat
  buffers_created : Bool

/-- The initial value of `g_immediate`: the designated initializers, zero elsewhere. -/
def g_immediate_init : ImmediateState :=
  { vertices := fun _ => ⟨0, 0, 0, 0, 0, 0, 0, 0, 0, 0, 0, 0⟩
    count := 0, mode := 0
    cur_r := 1, cur_g := 1, cur_b := 1, cur_a := 1
    cur_s := 0, cur_t := 0
    cur_nx := 0, cur_ny := 0, cur_nz := 1
    active := false, vao := 0, vbo := 0, ibo := 0, buffers_created := false }

/-- The names the driver hands out when `ensure_immediate_buffers` generates its objects. -/
structure GenNames where
  vao : Nat
  vbo : Nat
  ibo : Nat

/-- The function `ensure_immediate_buffers` of `gl_wrapper.c`. -/
def ensure_immediate_buffers (s : ImmediateState) (gen : GenNames) :
    ImmediateState × List GLCall :=
  if !s.buffers_created then
    ({ s with vao := gen.vao, vbo := gen.vbo, ibo := gen.ibo, buffers_created := true },
     [.glGenVertexArrays 1 gen.vao, .glGenBuffers 1 gen.vbo, .glGenBuffers 1 gen.ibo])
  else (s, [])

/-- The function `prismgl_glBegin` of `gl_wrapper.c`. -/
def prismgl_glBegin (s : ImmediateState) (gen : GenNames) (mode : Nat) :
    ImmediateState × List GLCall :=
  let (s, calls) := ensure_immediate_buffers s gen
  ({ s with mode := mode, count := 0, active := true }, calls)

/-- The function `prismgl_glVertex3f` of `gl_wrapper.c`. -/
def prismgl_glVertex3f (s : ImmediateState) (x y z : GLfloat) : ImmediateState :=
  if !s.active || s.count ≥ MAX_IMMEDIATE_VERTICES then s
  else
    { s with
      vertices := Function.update s.vertices s.count
        ⟨x, y, z, s.cur_r, s.cur_g, s.cur_b, s.cur_a, s.cur_s, s.cur_t,
         s.cur_nx, s.cur_ny, s.cur_nz⟩
      count := s.count + 1 }

/-- The function `prismgl_glVertex2f` of `gl_wrapper.c`. -/
def prismgl_glVertex2f (s : ImmediateState) (x y : GLfloat) : ImmediateState :=
  prismgl_glVertex3f s x y 0

/-- The function `prismgl_glTexCoord2f` of `gl_wrapper.c`. -/
def prismgl_glTexCoord2f (s : ImmediateState) (u v : GLfloat) : ImmediateState :=
  { s with cur_s := u, cur_t := v }

/-- The function `prismgl_glColor4f` of `gl_wrapper.c`. -/
def prismgl_glColor4f (s : ImmediateState) (r g b a : GLfloat) : ImmediateState :=
  { s with cur_r := r, cur_g := g, cur_b := b, cur_a := a }

/-- The function `prismgl_glColor3f` of `gl_wrapper.c`. -/
def prismgl_glColor3f (s : ImmediateState) (r g b : GLfloat) : ImmediateState :=
  prismgl_glColor4f s r g b 1

/-- The function `prismgl_glNormal3f` of `gl_wrapper.c`. -/
def prismgl_glNormal3f (s : ImmediateState) (nx ny nz : GLfloat) : ImmediateState :=
  { s with cur_nx := nx, cur_ny := ny, cur_nz := nz }

/-- The cast `(GLushort)v` of a non-negative `int`. -/
def to_GLushort (v : Nat) : Nat := v % 65536

/-- The index array after `quad_count` rounds of the `for` loop of `prismgl_glEnd`. -/
def quad_indices : Nat → List Nat
  | 0 => []
  | i + 1 =>
    let base := i * 4
    quad_indices i ++
      [to_GLushort (base + 0), to_GLushort (base + 1), to_GLushort (base + 2),
       to_GLushort (base + 0), to_GLushort (base + 2), to_GLushort (base + 3)]

/-- The size `sizeof(ImmediateVertex)`: twelve 4-byte floats. -/
def sizeof_ImmediateVertex : Nat := 48

/-- The function `prismgl_glEnd` of `gl_wrapper.c`. -/
def prismgl_glEnd (s : ImmediateState) : ImmediateState × List GLCall :=
  if !s.active || s.count == 0 then ({ s with active := false }, [])
  else
    let setup : List GLCall :=
      [.glBindVertexArray s.vao,
       .glBindBuffer GL_ARRAY_BUFFER s.vbo,
       .glBufferData_vertices GL_ARRAY_BUFFER (s.count * sizeof_ImmediateVertex)
          ((List.range s.count).map s.vertices) GL_DYNAMIC_DRAW,
       .glEnableVertexAttribArray 0,
       .glVertexAttribPointer 0 3 GL_FLOAT false sizeof_ImmediateVertex 0,
       .glEnableVertexAttribArray 1,
       .glVertexAttribPointer 1 4 GL_FLOAT false sizeof_ImmediateVertex 12,
       .glEnableVertexAttribArray 2,
       .glVertexAttribPointer 2 2 GL_FLOAT false sizeof_ImmediateVertex 28,
       .glEnableVertexAttribArray 3,
       .glVertexAttribPointer 3 3 GL_FLOAT false sizeof_ImmediateVertex 36]
    let draw_mode := s.mode
    let draw : List GLCall :=
      if s.mode = GL_QUADS then
        let quad_count := s.count / 4
        let idx_count := quad_count * 6
        let indices := quad_indices quad_count
        [.glBindBuffer GL_ELEMENT_ARRAY_BUFFER s.ibo,
         .glBufferData_indices GL_ELEMENT_ARRAY_BUFFER (idx_count * 2) indices GL_DYNAMIC_DRAW,
         .glDrawElements GL_TRIANGLES idx_count GL_UNSIGNED_SHORT 0,
         .glBindBuffer GL_ELEMENT_ARRAY_BUFFER 0]
      else
        let draw_mode := if draw_mode = GL_QUAD_STRIP then GL_TRIANGLE_STRIP else draw_mode
        [.glDrawArrays draw_mode 0 s.count]
    let teardown : List GLCall :=
      [.glDisableVertexAttribArray 0, .glDisableVertexAttribArray 1,
       .glDisableVertexAttribArray 2, .glDisableVertexAttribArray 3,
       .glBindVertexArray 0]
    ({ s with active := false }, setup ++ draw ++ teardown)

/-- A call of one of the immediate-mode emitters between `glBegin` and `glEnd`. -/
inductive Emit where
  | vertex3f (x y z : GLfloat)
  | vertex2f (x y : GLfloat)
  | texCoord2f (s t : GLfloat)
  | color4f (r g b a : GLfloat)
  | color3f (r g b : GLfloat)
  | normal3f (nx ny nz : GLfloat)
  deriving DecidableEq, Repr

/-- The emitter call `e` on the state `s`. -/
def Emit.apply (s : ImmediateState) : Emit → ImmediateState
  | .vertex3f x y z => prismgl_glVertex3f s x y z
  | .vertex2f x y => prismgl_glVertex2f s x y
  | .texCoord2f u v => prismgl_glTexCoord2f s u v
  | .color4f r g b a => prismgl_glColor4f s r g b a
  | .color3f r g b => prismgl_glColor3f s r g b
  | .normal3f nx ny nz => prismgl_glNormal3f s nx ny nz

/-- The state after `glBegin(mode)` followed by the emitter calls `es`, from the state `s`. -/
def batch_state (s : ImmediateState) (gen : GenNames) (mode : Nat) (es : List Emit) :
    ImmediateState :=
  es.foldl Emit.apply (prismgl_glBegin s gen mode).1

/-- The index array the spec describes for `q` quads: the concatenation over
`i = 0 .. q-1` of `(4i, 4i+1, 4i+2, 4i, 4i+2, 4i+3)`. -/
def spec_quad_indices (q : Nat) : List Nat :=
  ((List.range q).map fun i => [4*i, 4*i+1, 4*i+2, 4*i, 4*i+2, 4*i+3]).flatten

/-- The index arrays uploaded to the driver by a list of calls. -/
def uploaded_indices (calls : List GLCall) : List (List Nat) :=
  calls.filterMap fun
    | .glBufferData_indices _ _ data _ => some data
    | _ => none

/-! ## Draw-call batching (`gl_wrapper.c`) -/

/-- The constant `MAX_BATCH_DRAWS` of `gl_wrapper.c`. -/
def MAX_BATCH_DRAWS : Nat := 256

/-- The C struct `BatchDraw` of `gl_wrapper.c`. -/
structure BatchDraw where
  mode : Nat
  first : Int
  count : Int
  deriving DecidableEq, Repr

/-- The global `g_batch` of `gl_wrapper.c`; the array `draws` is a function of the slot
number. -/
structure BatchState where
  draws : Nat → BatchDraw
  count : Nat
  active : Bool

/-- The initial value of `g_batch`. -/
def g_batch_init : BatchState :=
  { draws := fun _ => ⟨0, 0, 0⟩, count := 0, active := false }

/-- The result of an `int` operation whose exact value is `v`, wrapped to 32 bits
(two's complement). -/
def wrap_int32 (v : Int) : Int := (v + 2147483648) % 4294967296 - 2147483648

/-- The function `prismgl_batch_begin` of `gl_wrapper.c`. -/
def prismgl_batch_begin (b : BatchState) : BatchState :=
  { b with count := 0, active := true }

/-- The inner `while` loop of `prismgl_batch_flush`, from the values `total_count` and `j`
it has reached; `fuel` bounds the rounds. Returns the final `total_count` and `j`. -/
def batch_run_end (b : BatchState) (mode : Nat) (first : Int) :
    Nat → Int → Nat → Int × Nat
  | 0, total_count, j => (total_count, j)
  | fuel + 1, total_count, j =>
    if j < b.count ∧ (b.draws j).mode = mode ∧
        (b.draws j).first = wrap_int32 (first + total_count) then
      batch_run_end b mode first fuel (wrap_int32 (total_count + (b.draws j).count)) (j + 1)
    else (total_count, j)

/-- The outer `for` loop of `prismgl_batch_flush`, from the value `i` it has reached;
`fuel` bounds the rounds. -/
def batch_flush_loop (b : BatchState) : Nat → Nat → List GLCall
  | 0, _ => []
  | fuel + 1, i =>
    if i < b.count then
      let mode := (b.draws i).mode
      let first := (b.draws i).first
      let r := batch_run_end b mode first b.count (b.draws i).count (i + 1)
      .glDrawArrays mode first r.1 :: batch_flush_loop b fuel r.2
    else []

/-- The function `prismgl_batch_flush` of `gl_wrapper.c`. Each round of either loop
advances its index, so `count` rounds are enough. -/
def prismgl_batch_flush (b : BatchState) : BatchState × List GLCall :=
  if !b.active || b.count == 0 then ({ b with active := false }, [])
  else ({ b with count := 0, active := false }, batch_flush_loop b b.count 0)

/-- The function `prismgl_batch_draw` of `gl_wrapper.c`. -/
def prismgl_batch_draw (b : BatchState) (mode : Nat) (first : Int) (count : Int) :
    BatchState × List GLCall :=
  if !b.active || b.count ≥ MAX_BATCH_DRAWS then
    let r := if b.active then prismgl_batch_flush b else (b, [])
    (r.1, r.2 ++ [.glDrawArrays mode first count])
  else
    ({ b with draws := Function.update b.draws b.count ⟨mode, first, count⟩
              count := b.count + 1 }, [])

/-- The state and the driver calls after `prismgl_batch_begin` followed by one
`prismgl_batch_draw` per element of `q`. -/
def batch_fill (b : BatchState) (q : List BatchDraw) : BatchState × List GLCall :=
  q.foldl (fun st e =>
      let r := prismgl_batch_draw st.1 e.mode e.first e.count
      (r.1, st.2 ++ r.2))
    (prismgl_batch_begin b, [])

/-- The greedy runs of the spec, while a run of mode `mode` that starts at `first` and has
`total` vertices so far is open: the next entry extends the run when it has the same mode
and starts at `first + total`; otherwise the run is dispatched and the entry opens the
next run. -/
def spec_runs_from (mode : Nat) (first total : Int) : List BatchDraw → List GLCall
  | [] => [.glDrawArrays mode first total]
  | e :: es =>
    if e.mode = mode ∧ e.first = first + total then
      spec_runs_from mode first (total + e.count) es
    else .glDrawArrays mode first total :: spec_runs_from e.mode e.first e.count es

/-- The driver calls the spec describes for the flush of the queue `q`: one `glDrawArrays`
per greedy run. -/
def spec_runs : List BatchDraw → List GLCall
  | [] => []
  | e :: es => spec_runs_from e.mode e.first e.count es

/-- Whether `v` is a value of the C type `int`. -/
def in_int32 (v : Int) : Bool := decide (-2147483648 ≤ v ∧ v < 2147483648)

/-- Whether every `int` sum that `prismgl_batch_flush` forms on the entries `es` is a value
of `int`, while a run of mode `mode` that starts at `first` and has `total` vertices so far
is open: the loop forms `first + total_count` for each entry of the mode of the run that it
compares, and `total_count + count` for each entry that it adds to the run. An entry that
does not extend the run opens the next run. -/
def flush_in_range_from (mode : Nat) (first total : Int) : List BatchDraw → Bool
  | [] => true
  | e :: es =>
    if e.mode = mode then
      in_int32 (first + total) &&
        (if e.first = first + total then
          in_int32 (total + e.count) && flush_in_range_from mode first (total + e.count) es
        else flush_in_range_from e.mode e.first e.count es)
    else flush_in_range_from e.mode e.first e.count es

/-- Whether no `int` sum overflows while `prismgl_batch_flush` walks the queue `q`. -/
def flush_in_range : List BatchDraw → Bool
  | [] => true
  | e :: es => flush_in_range_from e.mode e.first e.count es

/-! ## GLSL source translator (`shader_translator.c`) -/

/-- The constant `MAX_SHADER_SIZE` of `shader_translator.c`. -/
def MAX_SHADER_SIZE : Nat := 256 * 1024

/-- The C struct `ShaderTranslation` of `shader_translator.h`; `translated_source` is
`none` for `NULL`. -/
structure ShaderTranslation where
  translated_source : Option CStr
  success : Bool
  error_msg : CStr
  original_version : Int
  target_version : Int
  deriving DecidableEq, Repr

/-- The libc `isspace` in the C locale. -/
def isspace (c : Char) : Bool :=
  c = ' ' || c = Char.ofNat 9 || c = Char.ofNat 10 || c = Char.ofNat 11 ||
  c = Char.ofNat 12 || c = Char.ofNat 13

/-- The libc `isdigit`. -/
def isdigit (c : Char) : Bool := 48 ≤ c.toNat && c.toNat ≤ 57

/-- The value of the leading decimal digits of `s`, continuing from `acc`. -/
def scan_digits : CStr → Nat → Nat
  | [], acc => acc
  | c :: cs, acc => if isdigit c then scan_digits cs (acc * 10 + (c.toNat - 48)) else acc

/-- The value that `strtol` gives for a number whose exact value is `v`: a value outside
the range of `long` (64 bits) becomes `LONG_MAX` or `LONG_MIN`. -/
def clamp_long (v : Int) : Int :=
  if v > 9223372036854775807 then 9223372036854775807
  else if v < -9223372036854775808 then -9223372036854775808
  else v

/-- The `%d` conversion of `sscanf` on the input `s`: white space is skipped, then an
optional sign and at least one decimal digit are read; `none` when the conversion fails.
The libc converts the digits as `strtol` does and stores the result in the `int`, which
keeps its low 32 bits: `4294967626` is stored as `330`. -/
def scan_int (s : CStr) : Option Int :=
  match s.dropWhile isspace with
  | [] => none
  | c :: cs =>
    if c = '-' then
      match cs with
      | d :: _ =>
        if isdigit d then some (wrap_int32 (clamp_long (-(scan_digits cs 0 : Int)))) else none
      | [] => none
    else if c = '+' then
      match cs with
      | d :: _ =>
        if isdigit d then some (wrap_int32 (clamp_long (scan_digits cs 0 : Int))) else none
      | [] => none
    else if isdigit c then some (wrap_int32 (clamp_long (scan_digits (c :: cs) 0 : Int)))
    else none

/-- The function `shader_detect_version` of `shader_translator.c`: `sscanf(version_str,
"#version %d", &version)` on the text from the first `#version`, with `version` zero when
the conversion fails. -/
def shader_detect_version (source : Option CStr) : Int :=
  match source with
  | none => 0
  | some source =>
    match strstr source "#version".toList with
    | none => 110
    | some k => (scan_int ((source.drop k).drop 8)).getD 0

/-- The loop of `str_replace_all` that builds the result, at the position `p`; `fuel`
bounds the rounds. -/
def str_replace_loop (find replace : CStr) : Nat → CStr → CStr
  | 0, _ => []
  | _ + 1, [] => []
  | fuel + 1, c :: cs =>
    if find.isPrefixOf (c :: cs) then
      replace ++ str_replace_loop find replace fuel ((c :: cs).drop find.length)
    else c :: str_replace_loop find replace fuel cs

/-- The function `str_replace_all` of `shader_translator.c`. The counting loop leaves
`count == 0` exactly when its first `strstr` finds nothing. Each round of the building loop
consumes a char, so `strlen(source)` rounds are enough. -/
def str_replace_all (source find replace : CStr) : CStr :=
  if find.length = 0 then source
  else if (strstr source find).isNone then source
  else str_replace_loop find replace source.length source

/-- The loop `for (i = 0; table[i][0] != NULL; i++)` that applies `str_replace_all` with
each row of a replacement table in turn. -/
def replace_table (table : List (CStr × CStr)) (source : CStr) : CStr :=
  table.foldl (fun result row => str_replace_all result row.1 row.2) source

/-- The table `ext_replacements` of `shader_patch_extensions`. -/
def ext_replacements : List (CStr × CStr) := [
  ("#extension GL_ARB_explicit_attrib_location : enable".toList,
   "/* ARB_explicit_attrib_location: native in ES 3.x */".toList),
  ("#extension GL_ARB_explicit_attrib_location : require".toList,
   "/* ARB_explicit_attrib_location: native in ES 3.x */".toList),
  ("#extension GL_ARB_explicit_uniform_location : enable".toList,
   "/* ARB_explicit_uniform_location: emulated */".toList),
  ("#extension GL_ARB_explicit_uniform_location : require".toList,
   "/* ARB_explicit_uniform_location: emulated */".toList),
  ("#extension GL_ARB_shader_texture_lod : enable".toList,
   "/* ARB_shader_texture_lod: use textureLod in ES */".toList),
  ("#extension GL_ARB_conservative_depth : enable".toList,
   "/* ARB_conservative_depth: not available in ES */".toList),
  ("#extension GL_ARB_texture_gather : enable".toList,
   "#extension GL_EXT_texture_gather : enable".toList),
  ("#extension GL_ARB_gpu_shader5 : enable".toList,
   "/* GL_ARB_gpu_shader5: partially emulated */".toList),
  ("#extension GL_ARB_gpu_shader5 : require".toList,
   "/* GL_ARB_gpu_shader5: partially emulated */".toList),
  ("#extension GL_ARB_uniform_buffer_object : enable".toList,
   "/* ARB_uniform_buffer_object: native in ES 3.x */".toList),
  ("#extension GL_ARB_separate_shader_objects : enable".toList,
   "/* ARB_separate_shader_objects: native in ES 3.1+ */".toList),
  ("#extension GL_ARB_shading_language_420pack : enable".toList,
   "/* ARB_shading_language_420pack: native in ES 3.x */".toList),
  ("#extension GL_ARB_shading_language_420pack : require".toList,
   "/* ARB_shading_language_420pack: native in ES 3.x */".toList),
  ("#extension GL_ARB_enhanced_layouts : enable".toList,
   "/* ARB_enhanced_layouts: partially emulated */".toList),
  ("#extension GL_ARB_shader_image_load_store : enable".toList,
   "/* ARB_shader_image_load_store: native in ES 3.1+ */".toList),
  ("#extension GL_ARB_shader_storage_buffer_object : enable".toList,
   "/* ARB_shader_storage_buffer_object: native in ES 3.1+ */".toList),
  ("#extension GL_ARB_compute_shader : enable".toList,
   "/* ARB_compute_shader: native in ES 3.1+ */".toList),
  ("#extension GL_ARB_tessellation_shader : enable".toList,
   "#extension GL_EXT_tessellation_shader : enable".toList),
  ("#extension GL_ARB_geometry_shader4 : enable".toList,
   "#extension GL_EXT_geometry_shader : enable".toList),
  ("#extension GL_ARB_draw_instanced : enable".toList,
   "/* ARB_draw_instanced: native in ES 3.0+ */".toList),
  ("#extension GL_ARB_depth_clamp : enable".toList,
   "/* ARB_depth_clamp: emulated */".toList),
  ("#extension GL_ARB_clip_control : enable".toList,
   "/* ARB_clip_control: emulated */".toList),
  ("#extension GL_ARB_seamless_cube_map : enable".toList,
   "/* ARB_seamless_cube_map: always on in ES */".toList)]

/-- The function `shader_patch_extensions` of `shader_translator.c`. -/
def shader_patch_extensions (source : CStr) : CStr :=
  replace_table ext_replacements source

/-- The `precision_header` of `shader_patch_precision` for a fragment shader. -/
def precision_header_fragment : CStr :=
  ("precision highp float;\n" ++
   "precision highp int;\n" ++
   "precision highp sampler2D;\n" ++
   "precision highp sampler3D;\n" ++
   "precision highp samplerCube;\n" ++
   "precision highp sampler2DArray;\n" ++
   "precision highp sampler2DShadow;\n" ++
   "precision highp samplerCubeShadow;\n" ++
   "precision highp sampler2DArrayShadow;\n" ++
   "precision highp isampler2D;\n" ++
   "precision highp isampler3D;\n" ++
   "precision highp isamplerCube;\n" ++
   "precision highp usampler2D;\n" ++
   "precision highp usampler3D;\n" ++
   "precision highp usamplerCube;\n" ++
   "precision highp image2D;\n" ++
   "precision highp iimage2D;\n" ++
   "precision highp uimage2D;\n").toList

/-- The `precision_header` of `shader_patch_precision` for every other stage. -/
def precision_header_other : CStr :=
  ("precision highp float;\n" ++
   "precision highp int;\n").toList

/-- The choice of `precision_header` in `shader_patch_precision`. -/
def precision_header (shader_type : Nat) : CStr :=
  if shader_type = GL_FRAGMENT_SHADER then precision_header_fragment
  else precision_header_other

/-- The function `shader_patch_precision` of `shader_translator.c`. -/
def shader_patch_precision (source : CStr) (shader_type : Nat) : CStr :=
  let header := precision_header shader_type
  match strstr source "\n".toList with
  | some version_end =>
    if strstr source "#version".toList = some 0 then
      let prefix_len := version_end + 1
      source.take prefix_len ++ header ++ source.drop prefix_len
    else header ++ source
  | none => header ++ source

/-- The function `shader_patch_samplers` of `shader_translator.c`. -/
def shader_patch_samplers (source : CStr) : CStr :=
  let result := source
  let result := str_replace_all result "sampler1D".toList "sampler2D".toList
  let result := str_replace_all result "isampler1D".toList "isampler2D".toList
  let result := str_replace_all result "usampler1D".toList "usampler2D".toList
  result

/-- The table `builtin_replacements` of `shader_patch_builtins`. -/
def builtin_replacements : List (CStr × CStr) := [
  ("texture2D(".toList, "texture(".toList),
  ("texture3D(".toList, "texture(".toList),
  ("textureCube(".toList, "texture(".toList),
  ("texture2DProj(".toList, "textureProj(".toList),
  ("texture2DLod(".toList, "textureLod(".toList),
  ("texture3DLod(".toList, "textureLod(".toList),
  ("textureCubeLod(".toList, "textureLod(".toList),
  ("shadow2D(".toList, "texture(".toList),
  ("shadow2DProj(".toList, "textureProj(".toList),
  ("texture2DGrad(".toList, "textureGrad(".toList)]

/-- The function `shader_patch_builtins` of `shader_translator.c`. -/
def shader_patch_builtins (source : CStr) : CStr :=
  let result := replace_table builtin_replacements source
  let result := str_replace_all result "noperspective ".toList "/* noperspective */ ".toList
  let result := str_replace_all result "noperspective\n".toList "/* noperspective */\n".toList
  result

/-- The table `type_replacements` of `shader_translate`. -/
def type_replacements : List (CStr × CStr) := [
  ("dvec2".toList, "vec2".toList),
  ("dvec3".toList, "vec3".toList),
  ("dvec4".toList, "vec4".toList),
  ("dmat2".toList, "mat2".toList),
  ("dmat3".toList, "mat3".toList),
  ("dmat4".toList, "mat4".toList),
  ("dmat2x2".toList, "mat2".toList),
  ("dmat3x3".toList, "mat3".toList),
  ("dmat4x4".toList, "mat4".toList),
  ("dmat2x3".toList, "mat2x3".toList),
  ("dmat2x4".toList, "mat2x4".toList),
  ("dmat3x2".toList, "mat3x2".toList),
  ("dmat3x4".toList, "mat3x4".toList),
  ("dmat4x2".toList, "mat4x2".toList),
  ("dmat4x3".toList, "mat4x3".toList)]

/-- The text `snprintf` writes for `%d`. -/
def format_int (v : Int) : CStr :=
  if v < 0 then '-' :: Nat.toDigits 10 v.natAbs else Nat.toDigits 10 v.toNat

/-- The text written by `snprintf(buf, 64, "#version %d<suffix>", v)`. -/
def format_version (v : Int) (suffix : CStr) : CStr :=
  ("#version ".toList ++ format_int v ++ suffix).take 63

/-- Whether `strstr(hay, needle)` is not `NULL`. -/
def contains (hay needle : CStr) : Bool := (strstr hay needle).isSome

/-- Step 1 of `shader_translate`: the version directive is replaced, or one is put in
front. -/
def replace_version (source : CStr) (original_version : Int) : CStr :=
  let version_old := format_version original_version []
  let version_old_core := format_version original_version " core".toList
  let version_old_compat := format_version original_version " compatibility".toList
  if contains source version_old_core then
    str_replace_all source version_old_core "#version 320 es".toList
  else if contains source version_old_compat then
    str_replace_all source version_old_compat "#version 320 es".toList
  else if contains source version_old then
    str_replace_all source version_old "#version 320 es".toList
  else "#version 320 es\n".toList ++ source

/-- Steps 1 to 6 of `shader_translate`: the value of `working` before the step for old
shaders. -/
def translate_steps_1_6 (source : CStr) (shader_type : Nat) (original_version : Int) : CStr :=
  let working := replace_version source original_version
  let working := shader_patch_extensions working
  let working := shader_patch_precision working shader_type
  let working := shader_patch_samplers working
  let working := shader_patch_builtins working
  replace_table type_replacements working

/-- The loop of step 7 that looks for the end of the last precision line: from the text
`p`, the number of chars up to the first line break that is not followed by `precision`
(up to the end of the text when there is none). -/
def precision_block_end : CStr → Nat
  | [] => 0
  | c :: cs =>
    if c = '\n' ∧ ¬ "precision".toList.isPrefixOf cs then 0
    else precision_block_end cs + 1

/-- The insertion of `out_decl` in step 7 of `shader_translate`. -/
def insert_out_decl (working : CStr) : CStr :=
  let out_decl := "out vec4 prismgl_FragColor;\n".toList
  match strstr working "precision highp".toList with
  | some insert_after =>
    let p := insert_after + precision_block_end (working.drop insert_after)
    let p := if (working.drop p).head? = some '\n' then p + 1 else p
    working.take p ++ out_decl ++ working.drop p
  | none => working

/-- Step 7 of `shader_translate` and the rewriting of the storage qualifiers. -/
def translate_legacy (working : CStr) (shader_type : Nat) (original_version : Int) : CStr :=
  let working :=
    if original_version ≤ 120 ∧ shader_type = GL_FRAGMENT_SHADER then
      let working :=
        if contains working "gl_FragColor".toList ∧ ¬ contains working "out vec4".toList then
          insert_out_decl
            (str_replace_all working "gl_FragColor".toList "prismgl_FragColor".toList)
        else working
      str_replace_all working "\nvarying ".toList "\nin ".toList
    else working
  if original_version ≤ 120 ∧ shader_type = GL_VERTEX_SHADER then
    let working := str_replace_all working "\nattribute ".toList "\nin ".toList
    str_replace_all working "\nvarying ".toList "\nout ".toList
  else working

/-- The function `shader_translate` of `shader_translator.c`. -/
def shader_translate (source : Option CStr) (shader_type : Nat) : ShaderTranslation :=
  let result : ShaderTranslation :=
    { translated_source := none, success := false, error_msg := [],
      original_version := 0, target_version := 320 }
  match source with
  | none => { result with error_msg := "Empty shader source".toList }
  | some source =>
    if source.length = 0 then { result with error_msg := "Empty shader source".toList }
    else if source.length > MAX_SHADER_SIZE then
      { result with error_msg := "Shader too large".toList }
    else
      let result := { result with original_version := shader_detect_version (some source) }
      if contains source "#version 320 es".toList ∨ contains source "#version 310 es".toList ∨
          contains source "#version 300 es".toList then
        { result with translated_source := some source, success := true }
      else
        let working := translate_steps_1_6 source shader_type result.original_version
        let working := translate_legacy working shader_type result.original_version
        { result with translated_source := some working, success := true }

/-! ### Texts that cannot overlap, and the relation computed by `str_replace_all` -/

/-- Whether one of two texts is a prefix of the other: whether both can start at the same
position of some text. -/
def compat (x y : CStr) : Bool := x.isPrefixOf y || y.isPrefixOf x

/-- No occurrence of `x` in any text starts at a position inside an occurrence of `y`. -/
def no_start_inside (x : CStr) : CStr → Bool
  | [] => true
  | c :: cs => !compat x (c :: cs) && no_start_inside x cs

/-- No occurrence of `x` shares a position with an occurrence of `y`, in any text. -/
def no_overlap (x y : CStr) : Bool := no_start_inside x y && no_start_inside y x

/-- The input/output relation of the building loop of `str_replace_all`: at each position
the text `find` is replaced when it stands there, and one char is copied otherwise. -/
inductive Repl (find rep : CStr) : CStr → CStr → Prop where
  | nil : Repl find rep [] []
  | hit (t t2 : CStr) : Repl find rep t t2 → Repl find rep (find ++ t) (rep ++ t2)
  | skip (c : Char) (t t2 : CStr) : ¬ find <+: (c :: t) → Repl find rep t t2 →
      Repl find rep (c :: t) (c :: t2)

/-- The source contains none of the three ES version directives that make
`shader_translate` skip the translation. -/
def NoEsDirective (source : CStr) : Prop :=
  ¬ "#version 320 es".toList <:+: source ∧ ¬ "#version 310 es".toList <:+: source ∧
  ¬ "#version 300 es".toList <:+: source

/-! ## Linked-program cache (`shader_cache.c`) -/

/-- The product of two `uint64_t` values, and the xor, are taken modulo `2^64`. -/
def UINT64_MOD : Nat := 18446744073709551616

/-- The cast `(uint64_t)(unsigned char)c` of a `char`. -/
def byte_of_char (c : Char) : Nat := c.toNat % 256

/-- One round of the hashing loops: `hash ^= byte; hash *= prime;`. -/
def fnv_step (hash : Nat) (byte : Nat) : Nat :=
  ((hash ^^^ byte) * 1099511628211) % UINT64_MOD

/-- A `while (*p)` loop of `prismgl_hash_shader_source` over the chars of one source. -/
def hash_source_loop : CStr → Nat → Nat
  | [], hash => hash
  | c :: cs, hash => hash_source_loop cs (fnv_step hash (byte_of_char c))

/-- The function `prismgl_hash_shader_source` of `shader_cache.c`. -/
def prismgl_hash_shader_source (vertex_src fragment_src : Option CStr) : Nat :=
  let hash := 14695981039346656037
  let hash :=
    match vertex_src with
    | some src => hash_source_loop src hash
    | none => hash
  let hash := fnv_step hash 0xFF
  match fragment_src with
  | some src => hash_source_loop src hash
  | none => hash

/-- The constant `MAX_CACHE_ENTRIES` of `shader_cache.c`. -/
def MAX_CACHE_ENTRIES : Nat := 2048

/-- The constant `CACHE_FILE_EXT` of `shader_cache.c`. -/
def CACHE_FILE_EXT : CStr := ".pglbin".toList

/-- Modelled from the spec: the constant `GL_TRUE` of the GLES headers, which are not part
of the repository (value of the Khronos header). -/
def GL_TRUE : Int := 1
/-- Modelled from the spec: the constant `GL_LINK_STATUS` of the GLES headers, which are not
part of the repository (value of the Khronos header). -/
def GL_LINK_STATUS : Nat := 0x8B82
/-- The constant `GL_PROGRAM_BINARY_LENGTH` of `prismgl.h` (its definition for the case
that the GLES headers leave the name undefined; it has the value of those headers). -/
def GL_PROGRAM_BINARY_LENGTH : Nat := 0x8741

/-- The C struct `ShaderCacheEntry` of `shader_cache.c`. -/
structure ShaderCacheEntry where
  hash : Nat
  program : Nat
  filepath : CStr
  loaded : Bool
  deriving DecidableEq, Repr

/-- The globals of `shader_cache.c`. The list `g_cache` holds the slots
`g_cache[0 .. g_cache_count - 1]` of the array. -/
structure CacheState where
  g_cache : List ShaderCacheEntry
  g_cache_dir : CStr
  g_cache_initialized : Bool
  deriving DecidableEq, Repr

/-- The initial value of the globals of `shader_cache.c`. -/
def cache_state_init : CacheState :=
  { g_cache := [], g_cache_dir := [], g_cache_initialized := false }

/-- The state of the file system: the regular files with their bytes, in the order in which
`readdir` reports them, the directories, and whether a `mkdir` of a missing directory and an
`fopen(path, "wb")` succeed. Reads and writes of an open file are taken to be complete. -/
structure FileSystem where
  files : List (CStr × List Nat)
  dirs : List CStr
  mkdir_ok : CStr → Bool
  writable : CStr → Bool

/-- The bytes of the regular file `path`, `none` when `fopen(path, "rb")` fails. -/
def read_file : List (CStr × List Nat) → CStr → Option (List Nat)
  | [], _ => none
  | (p, bytes) :: fs, path => if p = path then some bytes else read_file fs path

/-- The files after `fopen(path, "wb")`, `fwrite` of `bytes` and `fclose`. -/
def write_file : List (CStr × List Nat) → CStr → List Nat → List (CStr × List Nat)
  | [], path, bytes => [(path, bytes)]
  | (p, old) :: fs, path, bytes =>
    if p = path then (p, bytes) :: fs else (p, old) :: write_file fs path bytes

/-- The files after `remove(path)`. -/
def remove_file (files : List (CStr × List Nat)) (path : CStr) : List (CStr × List Nat) :=
  files.filter (fun f => f.1 ≠ path)

/-- Whether `stat(path)` succeeds. -/
def FileSystem.stat_ok (fs : FileSystem) (path : CStr) : Bool :=
  (read_file fs.files path).isSome || fs.dirs.contains path

/-- The call `mkdir(path, 0755)` and whether it succeeded. -/
def FileSystem.mkdir (fs : FileSystem) (path : CStr) : FileSystem × Bool :=
  if fs.stat_ok path then (fs, false)
  else if fs.mkdir_ok path then ({ fs with dirs := fs.dirs ++ [path] }, true)
  else (fs, false)

/-- The name of `path` inside the directory `dir`, when `path` lies directly in `dir`. -/
def entry_name (dir path : CStr) : Option CStr :=
  if (dir ++ ['/']).isPrefixOf path then
    let name := path.drop (dir.length + 1)
    if name.isEmpty || name.contains '/' then none else some name
  else none

/-- The names that `readdir` reports for the directory `dir`. -/
def FileSystem.readdir (fs : FileSystem) (dir : CStr) : List CStr :=
  [".".toList, "..".toList] ++ fs.files.filterMap (fun f => entry_name dir f.1) ++
    fs.dirs.filterMap (entry_name dir)

/-- The four bytes of a `GLenum` in memory (little endian). -/
def encode_GLenum (v : Nat) : List Nat :=
  [v % 256, v / 256 % 256, v / 65536 % 256, v / 16777216 % 256]

/-- The `GLenum` read from four bytes of memory (little endian). -/
def decode_GLenum (bytes : List Nat) : Nat :=
  bytes.getD 0 0 + 256 * bytes.getD 1 0 + 65536 * bytes.getD 2 0 + 16777216 * bytes.getD 3 0

/-- The hexadecimal digit of a value below 16, in lower case. -/
def hex_char (d : Nat) : Char := if d < 10 then Char.ofNat (48 + d) else Char.ofNat (87 + d)

/-- The last `width` hexadecimal digits of `n`, most significant first. -/
def hex_digits : Nat → Nat → CStr
  | 0, _ => []
  | width + 1, n => hex_digits width (n / 16) ++ [hex_char (n % 16)]

/-- The text `printf` writes for `%016llx` with the argument `(unsigned long long)hash`. -/
def format_016llx (hash : Nat) : CStr := hex_digits 16 (hash % UINT64_MOD)

/-- The function `cache_build_path` of `shader_cache.c`, with `path_size` 512. -/
def cache_build_path (g_cache_dir : CStr) (hash : Nat) : CStr :=
  (g_cache_dir ++ ['/'] ++ format_016llx hash ++ CACHE_FILE_EXT).take 511

/-- The value of a hexadecimal digit, `none` for any other char. -/
def hex_value (c : Char) : Option Nat :=
  if 48 ≤ c.toNat ∧ c.toNat ≤ 57 then some (c.toNat - 48)
  else if 97 ≤ c.toNat ∧ c.toNat ≤ 102 then some (c.toNat - 87)
  else if 65 ≤ c.toNat ∧ c.toNat ≤ 70 then some (c.toNat - 55)
  else none

/-- The value of the leading hexadecimal digits of `s`, continuing from `acc`. -/
def scan_hex_digits : CStr → Nat → Nat
  | [], acc => acc
  | c :: cs, acc =>
    match hex_value c with
    | some d => scan_hex_digits cs (acc * 16 + d)
    | none => acc

/-- The digits of a `%llx` conversion after the sign: an optional `0x` in front of a
hexadecimal digit, then at least one hexadecimal digit. A value that does not fit
`unsigned long long` is read as `ULLONG_MAX`, as `strtoull` does. -/
def scan_llx_digits (s : CStr) : Option Nat :=
  let s :=
    match s with
    | z :: x :: d :: rest =>
      if z = '0' ∧ (x = 'x' ∨ x = 'X') ∧ (hex_value d).isSome then d :: rest else s
    | _ => s
  match s with
  | d :: _ => if (hex_value d).isSome then some (min (scan_hex_digits s 0) (UINT64_MOD - 1))
      else none
  | [] => none

/-- The digits of a `%llx` conversion after a minus sign: as `scan_llx_digits`, and the
value is negated in `unsigned long long` when it fits; a value that does not fit is read
as `ULLONG_MAX` whatever the sign, as `strtoull` does. -/
def scan_llx_negative (s : CStr) : Option Nat :=
  let s :=
    match s with
    | z :: x :: d :: rest =>
      if z = '0' ∧ (x = 'x' ∨ x = 'X') ∧ (hex_value d).isSome then d :: rest else s
    | _ => s
  match s with
  | d :: _ =>
    if (hex_value d).isSome then
      some (if scan_hex_digits s 0 < UINT64_MOD then
          (UINT64_MOD - scan_hex_digits s 0) % UINT64_MOD
        else UINT64_MOD - 1)
    else none
  | [] => none

/-- The call `sscanf(name, "%llx", &hash)`: the value stored when the call returns 1,
`none` otherwise. White space is skipped and a sign is accepted, as `strtoull` does. -/
def sscanf_llx (name : CStr) : Option Nat :=
  match name.dropWhile isspace with
  | [] => none
  | c :: cs =>
    if c = '-' then scan_llx_negative cs
    else if c = '+' then scan_llx_digits cs
    else scan_llx_digits (c :: cs)

/-- The `while` loop of `prismgl_shader_cache_init` over the names that `readdir` reports. -/
def scan_directory (g_cache_dir : CStr) : List CStr → List ShaderCacheEntry →
    List ShaderCacheEntry
  | [], g_cache => g_cache
  | d_name :: names, g_cache =>
    if g_cache.length < MAX_CACHE_ENTRIES then
      if contains d_name CACHE_FILE_EXT then
        match sscanf_llx d_name with
        | some hash =>
          scan_directory g_cache_dir names
            (g_cache ++ [{ hash := hash, loaded := false, program := 0,
                           filepath := cache_build_path g_cache_dir hash }])
        | none => scan_directory g_cache_dir names g_cache
      else scan_directory g_cache_dir names g_cache
    else g_cache

/-- The function `prismgl_shader_cache_init` of `shader_cache.c`, with its return value. -/
def prismgl_shader_cache_init (st : CacheState) (fs : FileSystem) (cache_dir : CStr) :
    CacheState × FileSystem × Bool :=
  if st.g_cache_initialized then (st, fs, true)
  else
    let g_cache_dir := cache_dir.take 511
    let made := if fs.stat_ok g_cache_dir then (fs, true) else fs.mkdir g_cache_dir
    if !made.2 then ({ st with g_cache_dir := g_cache_dir }, made.1, false)
    else
      let fs := made.1
      let shader_dir := (g_cache_dir ++ "/shaders".toList).take 599
      let fs := if fs.stat_ok shader_dir then fs else (fs.mkdir shader_dir).1
      let g_cache_dir := shader_dir.take 511
      let g_cache :=
        if fs.dirs.contains g_cache_dir then
          scan_directory g_cache_dir (fs.readdir g_cache_dir) st.g_cache
        else st.g_cache
      ({ g_cache := g_cache, g_cache_dir := g_cache_dir, g_cache_initialized := true }, fs, true)

/-- The function `prismgl_shader_cache_shutdown` of `shader_cache.c`. -/
def prismgl_shader_cache_shutdown (st : CacheState) : CacheState :=
  if !st.g_cache_initialized then st
  else { st with g_cache := [], g_cache_initialized := false }

/-- The slot of the first entry of the index with the hash `hash`. -/
def find_entry (hash : Nat) : List ShaderCacheEntry → Option Nat
  | [] => none
  | e :: es => if e.hash = hash then some 0 else (find_entry hash es).map (· + 1)

/-- The statements `g_cache[i] = g_cache[g_cache_count - 1]; g_cache_count--;`. -/
def evict_slot (g_cache : List ShaderCacheEntry) (i : Nat) : List ShaderCacheEntry :=
  match g_cache.getLast? with
  | some last => (g_cache.set i last).dropLast
  | none => g_cache

/-- What the driver answers while `prismgl_shader_cache_get` loads a program: the handle of
`glCreateProgram` and the `GL_LINK_STATUS` after `glProgramBinary`. -/
structure LoadAnswers where
  new_program : Nat
  link_status : Int

/-- What the driver answers while `prismgl_shader_cache_put` stores a program: the
`GL_PROGRAM_BINARY_LENGTH`, and the format and the `actual_length` bytes that
`glGetProgramBinary` writes. -/
structure ProgramBinary where
  binary_length : Int
  format : Nat
  payload : List Nat

/-- The outcome of a cache operation: the new state of the index and of the file system,
the driver calls issued, and the value returned. -/
structure CacheResult where
  state : CacheState
  fs : FileSystem
  calls : List GLCall
  ret : Nat

/-- The function `prismgl_shader_cache_get` of `shader_cache.c`. -/
def prismgl_shader_cache_get (st : CacheState) (fs : FileSystem) (drv : LoadAnswers)
    (hash : Nat) : CacheResult :=
  if !st.g_cache_initialized then ⟨st, fs, [], 0⟩
  else
    match find_entry hash st.g_cache with
    | none => ⟨st, fs, [], 0⟩
    | some i =>
      match st.g_cache.get? i with
      | none => ⟨st, fs, [], 0⟩
      | some entry =>
        if entry.loaded then ⟨st, fs, [], entry.program⟩
        else
          match read_file fs.files entry.filepath with
          | none => ⟨st, fs, [], 0⟩
          | some bytes =>
            let size : Int := bytes.length
            if size ≤ 4 then ⟨st, fs, [], 0⟩
            else
              let format := decode_GLenum (bytes.take 4)
              let binary_size := size - 4
              let binary := (bytes.drop 4).take binary_size.toNat
              let program := drv.new_program
              let calls : List GLCall :=
                [.glCreateProgram program,
                 .glProgramBinary program format binary binary_size,
                 .glGetProgramiv program GL_LINK_STATUS drv.link_status]
              if drv.link_status ≠ GL_TRUE then
                ⟨{ st with g_cache := evict_slot st.g_cache i },
                 { fs with files := remove_file fs.files entry.filepath },
                 calls ++ [.glDeleteProgram program], 0⟩
              else
                ⟨{ st with g_cache :=
                    st.g_cache.set i { entry with program := program, loaded := true } },
                 fs, calls, program⟩

/-- The function `prismgl_shader_cache_put` of `shader_cache.c`. -/
def prismgl_shader_cache_put (st : CacheState) (fs : FileSystem) (drv : ProgramBinary)
    (hash : Nat) (program : Nat) : CacheResult :=
  if !st.g_cache_initialized then ⟨st, fs, [], 0⟩
  else if st.g_cache.length ≥ MAX_CACHE_ENTRIES then ⟨st, fs, [], 0⟩
  else if (find_entry hash st.g_cache).isSome then ⟨st, fs, [], 0⟩
  else
    let calls1 : List GLCall := [.glGetProgramiv program GL_PROGRAM_BINARY_LENGTH drv.binary_length]
    if drv.binary_length ≤ 0 then ⟨st, fs, calls1, 0⟩
    else
      let calls : List GLCall :=
        calls1 ++ [.glGetProgramBinary program drv.binary_length drv.payload.length drv.format
          drv.payload]
      let filepath := cache_build_path st.g_cache_dir hash
      if fs.writable filepath then
        ⟨{ st with g_cache := st.g_cache ++
            [{ hash := hash, program := program, loaded := true,
               filepath := filepath.take 511 }] },
         { fs with files := write_file fs.files filepath (encode_GLenum drv.format ++ drv.payload) },
         calls, 0⟩
      else ⟨st, fs, calls, 0⟩

/-- A cache directory used to instantiate theorems. -/
def demo_cache_dir : CStr := "/data/app/cache".toList

/-- A hash used to instantiate theorems. -/
def demo_hash : Nat := 0x0123456789ABCDEF

/-- A file system in which the cache directory and its `shaders` directory exist and are
empty. -/
def demo_fs : FileSystem :=
  { files := [], dirs := ["/data/app/cache".toList, "/data/app/cache/shaders".toList],
    mkdir_ok := fun _ => true, writable := fun _ => true }

/-- The state of the cache after `init` on `demo_fs`. -/
def demo_state : CacheState :=
  { g_cache := [], g_cache_dir := "/data/app/cache/shaders".toList,
    g_cache_initialized := true }

/-- A file system in which the cache file of `demo_hash` is truncated to its four format
bytes. -/
def truncated_fs : FileSystem :=
  { files := [("/data/app/cache/shaders/0123456789abcdef.pglbin".toList, [83, 138, 0, 0])],
    dirs := ["/data/app/cache".toList, "/data/app/cache/shaders".toList],
    mkdir_ok := fun _ => true, writable := fun _ => true }

/-- The state of the cache after `init` on `truncated_fs` (and on `demo_fs` after the file
was deleted behind the back of the cache): one entry, not yet loaded. -/
def stale_state : CacheState :=
  { g_cache := [{ hash := demo_hash, program := 0,
                  filepath := "/data/app/cache/shaders/0123456789abcdef.pglbin".toList,
                  loaded := false }],
    g_cache_dir := "/data/app/cache/shaders".toList, g_cache_initialized := true }

/-- The 64-bit FNV-1a hash of a byte sequence, as the spec defines it: a fold of
`h := h xor byte; h := h * 1099511628211 mod 2^64` from the offset basis. -/
def spec_fnv1a (bytes : List Nat) : Nat :=
  bytes.foldl (fun h byte => ((h ^^^ byte) * 1099511628211) % 2 ^ 64) 14695981039346656037

/-- The bytes of a source that may be `NULL`: a `NULL` source counts as empty. -/
def source_bytes (src : Option CStr) : List Nat :=
  match src with
  | some s => s.map byte_of_char
  | none => []

/-- The text is empty or a single line with its line break. -/
def OneLine (l : CStr) : Prop := l = [] ∨ ∃ l0, l = l0 ++ ['\n'] ∧ '\n' ∉ l0

/-- A replacement keeps the line structure: neither text holds a line break, or both end
with their only line break. -/
def nl_ok (find rep : CStr) : Bool :=
  (!find.contains '\n' && !rep.contains '\n') ||
  (find.getLast? == some '\n' && rep.getLast? == some '\n' &&
    !find.dropLast.contains '\n' && !rep.dropLast.contains '\n')

/-- A row of a replacement table can be applied next to the text `p` without touching it
or the line structure. -/
def pass_ok (p : CStr) (row : CStr × CStr) : Bool :=
  !row.1.isEmpty && no_overlap row.1 p && nl_ok row.1 row.2

/-- The text `w` holds `p` after at most one line. -/
def HeaderInv (p w : CStr) : Prop := ∃ l t, w = l ++ (p ++ t) ∧ OneLine l

/-- The concatenation of lines, each followed by a line break. -/
def unlines_nl : List CStr → CStr
  | [] => []
  | ln :: lns => ln ++ '\n' :: unlines_nl lns

/-- The lines of `precision_header_fragment`. -/
def precision_lines_fragment : List CStr := [
  "precision highp float;".toList,
  "precision highp int;".toList,
  "precision highp sampler2D;".toList,
  "precision highp sampler3D;".toList,
  "precision highp samplerCube;".toList,
  "precision highp sampler2DArray;".toList,
  "precision highp sampler2DShadow;".toList,
  "precision highp samplerCubeShadow;".toList,
  "precision highp sampler2DArrayShadow;".toList,
  "precision highp isampler2D;".toList,
  "precision highp isampler3D;".toList,
  "precision highp isamplerCube;".toList,
  "precision highp usampler2D;".toList,
  "precision highp usampler3D;".toList,
  "precision highp usamplerCube;".toList,
  "precision highp image2D;".toList,
  "precision highp iimage2D;".toList,
  "precision highp uimage2D;".toList]

/-- The declaration that step 7 of `shader_translate` inserts (`out_decl`). -/
def out_decl : CStr := "out vec4 prismgl_FragColor;\n".toList

/-- Every occurrence of `gl_FragColor` in the text is the tail of an occurrence of
`prismgl_FragColor`. -/
def AllRenamed (s : CStr) : Prop :=
  ∀ a b, s = a ++ ("gl_FragColor".toList ++ b) → "prism".toList <:+ a

/-- The property of claim C6 for an output: the declaration stands directly after the
precision prelude of a fragment shader, it occurs nowhere else, and every `gl_FragColor` is
renamed. -/
def FragColorDeclared (out : CStr) : Prop :=
  (∃ a b, out = a ++ (precision_header_fragment ++ (out_decl ++ b)) ∧
    ∀ a2 b2, out = a2 ++ (out_decl ++ b2) → a2 = a ++ precision_header_fragment) ∧
  AllRenamed out

/-- A fragment shader for GLSL 1.20 that writes `gl_FragColor` and declares no output. -/
def fragcolor_shader : CStr :=
  "#version 120\nvarying vec2 t;\nvoid main(){gl_FragColor=vec4(1.0);}".toList

/-- A fragment shader for GLSL 1.20 that declares no output variable and hands
`gl_FragColor` to a function with an `out vec4` parameter. -/
def out_param_shader : CStr :=
  "#version 120\nvoid f(out vec4 c){c=vec4(1.0);}\nvoid main(){f(gl_FragColor);}".toList

/-- A fragment shader without a `#version` line whose first line is a `precision`
statement. -/
def user_precision_shader : CStr :=
  "precision mediump float;\nvoid main(){gl_FragColor=vec4(1.0);}".toList

/-- The vertex source of the spec with a line-initial `attribute` and a `varying` in the
middle of the line. -/
def qualifier_shader : CStr := "#version 120\nattribute vec3 p; varying vec2 t;".toList

/-- Texts of which every pattern of the replacement tables of steps 2, 4, 5 and 6 contains
at least one: a text that contains none of them is left as it is by these steps. -/
def pattern_keys : List CStr :=
  ["#extension GL_".toList, "sampler1D".toList, "texture".toList, "shadow2D".toList,
   "noperspective".toList, "dvec".toList, "dmat".toList]

/-- Whether the text `w` contains none of the `pattern_keys`. -/
def keys_absent (w : CStr) : Bool := pattern_keys.all (fun key => !contains w key)

/-- Whether every pattern of the table contains one of the `pattern_keys`. -/
def keyed (table : List (CStr × CStr)) : Bool :=
  table.all (fun row => pattern_keys.any (fun key => contains row.1 key))

/-- Steps 2 and 3 of the resolution order of `prismgl_get_proc_address` on the name `n`:
`eglGetProcAddress`, then `dlsym` on the ES3 library, then `dlsym` on the ES2 library. -/
def driver_lookup (d : Driver) (n : CStr) : Option FuncPtr :=
  try_dlsym d.gles2_lib (try_dlsym d.gles_lib (try_egl d none n) n) n

/-- The lookups `prismgl_get_proc_address` makes for a name with `OES` or `EXT` appended:
`eglGetProcAddress`, then `dlsym` on the ES3 library; the ES2 library is not asked. -/
def driver_lookup_es3 (d : Driver) (n : CStr) : Option FuncPtr :=
  try_dlsym d.gles_lib (try_egl d none n) n

/-- The names `prismgl_get_proc_address` hands to the driver for `name`: the name itself,
the contents of `oes_name` and `ext_name`, and the contents of `base_name` cut at the
vendor suffix that `strstr` finds, when it finds one. -/
def candidate_names (name : CStr) : List CStr :=
  [name, snprintf_suffix name "OES".toList, snprintf_suffix name "EXT".toList] ++
    match find_suffix (name.take 255) with
    | some ext => [(name.take 255).take ext]
    | none => []

/-- The vendor suffixes that `prismgl_get_proc_address` strips. -/
def vendor_suffixes : List CStr :=
  ["EXT".toList, "ARB".toList, "NV".toList, "AMD".toList, "OES".toList]

/-- A driver whose `eglGetProcAddress` resolves the name `n` alone, to the address 7,
and whose two libraries are loaded and export nothing. -/
def driver_egl_exporting (n : CStr) : Driver :=
  { gles_lib := some (fun _ => none),
    gles2_lib := some (fun _ => none),
    eglGetProcAddr := some (fun m => if m = n then some (.native 7) else none) }

/-- A driver in which the ES2 library alone exports the name `n`, at the address 7. -/
def driver_es2_exporting (n : CStr) : Driver :=
  { gles_lib := some (fun _ => none),
    gles2_lib := some (fun m => if m = n then some (.native 7) else none),
    eglGetProcAddr := some (fun _ => none) }

/-- A name of 253 bytes: `glFoo` followed by 248 times the letter `o`. -/
def long_name : CStr := "glFoo".toList ++ List.replicate 248 'o'

/-- The function `prismgl_glVertex3d` of `gl_wrapper.c`. -/
def prismgl_glVertex3d (s : ImmediateState) (x y z : GLdouble) : ImmediateState :=
  prismgl_glVertex3f s (to_GLfloat x) (to_GLfloat y) (to_GLfloat z)

/-- The function `prismgl_glVertex2d` of `gl_wrapper.c`. -/
def prismgl_glVertex2d (s : ImmediateState) (x y : GLdouble) : ImmediateState :=
  prismgl_glVertex3f s (to_GLfloat x) (to_GLfloat y) 0

/-- The function `prismgl_glTexCoord2d` of `gl_wrapper.c`. -/
def prismgl_glTexCoord2d (s : ImmediateState) (u v : GLdouble) : ImmediateState :=
  { s with cur_s := to_GLfloat u, cur_t := to_GLfloat v }

/-- The function `prismgl_glColor3d` of `gl_wrapper.c`. -/
def prismgl_glColor3d (s : ImmediateState) (r g b : GLdouble) : ImmediateState :=
  prismgl_glColor4f s (to_GLfloat r) (to_GLfloat g) (to_GLfloat b) 1

/-- The function `prismgl_glColor4d` of `gl_wrapper.c`. -/
def prismgl_glColor4d (s : ImmediateState) (r g b a : GLdouble) : ImmediateState :=
  prismgl_glColor4f s (to_GLfloat r) (to_GLfloat g) (to_GLfloat b) (to_GLfloat a)

/-- The function `prismgl_glColor3ub` of `gl_wrapper.c`; a `GLubyte` argument is a `Nat`. -/
def prismgl_glColor3ub (s : ImmediateState) (r g b : Nat) : ImmediateState :=
  prismgl_glColor4f s (ubyte_to_GLfloat r) (ubyte_to_GLfloat g) (ubyte_to_GLfloat b) 1

/-- The function `prismgl_glColor4ub` of `gl_wrapper.c`; a `GLubyte` argument is a `Nat`. -/
def prismgl_glColor4ub (s : ImmediateState) (r g b a : Nat) : ImmediateState :=
  prismgl_glColor4f s (ubyte_to_GLfloat r) (ubyte_to_GLfloat g) (ubyte_to_GLfloat b)
    (ubyte_to_GLfloat a)

/-- A call of one of the entry points of the immediate-mode engine: `glBegin` (with the
names the driver hands out if this call creates the buffers), `glEnd`, one of the `f`
emitters of `Emit`, or one of the `d` and `ub` emitters. -/
inductive ImmCall where
  | glBegin (gen : GenNames) (mode : Nat)
  | glEnd
  | emit (e : Emit)
  | vertex3d (x y z : GLdouble)
  | vertex2d (x y : GLdouble)
  | texCoord2d (s t : GLdouble)
  | color3d (r g b : GLdouble)
  | color4d (r g b a : GLdouble)
  | color3ub (r g b : Nat)
  | color4ub (r g b a : Nat)

/-- The state of `g_immediate` after the call `c` on the state `s`. -/
def ImmCall.apply (s : ImmediateState) : ImmCall → ImmediateState
  | .glBegin gen mode => (prismgl_glBegin s gen mode).1
  | .glEnd => (prismgl_glEnd s).1
  | .emit e => e.apply s
  | .vertex3d x y z => prismgl_glVertex3d s x y z
  | .vertex2d x y => prismgl_glVertex2d s x y
  | .texCoord2d u v => prismgl_glTexCoord2d s u v
  | .color3d r g b => prismgl_glColor3d s r g b
  | .color4d r g b a => prismgl_glColor4d s r g b a
  | .color3ub r g b => prismgl_glColor3ub s r g b
  | .color4ub r g b a => prismgl_glColor4ub s r g b a

/-- The state of `g_immediate` after the calls `cs`, in this order, from the state `s`. -/
def run_calls (s : ImmediateState) (cs : List ImmCall) : ImmediateState :=
  cs.foldl ImmCall.apply s

/-- A color, a texture coordinate and a normal: the sticky attributes. -/
structure Sticky where
  r : GLfloat
  g : GLfloat
  b : GLfloat
  a : GLfloat
  s : GLfloat
  t : GLfloat
  nx : GLfloat
  ny : GLfloat
  nz : GLfloat

/-- The sticky attributes held in a state of `g_immediate`. -/
def ImmediateState.sticky (st : ImmediateState) : Sticky :=
  ⟨st.cur_r, st.cur_g, st.cur_b, st.cur_a, st.cur_s, st.cur_t, st.cur_nx, st.cur_ny,
   st.cur_nz⟩

/-- The defaults the spec gives for the sticky attributes: color (1,1,1,1), texture
coordinate (0,0), normal (0,0,1). -/
def sticky_defaults : Sticky := ⟨1, 1, 1, 1, 0, 0, 0, 0, 1⟩

/-- What a call sets, in the words of the spec: a color emitter sets the color (alpha 1 for
the three-component ones; a `double` is cast to `GLfloat`, a byte is divided by `255.0f`),
a texture-coordinate emitter the texture coordinate, `glNormal3f` the normal; every other
call sets nothing. -/
def Sticky.set (k : Sticky) : ImmCall → Sticky
  | .emit (.color4f r g b a) => { k with r := r, g := g, b := b, a := a }
  | .emit (.color3f r g b) => { k with r := r, g := g, b := b, a := 1 }
  | .color4d r g b a =>
    { k with r := to_GLfloat r, g := to_GLfloat g, b := to_GLfloat b, a := to_GLfloat a }
  | .color3d r g b => { k with r := to_GLfloat r, g := to_GLfloat g, b := to_GLfloat b, a := 1 }
  | .color4ub r g b a =>
    { k with r := ubyte_to_GLfloat r, g := ubyte_to_GLfloat g, b := ubyte_to_GLfloat b,
             a := ubyte_to_GLfloat a }
  | .color3ub r g b =>
    { k with r := ubyte_to_GLfloat r, g := ubyte_to_GLfloat g, b := ubyte_to_GLfloat b,
             a := 1 }
  | .emit (.texCoord2f s t) => { k with s := s, t := t }
  | .texCoord2d s t => { k with s := to_GLfloat s, t := to_GLfloat t }
  | .emit (.normal3f nx ny nz) => { k with nx := nx, ny := ny, nz := nz }
  | _ => k

/-- The sticky attributes most recently set by the calls `cs`, the defaults where none
was set. -/
def most_recently_set (cs : List ImmCall) : Sticky := cs.foldl Sticky.set sticky_defaults

/-! ## State-shadow wrappers (`gl_wrapper.c`) -/

/-- The constant `GL_FILL` of `prismgl.h`. -/
def GL_FILL : Nat := 0x1B02
/-- The constant `GL_LINE` of `prismgl.h`. -/
def GL_LINE : Nat := 0x1B01
/-- The constant `GL_POLYGON_MODE` of `prismgl.h`. -/
def GL_POLYGON_MODE : Nat := 0x0B40
/-- The constant `GL_MAX_CLIP_DISTANCES` of `prismgl.h`. -/
def GL_MAX_CLIP_DISTANCES : Nat := 0x0D32
/-- The constant `GL_FIRST_VERTEX_CONVENTION` of `prismgl.h`. -/
def GL_FIRST_VERTEX_CONVENTION : Nat := 0x8E4D
/-- The constant `GL_LAST_VERTEX_CONVENTION` of `prismgl.h`. -/
def GL_LAST_VERTEX_CONVENTION : Nat := 0x8E4E
/-- The constant `GL_PROVOKING_VERTEX` of `prismgl.h`. -/
def GL_PROVOKING_VERTEX : Nat := 0x8E4F
/-- The constant `GL_LOWER_LEFT` of `prismgl.h`. -/
def GL_LOWER_LEFT : Nat := 0x8CA1
/-- The constant `GL_NEGATIVE_ONE_TO_ONE` of `prismgl.h`. -/
def GL_NEGATIVE_ONE_TO_ONE : Nat := 0x935E
/-- The constant `GL_SHADING_LANGUAGE_VERSION` of `prismgl.h`. -/
def GL_SHADING_LANGUAGE_VERSION : Nat := 0x8B8C
/-- Modelled from the spec: the constant `GL_VENDOR` of the GLES headers, which are not part
of the repository (value of the Khronos header). -/
def GL_VENDOR : Nat := 0x1F00
/-- Modelled from the spec: the constant `GL_RENDERER` of the GLES headers, which are not
part of the repository (value of the Khronos header). -/
def GL_RENDERER : Nat := 0x1F01
/-- Modelled from the spec: the constant `GL_VERSION` of the GLES headers, which are not
part of the repository (value of the Khronos header). -/
def GL_VERSION : Nat := 0x1F02
/-- Modelled from the spec: the constant `GL_EXTENSIONS` of the GLES headers, which are not
part of the repository (value of the Khronos header). -/
def GL_EXTENSIONS : Nat := 0x1F03
/-- Modelled from the spec: the constant `GL_FRONT_AND_BACK` of the GLES headers, which are
not part of the repository (value of the Khronos header). -/
def GL_FRONT_AND_BACK : Nat := 0x0408

/-- The shadow state of `gl_wrapper.c`: the globals `g_polygon_mode`,
`g_provoking_vertex`, `g_clip_origin`, `g_clip_depth` and `g_depth_clamp_enabled`. -/
structure ShadowState where
  g_polygon_mode : Nat
  g_provoking_vertex : Nat
  g_clip_origin : Nat
  g_clip_depth : Nat
  g_depth_clamp_enabled : Bool
  deriving DecidableEq, Repr

/-- The initial values of the shadow globals. -/
def shadow_state_init : ShadowState :=
  ⟨GL_FILL, GL_LAST_VERTEX_CONVENTION, GL_LOWER_LEFT, GL_NEGATIVE_ONE_TO_ONE, false⟩

/-- The function `prismgl_glPolygonMode` of `gl_wrapper.c`, with the driver calls it
issues (the log line is not a driver call). -/
def prismgl_glPolygonMode (st : ShadowState) (face mode : Nat) :
    ShadowState × List GLCall :=
  let _ := face
  ({ st with g_polygon_mode := mode }, [])

/-- The function `prismgl_glClipControl` of `gl_wrapper.c`. -/
def prismgl_glClipControl (st : ShadowState) (origin depth : Nat) :
    ShadowState × List GLCall :=
  ({ st with g_clip_origin := origin, g_clip_depth := depth }, [])

/-- The function `prismgl_glProvokingVertex` of `gl_wrapper.c`. -/
def prismgl_glProvokingVertex (st : ShadowState) (mode : Nat) :
    ShadowState × List GLCall :=
  ({ st with g_provoking_vertex := mode }, [])

/-- The cast `(GLint)v` of a `GLenum`: the `int` with the same 32 bits. -/
def to_GLint (v : Nat) : Int := wrap_int32 v

/-- The function `prismgl_glGetIntegerv_wrapper` of `gl_wrapper.c`. The argument `params`
tells whether the pointer is not `NULL`, `driver_glGetIntegerv` is the value the driver
writes for a parameter name; the result is the value written to `*params` (`none` when
nothing is written) and the driver calls issued. -/
def prismgl_glGetIntegerv_wrapper (st : ShadowState) (driver_glGetIntegerv : Nat → Int)
    (pname : Nat) (params : Bool) : Option Int × List GLCall :=
  if !params then (none, [])
  else if pname = GL_MAX_CLIP_DISTANCES then (some 8, [])
  else if pname = GL_POLYGON_MODE then (some (to_GLint st.g_polygon_mode), [])
  else if pname = GL_PROVOKING_VERTEX then (some (to_GLint st.g_provoking_vertex), [])
  else (some (driver_glGetIntegerv pname),
        [.glGetIntegerv pname (driver_glGetIntegerv pname)])

/-- The string `ext_str` of `prismgl_glGetString_wrapper`. -/
def ext_str : CStr :=
  ("GL_ARB_vertex_buffer_object " ++
   "GL_ARB_vertex_array_object " ++
   "GL_ARB_framebuffer_object " ++
   "GL_ARB_texture_non_power_of_two " ++
   "GL_ARB_shader_objects " ++
   "GL_ARB_vertex_shader " ++
   "GL_ARB_fragment_shader " ++
   "GL_ARB_uniform_buffer_object " ++
   "GL_ARB_explicit_attrib_location " ++
   "GL_ARB_texture_storage " ++
   "GL_ARB_instanced_arrays " ++
   "GL_ARB_draw_instanced " ++
   "GL_ARB_map_buffer_range " ++
   "GL_ARB_copy_buffer " ++
   "GL_ARB_sampler_objects " ++
   "GL_ARB_blend_func_extended " ++
   "GL_ARB_get_program_binary " ++
   "GL_ARB_separate_shader_objects " ++
   "GL_ARB_timer_query " ++
   "GL_ARB_occlusion_query " ++
   "GL_ARB_texture_float " ++
   "GL_ARB_depth_texture " ++
   "GL_ARB_shadow " ++
   "GL_EXT_texture_filter_anisotropic " ++
   "GL_EXT_framebuffer_blit " ++
   "GL_ARB_depth_clamp " ++
   "GL_ARB_seamless_cube_map " ++
   "GL_ARB_clip_control " ++
   "GL_ARB_conservative_depth " ++
   "GL_ARB_shader_texture_lod " ++
   "GL_ARB_texture_gather " ++
   "GL_ARB_gpu_shader5 " ++
   "GL_ARB_texture_swizzle").toList

/-- The text written by `snprintf(renderer_buf, 512, "PrismGL (%s)", real)`. -/
def format_renderer (real : CStr) : CStr :=
  ("PrismGL (".toList ++ real ++ ")".toList).take 511

/-- The function `prismgl_glGetString_wrapper` of `gl_wrapper.c`. The argument
`driver_glGetString` is what the driver's `glGetString` returns for a name (`none` for
`NULL`); the result is the string returned and the driver calls issued. -/
def prismgl_glGetString_wrapper (driver_glGetString : Nat → Option CStr) (name : Nat) :
    Option CStr × List GLCall :=
  if name = GL_VERSION then (some "4.6.0 PrismGL".toList, [])
  else if name = GL_SHADING_LANGUAGE_VERSION then (some "4.60 PrismGL".toList, [])
  else if name = GL_RENDERER then
    let real := driver_glGetString GL_RENDERER
    let renderer_buf :=
      match real with
      | some r => format_renderer r
      | none => "PrismGL".toList
    (some renderer_buf, [.glGetString GL_RENDERER real])
  else if name = GL_VENDOR then (some "PrismGL".toList, [])
  else if name = GL_EXTENSIONS then (some ext_str, [])
  else (driver_glGetString name, [.glGetString name (driver_glGetString name)])

/-- A renderer string of 502 bytes. -/
def long_renderer : CStr := List.replicate 502 'x'

/-- After step 1 of `shader_translate` the text begins with the line `#version 320 es`. -/
def DirectiveFirst (source : CStr) : Prop :=
  "#version 320 es\n".toList <+:
    replace_version source (shader_detect_version (some source))

/-- A vertex shader whose version directive stands after a comment line. -/
def comment_first_shader : CStr := "// c\n#version 330 core\nvoid main(){}".toList

/-- The last 16 bytes of `precision_header_fragment`. -/
def header_tail : CStr := "highp uimage2D;\n".toList

/-- The insertion of `out_decl` by `insert_out_decl`, in terms of the text `t` that follows
the precision prelude: directly in front of `t`, or, when `t` begins with `precision`,
after the first line break of `t` that is not followed by `precision`. -/
def insert_after_header (t : CStr) : CStr :=
  if "precision".toList.isPrefixOf t then
    let m := precision_block_end t
    let m := if (t.drop m).head? = some '\n' then m + 1 else m
    t.take m ++ out_decl ++ t.drop m
  else out_decl ++ t

/-- The checks of `pass_ok` that do not walk through the text `p`: on its last bytes
`tail` and on the pattern. -/
def pass_checks (p tail : CStr) (row : CStr × CStr) : Bool :=
  !row.1.isEmpty && decide (row.1.length ≤ tail.length) && no_start_inside row.1 tail &&
    no_start_inside p row.1 && nl_ok row.1 row.2

/-! ## Capability, buffer and query wrappers (`gl_wrapper.c`) -/

/-- The constant `GL_TEXTURE_1D` of `prismgl.h`. -/
def GL_TEXTURE_1D : Nat := 0x0DE0
/-- The constant `GL_CLIP_DISTANCE0` of `prismgl.h`. -/
def GL_CLIP_DISTANCE0 : Nat := 0x3000
/-- The constant `GL_CLIP_DISTANCE1` of `prismgl.h`. -/
def GL_CLIP_DISTANCE1 : Nat := 0x3001
/-- The constant `GL_CLIP_DISTANCE2` of `prismgl.h`. -/
def GL_CLIP_DISTANCE2 : Nat := 0x3002
/-- The constant `GL_CLIP_DISTANCE3` of `prismgl.h`. -/
def GL_CLIP_DISTANCE3 : Nat := 0x3003
/-- The constant `GL_DEPTH_CLAMP` of `prismgl.h`. -/
def GL_DEPTH_CLAMP : Nat := 0x864F
/-- The constant `GL_TEXTURE_CUBE_MAP_SEAMLESS` of `prismgl.h`. -/
def GL_TEXTURE_CUBE_MAP_SEAMLESS : Nat := 0x884F
/-- The constant `GL_POINT_SPRITE` of `prismgl.h`. -/
def GL_POINT_SPRITE : Nat := 0x8861
/-- The constant `GL_PROGRAM_POINT_SIZE` of `prismgl.h`. -/
def GL_PROGRAM_POINT_SIZE : Nat := 0x8642
/-- The constant `GL_SAMPLES_PASSED` of `prismgl.h`. -/
def GL_SAMPLES_PASSED : Nat := 0x8914
/-- The constant `GL_PRIMITIVES_GENERATED` of `prismgl.h`. -/
def GL_PRIMITIVES_GENERATED : Nat := 0x8C87
/-- The constant `GL_TIME_ELAPSED` of `prismgl.h`. -/
def GL_TIME_ELAPSED : Nat := 0x88BF
/-- The constant `GL_QUERY_RESULT_NO_WAIT` of `prismgl.h`. -/
def GL_QUERY_RESULT_NO_WAIT : Nat := 0x9194
/-- Modelled from the spec: the constant `GL_FRONT` of the GLES headers, which are not part
of the repository (value of the Khronos header). -/
def GL_FRONT : Nat := 0x0404
/-- Modelled from the spec: the constant `GL_BACK` of the GLES headers, which are not part
of the repository (value of the Khronos header). -/
def GL_BACK : Nat := 0x0405
/-- Modelled from the spec: the constant `GL_FRONT_LEFT` of the GL headers, which are not
part of the repository (value of the Khronos header). -/
def GL_FRONT_LEFT : Nat := 0x0400
/-- Modelled from the spec: the constant `GL_BACK_LEFT` of the GL headers, which are not
part of the repository (value of the Khronos header). -/
def GL_BACK_LEFT : Nat := 0x0402
/-- Modelled from the spec: the constant `GL_ANY_SAMPLES_PASSED` of the GLES headers, which
are not part of the repository (value of the Khronos header). -/
def GL_ANY_SAMPLES_PASSED : Nat := 0x8C2F
/-- Modelled from the spec: the constant `GL_QUERY_RESULT` of the GLES headers, which are
not part of the repository (value of the Khronos header). -/
def GL_QUERY_RESULT : Nat := 0x8866
/-- Modelled from the spec: the constant `GL_QUERY_RESULT_AVAILABLE` of the GLES headers,
which are not part of the repository (value of the Khronos header). -/
def GL_QUERY_RESULT_AVAILABLE : Nat := 0x8867

/-- The function `prismgl_glDrawBuffer` of `gl_wrapper.c`, as the driver calls it issues;
the one-element array `bufs` is recorded by its contents. -/
def prismgl_glDrawBuffer (buf : Nat) : List GLCall :=
  let buf := if buf = GL_FRONT ∨ buf = GL_FRONT_LEFT ∨ buf = GL_BACK_LEFT then GL_BACK else buf
  [.glDrawBuffers 1 [buf]]

/-- The function `prismgl_glReadBuffer_wrapper` of `gl_wrapper.c`. -/
def prismgl_glReadBuffer_wrapper (buf : Nat) : List GLCall :=
  let buf := if buf = GL_FRONT ∨ buf = GL_FRONT_LEFT ∨ buf = GL_BACK_LEFT then GL_BACK else buf
  [.glReadBuffer buf]

/-- The function `prismgl_glEnable_wrapper` of `gl_wrapper.c`: the `switch` on `cap`, with
the new shadow state and the driver calls issued (log lines are not driver calls). -/
def prismgl_glEnable_wrapper (st : ShadowState) (cap : Nat) : ShadowState × List GLCall :=
  if cap = GL_DEPTH_CLAMP then ({ st with g_depth_clamp_enabled := true }, [])
  else if cap = GL_TEXTURE_CUBE_MAP_SEAMLESS then (st, [])
  else if cap = GL_PROGRAM_POINT_SIZE then (st, [])
  else if cap = GL_POINT_SPRITE then (st, [])
  else if cap = GL_CLIP_DISTANCE0 ∨ cap = GL_CLIP_DISTANCE1 ∨ cap = GL_CLIP_DISTANCE2 ∨
      cap = GL_CLIP_DISTANCE3 then (st, [])
  else if cap = GL_TEXTURE_1D then (st, [])
  else (st, [.glEnable cap])

/-- The function `prismgl_glDisable_wrapper` of `gl_wrapper.c`. -/
def prismgl_glDisable_wrapper (st : ShadowState) (cap : Nat) : ShadowState × List GLCall :=
  if cap = GL_DEPTH_CLAMP then ({ st with g_depth_clamp_enabled := false }, [])
  else if cap = GL_TEXTURE_CUBE_MAP_SEAMLESS ∨ cap = GL_PROGRAM_POINT_SIZE ∨
      cap = GL_POINT_SPRITE ∨ cap = GL_CLIP_DISTANCE0 ∨ cap = GL_CLIP_DISTANCE1 ∨
      cap = GL_CLIP_DISTANCE2 ∨ cap = GL_CLIP_DISTANCE3 ∨ cap = GL_TEXTURE_1D then (st, [])
  else (st, [.glDisable cap])

/-- The capabilities that the specification lists as answered without the driver. -/
def spec_emulated_caps : List Nat :=
  [GL_DEPTH_CLAMP, GL_TEXTURE_CUBE_MAP_SEAMLESS, GL_PROGRAM_POINT_SIZE, GL_POINT_SPRITE,
   GL_CLIP_DISTANCE0, GL_CLIP_DISTANCE1, GL_CLIP_DISTANCE2, GL_CLIP_DISTANCE3, GL_TEXTURE_1D]

/-- The buffer mapping `m` of the specification: `GL_FRONT`, `GL_FRONT_LEFT` and
`GL_BACK_LEFT` go to `GL_BACK`, every other value to itself. -/
def spec_buffer_map (b : Nat) : Nat :=
  if b ∈ [GL_FRONT, GL_FRONT_LEFT, GL_BACK_LEFT] then GL_BACK else b

/-- The function `prismgl_glBeginQuery_wrapper` of `gl_wrapper.c` (the `GL_TIME_ELAPSED`
branch only writes a log line). -/
def prismgl_glBeginQuery_wrapper (target id : Nat) : List GLCall :=
  let target :=
    if target = GL_SAMPLES_PASSED then GL_ANY_SAMPLES_PASSED
    else if target = GL_PRIMITIVES_GENERATED then GL_ANY_SAMPLES_PASSED
    else if target = GL_TIME_ELAPSED then target
    else target
  [.glBeginQuery target id]

/-- The function `prismgl_glEndQuery_wrapper` of `gl_wrapper.c`. -/
def prismgl_glEndQuery_wrapper (target : Nat) : List GLCall :=
  let target :=
    if target = GL_SAMPLES_PASSED then GL_ANY_SAMPLES_PASSED
    else if target = GL_PRIMITIVES_GENERATED then GL_ANY_SAMPLES_PASSED
    else target
  [.glEndQuery target]

/-- The query-target remapping `r` of the specification. -/
def spec_query_target (t : Nat) : Nat :=
  if t = GL_SAMPLES_PASSED ∨ t = GL_PRIMITIVES_GENERATED then GL_ANY_SAMPLES_PASSED else t

/-- The driver's `glGetQueryObjectuiv(id, pname, &v)`: the value it stores in `v`, or `none`
when it stores nothing (a GL error leaves `v` as it was). -/
abbrev QueryDriver := Nat → Nat → Option Nat

/-- The function `prismgl_glGetQueryObjectuiv_wrapper` of `gl_wrapper.c`. The argument
`params` is the value `*params` holds before the call; the result is the value it holds
afterwards, with the driver calls issued. -/
def prismgl_glGetQueryObjectuiv_wrapper (drv : QueryDriver) (id pname : Nat) (params : Nat) :
    Nat × List GLCall :=
  if pname = GL_QUERY_RESULT_NO_WAIT then
    let avail := (drv id GL_QUERY_RESULT_AVAILABLE).getD 0
    let c1 := GLCall.glGetQueryObjectuiv id GL_QUERY_RESULT_AVAILABLE
      (drv id GL_QUERY_RESULT_AVAILABLE)
    if avail ≠ 0 then
      ((drv id GL_QUERY_RESULT).getD params,
        [c1, .glGetQueryObjectuiv id GL_QUERY_RESULT (drv id GL_QUERY_RESULT)])
    else (0, [c1])
  else ((drv id pname).getD params, [.glGetQueryObjectuiv id pname (drv id pname)])

/-- The function `prismgl_glGetQueryObjecti64v` of `gl_wrapper.c`. The argument `params` is
`none` for a `NULL` pointer and otherwise the value `*params` holds before the call; the
cast `(GLint64)val` of a `GLuint` keeps the value. -/
def prismgl_glGetQueryObjecti64v (drv : QueryDriver) (id pname : Nat) (params : Option Int) :
    Option Int × List GLCall :=
  match params with
  | none => (none, [])
  | some _ =>
    let pname2 := if pname = GL_QUERY_RESULT_NO_WAIT then GL_QUERY_RESULT else pname
    let val := (drv id pname2).getD 0
    (some (val : Int), [.glGetQueryObjectuiv id pname2 (drv id pname2)])

/-- The function `prismgl_glGetQueryObjectui64v` of `gl_wrapper.c`. -/
def prismgl_glGetQueryObjectui64v (drv : QueryDriver) (id pname : Nat) (params : Option Nat) :
    Option Nat × List GLCall :=
  match params with
  | none => (none, [])
  | some _ =>
    let pname2 := if pname = GL_QUERY_RESULT_NO_WAIT then GL_QUERY_RESULT else pname
    let val := (drv id pname2).getD 0
    (some val, [.glGetQueryObjectuiv id pname2 (drv id pname2)])

/-- A driver on which the result of every query is not yet available, and which would
answer 99 to `GL_QUERY_RESULT` (after waiting for it). -/
def pending_query_driver : QueryDriver := fun _ pname =>
  if pname = GL_QUERY_RESULT_AVAILABLE then some 0
  else if pname = GL_QUERY_RESULT then some 99 else none

/-- The `#version 140` vertex source with an `#extension` directive that the specification
gives as an example. -/
def attrib_location_shader : CStr :=
  ("#version 140\n#extension GL_ARB_explicit_attrib_location : enable\nin vec3 p;\n" ++
   "void main()\x7b gl_Position = vec4(p,1); \x7d").toList

/-- The text the specification gives as the translation of `attrib_location_shader`. -/
def attrib_location_translated : CStr :=
  ("#version 320 es\nprecision highp float;\nprecision highp int;\n" ++
   "/* ARB_explicit_attrib_location: native in ES 3.x */\nin vec3 p;\n" ++
   "void main()\x7b gl_Position = vec4(p,1); \x7d").toList

/-- The sixteen digits of lower-case hexadecimal notation, in the order of their values. -/
def spec_hex_alphabet : CStr := "0123456789abcdef".toList

/-- The number that a text of lower-case hexadecimal digits denotes, most significant digit
first. -/
def spec_hex_number (x : CStr) : Nat :=
  x.foldl (fun acc c => acc * 16 + spec_hex_alphabet.indexOf c) 0

/-- The vertices that `glDrawArrays(m, f, c)` draws, in the words of the spec: the list
`(m, f), (m, f+1), ..., (m, f+c-1)`. -/
def expand_draw (m : Nat) (f c : Int) : List (Nat × Int) :=
  (List.range c.toNat).map (fun (i : Nat) => (m, f + (i : Int)))

/-- The vertices drawn by the `glDrawArrays` calls of a list of driver calls, in issue
order. -/
def expand_calls (calls : List GLCall) : List (Nat × Int) :=
  (calls.map fun
    | .glDrawArrays m f c => expand_draw m f c
    | _ => []).flatten

/-- The vertices of the submissions `q`, in submission order. -/
def expand_submissions (q : List BatchDraw) : List (Nat × Int) :=
  (q.map fun e => expand_draw e.mode e.first e.count).flatten

/-- The driver calls of `prismgl_batch_begin`, one `prismgl_batch_draw` per element of `q`
and a final `prismgl_batch_flush`, in issue order. -/
def batch_session (b : BatchState) (q : List BatchDraw) : List GLCall :=
  (batch_fill b q).2 ++ (prismgl_batch_flush (batch_fill b q).1).2

/-- The vertices that a batch receives from the emitter calls `es`, in the words of the
spec: one vertex for each `glVertex3f(x, y, z)` and each `glVertex2f(x, y)` (with z = 0),
carrying the sticky attributes `k` as the emitters before it have set them. -/
def spec_received : Sticky → List Emit → List ImmediateVertex
  | _, [] => []
  | k, .vertex3f x y z :: es =>
    ⟨x, y, z, k.r, k.g, k.b, k.a, k.s, k.t, k.nx, k.ny, k.nz⟩ :: spec_received k es
  | k, .vertex2f x y :: es =>
    ⟨x, y, 0, k.r, k.g, k.b, k.a, k.s, k.t, k.nx, k.ny, k.nz⟩ :: spec_received k es
  | k, .texCoord2f s t :: es => spec_received (k.set (.emit (.texCoord2f s t))) es
  | k, .color4f r g b a :: es => spec_received (k.set (.emit (.color4f r g b a))) es
  | k, .color3f r g b :: es => spec_received (k.set (.emit (.color3f r g b))) es
  | k, .normal3f nx ny nz :: es => spec_received (k.set (.emit (.normal3f nx ny nz))) es

/-- The vertices held in the slots `0 .. count-1` of `g_immediate.vertices`. -/
def ImmediateState.stored (s : ImmediateState) : List ImmediateVertex :=
  (List.range s.count).map s.vertices

/-- The hashes that the directory scan of `prismgl_shader_cache_init` reads from the names
of a listing: one for each name that contains `.pglbin` and starts with a hexadecimal
number. -/
def listing_hashes (names : List CStr) : List Nat :=
  names.filterMap fun d_name =>
    if contains d_name CACHE_FILE_EXT then sscanf_llx d_name else none

/-- The states of the cache that are reachable from the initial one by calls of
`prismgl_shader_cache_init`, `prismgl_shader_cache_get`, `prismgl_shader_cache_put` and
`prismgl_shader_cache_shutdown`, over any file system and any driver answers at each
call. -/
inductive CacheReachable : CacheState → Prop
  | start : CacheReachable cache_state_init
  | init (st : CacheState) (fs : FileSystem) (cache_dir : CStr) :
      CacheReachable st → CacheReachable (prismgl_shader_cache_init st fs cache_dir).1
  | get (st : CacheState) (fs : FileSystem) (drv : LoadAnswers) (hash : Nat) :
      CacheReachable st → CacheReachable (prismgl_shader_cache_get st fs drv hash).state
  | put (st : CacheState) (fs : FileSystem) (drv : ProgramBinary) (hash program : Nat) :
      CacheReachable st →
      CacheReachable (prismgl_shader_cache_put st fs drv hash program).state
  | shutdown (st : CacheState) :
      CacheReachable st → CacheReachable (prismgl_shader_cache_shutdown st)

/-- The reachable states when every `prismgl_shader_cache_init` finds a listing whose names
give pairwise distinct hashes (as in a directory that holds only the files written by
`prismgl_shader_cache_put`, one per hash). -/
inductive CacheReachableDistinct : CacheState → Prop
  | start : CacheReachableDistinct cache_state_init
  | init (st : CacheState) (fs : FileSystem) (cache_dir : CStr) :
      CacheReachableDistinct st →
      (listing_hashes ((prismgl_shader_cache_init st fs cache_dir).2.1.readdir
        (prismgl_shader_cache_init st fs cache_dir).1.g_cache_dir)).Nodup →
      CacheReachableDistinct (prismgl_shader_cache_init st fs cache_dir).1
  | get (st : CacheState) (fs : FileSystem) (drv : LoadAnswers) (hash : Nat) :
      CacheReachableDistinct st →
      CacheReachableDistinct (prismgl_shader_cache_get st fs drv hash).state
  | put (st : CacheState) (fs : FileSystem) (drv : ProgramBinary) (hash program : Nat) :
      CacheReachableDistinct st →
      CacheReachableDistinct (prismgl_shader_cache_put st fs drv hash program).state
  | shutdown (st : CacheState) :
      CacheReachableDistinct st → CacheReachableDistinct (prismgl_shader_cache_shutdown st)

/-- The index holds at most one entry per hash. -/
def UniqueHashes (st : CacheState) : Prop := (st.g_cache.map (fun e => e.hash)).Nodup

/-- A file system in which the `shaders` directory holds a cache file and a backup copy of
it, whose name starts with the same sixteen digits. -/
def backup_fs : FileSystem :=
  { files := [("/data/app/cache/shaders/0123456789abcdef.pglbin".toList, [1, 0, 0, 0, 9]),
              ("/data/app/cache/shaders/0123456789abcdef.pglbin.bak".toList, [1, 0, 0, 0, 9])],
    dirs := ["/data/app/cache".toList, "/data/app/cache/shaders".toList],
    mkdir_ok := fun _ => true, writable := fun _ => true }

/-- A file system in which the `shaders` directory holds the cache file of one hash. -/
def stored_fs : FileSystem :=
  { files := [("/data/app/cache/shaders/0123456789abcdef.pglbin".toList, [1, 0, 0, 0, 9])],
    dirs := ["/data/app/cache".toList, "/data/app/cache/shaders".toList],
    mkdir_ok := fun _ => true, writable := fun _ => true }

/-! ## `glGetTexImage` by framebuffer readback (`gl_wrapper.c`) -/

/-- The constant `GL_DRAW_FRAMEBUFFER` of `prismgl.h`. -/
def GL_DRAW_FRAMEBUFFER : Nat := 0x8CA9
/-- The constant `GL_READ_FRAMEBUFFER` of `prismgl.h`. -/
def GL_READ_FRAMEBUFFER : Nat := 0x8CA8
/-- Modelled from the spec: the constant `GL_FRAMEBUFFER` of the GLES headers, which are not
part of the repository (value of the Khronos header). -/
def GL_FRAMEBUFFER : Nat := 0x8D40
/-- Modelled from the spec: the constant `GL_FRAMEBUFFER_BINDING` of the GLES headers, which
are not part of the repository (value of the Khronos header, where it is also the value of
`GL_DRAW_FRAMEBUFFER_BINDING`). -/
def GL_FRAMEBUFFER_BINDING : Nat := 0x8CA6
/-- Modelled from the spec: the constant `GL_TEXTURE_2D` of the GLES headers, which are not
part of the repository (value of the Khronos header). -/
def GL_TEXTURE_2D : Nat := 0x0DE1
/-- Modelled from the spec: the constant `GL_TEXTURE_BINDING_2D` of the GLES headers, which
are not part of the repository (value of the Khronos header). -/
def GL_TEXTURE_BINDING_2D : Nat := 0x8069
/-- Modelled from the spec: the constant `GL_TEXTURE_BINDING_CUBE_MAP` of the GLES headers,
which are not part of the repository (value of the Khronos header). -/
def GL_TEXTURE_BINDING_CUBE_MAP : Nat := 0x8514
/-- Modelled from the spec: the constant `GL_TEXTURE_CUBE_MAP_POSITIVE_X` of the GLES
headers, which are not part of the repository (value of the Khronos header). -/
def GL_TEXTURE_CUBE_MAP_POSITIVE_X : Nat := 0x8515
/-- Modelled from the spec: the constant `GL_TEXTURE_CUBE_MAP_NEGATIVE_X` of the GLES
headers, which are not part of the repository (value of the Khronos header). -/
def GL_TEXTURE_CUBE_MAP_NEGATIVE_X : Nat := 0x8516
/-- Modelled from the spec: the constant `GL_TEXTURE_CUBE_MAP_POSITIVE_Y` of the GLES
headers, which are not part of the repository (value of the Khronos header). -/
def GL_TEXTURE_CUBE_MAP_POSITIVE_Y : Nat := 0x8517
/-- Modelled from the spec: the constant `GL_TEXTURE_CUBE_MAP_NEGATIVE_Y` of the GLES
headers, which are not part of the repository (value of the Khronos header). -/
def GL_TEXTURE_CUBE_MAP_NEGATIVE_Y : Nat := 0x8518
/-- Modelled from the spec: the constant `GL_TEXTURE_CUBE_MAP_POSITIVE_Z` of the GLES
headers, which are not part of the repository (value of the Khronos header). -/
def GL_TEXTURE_CUBE_MAP_POSITIVE_Z : Nat := 0x8519
/-- Modelled from the spec: the constant `GL_TEXTURE_CUBE_MAP_NEGATIVE_Z` of the GLES
headers, which are not part of the repository (value of the Khronos header). -/
def GL_TEXTURE_CUBE_MAP_NEGATIVE_Z : Nat := 0x851A
/-- Modelled from the spec: the constant `GL_COLOR_ATTACHMENT0` of the GLES headers, which
are not part of the repository (value of the Khronos header). -/
def GL_COLOR_ATTACHMENT0 : Nat := 0x8CE0
/-- Modelled from the spec: the constant `GL_FRAMEBUFFER_COMPLETE` of the GLES headers,
which are not part of the repository (value of the Khronos header). -/
def GL_FRAMEBUFFER_COMPLETE : Nat := 0x8CD5
/-- Modelled from the spec: the constant `GL_VIEWPORT` of the GLES headers, which are not
part of the repository (value of the Khronos header). -/
def GL_VIEWPORT : Nat := 0x0BA2

/-- The conversion of a `GLint` to `GLuint`: the value with the same 32 bits. -/
def to_GLuint (v : Int) : Nat := (v % 4294967296).toNat

/-- What the driver answers during one call of `prismgl_glGetTexImage`: the value of
`GL_FRAMEBUFFER_BINDING`, the texture bound at a binding point, the name that
`glGenFramebuffers` hands out, the status of the framebuffer, and the four values of
`GL_VIEWPORT`. -/
structure ReadbackAnswers where
  framebuffer_binding : Int
  texture_binding : Nat → Int
  fbo : Nat
  status : Nat
  vp : List Int

/-- The function `prismgl_glGetTexImage` of `gl_wrapper.c`, as the driver calls it issues;
`pixels` tells whether the pointer is not `NULL` (the bytes that `glReadPixels` writes to it
are not modelled, and log lines are not driver calls). -/
def prismgl_glGetTexImage (drv : ReadbackAnswers) (target : Nat) (level : Int)
    (format type : Nat) (pixels : Bool) : List GLCall :=
  if !pixels then []
  else
    let prev_fbo := drv.framebuffer_binding
    let calls : List GLCall := [.glGetIntegerv GL_FRAMEBUFFER_BINDING prev_fbo]
    let binding : Option Nat :=
      if target = GL_TEXTURE_2D then some GL_TEXTURE_BINDING_2D
      else if target = GL_TEXTURE_CUBE_MAP_POSITIVE_X ∨ target = GL_TEXTURE_CUBE_MAP_NEGATIVE_X ∨
          target = GL_TEXTURE_CUBE_MAP_POSITIVE_Y ∨ target = GL_TEXTURE_CUBE_MAP_NEGATIVE_Y ∨
          target = GL_TEXTURE_CUBE_MAP_POSITIVE_Z ∨ target = GL_TEXTURE_CUBE_MAP_NEGATIVE_Z then
        some GL_TEXTURE_BINDING_CUBE_MAP
      else none
    match binding with
    | none => calls
    | some binding =>
      let tex_id := drv.texture_binding binding
      let calls := calls ++ [.glGetIntegerv binding tex_id]
      if tex_id = 0 then calls
      else
        let fbo := drv.fbo
        let calls := calls ++
          [.glGenFramebuffers 1 fbo,
           .glBindFramebuffer GL_FRAMEBUFFER fbo,
           .glFramebufferTexture2D GL_FRAMEBUFFER GL_COLOR_ATTACHMENT0
              (if target = GL_TEXTURE_2D then GL_TEXTURE_2D else target) (to_GLuint tex_id) level,
           .glCheckFramebufferStatus GL_FRAMEBUFFER drv.status]
        let calls :=
          if drv.status = GL_FRAMEBUFFER_COMPLETE then
            calls ++ [.glGetIntegerv_vec GL_VIEWPORT drv.vp,
              .glReadPixels 0 0 (drv.vp.getD 2 0) (drv.vp.getD 3 0) format type]
          else calls
        calls ++ [.glBindFramebuffer GL_FRAMEBUFFER (to_GLuint prev_fbo),
                  .glDeleteFramebuffers 1 [fbo]]

/-- The part of the driver state that the framebuffer calls act on, with separate bindings
for drawing and for reading, and the names of the framebuffer objects in use. -/
structure FramebufferState where
  draw_framebuffer : Nat
  read_framebuffer : Nat
  framebuffers : List Nat
  deriving DecidableEq, Repr

/-- The effect of a driver call on the framebuffer state, as the OpenGL ES 3 specification
describes it: `glGenFramebuffers` takes a name into use; `glBindFramebuffer` sets the
binding for drawing, the binding for reading, or with `GL_FRAMEBUFFER` both;
`glDeleteFramebuffers` gives the names up and sets a binding that holds one of them to
zero; the other calls leave the bindings and the names. -/
def FramebufferState.apply (d : FramebufferState) : GLCall → FramebufferState
  | .glGenFramebuffers _ out => { d with framebuffers := out :: d.framebuffers }
  | .glBindFramebuffer target framebuffer =>
    if target = GL_FRAMEBUFFER then
      { d with draw_framebuffer := framebuffer, read_framebuffer := framebuffer }
    else if target = GL_DRAW_FRAMEBUFFER then { d with draw_framebuffer := framebuffer }
    else if target = GL_READ_FRAMEBUFFER then { d with read_framebuffer := framebuffer }
    else d
  | .glDeleteFramebuffers _ names =>
    { draw_framebuffer := if d.draw_framebuffer ∈ names then 0 else d.draw_framebuffer,
      read_framebuffer := if d.read_framebuffer ∈ names then 0 else d.read_framebuffer,
      framebuffers := d.framebuffers.filter (fun f => decide (f ∉ names)) }
  | _ => d

/-- The framebuffer state after the driver has executed the calls of a trace. -/
def FramebufferState.run (d : FramebufferState) (calls : List GLCall) : FramebufferState :=
  calls.foldl FramebufferState.apply d

/-- Driver answers for a readback of the 2D texture 3: the draw framebuffer is 0, the new
framebuffer gets the name 9 and is complete, the viewport is 64 by 64. -/
def readback_answers : ReadbackAnswers :=
  { framebuffer_binding := 0, texture_binding := fun _ => 3, fbo := 9,
    status := GL_FRAMEBUFFER_COMPLETE, vp := [0, 0, 64, 64] }

/-! ## Adaptive resolution (`gl_wrapper.c`) -/

/-- The globals `g_resolution_scale`, `g_fps_history` and `g_fps_history_index` of
`gl_wrapper.c`. A `float` is taken as an exact rational; the array is a function of the
slot number. -/
structure AdaptiveState where
  g_resolution_scale : Rat
  g_fps_history : Nat → Rat
  g_fps_history_index : Nat

/-- The initial values of the adaptive-resolution globals: scale 1.0, sixty samples of
zero, index 0. -/
def adaptive_state_init : AdaptiveState :=
  { g_resolution_scale := 1, g_fps_history := fun _ => 0, g_fps_history_index := 0 }

/-- The loop `for (i = 0; i < n; i++) avg_fps += g_fps_history[i];` from `avg_fps = 0`. -/
def fps_history_sum (g_fps_history : Nat → Rat) : Nat → Rat
  | 0 => 0
  | i + 1 => fps_history_sum g_fps_history i + g_fps_history i

/-- The function `prismgl_update_adaptive_resolution` of `gl_wrapper.c`; the constants
`0.85f`, `1.1f`, `0.02f`, `0.01f` and `0.25f` are the rationals they denote. -/
def prismgl_update_adaptive_resolution (st : AdaptiveState) (current_fps target_fps : Rat) :
    AdaptiveState :=
  let g_fps_history := Function.update st.g_fps_history st.g_fps_history_index current_fps
  let g_fps_history_index := (st.g_fps_history_index + 1) % 60
  let avg_fps := fps_history_sum g_fps_history 60 / 60
  let g_resolution_scale :=
    if avg_fps < target_fps * (85 / 100) then
      let scale := st.g_resolution_scale - 2 / 100
      if scale < 1 / 4 then 1 / 4 else scale
    else if avg_fps > target_fps * (11 / 10) ∧ st.g_resolution_scale < 1 then
      let scale := st.g_resolution_scale + 1 / 100
      if scale > 1 then 1 else scale
    else st.g_resolution_scale
  { g_resolution_scale := g_resolution_scale, g_fps_history := g_fps_history,
    g_fps_history_index := g_fps_history_index }

/-- The state after one call of `prismgl_update_adaptive_resolution(current_fps,
target_fps)` for each `current_fps` of `samples`, in this order. -/
def run_adaptive (st : AdaptiveState) (target_fps : Rat) (samples : List Rat) : AdaptiveState :=
  samples.foldl (fun st current_fps =>
    prismgl_update_adaptive_resolution st current_fps target_fps) st

/-- All sixty samples of the history are at least `target_fps`, and the index is in range. -/
def HistoryAtTarget (st : AdaptiveState) (target_fps : Rat) : Prop :=
  st.g_fps_history_index < 60 ∧ ∀ i, i < 60 → target_fps ≤ st.g_fps_history i

/-! ## Extension check (`gpu_detect.c`) -/

/-- The `while` loop of `check_extension` of `gpu_detect.c`, with `p` as an offset into
`extensions`; `fuel` bounds the rounds, and `none` stands for a loop that has not returned
within them. The char `p[i]` beyond the last one is the terminating NUL. -/
def check_extension_loop (extensions ext : CStr) : Nat → Nat → Option Bool
  | 0, _ => none
  | fuel + 1, p =>
    match strstr (extensions.drop p) ext with
    | none => some false
    | some k =>
      let p := p + k
      if (p = 0 ∨ extensions[p - 1]? = some ' ') ∧
          (extensions[p + ext.length]? = some ' ' ∨ extensions[p + ext.length]? = none) then some true
      else check_extension_loop extensions ext fuel (p + ext.length)

/-- The function `check_extension` of `gpu_detect.c`; `none` arguments are `NULL`. -/
def check_extension (extensions ext : Option CStr) (fuel : Nat) : Option Bool :=
  match extensions, ext with
  | some extensions, some ext => check_extension_loop extensions ext fuel 0
  | _, _ => some false

/-- The space-separated tokens of a text: the pieces between its spaces. -/
def spec_tokens : CStr → List CStr
  | [] => [[]]
  | c :: cs =>
    if c = ' ' then [] :: spec_tokens cs
    else
      match spec_tokens cs with
      | [] => [[c]]
      | t :: ts => (c :: t) :: ts

/-- The text `ext` stands in `extensions` at the offset `q`, after the start or a space,
and before a space or the end. -/
def DelimitedAt (extensions ext : CStr) (q : Nat) : Prop :=
  ext <+: extensions.drop q ∧ (q = 0 ∨ extensions[q - 1]? = some ' ') ∧
  (extensions[q + ext.length]? = some ' ' ∨ extensions[q + ext.length]? = none)

/-! ### Texts that the passes of the translation remove or cannot produce -/

/-- Whether the passes of the table write no new occurrence of `x`: for each row, the
replacement text cannot overlap an occurrence of `x`, or the pattern contains `x` (the pass
then changes nothing in a text without `x`). -/
def kept_absent_by (x : CStr) (table : List (CStr × CStr)) : Bool :=
  table.all (fun row => no_overlap x row.2 || contains row.1 x)

/-- Whether the table has a row with the pattern `x` whose replacement text cannot overlap
an occurrence of `x`, the rows after it writing no new occurrence of `x`. -/
def removed_by (x : CStr) : List (CStr × CStr) → Bool
  | [] => false
  | row :: rows =>
    (row.1 == x && !x.isEmpty && no_overlap x row.2 && kept_absent_by x rows) ||
      removed_by x rows

/-- The three passes of `shader_patch_samplers` as a table. -/
def sampler_replacements : List (CStr × CStr) :=
  [("sampler1D".toList, "sampler2D".toList),
   ("isampler1D".toList, "isampler2D".toList),
   ("usampler1D".toList, "usampler2D".toList)]

/-- The two passes of `shader_patch_builtins` after its table. -/
def noperspective_replacements : List (CStr × CStr) :=
  [("noperspective ".toList, "/* noperspective */ ".toList),
   ("noperspective\n".toList, "/* noperspective */\n".toList)]

/-- The passes of `translate_legacy` as a table; the declaration `out_decl` that
`insert_out_decl` inserts stands as the replacement text of an empty pattern. -/
def legacy_replacements : List (CStr × CStr) :=
  [("gl_FragColor".toList, "prismgl_FragColor".toList),
   ([], "out vec4 prismgl_FragColor;\n".toList),
   ("\nvarying ".toList, "\nin ".toList),
   ("\nattribute ".toList, "\nin ".toList),
   ("\nvarying ".toList, "\nout ".toList)]

/-- Whether the passes of the translation after the table of `shader_patch_builtins` write
no new occurrence of `x`. -/
def kept_absent_after_builtins (x : CStr) : Bool :=
  kept_absent_by x noperspective_replacements && kept_absent_by x type_replacements &&
    kept_absent_by x legacy_replacements

/-- Whether the insertion of the precision prelude and the passes of
`shader_patch_samplers` and of the table of `shader_patch_builtins` write no new occurrence
of `x`. -/
def kept_absent_by_prelude (x : CStr) : Bool :=
  no_overlap x precision_header_fragment && no_overlap x precision_header_other &&
    kept_absent_by x sampler_replacements && kept_absent_by x builtin_replacements

/-- The ten legacy built-in calls that the specification lists. -/
def spec_legacy_calls : List CStr :=
  ["texture2D(".toList, "texture3D(".toList, "textureCube(".toList, "texture2DProj(".toList,
   "texture2DLod(".toList, "texture3DLod(".toList, "textureCubeLod(".toList,
   "shadow2D(".toList, "shadow2DProj(".toList, "texture2DGrad(".toList]

/-- A shader for GLSL 1.20 that calls legacy built-ins. -/
def legacy_call_shader : CStr :=
  "#version 120\nvoid main()\x7b gl_FragColor = texture2D(s, uv) * shadow2D(d, p); \x7d".toList

/-! ### Texts that the passes of the translation keep -/

/-- The text `p0` followed by the char `c` occurs in `s`, and none of the texts of `watch`
does. -/
def DirectiveKept (p0 : CStr) (c : Char) (watch : List CStr) (s : CStr) : Prop :=
  (p0 ++ [c]) <:+: s ∧ ∀ x ∈ watch, ¬ x <:+: s

/-- Whether the pass of one row keeps `DirectiveKept`: it writes no text of `watch`, and its
pattern either cannot overlap `p0 ++ [c]`, or can only start at the char `c` and then
writes `c` again or stands after `p0` in a text of `watch`. -/
def row_keeps (p0 : CStr) (c : Char) (watch : List CStr) (row : CStr × CStr) : Bool :=
  watch.all (fun x => no_overlap x row.2 || contains row.1 x) &&
  (row.1.isEmpty || no_overlap row.1 (p0 ++ [c]) ||
    (no_overlap row.1 p0 && row.1.head? == some c &&
      (row.2.head? == some c || watch.contains (p0 ++ row.1))))

/-- Whether the insertion of the text `ins` at the start of a text, at its end or after a
line break keeps `DirectiveKept`. -/
def insertion_keeps (p0 : CStr) (c : Char) (watch : List CStr) (ins : CStr) : Bool :=
  !(p0 ++ [c]).contains '\n' && watch.all (fun x => !x.isEmpty && no_overlap x ins)

/-- Whether steps 3 to 7 of `shader_translate` keep `DirectiveKept`. -/
def pipeline_keeps (p0 : CStr) (c : Char) (watch : List CStr) : Bool :=
  insertion_keeps p0 c watch precision_header_fragment &&
  insertion_keeps p0 c watch precision_header_other &&
  sampler_replacements.all (row_keeps p0 c watch) &&
  builtin_replacements.all (row_keeps p0 c watch) &&
  noperspective_replacements.all (row_keeps p0 c watch) &&
  type_replacements.all (row_keeps p0 c watch) &&
  legacy_replacements.all (row_keeps p0 c watch) &&
  insertion_keeps p0 c watch "out vec4 prismgl_FragColor;\n".toList

/-! ### The version directive and the texts that can follow it -/

/-- The three texts that step 1 of `shader_translate` looks for in a source of version
`v`, in the order of the tests. -/
def version_directives (v : Int) : List CStr :=
  [format_version v " core".toList, format_version v " compatibility".toList,
   format_version v []]

/-- The texts that, standing directly after the version directive, make the `s` of the
directive `#version 320 es` the first char of the pattern `shadow2D(` or `shadow2DProj(`
of `builtin_replacements`. -/
def shadow_tails : List CStr := ["hadow2D(".toList, "hadow2DProj(".toList]

/-- The directive `#version 320 es` followed by one of the `shadow_tails`. -/
def shadowed_directives : List CStr :=
  ["#version 320 eshadow2D(".toList, "#version 320 eshadow2DProj(".toList]

/-- A source whose version directive is directly followed by the text `hadow2D(`. -/
def shadowed_shader : CStr := "#version 330hadow2D(x)".toList

/-- The output of `shader_translate` on `shadowed_shader` for a vertex shader. -/
def shadowed_output : CStr :=
  "precision highp float;\nprecision highp int;\n#version 320 etexture(x)".toList

/-- The output of `shader_translate` on `shadowed_output` for a vertex shader. -/
def shadowed_output_again : CStr :=
  ("precision highp float;\nprecision highp int;\n" ++
   "precision highp float;\nprecision highp int;\n#version 320 es etexture(x)").toList

/-! ### The renamed extensions -/

/-- The three rows of `ext_replacements` that rename an extension, as the specification
lists them. -/
def spec_extension_renames : List (CStr × CStr) :=
  [("#extension GL_ARB_texture_gather : enable".toList,
    "#extension GL_EXT_texture_gather : enable".toList),
   ("#extension GL_ARB_tessellation_shader : enable".toList,
    "#extension GL_EXT_tessellation_shader : enable".toList),
   ("#extension GL_ARB_geometry_shader4 : enable".toList,
    "#extension GL_EXT_geometry_shader : enable".toList)]

/-- Whether the table has the row `(x, y)`, the rows before it leaving every occurrence of
`x` in place and the rows after it every occurrence of `y`. -/
def rewritten_by (x y : CStr) : List (CStr × CStr) → Bool
  | [] => false
  | row :: rows =>
    (row.1 == x && row.2 == y && !x.isEmpty &&
        rows.all (fun r => r.1.isEmpty || no_overlap r.1 y)) ||
      ((row.1.isEmpty || no_overlap row.1 x) && rewritten_by x y rows)

/-- A shader that enables `GL_ARB_texture_gather`. -/
def gather_enable_shader : CStr :=
  "#version 330\n#extension GL_ARB_texture_gather : enable\nvoid main()\x7b\x7d".toList

/-- A shader that requires `GL_ARB_texture_gather`. -/
def gather_require_shader : CStr :=
  "#version 330\n#extension GL_ARB_texture_gather : require\nvoid main()\x7b\x7d".toList

/-- The output of `shader_translate` on `gather_require_shader` for a vertex shader. -/
def gather_require_output : CStr :=
  ("#version 320 es\nprecision highp float;\nprecision highp int;\n" ++
   "#extension GL_ARB_texture_gather : require\nvoid main()\x7b\x7d").toList

/-! ### The double-precision type names -/

/-- The six double-precision type names that the specification lists. -/
def spec_double_types : List CStr :=
  ["dvec2".toList, "dvec3".toList, "dvec4".toList, "dmat2".toList, "dmat3".toList,
   "dmat4".toList]

/-- Whether the table has a row that replaces the text `c :: rest` by `rest` and removes
every occurrence of it from a text without `c :: c :: rest`: the rows before it write no
`c :: c :: rest`, an occurrence of `rest` is written only where `c :: rest` stood, and the
rows after it write no new occurrence of `c :: rest`. -/
def removed_unless_doubled (c : Char) (rest : CStr) : List (CStr × CStr) → Bool
  | [] => false
  | row :: rows =>
    (row.1 == c :: rest && row.2 == rest && no_start_inside (c :: rest) rest &&
        !compat (c :: rest) rest && no_start_inside rest rest.tail &&
        kept_absent_by (c :: rest) rows) ||
      ((no_overlap (c :: c :: rest) row.2 || contains row.1 (c :: c :: rest)) &&
        removed_unless_doubled c rest rows)

/-- Whether steps 1 to 5 of `shader_translate` write no new occurrence of `x`. -/
def kept_absent_before_types (x : CStr) : Bool :=
  !x.isEmpty && no_overlap x "#version 320 es".toList &&
    no_overlap x "#version 320 es\n".toList && kept_absent_by x ext_replacements &&
    kept_absent_by_prelude x && kept_absent_by x noperspective_replacements

/-- A source in which the type name `dvec2` stands directly after the letter `d`. -/
def doubled_shader : CStr := "ddvec2 x;".toList

/-- The output of `shader_translate` on `doubled_shader` for a vertex shader. -/
def doubled_output : CStr :=
  "#version 320 es\nprecision highp float;\nprecision highp int;\ndvec2 x;".toList

/-- A shader for GLSL 4.00 that declares double-precision variables. -/
def double_shader : CStr :=
  "#version 400\nuniform dmat4 m; in dvec3 p; dmat2x3 q;".toList

/-! ### Theorems on the resolver -/

theorem find_override_table :
    g_overrides.all (fun e => find_override e.name g_overrides == some e.func) = true := by
  decide

/-- C1: for every entry of the override table, the resolver returns that entry's pointer
for the entry's name, whatever the driver exports. -/
theorem get_proc_address_override (d : Driver) (e : GLFuncEntry) (h : e ∈ g_overrides) :
    prismgl_get_proc_address d (some e.name) = some e.func := by
  have h1 := List.all_eq_true.mp find_override_table e h
  have h2 : find_override e.name g_overrides = some e.func := by simpa using h1
  simp [prismgl_get_proc_address, h2]

/-- Witness of C1: the driver exports `glBegin` as well, and the override is returned. -/
theorem get_proc_address_override_witness :
    (⟨"glBegin".toList, .impl "prismgl_glBegin"⟩ : GLFuncEntry) ∈ g_overrides ∧
    driver_exporting_all.eglGetProcAddr.bind (· "glBegin".toList) = some (.native 1) ∧
    prismgl_get_proc_address driver_exporting_all (some "glBegin".toList)
      = some (.impl "prismgl_glBegin") :=
  ⟨by decide, rfl,
   get_proc_address_override driver_exporting_all ⟨"glBegin".toList, .impl "prismgl_glBegin"⟩
     (by decide)⟩

/-! ### Theorems on the immediate-mode engine -/

theorem emit_apply_inv (s : ImmediateState) (e : Emit) :
    (e.apply s).active = s.active ∧ (e.apply s).mode = s.mode ∧
    ((e.apply s).count = s.count ∨ (e.apply s).count = s.count + 1) ∧
    (s.count ≤ MAX_IMMEDIATE_VERTICES → (e.apply s).count ≤ MAX_IMMEDIATE_VERTICES) := by
  cases e <;>
    simp only [Emit.apply, prismgl_glVertex2f, prismgl_glVertex3f, prismgl_glTexCoord2f,
      prismgl_glColor3f, prismgl_glColor4f, prismgl_glNormal3f] <;>
    first
    | (split <;> simp_all <;> omega)
    | simp

theorem foldl_emit_inv (es : List Emit) (s : ImmediateState) :
    (es.foldl Emit.apply s).active = s.active ∧ (es.foldl Emit.apply s).mode = s.mode ∧
    (s.count ≤ MAX_IMMEDIATE_VERTICES →
      (es.foldl Emit.apply s).count ≤ MAX_IMMEDIATE_VERTICES) := by
  induction es generalizing s with
  | nil => simp
  | cons e es ih =>
    obtain ⟨h1, h2, _, h4⟩ := emit_apply_inv s e
    obtain ⟨i1, i2, i3⟩ := ih (e.apply s)
    simp only [List.foldl_cons]
    exact ⟨i1.trans h1, i2.trans h2, fun h => i3 (h4 h)⟩

theorem batch_state_inv (s : ImmediateState) (gen : GenNames) (mode : Nat)
    (es : List Emit) :
    (batch_state s gen mode es).active = true ∧ (batch_state s gen mode es).mode = mode ∧
    (batch_state s gen mode es).count ≤ MAX_IMMEDIATE_VERTICES := by
  obtain ⟨i1, i2, i3⟩ := foldl_emit_inv es (prismgl_glBegin s gen mode).1
  have hb : (prismgl_glBegin s gen mode).1.active = true ∧
      (prismgl_glBegin s gen mode).1.mode = mode ∧
      (prismgl_glBegin s gen mode).1.count = 0 := by
    simp [prismgl_glBegin]
  refine ⟨i1.trans hb.1, i2.trans hb.2.1, i3 ?_⟩
  rw [hb.2.2]; exact Nat.zero_le _

theorem quad_indices_eq_spec (q : Nat) (hq : 4 * q ≤ 65536) :
    quad_indices q = spec_quad_indices q := by
  induction q with
  | zero => rfl
  | succ i ih =>
    have hi := ih (by omega)
    simp only [spec_quad_indices] at hi ⊢
    simp only [quad_indices, hi, List.range_succ, List.map_append, List.flatten_append,
      List.map_cons, List.map_nil, List.flatten_cons, List.flatten_nil, List.append_nil,
      to_GLushort]
    have e0 : (i * 4 + 0) % 65536 = 4 * i := by omega
    have e1 : (i * 4 + 1) % 65536 = 4 * i + 1 := by omega
    have e2 : (i * 4 + 2) % 65536 = 4 * i + 2 := by omega
    have e3 : (i * 4 + 3) % 65536 = 4 * i + 3 := by omega
    rw [e0, e1, e2, e3]

/-- C2: when a batch opened with `glBegin(GL_QUADS)` holds `n ≥ 4` vertices, `glEnd` issues
exactly one draw call, `glDrawElements(GL_TRIANGLES, 6 * (n / 4), GL_UNSIGNED_SHORT, 0)`
(so no `glDrawArrays`), and uploads exactly one index array, the concatenation over
`i < n / 4` of `(4i, 4i+1, 4i+2, 4i, 4i+2, 4i+3)`. -/
theorem glEnd_quads_draw (s0 : ImmediateState) (gen : GenNames) (es : List Emit)
    (hn : 4 ≤ (batch_state s0 gen GL_QUADS es).count) :
    ((prismgl_glEnd (batch_state s0 gen GL_QUADS es)).2.filter GLCall.isDraw
      = [.glDrawElements GL_TRIANGLES
          ((6 * ((batch_state s0 gen GL_QUADS es).count / 4) : Nat) : Int)
          GL_UNSIGNED_SHORT 0]) ∧
    uploaded_indices (prismgl_glEnd (batch_state s0 gen GL_QUADS es)).2
      = [spec_quad_indices ((batch_state s0 gen GL_QUADS es).count / 4)] := by
  obtain ⟨ha, hm, hc⟩ := batch_state_inv s0 gen GL_QUADS es
  generalize batch_state s0 gen GL_QUADS es = s at *
  have hne : s.count ≠ 0 := by omega
  have hq : quad_indices (s.count / 4) = spec_quad_indices (s.count / 4) :=
    quad_indices_eq_spec _ (by simp only [MAX_IMMEDIATE_VERTICES] at hc; omega)
  have hcast : ((s.count / 4 * 6 : Nat) : Int) = ((6 * (s.count / 4) : Nat) : Int) := by
    rw [Nat.mul_comm]
  simp [prismgl_glEnd, ha, hm, hne, GLCall.isDraw, uploaded_indices, hq, Nat.mul_comm]

/-- Witness of C2: four and eight vertices in a `GL_QUADS` batch. -/
theorem glEnd_quads_draw_witness :
    4 ≤ (batch_state g_immediate_init ⟨1, 2, 3⟩ GL_QUADS
      [.vertex3f 0 0 0, .vertex3f 1 0 0, .vertex3f 1 1 0, .vertex3f 0 1 0]).count ∧
    spec_quad_indices (4 / 4) = [0, 1, 2, 0, 2, 3] ∧
    spec_quad_indices (8 / 4) = [0, 1, 2, 0, 2, 3, 4, 5, 6, 4, 6, 7] ∧
    uploaded_indices (prismgl_glEnd (batch_state g_immediate_init ⟨1, 2, 3⟩ GL_QUADS
      [.vertex3f 0 0 0, .vertex3f 1 0 0, .vertex3f 1 1 0, .vertex3f 0 1 0])).2
      = [[0, 1, 2, 0, 2, 3]] :=
  ⟨by decide, by decide, by decide,
   (glEnd_quads_draw g_immediate_init ⟨1, 2, 3⟩
      [.vertex3f 0 0 0, .vertex3f 1 0 0, .vertex3f 1 1 0, .vertex3f 0 1 0] (by decide)).2⟩

/-! ### Theorems on the batch coalescer -/

theorem wrap_int32_of_range (v : Int) (h0 : 0 ≤ v) (h1 : v < 2147483648) :
    wrap_int32 v = v := by
  unfold wrap_int32; omega

theorem wrap_int32_of_in_int32 (v : Int) (h : in_int32 v = true) : wrap_int32 v = v := by
  simp only [in_int32, decide_eq_true_eq] at h
  unfold wrap_int32; omega

theorem drop_eq_slot (b : BatchState) (q : List BatchDraw)
    (hq : q = (List.range b.count).map b.draws) (j : Nat) (hj : j < b.count) :
    q.drop j = b.draws j :: q.drop (j + 1) := by
  have hlen : j < q.length := by rw [hq]; simpa using hj
  rw [List.drop_eq_getElem_cons hlen]
  congr 1
  subst hq
  simp

theorem drop_eq_nil_of_count_le (b : BatchState) (q : List BatchDraw)
    (hq : q = (List.range b.count).map b.draws) (j : Nat) (hj : b.count ≤ j) :
    q.drop j = [] := by
  apply List.drop_eq_nil_of_le
  rw [hq]; simpa using hj

theorem batch_run_end_spec (b : BatchState) (q : List BatchDraw)
    (hq : q = (List.range b.count).map b.draws) (mode : Nat) (first : Int) :
    ∀ (fuel : Nat) (total : Int) (j : Nat), b.count ≤ j + fuel →
      flush_in_range_from mode first total (q.drop j) = true →
      spec_runs_from mode first total (q.drop j)
        = .glDrawArrays mode first (batch_run_end b mode first fuel total j).1
            :: spec_runs (q.drop (batch_run_end b mode first fuel total j).2) ∧
      j ≤ (batch_run_end b mode first fuel total j).2 ∧
      flush_in_range (q.drop (batch_run_end b mode first fuel total j).2) = true := by
  intro fuel
  induction fuel with
  | zero =>
    intro total j hfuel _
    have hnil := drop_eq_nil_of_count_le b q hq j (by omega)
    simp [batch_run_end, hnil, spec_runs_from, spec_runs, flush_in_range]
  | succ fuel ih =>
    intro total j hfuel hr
    by_cases hj : j < b.count
    · have hdrop := drop_eq_slot b q hq j hj
      rw [hdrop] at hr
      by_cases hm : (b.draws j).mode = mode
      · simp only [flush_in_range_from, hm, if_true, Bool.and_eq_true] at hr
        have hw1 : wrap_int32 (first + total) = first + total :=
          wrap_int32_of_in_int32 _ hr.1
        by_cases hfirst : (b.draws j).first = first + total
        · simp only [hfirst, if_true, Bool.and_eq_true] at hr
          have hw2 : wrap_int32 (total + (b.draws j).count) = total + (b.draws j).count :=
            wrap_int32_of_in_int32 _ hr.2.1
          have hstep := ih (total + (b.draws j).count) (j + 1) (by omega) hr.2.2
          have hcond : j < b.count ∧ (b.draws j).mode = mode ∧
              (b.draws j).first = wrap_int32 (first + total) := ⟨hj, hm, by rw [hw1]; exact hfirst⟩
          have hspec : spec_runs_from mode first total (q.drop j)
              = spec_runs_from mode first (total + (b.draws j).count) (q.drop (j + 1)) := by
            rw [hdrop]
            simp only [spec_runs_from, hm, hfirst, and_self, if_true]
          have hrun : batch_run_end b mode first (fuel + 1) total j
              = batch_run_end b mode first fuel (total + (b.draws j).count) (j + 1) := by
            simp only [batch_run_end, hcond, and_self, if_true, hw2]
          rw [hspec, hrun]
          exact ⟨hstep.1, by have := hstep.2.1; omega, hstep.2.2⟩
        · simp only [hfirst, if_false] at hr
          have hcond2 : ¬ (j < b.count ∧ (b.draws j).mode = mode ∧
              (b.draws j).first = wrap_int32 (first + total)) := by
            rw [hw1]; exact fun h => hfirst h.2.2
          have hrun : batch_run_end b mode first (fuel + 1) total j = (total, j) := by
            simp only [batch_run_end, hcond2, if_false]
          rw [hrun]
          refine ⟨?_, le_refl _, ?_⟩
          · simp only []
            rw [hdrop]
            simp [spec_runs_from, hfirst, spec_runs]
          · simp only []
            rw [hdrop]
            simp only [flush_in_range, hm]
            exact hr.2
      · simp only [flush_in_range_from, hm, if_false] at hr
        have hcond2 : ¬ (j < b.count ∧ (b.draws j).mode = mode ∧
            (b.draws j).first = wrap_int32 (first + total)) := fun h => hm h.2.1
        have hrun : batch_run_end b mode first (fuel + 1) total j = (total, j) := by
          simp only [batch_run_end, hcond2, if_false]
        rw [hrun]
        refine ⟨?_, le_refl _, ?_⟩
        · simp only []
          rw [hdrop]
          simp [spec_runs_from, hm, spec_runs]
        · simp only []
          rw [hdrop]
          exact hr
    · have hnil := drop_eq_nil_of_count_le b q hq j (by omega)
      have hcond2 : ¬ (j < b.count ∧ (b.draws j).mode = mode ∧
          (b.draws j).first = wrap_int32 (first + total)) := fun h => hj h.1
      simp [batch_run_end, hcond2, hnil, spec_runs_from, spec_runs, flush_in_range]

theorem batch_flush_loop_spec (b : BatchState) (q : List BatchDraw)
    (hq : q = (List.range b.count).map b.draws) :
    ∀ (fuel i : Nat), b.count ≤ i + fuel → flush_in_range (q.drop i) = true →
      batch_flush_loop b fuel i = spec_runs (q.drop i) := by
  intro fuel
  induction fuel with
  | zero =>
    intro i hfuel _
    have hnil := drop_eq_nil_of_count_le b q hq i (by omega)
    simp [batch_flush_loop, hnil, spec_runs]
  | succ fuel ih =>
    intro i hfuel hr
    by_cases hi : i < b.count
    · have hdrop := drop_eq_slot b q hq i hi
      rw [hdrop] at hr
      simp only [flush_in_range] at hr
      have hin := batch_run_end_spec b q hq (b.draws i).mode (b.draws i).first
        b.count (b.draws i).count (i + 1) (by omega) hr
      rw [hdrop]
      simp only [batch_flush_loop, hi, if_true, spec_runs]
      rw [hin.1, ih _ (by have := hin.2.1; omega) hin.2.2]
    · have hnil := drop_eq_nil_of_count_le b q hq i (by omega)
      simp [batch_flush_loop, hi, hnil, spec_runs]

theorem batch_fill_fold (q : List BatchDraw) :
    ∀ (st : BatchState × List GLCall), st.1.active = true →
      st.1.count + q.length ≤ MAX_BATCH_DRAWS →
      let r := q.foldl (fun st e =>
          let r := prismgl_batch_draw st.1 e.mode e.first e.count
          (r.1, st.2 ++ r.2)) st
      r.2 = st.2 ∧ r.1.active = true ∧ r.1.count = st.1.count + q.length ∧
      (List.range r.1.count).map r.1.draws = (List.range st.1.count).map st.1.draws ++ q := by
  induction q with
  | nil => intro st ha _; simp [ha]
  | cons e es ih =>
    intro st ha hlen
    simp only [List.length_cons] at hlen
    have hlt : ¬ (st.1.count ≥ MAX_BATCH_DRAWS) := by omega
    have hstep : prismgl_batch_draw st.1 e.mode e.first e.count
        = (⟨Function.update st.1.draws st.1.count ⟨e.mode, e.first, e.count⟩,
            st.1.count + 1, st.1.active⟩, []) := by
      simp [prismgl_batch_draw, ha, hlt]
    have := ih (⟨Function.update st.1.draws st.1.count ⟨e.mode, e.first, e.count⟩,
            st.1.count + 1, st.1.active⟩, st.2) ha (by simp only; omega)
    simp only [List.foldl_cons, hstep, List.append_nil]
    simp only at this
    obtain ⟨t1, t2, t3, t4⟩ := this
    refine ⟨t1, t2, by rw [t3, List.length_cons]; omega, ?_⟩
    rw [t4, List.range_succ, List.map_append]
    simp only [List.map_cons, List.map_nil, Function.update_same, List.append_assoc,
      List.singleton_append]
    congr 1
    apply List.map_congr_left
    intro a ha2
    have : a ≠ st.1.count := by
      have := List.mem_range.mp ha2; omega
    simp [Function.update_noteq this]

/-- C3, amended: a queue `q` of at most 256 entries, filled by `prismgl_batch_draw` after
`prismgl_batch_begin` (which issues no driver call), on whose flush no `int` sum overflows
(`flush_in_range`: each `first + total_count` that the loop compares and each
`total_count + count` that it forms is a value of `int`), is flushed as exactly one
`glDrawArrays` per greedy run of the spec, in order; afterwards the queue is empty and
inactive. -/
theorem batch_flush_greedy (b0 : BatchState) (q : List BatchDraw)
    (hk : q.length ≤ MAX_BATCH_DRAWS) (hr : flush_in_range q = true) :
    (batch_fill b0 q).2 = [] ∧
    (prismgl_batch_flush (batch_fill b0 q).1).2 = spec_runs q ∧
    (prismgl_batch_flush (batch_fill b0 q).1).1.count = 0 ∧
    (prismgl_batch_flush (batch_fill b0 q).1).1.active = false := by
  have hfill := batch_fill_fold q (prismgl_batch_begin b0, []) rfl
    (by simp only [prismgl_batch_begin]; omega)
  simp only at hfill
  obtain ⟨f1, f2, f3, f4⟩ := hfill
  have hq : q = (List.range (batch_fill b0 q).1.count).map (batch_fill b0 q).1.draws := by
    unfold batch_fill
    rw [f4]; simp [prismgl_batch_begin]
  have hcount : (batch_fill b0 q).1.count = q.length := by
    unfold batch_fill
    rw [f3]; simp [prismgl_batch_begin]
  have hact : (batch_fill b0 q).1.active = true := f2
  have f1a : (batch_fill b0 q).2 = [] := f1
  refine ⟨f1a, ?_⟩
  clear f1 f2 f3 f4 f1a
  generalize (batch_fill b0 q).1 = b at hq hcount hact ⊢
  by_cases h0 : b.count = 0
  · have hnil : q = [] := List.length_eq_zero.mp (by omega)
    simp [prismgl_batch_flush, h0, hnil, spec_runs]
  · have hloop := batch_flush_loop_spec b q hq b.count 0 (by omega)
      (by rw [List.drop_zero]; exact hr)
    simp only [List.drop_zero] at hloop
    simp [prismgl_batch_flush, hact, h0, hloop]

/-- Witness of C3: the two queues of the spec; no sum overflows on the first, which is
flushed as one call. -/
theorem batch_flush_greedy_witness :
    ([⟨GL_TRIANGLES, 0, 6⟩, ⟨GL_TRIANGLES, 6, 6⟩, ⟨GL_TRIANGLES, 12, 3⟩] :
      List BatchDraw).length ≤ MAX_BATCH_DRAWS ∧
    flush_in_range [⟨GL_TRIANGLES, 0, 6⟩, ⟨GL_TRIANGLES, 6, 6⟩, ⟨GL_TRIANGLES, 12, 3⟩]
      = true ∧
    spec_runs [⟨GL_TRIANGLES, 0, 6⟩, ⟨GL_TRIANGLES, 6, 6⟩, ⟨GL_TRIANGLES, 12, 3⟩]
      = [.glDrawArrays GL_TRIANGLES 0 15] ∧
    spec_runs [⟨GL_TRIANGLES, 0, 6⟩, ⟨GL_TRIANGLES, 10, 6⟩]
      = [.glDrawArrays GL_TRIANGLES 0 6, .glDrawArrays GL_TRIANGLES 10 6] ∧
    (prismgl_batch_flush (batch_fill g_batch_init
      [⟨GL_TRIANGLES, 0, 6⟩, ⟨GL_TRIANGLES, 6, 6⟩, ⟨GL_TRIANGLES, 12, 3⟩]).1).2
      = [.glDrawArrays GL_TRIANGLES 0 15] :=
  ⟨by decide, by decide, by decide, by decide,
   (batch_flush_greedy g_batch_init
      [⟨GL_TRIANGLES, 0, 6⟩, ⟨GL_TRIANGLES, 6, 6⟩, ⟨GL_TRIANGLES, 12, 3⟩] (by decide)
      (by decide)).2.1⟩

/-- Counterexample of C3 as stated: on the queue `(TRIANGLES, 0, 2147483647)`,
`(TRIANGLES, 2147483647, 1)` the greedy run has `2147483648` vertices, which is not a value
of `int`: the sum `total_count + count` wraps and the flush issues the count
`-2147483648`. On the queue `(TRIANGLES, 2147483647, 1)`, `(TRIANGLES, -2147483648, 1)`
the sum `first + total_count` wraps to the `first` of the second entry, and the flush
issues one call where the spec has two runs. -/
theorem batch_flush_greedy_counterexample :
    ([⟨GL_TRIANGLES, 0, 2147483647⟩, ⟨GL_TRIANGLES, 2147483647, 1⟩] :
      List BatchDraw).length ≤ MAX_BATCH_DRAWS ∧
    (prismgl_batch_flush (batch_fill g_batch_init
      [⟨GL_TRIANGLES, 0, 2147483647⟩, ⟨GL_TRIANGLES, 2147483647, 1⟩]).1).2
      = [.glDrawArrays GL_TRIANGLES 0 (-2147483648)] ∧
    spec_runs [⟨GL_TRIANGLES, 0, 2147483647⟩, ⟨GL_TRIANGLES, 2147483647, 1⟩]
      = [.glDrawArrays GL_TRIANGLES 0 2147483648] ∧
    (prismgl_batch_flush (batch_fill g_batch_init
      [⟨GL_TRIANGLES, 2147483647, 1⟩, ⟨GL_TRIANGLES, -2147483648, 1⟩]).1).2
      = [.glDrawArrays GL_TRIANGLES 2147483647 2] ∧
    spec_runs [⟨GL_TRIANGLES, 2147483647, 1⟩, ⟨GL_TRIANGLES, -2147483648, 1⟩]
      = [.glDrawArrays GL_TRIANGLES 2147483647 1,
         .glDrawArrays GL_TRIANGLES (-2147483648) 1] := by
  decide

/-! ### Theorems on `strstr` and `str_replace_all` -/

theorem strstr_isSome_iff (hay needle : CStr) :
    (strstr hay needle).isSome = true ↔ needle <:+: hay := by
  induction hay with
  | nil =>
    simp only [strstr, List.infix_nil]
    cases needle <;> simp [List.isPrefixOf]
  | cons c cs ih =>
    simp only [strstr, List.infix_cons_iff]
    by_cases h : needle.isPrefixOf (c :: cs) = true
    · simp [h, List.isPrefixOf_iff_prefix.mp h]
    · have h2 : ¬ needle <+: c :: cs := fun hp => h (List.isPrefixOf_iff_prefix.mpr hp)
      simp only [h, h2, false_or, Option.isSome_map, if_false, Bool.false_eq_true]
      simpa using ih

theorem contains_iff (hay needle : CStr) :
    contains hay needle = true ↔ needle <:+: hay :=
  strstr_isSome_iff hay needle

theorem strstr_prefix_zero (hay needle : CStr) (h : needle <+: hay) :
    strstr hay needle = some 0 := by
  cases hay with
  | nil => simp [strstr, List.isPrefixOf_iff_prefix.mpr h]
  | cons c cs => simp [strstr, List.isPrefixOf_iff_prefix.mpr h]

theorem compat_of_prefix_append (x y t : CStr) (h : x <+: y ++ t) : compat x y = true := by
  have := List.prefix_or_prefix_of_prefix h (List.prefix_append y t)
  rcases this with h1 | h1
  · simp [compat, List.isPrefixOf_iff_prefix.mpr h1]
  · simp [compat, List.isPrefixOf_iff_prefix.mpr h1]

theorem compat_comm (x y : CStr) : compat x y = compat y x := by
  simp [compat, Bool.or_comm]

theorem no_start_inside_tail (x : CStr) (c : Char) (cs : CStr)
    (h : no_start_inside x (c :: cs) = true) :
    compat x (c :: cs) = false ∧ no_start_inside x cs = true := by
  simpa [no_start_inside] using h

theorem repl_of_no_occurrence (find rep : CStr) (s : CStr) (h : ¬ find <:+: s) :
    Repl find rep s s := by
  induction s with
  | nil => exact Repl.nil
  | cons c cs ih =>
    rw [List.infix_cons_iff] at h
    exact Repl.skip c cs cs (fun hp => h (Or.inl hp)) (ih (fun hi => h (Or.inr hi)))

theorem str_replace_loop_repl (find rep : CStr) (hf : find ≠ []) :
    ∀ (fuel : Nat) (s : CStr), s.length ≤ fuel →
      Repl find rep s (str_replace_loop find rep fuel s) := by
  intro fuel
  induction fuel with
  | zero =>
    intro s hs
    have : s = [] := List.length_eq_zero.mp (by omega)
    subst this
    exact Repl.nil
  | succ fuel ih =>
    intro s hs
    cases s with
    | nil => exact Repl.nil
    | cons c cs =>
      by_cases h : find.isPrefixOf (c :: cs) = true
      · have hp := List.isPrefixOf_iff_prefix.mp h
        have hsplit := List.prefix_iff_eq_append.mp hp
        have hlen : 0 < find.length := List.length_pos.mpr hf
        have hdrop : ((c :: cs).drop find.length).length ≤ fuel := by
          rw [List.length_drop]; simp only [List.length_cons] at hs ⊢; omega
        have hrec := ih _ hdrop
        simp only [str_replace_loop, h, if_true]
        have := @Repl.hit find rep _ _ hrec
        rw [hsplit] at this
        exact this
      · have hp : ¬ find <+: c :: cs := fun hp => h (List.isPrefixOf_iff_prefix.mpr hp)
        simp only [str_replace_loop, h, if_false, Bool.false_eq_true]
        exact Repl.skip c cs _ hp (ih cs (by simp only [List.length_cons] at hs; omega))

theorem str_replace_all_repl (source find rep : CStr) (hf : find ≠ []) :
    Repl find rep source (str_replace_all source find rep) := by
  unfold str_replace_all
  have hlen : find.length ≠ 0 := fun h => hf (List.length_eq_zero.mp h)
  simp only [hlen, if_false]
  by_cases h : (strstr source find).isNone = true
  · simp only [h, if_true]
    apply repl_of_no_occurrence
    intro hi
    have := (strstr_isSome_iff source find).mpr hi
    rw [Option.isNone_iff_eq_none] at h
    rw [h] at this
    simp at this
  · simp only [h, if_false, Bool.false_eq_true]
    exact str_replace_loop_repl find rep hf _ _ (Nat.le_refl _)

theorem repl_hit_inv (find rep : CStr) (hf : find ≠ []) (t r : CStr)
    (h : Repl find rep (find ++ t) r) : ∃ t2, r = rep ++ t2 ∧ Repl find rep t t2 := by
  generalize hs : find ++ t = s at h
  cases h with
  | nil =>
    have : find = [] := (List.append_eq_nil.mp hs).1
    exact absurd this hf
  | hit t0 t2 h0 =>
    have : t = t0 := List.append_cancel_left hs
    subst this
    exact ⟨t2, rfl, h0⟩
  | skip c t0 t2 hn h0 =>
    exact absurd ⟨t, hs⟩ hn

theorem repl_skip_inv (find rep : CStr) (c : Char) (t r : CStr)
    (hn : ¬ find <+: c :: t) (h : Repl find rep (c :: t) r) :
    ∃ t2, r = c :: t2 ∧ Repl find rep t t2 := by
  generalize hs : c :: t = s at h
  cases h with
  | nil => cases hs
  | hit t0 t2 h0 =>
    exact absurd ⟨t0, hs.symm⟩ hn
  | skip c0 t0 t2 _ h0 =>
    cases hs
    exact ⟨t2, rfl, h0⟩

/-- A prefix of the result that no replacement text can run into is a prefix of the
source. -/
theorem repl_prefix_source (find rep : CStr) (s r : CStr) (h : Repl find rep s r) :
    ∀ (y : CStr), no_start_inside rep y = true → y <+: r → y <+: s := by
  induction h with
  | nil => intro y _ hy; exact hy
  | hit t t2 _ _ =>
    intro y hc hy
    cases y with
    | nil => exact List.nil_prefix
    | cons a y1 =>
      have h1 := (no_start_inside_tail rep a y1 hc).1
      have h2 := compat_of_prefix_append (a :: y1) rep t2 hy
      rw [compat_comm] at h2
      rw [h1] at h2
      cases h2
  | skip c t t2 _ _ ih =>
    intro y hc hy
    cases y with
    | nil => exact List.nil_prefix
    | cons a y1 =>
      have h1 := (no_start_inside_tail rep a y1 hc).2
      rw [List.cons_prefix_cons] at hy ⊢
      exact ⟨hy.1, ih y1 h1 hy.2⟩

theorem infix_append_cases (x a b : CStr) (h : x <:+: a ++ b) :
    (∃ a1 a2, a = a1 ++ a2 ∧ a2 ≠ [] ∧ x <+: a2 ++ b) ∨ x <:+: b := by
  induction a with
  | nil => exact Or.inr (by simpa using h)
  | cons c cs ih =>
    rw [List.cons_append, List.infix_cons_iff] at h
    rcases h with h | h
    · exact Or.inl ⟨[], c :: cs, rfl, by simp, h⟩
    · rcases ih h with ⟨a1, a2, e, hne, hp⟩ | h2
      · exact Or.inl ⟨c :: a1, a2, by rw [e]; rfl, hne, hp⟩
      · exact Or.inr h2

theorem no_start_inside_suffix (x : CStr) (a1 a2 : CStr)
    (h : no_start_inside x (a1 ++ a2) = true) : no_start_inside x a2 = true := by
  induction a1 with
  | nil => simpa using h
  | cons c cs ih => exact ih (no_start_inside_tail x c (cs ++ a2) h).2

theorem not_prefix_inside (x rep t : CStr) (h : no_start_inside x rep = true)
    (a1 a2 : CStr) (e : rep = a1 ++ a2) (hne : a2 ≠ []) : ¬ x <+: a2 ++ t := by
  intro hp
  have h2 := no_start_inside_suffix x a1 a2 (e ▸ h)
  cases a2 with
  | nil => exact hne rfl
  | cons c cs =>
    have h3 := (no_start_inside_tail x c cs h2).1
    have h4 := compat_of_prefix_append x (c :: cs) t hp
    rw [h3] at h4
    cases h4

/-- An occurrence of `x` in the result, when `x` cannot overlap the replacement text, is an
occurrence in the source: the replacing creates no occurrence of `x`. -/
theorem repl_infix_source (find rep : CStr) (x : CStr) (hx : no_overlap x rep = true)
    (s r : CStr) (h : Repl find rep s r) : x <:+: r → x <:+: s := by
  have hx1 : no_start_inside x rep = true := by
    simp only [no_overlap, Bool.and_eq_true] at hx; exact hx.1
  have hx2 : no_start_inside rep x = true := by
    simp only [no_overlap, Bool.and_eq_true] at hx; exact hx.2
  induction h with
  | nil => exact id
  | hit t t2 _ ih =>
    intro hi
    rcases infix_append_cases x rep t2 hi with ⟨a1, a2, e, hne, hp⟩ | h2
    · exact absurd hp (not_prefix_inside x rep t2 hx1 a1 a2 e hne)
    · exact (ih h2).trans (List.suffix_append find t).isInfix
  | skip c t t2 _ hrep ih =>
    intro hi
    rw [List.infix_cons_iff] at hi ⊢
    rcases hi with hp | h2
    · exact Or.inl (repl_prefix_source find rep (c :: t) (c :: t2)
        (Repl.skip c t t2 ‹_› hrep) x hx2 hp)
    · exact Or.inr (ih h2)

/-- When `find` cannot overlap the replacement text, the result has no occurrence of
`find`. -/
theorem repl_no_find (find rep : CStr) (hf : find ≠ []) (hx : no_overlap find rep = true)
    (s r : CStr) (h : Repl find rep s r) : ¬ find <:+: r := by
  have hx1 : no_start_inside find rep = true := by
    simp only [no_overlap, Bool.and_eq_true] at hx; exact hx.1
  have hx2 : no_start_inside rep find = true := by
    simp only [no_overlap, Bool.and_eq_true] at hx; exact hx.2
  induction h with
  | nil => intro hi; exact hf (List.infix_nil.mp hi)
  | hit t t2 _ ih =>
    intro hi
    rcases infix_append_cases find rep t2 hi with ⟨a1, a2, e, hne, hp⟩ | h2
    · exact absurd hp (not_prefix_inside find rep t2 hx1 a1 a2 e hne)
    · exact ih h2
  | skip c t t2 hn hrep ih =>
    intro hi
    rw [List.infix_cons_iff] at hi
    rcases hi with hp | h2
    · exact hn (repl_prefix_source find rep (c :: t) (c :: t2)
        (Repl.skip c t t2 hn hrep) find hx2 hp)
    · exact ih h2

/-- A prefix `p` of the source inside which `find` cannot start is copied unchanged. -/
theorem repl_prefix_kept (find rep : CStr) (p : CStr) :
    no_start_inside find p = true → ∀ (s r : CStr), Repl find rep (p ++ s) r →
      ∃ r2, r = p ++ r2 ∧ Repl find rep s r2 := by
  induction p with
  | nil => intro _ s r h; exact ⟨r, rfl, h⟩
  | cons c cs ih =>
    intro hc s r h
    obtain ⟨h1, h2⟩ := no_start_inside_tail find c cs hc
    have hn : ¬ find <+: c :: (cs ++ s) := by
      intro hp
      have := compat_of_prefix_append find (c :: cs) s hp
      rw [h1] at this; cases this
    obtain ⟨t2, e, ht⟩ := repl_skip_inv find rep c (cs ++ s) r hn h
    obtain ⟨r2, e2, hr2⟩ := ih h2 s t2 ht
    exact ⟨r2, by rw [e, e2]; rfl, hr2⟩

/-- An occurrence of `p` in the source, when `find` cannot overlap `p`, is kept by the
replacing. -/
theorem repl_infix_kept (find rep : CStr) (p : CStr)
    (hx : no_overlap find p = true) (s r : CStr) (h : Repl find rep s r) :
    p <:+: s → p <:+: r := by
  have hx1 : no_start_inside find p = true := by
    simp only [no_overlap, Bool.and_eq_true] at hx; exact hx.1
  have hx2 : no_start_inside p find = true := by
    simp only [no_overlap, Bool.and_eq_true] at hx; exact hx.2
  induction h with
  | nil => exact id
  | hit t t2 hrep ih =>
    intro hi
    rcases infix_append_cases p find t hi with ⟨a1, a2, e, hne, hp⟩ | h2
    · cases p with
      | nil => exact List.nil_infix
      | cons a p1 => exact absurd hp (not_prefix_inside (a :: p1) find t hx2 a1 a2 e hne)
    · exact (ih h2).trans (List.suffix_append rep t2).isInfix
  | skip c t t2 hn hrep ih =>
    intro hi
    rw [List.infix_cons_iff] at hi
    rcases hi with hp | h2
    · obtain ⟨b, hb⟩ := hp
      have hfull : Repl find rep (p ++ b) (c :: t2) := hb ▸ Repl.skip c t t2 hn hrep
      obtain ⟨r2, e2, _⟩ := repl_prefix_kept find rep p hx1 b (c :: t2) hfull
      exact ⟨[], r2, by simpa using e2.symm⟩
    · exact List.infix_cons (ih h2)

theorem str_replace_all_prefix_kept (find rep p s : CStr) (hf : find ≠ [])
    (hc : no_start_inside find p = true) :
    ∃ r, str_replace_all (p ++ s) find rep = p ++ r := by
  obtain ⟨r2, e, _⟩ := repl_prefix_kept find rep p hc s _
    (str_replace_all_repl (p ++ s) find rep hf)
  exact ⟨r2, e⟩

theorem replace_table_prefix_kept (table : List (CStr × CStr)) (p : CStr)
    (h : table.all (fun row => !row.1.isEmpty && no_start_inside row.1 p) = true) :
    ∀ (s : CStr), ∃ r, replace_table table (p ++ s) = p ++ r := by
  induction table with
  | nil => intro s; exact ⟨s, rfl⟩
  | cons row rows ih =>
    intro s
    simp only [List.all_cons, Bool.and_eq_true, Bool.not_eq_true', List.isEmpty_eq_false] at h
    obtain ⟨⟨h1, h2⟩, h3⟩ := h
    obtain ⟨r1, e1⟩ := str_replace_all_prefix_kept row.1 row.2 p s h1 h2
    obtain ⟨r2, e2⟩ := ih h3 r1
    refine ⟨r2, ?_⟩
    simp only [replace_table, List.foldl_cons] at e2 ⊢
    rw [e1]; exact e2

/-! ### Theorems on the translator -/

/-- C7: a source of at most 256 KiB that begins with `#version 300 es`, `#version 310 es`
or `#version 320 es` is translated successfully, for every stage, and the translated
source is the source itself. -/
theorem translate_es_passthrough (source : CStr) (shader_type : Nat)
    (hp : "#version 300 es".toList <+: source ∨ "#version 310 es".toList <+: source ∨
      "#version 320 es".toList <+: source)
    (hl : source.length ≤ MAX_SHADER_SIZE) :
    (shader_translate (some source) shader_type).success = true ∧
    (shader_translate (some source) shader_type).translated_source = some source := by
  have hne : source.length ≠ 0 := by
    rcases hp with h | h | h <;>
    · have := h.length_le
      have h15 : 0 < source.length := Nat.lt_of_lt_of_le (by decide) this
      omega
  have hnl : ¬ source.length > MAX_SHADER_SIZE := by omega
  have hes : contains source "#version 320 es".toList = true ∨
      contains source "#version 310 es".toList = true ∨
      contains source "#version 300 es".toList = true := by
    rcases hp with h | h | h
    · exact Or.inr (Or.inr ((contains_iff _ _).mpr h.isInfix))
    · exact Or.inr (Or.inl ((contains_iff _ _).mpr h.isInfix))
    · exact Or.inl ((contains_iff _ _).mpr h.isInfix)
  simp only [shader_translate, hne, hnl, if_false, hes, if_true, and_self]

/-- Witness of C7: a source whose first line is `#version 320 es`. -/
theorem translate_es_passthrough_witness :
    (shader_translate (some "#version 320 es\nvoid main(){}".toList)
      GL_FRAGMENT_SHADER).translated_source = some "#version 320 es\nvoid main(){}".toList :=
  (translate_es_passthrough "#version 320 es\nvoid main(){}".toList GL_FRAGMENT_SHADER
    (Or.inr (Or.inr ⟨"\nvoid main(){}".toList, by decide⟩)) (by decide)).2

theorem patch_precision_version_line (r : CStr) (shader_type : Nat) :
    shader_patch_precision ("#version 320 es\n".toList ++ r) shader_type
      = "#version 320 es\n".toList ++ precision_header shader_type ++ r := by
  have h1 : strstr ("#version 320 es\n".toList ++ r) "\n".toList = some 15 := by
    simp [strstr]
  have h2 : strstr ("#version 320 es\n".toList ++ r) "#version".toList = some 0 := by rfl
  simp only [shader_patch_precision, h1, h2, if_true]
  rfl

theorem not_infix_of_contains_false (hay needle : CStr) (h : contains hay needle = false) :
    ¬ needle <:+: hay := by
  intro hi
  rw [(contains_iff hay needle).mpr hi] at h
  cases h

theorem contains_false_of_absent (hay needle : CStr) (h : ¬ needle <:+: hay) :
    contains hay needle = false := by
  cases hc : contains hay needle with
  | false => rfl
  | true => exact absurd ((contains_iff _ _).mp hc) h

/-- The result of `shader_translate` on a source that is translated: not empty, at most
256 KiB, without ES version directive. -/
theorem shader_translate_eq (source : CStr) (shader_type : Nat) (hne : source ≠ [])
    (hl : source.length ≤ MAX_SHADER_SIZE) (hes : NoEsDirective source) :
    shader_translate (some source) shader_type
      = { translated_source := some (translate_legacy
            (translate_steps_1_6 source shader_type (shader_detect_version (some source)))
            shader_type (shader_detect_version (some source))),
          success := true, error_msg := [],
          original_version := shader_detect_version (some source), target_version := 320 } := by
  have h0 : source.length ≠ 0 := fun h => hne (List.length_eq_zero.mp h)
  have hnl : ¬ source.length > MAX_SHADER_SIZE := by omega
  have hes2 : ¬ (contains source "#version 320 es".toList = true ∨
      contains source "#version 310 es".toList = true ∨
      contains source "#version 300 es".toList = true) := by
    rw [contains_false_of_absent _ _ hes.1, contains_false_of_absent _ _ hes.2.1,
      contains_false_of_absent _ _ hes.2.2]
    simp
  simp only [shader_translate, h0, hnl, hes2, if_false]

/-- What step 7 does with the storage qualifiers of a source that is translated (not empty,
at most 256 KiB, no ES version directive) and whose `#version` is at most 120: only a
qualifier that starts a line and is followed by a space is rewritten. For a vertex stage
the output arises from the text of steps 1 to 6 by replacing each line-initial `attribute `
by `in ` and then each line-initial `varying ` by `out `; for a fragment stage it arises
from the text of steps 1 to 6, after the renaming of `gl_FragColor` where that applies, by
replacing each line-initial `varying ` by `in `. No line-initial qualifier of the stage
remains. -/
theorem legacy_line_initial_qualifiers (source : CStr) (hne : source ≠ [])
    (hl : source.length ≤ MAX_SHADER_SIZE) (hes : NoEsDirective source)
    (hv : shader_detect_version (some source) ≤ 120) :
    (∃ out, (shader_translate (some source) GL_VERTEX_SHADER).translated_source = some out ∧
      Repl "\nvarying ".toList "\nout ".toList
        (str_replace_all
          (translate_steps_1_6 source GL_VERTEX_SHADER (shader_detect_version (some source)))
          "\nattribute ".toList "\nin ".toList) out ∧
      Repl "\nattribute ".toList "\nin ".toList
        (translate_steps_1_6 source GL_VERTEX_SHADER (shader_detect_version (some source)))
        (str_replace_all
          (translate_steps_1_6 source GL_VERTEX_SHADER (shader_detect_version (some source)))
          "\nattribute ".toList "\nin ".toList) ∧
      ¬ "\nattribute ".toList <:+: out ∧ ¬ "\nvarying ".toList <:+: out) ∧
    (∃ out, (shader_translate (some source) GL_FRAGMENT_SHADER).translated_source = some out ∧
      Repl "\nvarying ".toList "\nin ".toList
        (if contains
              (translate_steps_1_6 source GL_FRAGMENT_SHADER
                (shader_detect_version (some source))) "gl_FragColor".toList = true ∧
            contains
              (translate_steps_1_6 source GL_FRAGMENT_SHADER
                (shader_detect_version (some source))) "out vec4".toList = false then
          insert_out_decl (str_replace_all
            (translate_steps_1_6 source GL_FRAGMENT_SHADER
              (shader_detect_version (some source)))
            "gl_FragColor".toList "prismgl_FragColor".toList)
        else translate_steps_1_6 source GL_FRAGMENT_SHADER
          (shader_detect_version (some source))) out ∧
      ¬ "\nvarying ".toList <:+: out) := by
  constructor
  · rw [shader_translate_eq source GL_VERTEX_SHADER hne hl hes]
    have hvf : ¬ GL_VERTEX_SHADER = GL_FRAGMENT_SHADER := by decide
    generalize translate_steps_1_6 source GL_VERTEX_SHADER
      (shader_detect_version (some source)) = w
    have hleg : translate_legacy w GL_VERTEX_SHADER (shader_detect_version (some source))
        = str_replace_all (str_replace_all w "\nattribute ".toList "\nin ".toList)
            "\nvarying ".toList "\nout ".toList := by
      simp only [translate_legacy, hvf, hv, and_false, and_true, if_false, if_true]
    have hr1 := str_replace_all_repl w "\nattribute ".toList "\nin ".toList (by decide)
    have hr2 := str_replace_all_repl
      (str_replace_all w "\nattribute ".toList "\nin ".toList)
      "\nvarying ".toList "\nout ".toList (by decide)
    rw [hleg]
    refine ⟨_, rfl, hr2, hr1, ?_, ?_⟩
    · intro hi
      have h1 := repl_infix_source "\nvarying ".toList "\nout ".toList "\nattribute ".toList
        (by decide) _ _ hr2 hi
      exact repl_no_find "\nattribute ".toList "\nin ".toList (by decide) (by decide) _ _ hr1 h1
    · exact repl_no_find "\nvarying ".toList "\nout ".toList (by decide) (by decide) _ _ hr2
  · rw [shader_translate_eq source GL_FRAGMENT_SHADER hne hl hes]
    have hfv : ¬ GL_FRAGMENT_SHADER = GL_VERTEX_SHADER := by decide
    generalize translate_steps_1_6 source GL_FRAGMENT_SHADER
      (shader_detect_version (some source)) = w
    have hleg : translate_legacy w GL_FRAGMENT_SHADER (shader_detect_version (some source))
        = str_replace_all
            (if contains w "gl_FragColor".toList = true ∧
                contains w "out vec4".toList = false then
              insert_out_decl
                (str_replace_all w "gl_FragColor".toList "prismgl_FragColor".toList)
            else w) "\nvarying ".toList "\nin ".toList := by
      simp only [translate_legacy, hfv, hv, and_false, and_true, if_false, if_true,
        Bool.not_eq_true]
    rw [hleg]
    have hr := str_replace_all_repl
      (if contains w "gl_FragColor".toList = true ∧
          contains w "out vec4".toList = false then
        insert_out_decl
          (str_replace_all w "gl_FragColor".toList "prismgl_FragColor".toList)
      else w) "\nvarying ".toList "\nin ".toList (by decide)
    exact ⟨_, rfl, hr,
      repl_no_find "\nvarying ".toList "\nin ".toList (by decide) (by decide) _ _ hr⟩

theorem str_replace_all_absent (w find rep : CStr) (h : contains w find = false) :
    str_replace_all w find rep = w := by
  unfold contains at h
  simp only [str_replace_all]
  split
  · rfl
  · rw [if_pos]
    cases hs : strstr w find with
    | none => rfl
    | some k => rw [hs] at h; cases h

theorem keyed_absent (w find : CStr) (hw : keys_absent w = true)
    (hk : pattern_keys.any (fun key => contains find key) = true) :
    contains w find = false := by
  cases hc : contains w find with
  | false => rfl
  | true =>
    exfalso
    obtain ⟨key, hmem, hkey⟩ := List.any_eq_true.mp hk
    have h1 : key <:+: w := List.IsInfix.trans ((contains_iff _ _).mp hkey)
      ((contains_iff _ _).mp hc)
    have h2 := List.all_eq_true.mp hw key hmem
    rw [(contains_iff _ _).mpr h1] at h2
    cases h2

theorem replace_table_absent (table : List (CStr × CStr)) (w : CStr)
    (hw : keys_absent w = true) (ht : keyed table = true) : replace_table table w = w := by
  unfold replace_table
  induction table with
  | nil => rfl
  | cons row rows ih =>
    have h := List.all_eq_true.mp ht
    rw [List.foldl_cons, str_replace_all_absent w row.1 row.2
      (keyed_absent w row.1 hw (h row (List.mem_cons_self _ _)))]
    exact ih (List.all_eq_true.mpr (fun r hr => h r (List.mem_cons_of_mem _ hr)))

theorem patches_absent (w : CStr) (hw : keys_absent w = true) :
    shader_patch_extensions w = w ∧ shader_patch_samplers w = w ∧
    shader_patch_builtins w = w ∧ replace_table type_replacements w = w := by
  have e1 : replace_table ext_replacements w = w := replace_table_absent _ w hw (by decide)
  have e2 : replace_table builtin_replacements w = w := replace_table_absent _ w hw (by decide)
  have e3 : replace_table type_replacements w = w := replace_table_absent _ w hw (by decide)
  refine ⟨?_, ?_, ?_, e3⟩
  · simpa [shader_patch_extensions] using e1
  · simp only [shader_patch_samplers]
    rw [str_replace_all_absent w _ _ (keyed_absent w _ hw (by decide)),
      str_replace_all_absent w _ _ (keyed_absent w _ hw (by decide)),
      str_replace_all_absent w _ _ (keyed_absent w _ hw (by decide))]
  · simp only [shader_patch_builtins]
    rw [e2, str_replace_all_absent w _ _ (keyed_absent w _ hw (by decide)),
      str_replace_all_absent w _ _ (keyed_absent w _ hw (by decide))]

theorem steps_chain (source : CStr) (shader_type : Nat) (v : Int) (w1 w3 : CStr)
    (h1 : replace_version source v = w1) (hk1 : keys_absent w1 = true)
    (h3 : shader_patch_precision w1 shader_type = w3) (hk3 : keys_absent w3 = true) :
    translate_steps_1_6 source shader_type v = w3 := by
  simp only [translate_steps_1_6]
  rw [h1, (patches_absent w1 hk1).1, h3, (patches_absent w3 hk3).2.1,
    (patches_absent w3 hk3).2.2.1, (patches_absent w3 hk3).2.2.2]

theorem translate_chain (source : CStr) (shader_type : Nat) (v : Int) (w out : CStr)
    (hne : source ≠ []) (hl : source.length ≤ MAX_SHADER_SIZE) (hes : NoEsDirective source)
    (hv : shader_detect_version (some source) = v)
    (hs : translate_steps_1_6 source shader_type v = w)
    (h7 : translate_legacy w shader_type v = out) :
    (shader_translate (some source) shader_type).translated_source = some out := by
  rw [shader_translate_eq source shader_type hne hl hes, hv, hs, h7]

theorem translate_qualifier_shader_vertex :
    (shader_translate (some qualifier_shader) GL_VERTEX_SHADER).translated_source
      = some ("#version 320 es\n".toList ++ (precision_header_other ++
          "in vec3 p; varying vec2 t;".toList)) :=
  translate_chain qualifier_shader GL_VERTEX_SHADER 120
    ("#version 320 es\n".toList ++ (precision_header_other ++
        "attribute vec3 p; varying vec2 t;".toList)) _
    (by decide) (by decide)
    ⟨not_infix_of_contains_false _ _ (by decide), not_infix_of_contains_false _ _ (by decide),
     not_infix_of_contains_false _ _ (by decide)⟩
    (by decide)
    (steps_chain _ _ _ "#version 320 es\nattribute vec3 p; varying vec2 t;".toList _
      (by decide) (by decide) (by decide) (by decide))
    (by decide)

/-- An instance of `legacy_line_initial_qualifiers`: in the source `qualifier_shader` the
line-initial `attribute` becomes `in`; its `varying`, which does not start a line, stays. -/
theorem legacy_line_initial_qualifiers_example :
    (shader_translate (some qualifier_shader) GL_VERTEX_SHADER).translated_source
      = some ("#version 320 es\n".toList ++ (precision_header_other ++
          "in vec3 p; varying vec2 t;".toList)) ∧
    ∃ out, (shader_translate (some qualifier_shader) GL_VERTEX_SHADER).translated_source
      = some out ∧ ¬ "\nattribute ".toList <:+: out := by
  refine ⟨translate_qualifier_shader_vertex, ?_⟩
  obtain ⟨out, h1, _, _, h2, _⟩ := (legacy_line_initial_qualifiers
    qualifier_shader (by decide) (by decide)
    ⟨not_infix_of_contains_false _ _ (by decide), not_infix_of_contains_false _ _ (by decide),
     not_infix_of_contains_false _ _ (by decide)⟩ (by decide)).1
  exact ⟨out, h1, h2⟩

/-! ### Theorems on the linked-program cache -/

theorem hash_source_loop_eq_foldl (src : CStr) (hash : Nat) :
    hash_source_loop src hash
      = (src.map byte_of_char).foldl
          (fun h byte => ((h ^^^ byte) * 1099511628211) % 2 ^ 64) hash := by
  induction src generalizing hash with
  | nil => rfl
  | cons c cs ih =>
    simp only [hash_source_loop, List.map_cons, List.foldl_cons, ih, fnv_step, UINT64_MOD]
    rfl

/-- C8: for every pair of sources, `prismgl_hash_shader_source` is the 64-bit FNV-1a fold over
the bytes of the vertex source, the byte `0xFF` and the bytes of the fragment source, where
a `NULL` source counts as the empty string. -/
theorem hash_shader_source_fnv1a (vertex_src fragment_src : Option CStr) :
    prismgl_hash_shader_source vertex_src fragment_src
      = spec_fnv1a (source_bytes vertex_src ++ [0xFF] ++ source_bytes fragment_src) := by
  cases vertex_src <;> cases fragment_src <;>
    simp [prismgl_hash_shader_source, spec_fnv1a, source_bytes, hash_source_loop_eq_foldl,
      List.foldl_append, fnv_step, UINT64_MOD]

/-- An instance of C8: the hash of the pair (`A`, `B`) is the fold over `0x41, 0xFF, 0x42`. -/
theorem hash_shader_source_AB :
    prismgl_hash_shader_source (some "A".toList) (some "B".toList)
      = spec_fnv1a [0x41, 0xFF, 0x42] := by
  decide

theorem hex_char_facts : ∀ d, d < 16 →
    hex_value (hex_char d) = some d ∧ isspace (hex_char d) = false ∧
    hex_char d ≠ '-' ∧ hex_char d ≠ '+' ∧ hex_char d ≠ 'x' ∧ hex_char d ≠ 'X' ∧
    hex_char d ≠ '/' := by
  decide

theorem scan_hex_digits_format (w : Nat) :
    ∀ (n acc : Nat) (rest : CStr),
      scan_hex_digits (hex_digits w n ++ rest) acc
        = scan_hex_digits rest (acc * 16 ^ w + n % 16 ^ w) := by
  induction w with
  | zero => intro n acc rest; simp [hex_digits, Nat.mod_one]
  | succ w ih =>
    intro n acc rest
    have hd := (hex_char_facts (n % 16) (Nat.mod_lt _ (by decide))).1
    simp only [hex_digits, List.append_assoc, ih, List.singleton_append, scan_hex_digits, hd]
    congr 1
    have h1 : n % 16 ^ (w + 1) = 16 * (n / 16 % 16 ^ w) + n % 16 := by
      rw [pow_succ, Nat.mul_comm, Nat.mod_mul]
      omega
    rw [h1, pow_succ]
    ring

theorem hex_digits_length (w n : Nat) : (hex_digits w n).length = w := by
  induction w generalizing n with
  | zero => rfl
  | succ w ih => simp [hex_digits, ih]

theorem hex_digits_chars (w n : Nat) : ∀ c ∈ hex_digits w n, ∃ d, d < 16 ∧ c = hex_char d := by
  induction w generalizing n with
  | zero => intro c hc; simp [hex_digits] at hc
  | succ w ih =>
    intro c hc
    simp only [hex_digits, List.mem_append, List.mem_singleton] at hc
    rcases hc with hc | hc
    · exact ih _ c hc
    · exact ⟨n % 16, Nat.mod_lt _ (by decide), hc⟩

theorem scan_llx_digits_plain (c0 c1 : Char) (rest : CStr)
    (h0 : (hex_value c0).isSome = true) (hx : c1 ≠ 'x') (hX : c1 ≠ 'X') :
    scan_llx_digits (c0 :: c1 :: rest)
      = some (min (scan_hex_digits (c0 :: c1 :: rest) 0) (UINT64_MOD - 1)) := by
  cases rest with
  | nil => simp [scan_llx_digits, h0]
  | cons d r => simp [scan_llx_digits, h0, hx, hX]

theorem sscanf_llx_plain (c0 : Char) (cs : CStr) (h1 : isspace c0 = false) (h2 : c0 ≠ '-')
    (h3 : c0 ≠ '+') : sscanf_llx (c0 :: cs) = scan_llx_digits (c0 :: cs) := by
  simp [sscanf_llx, List.dropWhile, h1, h2, h3]

theorem sscanf_llx_canonical (h : Nat) (hh : h < UINT64_MOD) :
    sscanf_llx (format_016llx h ++ CACHE_FILE_EXT) = some h := by
  have hmod : h % UINT64_MOD = h := Nat.mod_eq_of_lt hh
  have hlen := hex_digits_length 16 h
  have hchars := hex_digits_chars 16 h
  have hscan := scan_hex_digits_format 16 h 0 CACHE_FILE_EXT
  simp only [format_016llx, hmod]
  match hd : hex_digits 16 h with
  | [] => rw [hd] at hlen; cases hlen
  | [_] => rw [hd] at hlen; cases hlen
  | c0 :: c1 :: tl =>
    rw [hd] at hchars hscan
    obtain ⟨d0, hd0, e0⟩ := hchars c0 (by simp)
    obtain ⟨d1, hd1, e1⟩ := hchars c1 (by simp)
    obtain ⟨f0, f1, f2, f3, _, _, _⟩ := hex_char_facts d0 hd0
    obtain ⟨_, _, _, _, g4, g5, _⟩ := hex_char_facts d1 hd1
    rw [← e0] at f0 f1 f2 f3
    rw [← e1] at g4 g5
    have hext : scan_hex_digits CACHE_FILE_EXT (0 * 16 ^ 16 + h % 16 ^ 16) = h := by
      have : h % 16 ^ 16 = h := Nat.mod_eq_of_lt (by simpa [UINT64_MOD] using hh)
      rw [this]
      simp [CACHE_FILE_EXT, scan_hex_digits, hex_value]
    rw [hext] at hscan
    have hmin : min h (UINT64_MOD - 1) = h := by
      apply Nat.min_eq_left; omega
    rw [List.cons_append, List.cons_append] at hscan ⊢
    rw [sscanf_llx_plain c0 _ f1 f2 f3, scan_llx_digits_plain c0 c1 _ (by rw [f0]; rfl) g4 g5,
      hscan, hmin]

theorem read_file_write_file (files : List (CStr × List Nat)) (path : CStr) (bytes : List Nat) :
    read_file (write_file files path bytes) path = some bytes := by
  induction files with
  | nil => simp [write_file, read_file]
  | cons f fs ih =>
    obtain ⟨p, old⟩ := f
    by_cases h : p = path
    · simp [write_file, read_file, h]
    · simp [write_file, read_file, h, ih]

theorem mem_write_file (files : List (CStr × List Nat)) (path : CStr) (bytes : List Nat) :
    (path, bytes) ∈ write_file files path bytes := by
  induction files with
  | nil => simp [write_file]
  | cons f fs ih =>
    obtain ⟨p, old⟩ := f
    by_cases h : p = path
    · simp [write_file, h]
    · simp only [write_file, h, if_false]
      exact List.mem_cons_of_mem _ ih

theorem filterMap_write_file_length (files : List (CStr × List Nat)) (path : CStr)
    (bytes : List Nat) (g : CStr → Option CStr) :
    ((write_file files path bytes).filterMap (fun f => g f.1)).length
      ≤ (files.filterMap (fun f => g f.1)).length + 1 := by
  induction files with
  | nil =>
    simp only [write_file, List.filterMap_nil, List.length_nil]
    exact List.length_filterMap_le _ _
  | cons f fs ih =>
    obtain ⟨p, old⟩ := f
    by_cases h : p = path
    · simp only [write_file, h, if_true, List.filterMap_cons]
      cases g path <;> simp
    · simp only [write_file, h, if_false, List.filterMap_cons]
      cases g p <;> simp only [List.length_cons] <;> omega

/-- The entry that the directory scan registers for a name, if any. -/
theorem scan_directory_eq (dir : CStr) :
    ∀ (names : List CStr) (g : List ShaderCacheEntry),
      g.length + names.length ≤ MAX_CACHE_ENTRIES →
      scan_directory dir names g = g ++ names.filterMap (fun d_name =>
        if contains d_name CACHE_FILE_EXT then
          (sscanf_llx d_name).map fun hash =>
            { hash := hash, loaded := false, program := 0,
              filepath := cache_build_path dir hash }
        else none) := by
  intro names
  induction names with
  | nil => intro g _; simp [scan_directory]
  | cons n ns ih =>
    intro g hlen
    simp only [List.length_cons] at hlen
    have hlt : g.length < MAX_CACHE_ENTRIES := by omega
    simp only [scan_directory, hlt, if_true, List.filterMap_cons]
    by_cases hc : contains n CACHE_FILE_EXT = true
    · simp only [hc, if_true]
      cases hs : sscanf_llx n with
      | none => simp only [Option.map_none']; exact ih g (by omega)
      | some hash =>
        simp only [Option.map_some']
        rw [ih _ (by simp only [List.length_append, List.length_singleton]; omega)]
        simp
    · simp only [hc, if_false, Bool.false_eq_true]
      exact ih g (by omega)

theorem find_entry_of_mem (h : Nat) (g : List ShaderCacheEntry)
    (hm : ∃ e ∈ g, e.hash = h) :
    ∃ i e, find_entry h g = some i ∧ g.get? i = some e ∧ e.hash = h := by
  induction g with
  | nil => obtain ⟨e, he, _⟩ := hm; cases he
  | cons a as ih =>
    by_cases ha : a.hash = h
    · exact ⟨0, a, by simp [find_entry, ha], rfl, ha⟩
    · obtain ⟨e, he, heh⟩ := hm
      have : e ∈ as := by
        rcases List.mem_cons.mp he with h1 | h1
        · subst h1; exact absurd heh ha
        · exact h1
      obtain ⟨i, e2, h1, h2, h3⟩ := ih ⟨e, this, heh⟩
      exact ⟨i + 1, e2, by simp [find_entry, ha, h1], by simpa using h2, h3⟩

theorem find_entry_set (h : Nat) (g : List ShaderCacheEntry) (i : Nat) (e e2 : ShaderCacheEntry)
    (hf : find_entry h g = some i) (hg : g.get? i = some e) (h2 : e2.hash = h) :
    find_entry h (g.set i e2) = some i ∧ (g.set i e2).get? i = some e2 := by
  induction g generalizing i with
  | nil => cases hf
  | cons a as ih =>
    by_cases ha : a.hash = h
    · simp only [find_entry, ha, if_true, Option.some.injEq] at hf
      subst hf
      simp [find_entry, h2]
    · simp only [find_entry, ha, if_false, Option.map_eq_some'] at hf
      obtain ⟨j, hj, rfl⟩ := hf
      have := ih j hj (by simpa using hg)
      refine ⟨by simp [find_entry, ha, this.1], ?_⟩
      simpa using this.2

theorem decode_encode_GLenum (v : Nat) (hv : v < 4294967296) (rest : List Nat) :
    decode_GLenum ((encode_GLenum v ++ rest).take 4) = v := by
  simp only [encode_GLenum, decode_GLenum, List.cons_append, List.nil_append, List.take_succ_cons,
    List.take_zero, List.getD_cons_zero, List.getD_cons_succ]
  omega

theorem entry_name_canonical (dir : CStr) (h : Nat) :
    entry_name dir (dir ++ ['/'] ++ format_016llx h ++ CACHE_FILE_EXT)
      = some (format_016llx h ++ CACHE_FILE_EXT) := by
  have hp : (dir ++ ['/']).isPrefixOf (dir ++ ['/'] ++ format_016llx h ++ CACHE_FILE_EXT)
      = true := by
    rw [List.isPrefixOf_iff_prefix]
    exact ⟨format_016llx h ++ CACHE_FILE_EXT, by simp⟩
  have hdrop : (dir ++ ['/'] ++ format_016llx h ++ CACHE_FILE_EXT).drop (dir.length + 1)
      = format_016llx h ++ CACHE_FILE_EXT := by
    have : dir ++ ['/'] ++ format_016llx h ++ CACHE_FILE_EXT
        = (dir ++ ['/']) ++ (format_016llx h ++ CACHE_FILE_EXT) := by simp
    rw [this, List.drop_append_of_le_length (by simp)]
    simp
  have hne : (format_016llx h ++ CACHE_FILE_EXT).isEmpty = false := by
    simp [CACHE_FILE_EXT]
  have hns : (format_016llx h ++ CACHE_FILE_EXT).contains '/' = false := by
    rw [Bool.eq_false_iff]
    intro hc
    have hc2 : '/' ∈ format_016llx h ++ CACHE_FILE_EXT := by simpa using hc
    rcases List.mem_append.mp hc2 with h1 | h1
    · obtain ⟨d, hd, e⟩ := hex_digits_chars 16 _ _ h1
      exact (hex_char_facts d hd).2.2.2.2.2.2 e.symm
    · revert h1; simp [CACHE_FILE_EXT]
  simp only [entry_name, hp, if_true, hdrop, hne, hns, Bool.or_self, Bool.false_eq_true,
    if_false]

theorem cache_build_path_fits (cache_dir : CStr) (h : Nat) (hfit : cache_dir.length + 32 ≤ 511) :
    cache_build_path (cache_dir ++ "/shaders".toList) h
      = cache_dir ++ "/shaders".toList ++ ['/'] ++ format_016llx h ++ CACHE_FILE_EXT := by
  unfold cache_build_path
  apply List.take_of_length_le
  simp only [List.length_append, format_016llx, hex_digits_length, CACHE_FILE_EXT]
  simp
  omega

theorem init_existing_dir (st : CacheState) (fs : FileSystem) (cache_dir : CStr)
    (hni : st.g_cache_initialized = false) (hfit : cache_dir.length + 32 ≤ 511)
    (hd1 : cache_dir ∈ fs.dirs) (hd2 : cache_dir ++ "/shaders".toList ∈ fs.dirs) :
    prismgl_shader_cache_init st fs cache_dir
      = ({ g_cache := scan_directory (cache_dir ++ "/shaders".toList)
              (fs.readdir (cache_dir ++ "/shaders".toList)) st.g_cache,
           g_cache_dir := cache_dir ++ "/shaders".toList,
           g_cache_initialized := true }, fs, true) := by
  have t1 : cache_dir.take 511 = cache_dir := List.take_of_length_le (by omega)
  have t2 : (cache_dir ++ "/shaders".toList).take 599 = cache_dir ++ "/shaders".toList :=
    List.take_of_length_le (by simp; omega)
  have t3 : (cache_dir ++ "/shaders".toList).take 511 = cache_dir ++ "/shaders".toList :=
    List.take_of_length_le (by simp; omega)
  have s1 : fs.stat_ok cache_dir = true := by
    simp [FileSystem.stat_ok, hd1]
  have c2 : fs.dirs.contains (cache_dir ++ "/shaders".toList) = true := by
    simpa using hd2
  have s2 : fs.stat_ok (cache_dir ++ "/shaders".toList) = true := by
    simp only [FileSystem.stat_ok, c2, Bool.or_true]
  simp only [prismgl_shader_cache_init, hni, t1, s1, t2, s2, t3, c2, if_true, if_false,
    Bool.not_true, Bool.false_eq_true]

/-- The entry that the directory scan registers for the hash `hash`. -/
theorem scanned_entry_form (dir : CStr) (names : List CStr) (e : ShaderCacheEntry)
    (he : e ∈ names.filterMap (fun d_name =>
        if contains d_name CACHE_FILE_EXT then
          (sscanf_llx d_name).map fun hash =>
            ({ hash := hash, loaded := false, program := 0,
               filepath := cache_build_path dir hash } : ShaderCacheEntry)
        else none)) :
    e = { hash := e.hash, loaded := false, program := 0,
          filepath := cache_build_path dir e.hash } := by
  rw [List.mem_filterMap] at he
  obtain ⟨n, _, hn⟩ := he
  split at hn
  · rw [Option.map_eq_some'] at hn
    obtain ⟨hash, _, rfl⟩ := hn
    rfl
  · cases hn

theorem read_file_mem (files : List (CStr × List Nat)) (path : CStr) (bytes : List Nat)
    (h : read_file files path = some bytes) : (path, bytes) ∈ files := by
  induction files with
  | nil => cases h
  | cons f fs ih =>
    obtain ⟨p, old⟩ := f
    by_cases hp : p = path
    · simp only [read_file, hp, if_true, Option.some.injEq] at h
      rw [hp, h]; exact List.mem_cons_self _ _
    · simp only [read_file, hp, if_false] at h
      exact List.mem_cons_of_mem _ (ih h)

/-- After `shutdown`, a fresh `init` on an existing cache directory that lists at most 2048
names registers an unloaded entry for the hash of each cache file of the directory. -/
theorem init_registers (st1 : CacheState) (fs1 : FileSystem) (cache_dir : CStr) (h : Nat)
    (content : List Nat)
    (hinit : st1.g_cache_initialized = true)
    (hfit : cache_dir.length + 32 ≤ 511) (hh : h < UINT64_MOD)
    (hd1 : cache_dir ∈ fs1.dirs) (hd2 : cache_dir ++ "/shaders".toList ∈ fs1.dirs)
    (hlist : (fs1.readdir (cache_dir ++ "/shaders".toList)).length ≤ MAX_CACHE_ENTRIES)
    (hfile : read_file fs1.files (cache_build_path (cache_dir ++ "/shaders".toList) h)
      = some content) :
    ∃ g i, prismgl_shader_cache_init (prismgl_shader_cache_shutdown st1) fs1 cache_dir
        = ({ g_cache := g, g_cache_dir := cache_dir ++ "/shaders".toList,
             g_cache_initialized := true }, fs1, true) ∧
      find_entry h g = some i ∧
      g.get? i = some ⟨h, 0, cache_build_path (cache_dir ++ "/shaders".toList) h, false⟩ := by
  have hpath := cache_build_path_fits cache_dir h hfit
  have hshut : prismgl_shader_cache_shutdown st1
      = { g_cache := [], g_cache_dir := st1.g_cache_dir, g_cache_initialized := false } := by
    simp [prismgl_shader_cache_shutdown, hinit]
  have hinit2 := init_existing_dir
    { g_cache := [], g_cache_dir := st1.g_cache_dir, g_cache_initialized := false } fs1
    cache_dir rfl hfit hd1 hd2
  have hscan := scan_directory_eq (cache_dir ++ "/shaders".toList)
    (fs1.readdir (cache_dir ++ "/shaders".toList)) [] (by simpa using hlist)
  rw [List.nil_append] at hscan
  have hname : format_016llx h ++ CACHE_FILE_EXT
      ∈ fs1.readdir (cache_dir ++ "/shaders".toList) := by
    simp only [FileSystem.readdir, List.mem_append, List.mem_filterMap]
    refine Or.inl (Or.inr ⟨(cache_build_path (cache_dir ++ "/shaders".toList) h, content),
      read_file_mem _ _ _ hfile, ?_⟩)
    simp only [hpath]
    exact entry_name_canonical _ h
  have hcont : contains (format_016llx h ++ CACHE_FILE_EXT) CACHE_FILE_EXT = true :=
    (contains_iff _ _).mpr (List.suffix_append _ _).isInfix
  have hmem : ∃ e ∈ scan_directory (cache_dir ++ "/shaders".toList)
      (fs1.readdir (cache_dir ++ "/shaders".toList)) [], e.hash = h := by
    refine ⟨{ hash := h, loaded := false, program := 0,
              filepath := cache_build_path (cache_dir ++ "/shaders".toList) h }, ?_, rfl⟩
    rw [hscan, List.mem_filterMap]
    exact ⟨_, hname, by simp [hcont, sscanf_llx_canonical h hh]⟩
  obtain ⟨i, e, hfind, hget, heh⟩ := find_entry_of_mem h _ hmem
  have hform := scanned_entry_form (cache_dir ++ "/shaders".toList)
    (fs1.readdir (cache_dir ++ "/shaders".toList)) e
    (by rw [← hscan]; exact List.get?_mem hget)
  rw [heh] at hform
  rw [hform] at hget
  exact ⟨_, i, by rw [hshut, hinit2], hfind, hget⟩

/-- The load of `prismgl_shader_cache_get` for an unloaded entry whose file holds a format
and a payload that is not empty. -/
theorem get_loads (st : CacheState) (fs : FileSystem) (la : LoadAnswers) (h i : Nat)
    (path : CStr) (F : Nat) (B : List Nat)
    (hinit : st.g_cache_initialized = true) (hfind : find_entry h st.g_cache = some i)
    (hget : st.g_cache.get? i = some ⟨h, 0, path, false⟩)
    (hread : read_file fs.files path = some (encode_GLenum F ++ B))
    (hF : F < 4294967296) (hB : 0 < B.length) :
    prismgl_shader_cache_get st fs la h
      = if la.link_status ≠ GL_TRUE then
          ⟨⟨evict_slot st.g_cache i, st.g_cache_dir, st.g_cache_initialized⟩,
           ⟨remove_file fs.files path, fs.dirs, fs.mkdir_ok, fs.writable⟩,
           [.glCreateProgram la.new_program,
            .glProgramBinary la.new_program F B B.length,
            .glGetProgramiv la.new_program GL_LINK_STATUS la.link_status,
            .glDeleteProgram la.new_program], 0⟩
        else
          ⟨⟨st.g_cache.set i ⟨h, la.new_program, path, true⟩, st.g_cache_dir,
            st.g_cache_initialized⟩,
           fs,
           [.glCreateProgram la.new_program,
            .glProgramBinary la.new_program F B B.length,
            .glGetProgramiv la.new_program GL_LINK_STATUS la.link_status], la.new_program⟩ := by
  have hsize : ¬ (((encode_GLenum F ++ B).length : Nat) : Int) ≤ 4 := by
    simp only [List.length_append, encode_GLenum, List.length_cons, List.length_nil]
    omega
  have hdec := decode_encode_GLenum F hF B
  have hbs : (((encode_GLenum F ++ B).length : Nat) : Int) - 4 = (B.length : Int) := by
    simp only [List.length_append, encode_GLenum, List.length_cons, List.length_nil]
    push_cast
    omega
  have hbin : ((encode_GLenum F ++ B).drop 4).take ((B.length : Int)).toNat = B := by
    simp [encode_GLenum]
  simp only [prismgl_shader_cache_get, hinit, hfind, hget, hread, hsize, hdec, hbin, hbs,
    Bool.not_true, Bool.false_eq_true, if_false, List.cons_append, List.nil_append]

/-- What `prismgl_shader_cache_put` does when it stores. -/
theorem put_stores (st : CacheState) (fs : FileSystem) (pb : ProgramBinary) (h p : Nat)
    (hinit : st.g_cache_initialized = true)
    (hroom : st.g_cache.length < MAX_CACHE_ENTRIES)
    (hnew : find_entry h st.g_cache = none)
    (hbl : 0 < pb.binary_length)
    (hw : fs.writable (cache_build_path st.g_cache_dir h) = true) :
    (prismgl_shader_cache_put st fs pb h p).state.g_cache_initialized = true ∧
    (prismgl_shader_cache_put st fs pb h p).fs.dirs = fs.dirs ∧
    (prismgl_shader_cache_put st fs pb h p).fs.files
      = write_file fs.files (cache_build_path st.g_cache_dir h)
          (encode_GLenum pb.format ++ pb.payload) := by
  have h1 : ¬ st.g_cache.length ≥ MAX_CACHE_ENTRIES := by omega
  have h2 : ¬ pb.binary_length ≤ 0 := by omega
  simp only [prismgl_shader_cache_put, hinit, h1, hnew, h2, hw, if_true, if_false,
    Bool.not_true, Bool.false_eq_true, Option.isSome_none, and_self]

/-- C9: cache round trip over an explicit file-system state. When `put(h, p)` stores a
program for which the driver reports the format `F` and the payload `B` (not empty), then
after `shutdown` and a fresh `init` on the same cache directory (which exists, fits the path
buffers and lists fewer than 2048 names), `get(h)` creates a program, calls
`glProgramBinary` on it with exactly `F` and `B`, and asks for its link status; when the
driver reports `GL_TRUE`, `get(h)` returns the new handle, and so does every later `get(h)`,
without a driver call and whatever the file system then holds. -/
theorem cache_round_trip (st : CacheState) (fs : FileSystem) (pb : ProgramBinary)
    (la : LoadAnswers) (h p : Nat) (cache_dir : CStr)
    (hinit : st.g_cache_initialized = true)
    (hdir : st.g_cache_dir = cache_dir ++ "/shaders".toList)
    (hfit : cache_dir.length + 32 ≤ 511)
    (hh : h < UINT64_MOD)
    (hroom : st.g_cache.length < MAX_CACHE_ENTRIES)
    (hnew : find_entry h st.g_cache = none)
    (hbl : 0 < pb.binary_length) (hB : 0 < pb.payload.length) (hF : pb.format < 4294967296)
    (hw : fs.writable (cache_build_path st.g_cache_dir h) = true)
    (hd1 : cache_dir ∈ fs.dirs) (hd2 : cache_dir ++ "/shaders".toList ∈ fs.dirs)
    (hfew : (fs.readdir (cache_dir ++ "/shaders".toList)).length < MAX_CACHE_ENTRIES) :
    ∃ fresh : CacheState × FileSystem × Bool,
      fresh = prismgl_shader_cache_init
        (prismgl_shader_cache_shutdown (prismgl_shader_cache_put st fs pb h p).state)
        (prismgl_shader_cache_put st fs pb h p).fs cache_dir ∧
      fresh.2.2 = true ∧
      (prismgl_shader_cache_get fresh.1 fresh.2.1 la h).calls.take 3
        = [.glCreateProgram la.new_program,
           .glProgramBinary la.new_program pb.format pb.payload pb.payload.length,
           .glGetProgramiv la.new_program GL_LINK_STATUS la.link_status] ∧
      (la.link_status = GL_TRUE →
        (prismgl_shader_cache_get fresh.1 fresh.2.1 la h).calls.length = 3 ∧
        (prismgl_shader_cache_get fresh.1 fresh.2.1 la h).ret = la.new_program ∧
        ∀ (fs2 : FileSystem) (la2 : LoadAnswers),
          (prismgl_shader_cache_get (prismgl_shader_cache_get fresh.1 fresh.2.1 la h).state
            fs2 la2 h).ret = la.new_program ∧
          (prismgl_shader_cache_get (prismgl_shader_cache_get fresh.1 fresh.2.1 la h).state
            fs2 la2 h).calls = []) := by
  obtain ⟨p1, p2, p3⟩ := put_stores st fs pb h p hinit hroom hnew hbl hw
  rw [hdir] at p3
  have hfile : read_file (prismgl_shader_cache_put st fs pb h p).fs.files
      (cache_build_path (cache_dir ++ "/shaders".toList) h)
      = some (encode_GLenum pb.format ++ pb.payload) := by
    rw [p3]; exact read_file_write_file _ _ _
  have hlist : ((prismgl_shader_cache_put st fs pb h p).fs.readdir
      (cache_dir ++ "/shaders".toList)).length ≤ MAX_CACHE_ENTRIES := by
    have := filterMap_write_file_length fs.files
      (cache_build_path (cache_dir ++ "/shaders".toList) h)
      (encode_GLenum pb.format ++ pb.payload) (entry_name (cache_dir ++ "/shaders".toList))
    simp only [FileSystem.readdir, List.length_append, p2, p3] at hfew ⊢
    omega
  obtain ⟨g, i, hfresh, hfind, hget⟩ := init_registers
    (prismgl_shader_cache_put st fs pb h p).state (prismgl_shader_cache_put st fs pb h p).fs
    cache_dir h _ p1 hfit hh (p2 ▸ hd1) (p2 ▸ hd2) hlist hfile
  refine ⟨_, rfl, ?_⟩
  rw [hfresh]
  have hload := get_loads
    { g_cache := g, g_cache_dir := cache_dir ++ "/shaders".toList, g_cache_initialized := true }
    (prismgl_shader_cache_put st fs pb h p).fs la h i _ pb.format pb.payload rfl hfind hget
    hfile hF hB
  refine ⟨rfl, ?_, ?_⟩
  · dsimp only
    rw [hload]
    split <;> rfl
  · intro hl
    dsimp only
    rw [hload, if_neg (by simp [hl])]
    refine ⟨rfl, rfl, ?_⟩
    intro fs2 la2
    obtain ⟨k1, k2⟩ := find_entry_set h g i _
      ⟨h, la.new_program, cache_build_path (cache_dir ++ "/shaders".toList) h, true⟩
      hfind hget rfl
    simp only [prismgl_shader_cache_get, k1, k2, Bool.not_true, Bool.false_eq_true, if_false,
      if_true, and_self]

/-- Witness of C9: a program stored in an empty cache directory and loaded by a fresh
`init`. -/
theorem cache_round_trip_witness :
    demo_state.g_cache_dir = demo_cache_dir ++ "/shaders".toList ∧
    (prismgl_shader_cache_put demo_state demo_fs ⟨5, 0x8A53, [1, 2, 3, 4, 5]⟩ demo_hash 7).fs.files
      = [("/data/app/cache/shaders/0123456789abcdef.pglbin".toList,
          [0x53, 0x8A, 0, 0, 1, 2, 3, 4, 5])] ∧
    ∃ fresh : CacheState × FileSystem × Bool,
      fresh = prismgl_shader_cache_init (prismgl_shader_cache_shutdown
          (prismgl_shader_cache_put demo_state demo_fs ⟨5, 0x8A53, [1, 2, 3, 4, 5]⟩
            demo_hash 7).state)
        (prismgl_shader_cache_put demo_state demo_fs ⟨5, 0x8A53, [1, 2, 3, 4, 5]⟩
          demo_hash 7).fs demo_cache_dir ∧
      (prismgl_shader_cache_get fresh.1 fresh.2.1 ⟨9, GL_TRUE⟩ demo_hash).calls.take 3
        = [.glCreateProgram 9, .glProgramBinary 9 0x8A53 [1, 2, 3, 4, 5] 5,
           .glGetProgramiv 9 GL_LINK_STATUS GL_TRUE] ∧
      (prismgl_shader_cache_get fresh.1 fresh.2.1 ⟨9, GL_TRUE⟩ demo_hash).ret = 9 := by
  refine ⟨by decide, by decide, ?_⟩
  obtain ⟨fresh, e, _, h3, h4⟩ := cache_round_trip demo_state demo_fs
    ⟨5, 0x8A53, [1, 2, 3, 4, 5]⟩ ⟨9, GL_TRUE⟩ demo_hash 7 demo_cache_dir rfl (by decide)
    (by decide) (by decide) (by decide) (by decide) (by decide) (by decide) (by decide)
    (by decide) (by decide) (by decide) (by decide)
  exact ⟨fresh, e, h3, (h4 rfl).2.1⟩

/-- C10, the behaviour of the code at the failing inputs: for an entry that is registered but
not loaded, when the cache file is truncated to four bytes, and when it is missing,
`get` returns 0 without a driver call, but the entry stays in the index (and the truncated
file on disk), so that a later `put` of the recompiled program stores nothing. -/
theorem cache_get_failure_keeps_entry :
    (prismgl_shader_cache_get stale_state truncated_fs ⟨9, GL_TRUE⟩ demo_hash).ret = 0 ∧
    (prismgl_shader_cache_get stale_state truncated_fs ⟨9, GL_TRUE⟩ demo_hash).calls = [] ∧
    (prismgl_shader_cache_get stale_state truncated_fs ⟨9, GL_TRUE⟩ demo_hash).state
      = stale_state ∧
    (prismgl_shader_cache_get stale_state truncated_fs ⟨9, GL_TRUE⟩ demo_hash).fs.files
      = truncated_fs.files ∧
    (prismgl_shader_cache_put stale_state truncated_fs ⟨5, 0x8A53, [1, 2, 3, 4, 5]⟩
      demo_hash 7).state = stale_state ∧
    (prismgl_shader_cache_put stale_state truncated_fs ⟨5, 0x8A53, [1, 2, 3, 4, 5]⟩
      demo_hash 7).fs.files = truncated_fs.files ∧
    (prismgl_shader_cache_get stale_state demo_fs ⟨9, GL_TRUE⟩ demo_hash).ret = 0 ∧
    (prismgl_shader_cache_get stale_state demo_fs ⟨9, GL_TRUE⟩ demo_hash).state
      = stale_state ∧
    (prismgl_shader_cache_put stale_state demo_fs ⟨5, 0x8A53, [1, 2, 3, 4, 5]⟩
      demo_hash 7).state = stale_state ∧
    (prismgl_shader_cache_put stale_state demo_fs ⟨5, 0x8A53, [1, 2, 3, 4, 5]⟩
      demo_hash 7).fs.files = [] := by
  decide

theorem repl_nil_inv (find rep : CStr) (hf : find ≠ []) (r : CStr)
    (h : Repl find rep [] r) : r = [] := by
  generalize hs : ([] : CStr) = s at h
  cases h with
  | nil => rfl
  | hit t t2 _ => exact absurd (List.append_eq_nil.mp hs.symm).1 hf
  | skip c t t2 _ _ => cases hs

theorem prefix_append_cases (x a b : CStr) (h : x <+: a ++ b) :
    x <+: a ∨ ∃ x2, x2 ≠ [] ∧ x = a ++ x2 ∧ x2 <+: b := by
  obtain ⟨t, ht⟩ := h
  rcases List.append_eq_append_iff.mp ht with ⟨a', h1, h2⟩ | ⟨c', h1, h2⟩
  · exact Or.inl ⟨a', h1.symm⟩
  · by_cases hc : c' = []
    · subst hc
      exact Or.inl ⟨[], by simp [h1]⟩
    · exact Or.inr ⟨c', hc, h1, ⟨t, h2.symm⟩⟩

theorem no_start_inside_drop (x y : CStr) (h : no_start_inside x y = true) (a1 a2 : CStr)
    (e : y = a1 ++ a2) (hne : a2 ≠ []) : compat x a2 = false := by
  have h2 := no_start_inside_suffix x a1 a2 (e ▸ h)
  cases a2 with
  | nil => exact absurd rfl hne
  | cons c cs => exact (no_start_inside_tail x c cs h2).1

/-- A match that starts in `l` cannot run into `p` when `p` cannot start inside `find`. -/
theorem prefix_stays (find l p t : CStr) (hx : no_start_inside p find = true)
    (h : find <+: l ++ (p ++ t)) : find <+: l := by
  rcases prefix_append_cases find l (p ++ t) h with h1 | ⟨x2, hne, e, hx2⟩
  · exact h1
  · exfalso
    have hc := no_start_inside_drop p find hx l x2 e hne
    have hc2 := compat_of_prefix_append x2 p t hx2
    rw [compat_comm] at hc2
    rw [hc] at hc2
    cases hc2

/-- The replacing of a text `l ++ p ++ t`, when `find` cannot overlap `p`, replaces in `l`
and in `t` and keeps `p`. -/
theorem repl_split (find rep : CStr) (hf : find ≠ []) (p : CStr)
    (hx : no_overlap find p = true) :
    ∀ (n : Nat) (l t r : CStr), l.length ≤ n → Repl find rep (l ++ (p ++ t)) r →
      ∃ l2 t2, r = l2 ++ (p ++ t2) ∧ Repl find rep l l2 ∧ Repl find rep t t2 := by
  have hx1 : no_start_inside find p = true := by
    simp only [no_overlap, Bool.and_eq_true] at hx; exact hx.1
  have hx2 : no_start_inside p find = true := by
    simp only [no_overlap, Bool.and_eq_true] at hx; exact hx.2
  intro n
  induction n with
  | zero =>
    intro l t r hl h
    have : l = [] := List.length_eq_zero.mp (by omega)
    subst this
    obtain ⟨r2, e, hr⟩ := repl_prefix_kept find rep p hx1 t r h
    exact ⟨[], r2, e, Repl.nil, hr⟩
  | succ n ih =>
    intro l t r hl h
    cases l with
    | nil =>
      obtain ⟨r2, e, hr⟩ := repl_prefix_kept find rep p hx1 t r h
      exact ⟨[], r2, e, Repl.nil, hr⟩
    | cons c l1 =>
      by_cases hm : find <+: (c :: l1) ++ (p ++ t)
      · have hin := prefix_stays find (c :: l1) p t hx2 hm
        obtain ⟨l2, el⟩ := hin
        have hlen : l2.length ≤ n := by
          have := congrArg List.length el
          have hfl : 0 < find.length := List.length_pos.mpr hf
          simp only [List.length_append, List.length_cons] at this hl
          omega
        have hs : (c :: l1) ++ (p ++ t) = find ++ (l2 ++ (p ++ t)) := by
          rw [← el]; simp
        rw [hs] at h
        obtain ⟨r1, e1, hr1⟩ := repl_hit_inv find rep hf _ _ h
        obtain ⟨l3, t3, e3, hl3, ht3⟩ := ih l2 t r1 hlen hr1
        refine ⟨rep ++ l3, t3, by rw [e1, e3]; simp, ?_, ht3⟩
        rw [← el]
        exact Repl.hit l2 l3 hl3
      · have hm2 : ¬ find <+: c :: (l1 ++ (p ++ t)) := hm
        obtain ⟨r1, e1, hr1⟩ := repl_skip_inv find rep c _ r hm2 h
        obtain ⟨l3, t3, e3, hl3, ht3⟩ := ih l1 t r1
          (by simp only [List.length_cons] at hl; omega) hr1
        refine ⟨c :: l3, t3, by rw [e1, e3]; rfl, ?_, ht3⟩
        exact Repl.skip c l1 l3 (fun hp2 => hm (hp2.trans (List.prefix_append _ _))) hl3

/-- A text that ends with `p` still ends with `p` after the replacing, when `find` cannot
overlap `p`. -/
theorem repl_suffix_kept (find rep : CStr) (hf : find ≠ []) (p : CStr)
    (hx : no_overlap find p = true) (u r : CStr) (h : Repl find rep (u ++ p) r) :
    ∃ u2, r = u2 ++ p := by
  have h2 : Repl find rep (u ++ (p ++ [])) r := by simpa using h
  obtain ⟨l2, t2, e, _, ht⟩ := repl_split find rep hf p hx u.length u [] r (Nat.le_refl _) h2
  have := repl_nil_inv find rep hf t2 ht
  subst this
  exact ⟨l2, by simpa using e⟩

/-- An occurrence of `x` in the result, when the replacement text cannot overlap `x`, comes
from an occurrence of `x` in the source, and the text before it is the result of replacing
in the text before that one. -/
theorem repl_occurrence_source (find rep : CStr) (x : CStr) (hxne : x ≠ [])
    (hx : no_overlap x rep = true) (s r : CStr) (h : Repl find rep s r) :
    ∀ (a b : CStr), r = a ++ (x ++ b) →
      ∃ a2 b2, s = a2 ++ (x ++ b2) ∧ Repl find rep a2 a := by
  have hx1 : no_start_inside x rep = true := by
    simp only [no_overlap, Bool.and_eq_true] at hx; exact hx.1
  have hx2 : no_start_inside rep x = true := by
    simp only [no_overlap, Bool.and_eq_true] at hx; exact hx.2
  induction h with
  | nil =>
    intro a b e
    have := (List.append_eq_nil.mp e.symm).2
    exact absurd (List.append_eq_nil.mp this).1 hxne
  | hit t t2 _ ih =>
    intro a b e
    rcases List.append_eq_append_iff.mp e with ⟨a', h1, h2⟩ | ⟨c', h1, h2⟩
    · -- a = rep ++ a'
      obtain ⟨a2, b2, e2, hr2⟩ := ih a' b h2
      exact ⟨find ++ a2, b2, by rw [e2]; simp, h1 ▸ Repl.hit a2 a' hr2⟩
    · -- rep = a ++ c', x ++ b = c' ++ t2
      by_cases hc : c' = []
      · subst hc
        simp only [List.append_nil] at h1
        simp only [List.nil_append] at h2
        obtain ⟨a2, b2, e2, hr2⟩ := ih [] b (by simpa using h2.symm)
        refine ⟨find ++ a2, b2, by rw [e2]; simp, ?_⟩
        have := @Repl.hit find rep a2 [] hr2
        rw [List.append_nil] at this
        rw [← h1]
        exact this
      · exfalso
        have hp : x <+: c' ++ t2 := ⟨b, h2⟩
        exact not_prefix_inside x rep t2 hx1 a c' h1 hc hp
  | skip c t t2 hn hrep ih =>
    intro a b e
    cases a with
    | nil =>
      have hp : x <+: c :: t2 := ⟨b, by simpa using e.symm⟩
      have hs := repl_prefix_source find rep (c :: t) (c :: t2) (Repl.skip c t t2 hn hrep) x
        hx2 hp
      obtain ⟨b2, hb2⟩ := hs
      exact ⟨[], b2, by simpa using hb2.symm, Repl.nil⟩
    | cons a0 a1 =>
      simp only [List.cons_append, List.cons.injEq] at e
      obtain ⟨e0, e1⟩ := e
      subst e0
      obtain ⟨a2, b2, e2, hr2⟩ := ih a1 b e1
      refine ⟨c :: a2, b2, by rw [e2]; rfl, ?_⟩
      refine Repl.skip c a2 a1 (fun hp2 => hn ?_) hr2
      rw [e2]
      exact hp2.trans (List.prefix_append _ _)

/-- An occurrence of `x` in `a ++ p ++ b`, when `x` cannot overlap `p`, lies in `a` or in
`b`. -/
theorem infix_around (x p : CStr) (hx : no_overlap x p = true) (a b : CStr)
    (h : x <:+: a ++ (p ++ b)) : x <:+: a ∨ x <:+: b := by
  have hx1 : no_start_inside x p = true := by
    simp only [no_overlap, Bool.and_eq_true] at hx; exact hx.1
  have hx2 : no_start_inside p x = true := by
    simp only [no_overlap, Bool.and_eq_true] at hx; exact hx.2
  rcases infix_append_cases x a (p ++ b) h with ⟨a1, a2, e, hne, hp⟩ | h2
  · rcases prefix_append_cases x a2 (p ++ b) hp with h3 | ⟨x2, hx2ne, ex, hpx⟩
    · left
      rw [e]
      exact h3.isInfix.trans (List.suffix_append a1 a2).isInfix
    · exfalso
      have hc := no_start_inside_drop p x hx2 a2 x2 ex hx2ne
      have hc2 := compat_of_prefix_append x2 p b hpx
      rw [compat_comm, hc] at hc2
      cases hc2
  · rcases infix_append_cases x p b h2 with ⟨p1, p2, e, hne, hp⟩ | h3
    · exact absurd hp (not_prefix_inside x p b hx1 p1 p2 e hne)
    · exact Or.inr h3

theorem nl_ok_cases (find rep : CStr) (h : nl_ok find rep = true) :
    ('\n' ∉ find ∧ '\n' ∉ rep) ∨
    (∃ f0 r0, find = f0 ++ ['\n'] ∧ rep = r0 ++ ['\n'] ∧ '\n' ∉ r0) := by
  simp only [nl_ok, Bool.or_eq_true, Bool.and_eq_true, Bool.not_eq_true',
    beq_iff_eq] at h
  rcases h with ⟨h1, h2⟩ | ⟨⟨⟨h1, h2⟩, _⟩, h4⟩
  · left
    exact ⟨by simpa using h1, by simpa using h2⟩
  · right
    refine ⟨find.dropLast, rep.dropLast, ?_, ?_, by simpa using h4⟩
    · have hne : find ≠ [] := by intro e; rw [e] at h1; cases h1
      have := List.dropLast_append_getLast hne
      rw [List.getLast?_eq_getLast _ hne] at h1
      simp only [Option.some.injEq] at h1
      rw [h1] at this
      exact this.symm
    · have hne : rep ≠ [] := by intro e; rw [e] at h2; cases h2
      have := List.dropLast_append_getLast hne
      rw [List.getLast?_eq_getLast _ hne] at h2
      simp only [Option.some.injEq] at h2
      rw [h2] at this
      exact this.symm

theorem repl_one_line_aux (find rep : CStr) (hf : find ≠ []) (hok : nl_ok find rep = true)
    (l l2 : CStr) (h : Repl find rep l l2) :
    ∀ (l0 : CStr), l = l0 ++ ['\n'] → '\n' ∉ l0 →
      ∃ l3, l2 = l3 ++ ['\n'] ∧ '\n' ∉ l3 := by
  induction h with
  | nil => intro l0 e _; simp at e
  | hit t t2 ht ih =>
    intro l0 e hl0
    rcases List.append_eq_append_iff.mp e with ⟨a', h1, h2⟩ | ⟨c', h1, h2⟩
    · -- l0 = find ++ a', t = a' ++ ['\n']
      have hnf : '\n' ∉ find := fun hm => hl0 (by rw [h1]; exact List.mem_append_left _ hm)
      have hna : '\n' ∉ a' := fun hm => hl0 (by rw [h1]; exact List.mem_append_right _ hm)
      obtain ⟨l3, e3, hl3⟩ := ih a' h2 hna
      have hnr : '\n' ∉ rep := by
        rcases nl_ok_cases find rep hok with ⟨_, h4⟩ | ⟨f0, r0, ef, _, _⟩
        · exact h4
        · exact absurd (by rw [ef]; simp) hnf
      refine ⟨rep ++ l3, by rw [e3]; simp, ?_⟩
      intro hm
      rcases List.mem_append.mp hm with h5 | h5
      · exact hnr h5
      · exact hl3 h5
    · -- find = l0 ++ c', ['\n'] = c' ++ t
      cases c' with
      | nil =>
        simp only [List.append_nil] at h1
        simp only [List.nil_append] at h2
        have hnf : '\n' ∉ find := by rw [h1]; exact hl0
        obtain ⟨l3, e3, hl3⟩ := ih [] (by simpa using h2.symm) (by simp)
        have hnr : '\n' ∉ rep := by
          rcases nl_ok_cases find rep hok with ⟨_, h4⟩ | ⟨f0, r0, ef, _, _⟩
          · exact h4
          · exact absurd (by rw [ef]; simp) hnf
        refine ⟨rep ++ l3, by rw [e3]; simp, ?_⟩
        intro hm
        rcases List.mem_append.mp hm with h5 | h5
        · exact hnr h5
        · exact hl3 h5
      | cons c0 c1 =>
        simp only [List.cons_append, List.cons.injEq] at h2
        obtain ⟨h3, h4⟩ := h2
        have hc1 : c1 = [] ∧ t = [] := List.append_eq_nil.mp h4.symm
        obtain ⟨hc1a, ht0⟩ := hc1
        subst ht0
        have ht2 := repl_nil_inv find rep hf t2 ht
        subst ht2
        rcases nl_ok_cases find rep hok with ⟨h5, _⟩ | ⟨f0, r0, _, er, hr0⟩
        · exact absurd (by rw [h1, ← h3]; simp) h5
        · exact ⟨r0, by simpa using er, hr0⟩
  | skip c t t2 hn ht ih =>
    intro l0 e hl0
    cases l0 with
    | nil =>
      simp only [List.nil_append, List.cons.injEq] at e
      obtain ⟨e0, e1⟩ := e
      subst e1
      have ht2 := repl_nil_inv find rep hf t2 ht
      subst ht2
      exact ⟨[], by simp [e0], by simp⟩
    | cons a0 a1 =>
      simp only [List.cons_append, List.cons.injEq] at e
      obtain ⟨e0, e1⟩ := e
      subst e0
      have hna : '\n' ∉ a1 := fun hm => hl0 (List.mem_cons_of_mem _ hm)
      have hc : c ≠ '\n' := fun hm => hl0 (by rw [hm]; exact List.mem_cons_self _ _)
      obtain ⟨l3, e3, hl3⟩ := ih a1 e1 hna
      refine ⟨c :: l3, by rw [e3]; rfl, ?_⟩
      intro hm
      rcases List.mem_cons.mp hm with h5 | h5
      · exact hc h5.symm
      · exact hl3 h5

theorem repl_one_line (find rep : CStr) (hf : find ≠ []) (hok : nl_ok find rep = true)
    (l l2 : CStr) (h : Repl find rep l l2) (hl : OneLine l) : OneLine l2 := by
  rcases hl with hl | ⟨l0, e, hl0⟩
  · subst hl
    exact Or.inl (repl_nil_inv find rep hf l2 h)
  · exact Or.inr (repl_one_line_aux find rep hf hok l l2 h l0 e hl0)

/-- One pass of `str_replace_all` keeps the invariant that the text holds `p` after at most
one line. -/
theorem header_inv_pass (p : CStr) (find rep : CStr) (hok : pass_ok p (find, rep) = true)
    (w : CStr) (h : HeaderInv p w) : HeaderInv p (str_replace_all w find rep) := by
  simp only [pass_ok, Bool.and_eq_true, Bool.not_eq_true', List.isEmpty_eq_false] at hok
  obtain ⟨⟨hf, hx⟩, hnl⟩ := hok
  obtain ⟨l, t, e, hl⟩ := h
  have hr := str_replace_all_repl w find rep hf
  rw [e] at hr ⊢
  obtain ⟨l2, t2, e2, hl2, _⟩ := repl_split find rep hf p hx l.length l t _ (Nat.le_refl _) hr
  exact ⟨l2, t2, e2, repl_one_line find rep hf hnl l l2 hl2 hl⟩

theorem header_inv_table (p : CStr) (table : List (CStr × CStr))
    (hok : table.all (pass_ok p) = true) :
    ∀ (w : CStr), HeaderInv p w → HeaderInv p (replace_table table w) := by
  induction table with
  | nil => intro w h; exact h
  | cons row rows ih =>
    intro w h
    simp only [List.all_cons, Bool.and_eq_true] at hok
    simp only [replace_table, List.foldl_cons]
    exact ih hok.2 _ (header_inv_pass p row.1 row.2 hok.1 w h)

theorem strstr_newline (x : CStr) (k : Nat) (h : strstr x "\n".toList = some k) :
    ∃ l0 t, x = l0 ++ '\n' :: t ∧ '\n' ∉ l0 ∧ l0.length = k := by
  induction x generalizing k with
  | nil => simp [strstr] at h
  | cons c cs ih =>
    by_cases hc : c = '\n'
    · subst hc
      have : strstr ('\n' :: cs) "\n".toList = some 0 := by simp [strstr]
      rw [this] at h
      cases h
      exact ⟨[], cs, rfl, by simp, rfl⟩
    · have hc2 : ¬ '\n' = c := fun h => hc h.symm
      have hstep : strstr (c :: cs) "\n".toList = (strstr cs "\n".toList).map (· + 1) := by
        simp [strstr, hc2]
      rw [hstep, Option.map_eq_some'] at h
      obtain ⟨j, hj, rfl⟩ := h
      obtain ⟨l0, t, e, hl0, hlen⟩ := ih j hj
      refine ⟨c :: l0, t, by rw [e]; rfl, ?_, by simp [hlen]⟩
      intro hm
      rcases List.mem_cons.mp hm with h5 | h5
      · exact hc h5.symm
      · exact hl0 h5

theorem header_inv_precision (x : CStr) (shader_type : Nat) :
    HeaderInv (precision_header shader_type) (shader_patch_precision x shader_type) := by
  unfold shader_patch_precision
  cases hk : strstr x "\n".toList with
  | none => exact ⟨[], x, rfl, Or.inl rfl⟩
  | some k =>
    obtain ⟨l0, t, e, hl0, hlen⟩ := strstr_newline x k hk
    by_cases hv : strstr x "#version".toList = some 0
    · simp only [hv, if_true]
      refine ⟨l0 ++ ['\n'], t, ?_, Or.inr ⟨l0, rfl, hl0⟩⟩
      have e2 : x = (l0 ++ ['\n']) ++ t := by rw [e]; simp
      have hl2 : (l0 ++ ['\n']).length = k + 1 := by simp [hlen]
      rw [← hl2]
      conv_lhs => rw [e2]
      rw [List.take_left, List.drop_left]
      simp
    · simp only [hv, if_false]
      exact ⟨[], x, rfl, Or.inl rfl⟩

theorem header_inv_samplers (p : CStr)
    (h1 : pass_ok p ("sampler1D".toList, "sampler2D".toList) = true)
    (h2 : pass_ok p ("isampler1D".toList, "isampler2D".toList) = true)
    (h3 : pass_ok p ("usampler1D".toList, "usampler2D".toList) = true)
    (w : CStr) (h : HeaderInv p w) : HeaderInv p (shader_patch_samplers w) := by
  unfold shader_patch_samplers
  exact header_inv_pass p _ _ h3 _ (header_inv_pass p _ _ h2 _ (header_inv_pass p _ _ h1 _ h))

theorem header_inv_builtins (p : CStr)
    (h1 : builtin_replacements.all (pass_ok p) = true)
    (h2 : pass_ok p ("noperspective ".toList, "/* noperspective */ ".toList) = true)
    (h3 : pass_ok p ("noperspective\n".toList, "/* noperspective */\n".toList) = true)
    (w : CStr) (h : HeaderInv p w) : HeaderInv p (shader_patch_builtins w) := by
  unfold shader_patch_builtins
  exact header_inv_pass p _ _ h3 _ (header_inv_pass p _ _ h2 _
    (header_inv_table p builtin_replacements h1 _ h))

/-! ### Working next to a long text without walking through it -/

theorem contains_false_of_infix (hay x key : CStr) (hk : key <:+: x)
    (h : contains hay key = false) : contains hay x = false := by
  apply contains_false_of_absent
  intro hi
  exact not_infix_of_contains_false _ _ h (hk.trans hi)

theorem isPrefixOf_false_of_length (s x : CStr) (h : x.length < s.length) :
    s.isPrefixOf x = false := by
  cases hp : s.isPrefixOf x with
  | false => rfl
  | true =>
    have := (List.isPrefixOf_iff_prefix.mp hp).length_le
    omega

/-- A pattern that does not occur in `p0 ++ tail` and cannot start in `tail`, which is at
least as long, cannot start in `p0 ++ tail`. -/
theorem no_start_inside_of_tail (x tail : CStr) (hlen : x.length ≤ tail.length)
    (ht : no_start_inside x tail = true) :
    ∀ p0 : CStr, contains (p0 ++ tail) x = false → no_start_inside x (p0 ++ tail) = true := by
  intro p0
  induction p0 with
  | nil => intro _; exact ht
  | cons c cs ih =>
    intro hc
    have hn := not_infix_of_contains_false _ _ hc
    have h1 : x.isPrefixOf (c :: (cs ++ tail)) = false := by
      cases hp : x.isPrefixOf (c :: (cs ++ tail)) with
      | false => rfl
      | true => exact absurd (List.isPrefixOf_iff_prefix.mp hp).isInfix hn
    have h2 : (c :: (cs ++ tail)).isPrefixOf x = false :=
      isPrefixOf_false_of_length _ _ (by simp; omega)
    have h3 := ih (contains_false_of_absent _ _
      (fun hi => hn (hi.trans (List.suffix_cons c (cs ++ tail)).isInfix)))
    have e : no_start_inside x (c :: (cs ++ tail))
        = (!compat x (c :: (cs ++ tail)) && no_start_inside x (cs ++ tail)) := rfl
    rw [List.cons_append, e, h3]
    simp only [compat, h1, h2, Bool.or_self, Bool.not_false, Bool.and_self]

/-- A pattern that does not occur in `p0 ++ tail` occurs in `p0 ++ tail ++ body` exactly
when it occurs in `tail ++ body`, for a `tail` that is long enough. -/
theorem contains_after (x p0 tail body : CStr) (hlen : x.length ≤ tail.length + 1)
    (hc : contains (p0 ++ tail) x = false) :
    contains (p0 ++ tail ++ body) x = contains (tail ++ body) x := by
  have hn := not_infix_of_contains_false _ _ hc
  cases h : contains (tail ++ body) x with
  | true =>
    rw [contains_iff] at h ⊢
    rw [List.append_assoc]
    exact h.trans (List.suffix_append _ _).isInfix
  | false =>
    apply contains_false_of_absent
    intro hi
    rw [List.append_assoc] at hi
    rcases infix_append_cases x p0 (tail ++ body) hi with ⟨a1, a2, e, hne, hp⟩ | h2
    · have hl : 0 < a2.length := List.length_pos.mpr hne
      have hp2 : x <+: (a2 ++ tail) ++ body := by rw [List.append_assoc]; exact hp
      have hp3 : x <+: a2 ++ tail :=
        List.prefix_of_prefix_length_le hp2 (List.prefix_append _ _) (by simp; omega)
      have hs : a2 ++ tail <:+: p0 ++ tail := by
        rw [e, List.append_assoc]
        exact (List.suffix_append _ _).isInfix
      exact hn (hp3.isInfix.trans hs)
    · exact not_infix_of_contains_false _ _ h h2

theorem repl_functional (find rep : CStr) (hf : find ≠ []) (s a : CStr)
    (ha : Repl find rep s a) : ∀ b, Repl find rep s b → a = b := by
  induction ha with
  | nil => intro b hb; exact (repl_nil_inv find rep hf b hb).symm
  | hit t t2 _ ih =>
    intro b hb
    obtain ⟨b2, e, hb2⟩ := repl_hit_inv find rep hf t b hb
    rw [e, ih b2 hb2]
  | skip c t t2 hn _ ih =>
    intro b hb
    obtain ⟨b2, e, hb2⟩ := repl_skip_inv find rep c t b hn hb
    rw [e, ih b2 hb2]

/-- One pass of `str_replace_all` on a text that begins with a part `p` in which the
pattern cannot start is the pass on the rest. -/
theorem str_replace_all_after (find rep p s : CStr) (hf : find ≠ [])
    (hc : no_start_inside find p = true) :
    str_replace_all (p ++ s) find rep = p ++ str_replace_all s find rep := by
  obtain ⟨r2, e, h2⟩ := repl_prefix_kept find rep p hc s _
    (str_replace_all_repl (p ++ s) find rep hf)
  rw [e, repl_functional find rep hf s r2 h2 _ (str_replace_all_repl s find rep hf)]

theorem pass_ok_of_checks (p0 tail : CStr) (row : CStr × CStr)
    (hc : contains (p0 ++ tail) row.1 = false)
    (h : pass_checks (p0 ++ tail) tail row = true) : pass_ok (p0 ++ tail) row = true := by
  simp only [pass_checks, Bool.and_eq_true, decide_eq_true_eq] at h
  obtain ⟨⟨⟨⟨h1, h2⟩, h3⟩, h4⟩, h5⟩ := h
  simp only [pass_ok, no_overlap, Bool.and_eq_true]
  exact ⟨⟨h1, no_start_inside_of_tail _ _ h2 h3 p0 hc, h4⟩, h5⟩

theorem table_pass_ok (p0 tail : CStr) (table : List (CStr × CStr))
    (hk : keys_absent (p0 ++ tail) = true) (hkeyed : keyed table = true)
    (h : table.all (pass_checks (p0 ++ tail) tail) = true) :
    table.all (pass_ok (p0 ++ tail)) = true := by
  rw [List.all_eq_true] at h ⊢
  intro row hrow
  exact pass_ok_of_checks p0 tail row
    (keyed_absent _ _ hk (List.all_eq_true.mp hkeyed row hrow)) (h row hrow)

theorem pass_ok_of_tail (p p0 tail : CStr) (hp : p = p0 ++ tail) (row : CStr × CStr)
    (hc : contains p row.1 = false) (h : pass_checks p tail row = true) :
    pass_ok p row = true := by
  subst hp
  exact pass_ok_of_checks p0 tail row hc h

theorem table_pass_ok_of_tail (p p0 tail : CStr) (hp : p = p0 ++ tail)
    (table : List (CStr × CStr)) (hk : keys_absent p = true) (hkeyed : keyed table = true)
    (h : table.all (pass_checks p tail) = true) : table.all (pass_ok p) = true := by
  subst hp
  exact table_pass_ok p0 tail table hk hkeyed h

theorem keys_absent_of_infix (a b : CStr) (h : a <:+: b) (hb : keys_absent b = true) :
    keys_absent a = true := by
  simp only [keys_absent, List.all_eq_true, Bool.not_eq_true'] at hb ⊢
  intro key hkey
  apply contains_false_of_absent
  intro hi
  exact not_infix_of_contains_false _ _ (hb key hkey) (hi.trans h)

theorem keys_absent_after (p0 tail body : CStr)
    (hlen : pattern_keys.all (fun key => decide (key.length ≤ tail.length + 1)) = true)
    (hp : keys_absent (p0 ++ tail) = true) (hb : keys_absent (tail ++ body) = true) :
    keys_absent (p0 ++ tail ++ body) = true := by
  simp only [keys_absent, List.all_eq_true, Bool.not_eq_true', decide_eq_true_eq]
    at hlen hp hb ⊢
  intro key hkey
  rw [contains_after key p0 tail body (hlen key hkey) (hp key hkey)]
  exact hb key hkey

/-- What the walks through the directive line and the precision prelude of a fragment
shader find: the prelude ends with `header_tail`, and none of the `pattern_keys`, of
`gl_FragColor`, `out vec4` and a line-initial `varying` occurs in the two. -/
theorem fragment_header_facts :
    precision_header_fragment = precision_header_fragment.take 498 ++ header_tail ∧
    keys_absent ("#version 320 es\n".toList ++ precision_header_fragment) = true ∧
    contains ("#version 320 es\n".toList ++ precision_header_fragment)
      "gl_FragColor".toList = false ∧
    contains ("#version 320 es\n".toList ++ precision_header_fragment)
      "out vec4".toList = false ∧
    contains ("#version 320 es\n".toList ++ precision_header_fragment)
      "\nvarying ".toList = false := by
  decide

theorem fragment_header_passes :
    pass_ok precision_header_fragment ("sampler1D".toList, "sampler2D".toList) = true ∧
    pass_ok precision_header_fragment ("isampler1D".toList, "isampler2D".toList) = true ∧
    pass_ok precision_header_fragment ("usampler1D".toList, "usampler2D".toList) = true ∧
    builtin_replacements.all (pass_ok precision_header_fragment) = true ∧
    pass_ok precision_header_fragment
      ("noperspective ".toList, "/* noperspective */ ".toList) = true ∧
    pass_ok precision_header_fragment
      ("noperspective\n".toList, "/* noperspective */\n".toList) = true ∧
    type_replacements.all (pass_ok precision_header_fragment) = true ∧
    pass_ok precision_header_fragment ("gl_FragColor".toList, "prismgl_FragColor".toList)
      = true := by
  obtain ⟨ht, hk, hg, _, _⟩ := fragment_header_facts
  have hs : precision_header_fragment
      <:+: "#version 320 es\n".toList ++ precision_header_fragment :=
    (List.suffix_append _ _).isInfix
  have hkH : keys_absent precision_header_fragment = true := keys_absent_of_infix _ _ hs hk
  have hgH : contains precision_header_fragment "gl_FragColor".toList = false :=
    contains_false_of_absent _ _
      (fun hi => not_infix_of_contains_false _ _ hg (hi.trans hs))
  have one : ∀ row : CStr × CStr,
      pattern_keys.any (fun key => contains row.1 key) = true →
      pass_checks precision_header_fragment header_tail row = true →
      pass_ok precision_header_fragment row = true :=
    fun row hkeyed h => pass_ok_of_tail _ _ _ ht row (keyed_absent _ _ hkH hkeyed) h
  exact ⟨one _ (by decide) (by decide), one _ (by decide) (by decide),
    one _ (by decide) (by decide),
    table_pass_ok_of_tail _ _ _ ht _ hkH (by decide) (by decide),
    one _ (by decide) (by decide), one _ (by decide) (by decide),
    table_pass_ok_of_tail _ _ _ ht _ hkH (by decide) (by decide),
    pass_ok_of_tail _ _ _ ht _ hgH (by decide)⟩

/-- After steps 1 to 6 a fragment shader holds the precision prelude after at most one
line. -/
theorem header_inv_steps (source : CStr) (v : Int) :
    HeaderInv precision_header_fragment (translate_steps_1_6 source GL_FRAGMENT_SHADER v) := by
  obtain ⟨h1, h2, h3, h4, h5, h6, h7, _⟩ := fragment_header_passes
  unfold translate_steps_1_6
  have h0 := header_inv_precision
    (shader_patch_extensions (replace_version source v)) GL_FRAGMENT_SHADER
  have hh : precision_header GL_FRAGMENT_SHADER = precision_header_fragment := by
    simp [precision_header]
  rw [hh] at h0
  exact header_inv_table _ type_replacements h7 _
    (header_inv_builtins _ h4 h5 h6 _ (header_inv_samplers _ h1 h2 h3 _ h0))

theorem strstr_le (x : CStr) : ∀ (s : CStr) (j : Nat), j ≤ s.length → x <+: s.drop j →
    ∃ k, strstr s x = some k ∧ k ≤ j := by
  intro s
  induction s with
  | nil =>
    intro j hj hp
    have : j = 0 := by simpa using hj
    subst this
    exact ⟨0, strstr_prefix_zero [] x hp, Nat.le_refl _⟩
  | cons c cs ih =>
    intro j hj hp
    by_cases h0 : x <+: c :: cs
    · exact ⟨0, strstr_prefix_zero _ x h0, Nat.zero_le _⟩
    · cases j with
      | zero => exact absurd hp h0
      | succ j =>
        obtain ⟨k, hk, hkj⟩ := ih j (by simpa using hj) (by simpa using hp)
        refine ⟨k + 1, ?_, by omega⟩
        have h1 : x.isPrefixOf (c :: cs) = false := by
          rw [Bool.eq_false_iff]; exact fun h => h0 (List.isPrefixOf_iff_prefix.mp h)
        simp [strstr, h1, hk]

theorem pbe_no_newline (u rest : CStr) (hu : '\n' ∉ u) :
    precision_block_end (u ++ rest) = u.length + precision_block_end rest := by
  induction u with
  | nil => simp
  | cons c cs ih =>
    have hc : c ≠ '\n' := fun h => hu (by rw [h]; exact List.mem_cons_self _ _)
    have hcs : '\n' ∉ cs := fun h => hu (List.mem_cons_of_mem _ h)
    have e : (c :: cs) ++ rest = c :: (cs ++ rest) := rfl
    rw [e]
    simp only [precision_block_end, hc, false_and, if_false, List.length_cons]
    rw [ih hcs]
    omega

theorem pbe_newline_precision (rest : CStr) (h : "precision".toList <+: rest) :
    precision_block_end ('\n' :: rest) = precision_block_end rest + 1 := by
  have : "precision".toList.isPrefixOf rest = true := List.isPrefixOf_iff_prefix.mpr h
  simp only [precision_block_end, this, not_true_eq_false, and_false, if_false]

theorem pbe_newline_stop (rest : CStr) (h : ¬ "precision".toList <+: rest) :
    precision_block_end ('\n' :: rest) = 0 := by
  have : "precision".toList.isPrefixOf rest = false := by
    rw [Bool.eq_false_iff]; exact fun h2 => h (List.isPrefixOf_iff_prefix.mp h2)
  simp only [precision_block_end, this, Bool.false_eq_true, not_false_eq_true, and_self,
    if_true]

theorem unlines_nl_length_pos (ln : CStr) (lns : List CStr) :
    0 < (unlines_nl (ln :: lns)).length := by
  simp [unlines_nl]

theorem pbe_lines (lines : List CStr) (hne : lines ≠ [])
    (hl : ∀ ln ∈ lines, '\n' ∉ ln ∧ "precision".toList <+: ln)
    (t : CStr) (ht : ¬ "precision".toList <+: t) :
    precision_block_end (unlines_nl lines ++ t) = (unlines_nl lines).length - 1 := by
  induction lines with
  | nil => exact absurd rfl hne
  | cons ln lns ih =>
    have h1 := hl ln (List.mem_cons_self _ _)
    cases lns with
    | nil =>
      simp only [unlines_nl, List.append_assoc, List.cons_append, List.nil_append]
      rw [pbe_no_newline _ _ h1.1, pbe_newline_stop _ ht]
      simp
    | cons ln2 lns2 =>
      have h2 := hl ln2 (List.mem_cons_of_mem _ (List.mem_cons_self _ _))
      have hrec := ih (by simp) (fun x hx => hl x (List.mem_cons_of_mem _ hx))
      have hpos := unlines_nl_length_pos ln2 lns2
      have hpre : "precision".toList <+: unlines_nl (ln2 :: lns2) ++ t := by
        simp only [unlines_nl, List.append_assoc]
        exact h2.2.trans (List.prefix_append _ _)
      have e : unlines_nl (ln :: ln2 :: lns2) ++ t
          = ln ++ '\n' :: (unlines_nl (ln2 :: lns2) ++ t) := by
        simp [unlines_nl]
      rw [e, pbe_no_newline _ _ h1.1, pbe_newline_precision _ hpre, hrec]
      have e2 : (unlines_nl (ln :: ln2 :: lns2)).length
          = ln.length + 1 + (unlines_nl (ln2 :: lns2)).length := by
        simp [unlines_nl]; omega
      rw [e2]
      omega

theorem fragment_header_lines :
    precision_header_fragment = unlines_nl precision_lines_fragment ∧
    (∀ ln ∈ precision_lines_fragment, '\n' ∉ ln ∧ "precision".toList <+: ln) ∧
    "precision highp".toList <+: precision_header_fragment ∧
    precision_header_fragment.getLast? = some '\n' := by
  refine ⟨by decide, ?_, ⟨(precision_header_fragment.drop 15), by decide⟩, by decide⟩
  have h : precision_lines_fragment.all
      (fun ln => !ln.contains '\n' && "precision".toList.isPrefixOf ln) = true := by decide
  intro ln hln
  have := List.all_eq_true.mp h ln hln
  simp only [Bool.and_eq_true, Bool.not_eq_true'] at this
  exact ⟨by simpa using this.1, List.isPrefixOf_iff_prefix.mp this.2⟩

/-- Where step 7 inserts the declaration: directly after the precision prelude, when the
prelude stands after at most one line and is not followed by a line that starts with
`precision`. -/
theorem insert_out_decl_after_header (l t : CStr) (hl : OneLine l)
    (ht : ¬ "precision".toList <+: t) :
    insert_out_decl (l ++ (precision_header_fragment ++ t))
      = l ++ (precision_header_fragment ++ (out_decl ++ t)) := by
  obtain ⟨hH, hlines, hpre, hlast⟩ := fragment_header_lines
  have hHne : precision_header_fragment ≠ [] := by decide
  have hHlen : 0 < precision_header_fragment.length := List.length_pos.mpr hHne
  have hocc : "precision highp".toList
      <+: (l ++ (precision_header_fragment ++ t)).drop l.length := by
    rw [List.drop_left]
    exact hpre.trans (List.prefix_append _ _)
  obtain ⟨k, hk, hkl⟩ := strstr_le "precision highp".toList
    (l ++ (precision_header_fragment ++ t)) l.length (by simp) hocc
  have hpH : "precision".toList <+: precision_header_fragment ++ t := by
    have : "precision".toList <+: precision_header_fragment := by
      rw [← List.isPrefixOf_iff_prefix]; decide
    exact this.trans (List.prefix_append _ _)
  have hwalkH : precision_block_end (precision_header_fragment ++ t)
      = precision_header_fragment.length - 1 := by
    rw [hH]
    exact pbe_lines precision_lines_fragment (by decide) hlines t ht
  have hwalk : precision_block_end ((l ++ (precision_header_fragment ++ t)).drop k)
      = l.length - k + (precision_header_fragment.length - 1) := by
    rw [List.drop_append_of_le_length hkl]
    rcases hl with hl | ⟨l0, e, hl0⟩
    · subst hl
      have : k = 0 := by simpa using hkl
      subst this
      simp [hwalkH]
    · by_cases hk2 : k = l.length
      · subst hk2
        simp [hwalkH]
      · have hk3 : k ≤ l0.length := by
          rw [e] at hkl hk2
          simp only [List.length_append, List.length_singleton] at hkl hk2
          omega
        rw [e, List.drop_append_of_le_length hk3, List.append_assoc,
          pbe_no_newline _ _ (fun hm => hl0 (List.mem_of_mem_drop hm))]
        simp only [List.singleton_append]
        rw [pbe_newline_precision _ hpH, hwalkH]
        simp only [List.length_drop, List.length_append, List.length_singleton]
        omega
  have hsplit : l ++ (precision_header_fragment ++ t)
      = (l ++ precision_header_fragment.dropLast) ++ '\n' :: t := by
    have := List.dropLast_append_getLast hHne
    rw [List.getLast?_eq_getLast _ hHne] at hlast
    simp only [Option.some.injEq] at hlast
    rw [hlast] at this
    conv_lhs => rw [← this]
    simp
  have hlenp : (l ++ precision_header_fragment.dropLast).length
      = k + (l.length - k + (precision_header_fragment.length - 1)) := by
    simp only [List.length_append, List.length_dropLast]
    omega
  have hhead : ((l ++ (precision_header_fragment ++ t)).drop
      (k + (l.length - k + (precision_header_fragment.length - 1)))).head? = some '\n' := by
    rw [hsplit, ← hlenp, List.drop_left]
    rfl
  have htake : (l ++ (precision_header_fragment ++ t)).take
      (k + (l.length - k + (precision_header_fragment.length - 1)) + 1)
      = l ++ precision_header_fragment := by
    have e1 : l ++ (precision_header_fragment ++ t) = (l ++ precision_header_fragment) ++ t := by
      simp
    have e2 : k + (l.length - k + (precision_header_fragment.length - 1)) + 1
        = (l ++ precision_header_fragment).length := by
      simp only [List.length_append]; omega
    rw [e1, e2, List.take_left]
  have hdrop : (l ++ (precision_header_fragment ++ t)).drop
      (k + (l.length - k + (precision_header_fragment.length - 1)) + 1) = t := by
    have e1 : l ++ (precision_header_fragment ++ t) = (l ++ precision_header_fragment) ++ t := by
      simp
    have e2 : k + (l.length - k + (precision_header_fragment.length - 1)) + 1
        = (l ++ precision_header_fragment).length := by
      simp only [List.length_append]; omega
    rw [e1, e2, List.drop_left]
  simp only [insert_out_decl, hk, hwalk, hhead, if_true, htake, hdrop, out_decl,
    List.append_assoc]

theorem take_drop_of_append (x a c : CStr) (e : x = a ++ c) :
    a = x.take a.length ∧ c = x.drop a.length := by
  subst e
  simp

theorem rename_overlaps :
    (List.range 18).all (fun i =>
      !compat "gl_FragColor".toList ("prismgl_FragColor".toList.drop i) ||
      "prismgl_FragColor".toList.drop i == [] ||
      "prismgl_FragColor".toList.take i == "prism".toList) = true ∧
    (List.range 29).all (fun i =>
      !compat "gl_FragColor".toList (out_decl.drop i) || out_decl.drop i == [] ||
      out_decl.take i == "out vec4 prism".toList) = true := by
  decide

theorem all_renamed_repl (s r : CStr)
    (h : Repl "gl_FragColor".toList "prismgl_FragColor".toList s r) : AllRenamed r := by
  induction h with
  | nil =>
    intro a b e
    have := (List.append_eq_nil.mp e.symm).2
    simp at this
  | hit t t2 _ ih =>
    intro a b e
    rcases List.append_eq_append_iff.mp e with ⟨a', h1, h2⟩ | ⟨c', h1, h2⟩
    · rw [h1]
      exact (ih a' b h2).trans (List.suffix_append _ _)
    · by_cases hc : c' = []
      · subst hc
        have := ih [] b (by simpa using h2.symm)
        simp at this
      · obtain ⟨ea, ec⟩ := take_drop_of_append _ a c' h1
        have hp : "gl_FragColor".toList <+: c' ++ t2 := ⟨b, h2⟩
        have hcomp := compat_of_prefix_append _ c' t2 hp
        have hlen : a.length < 18 := by
          have := congrArg List.length h1
          simp only [List.length_append] at this
          have h17 : "prismgl_FragColor".toList.length = 17 := by decide
          omega
        have hall := List.all_eq_true.mp rename_overlaps.1 a.length (List.mem_range.mpr hlen)
        rw [← ec, ← ea, hcomp] at hall
        simp only [Bool.not_true, Bool.false_or, Bool.or_eq_true, beq_iff_eq] at hall
        rcases hall with h3 | h3
        · exact absurd h3 hc
        · rw [h3]
  | skip c t t2 hn hrep ih =>
    intro a b e
    cases a with
    | nil =>
      exfalso
      have hp : "gl_FragColor".toList <+: c :: t2 := ⟨b, by simpa using e.symm⟩
      exact hn (repl_prefix_source _ _ (c :: t) (c :: t2) (Repl.skip c t t2 hn hrep) _
        (by decide) hp)
    | cons a0 a1 =>
      simp only [List.cons_append, List.cons.injEq] at e
      exact (ih a1 b e.2).trans (List.suffix_cons _ _)

theorem suffix_after_newline (p A x : CStr) (hnl : '\n' ∉ p)
    (hA : A.getLast? = some '\n') (h : p <:+ A ++ x) : p <:+ x := by
  have hAne : A ≠ [] := by intro e; rw [e] at hA; cases hA
  obtain ⟨u, hu⟩ := h
  rcases List.append_eq_append_iff.mp hu with ⟨a', h1, h2⟩ | ⟨c', h1, h2⟩
  · -- A = u ++ a', p = a' ++ x
    by_cases ha : a' = []
    · subst ha
      exact ⟨[], by simp [h2]⟩
    · exfalso
      have hlast : A.getLast? = a'.getLast? := by
        rw [h1, List.getLast?_append_of_ne_nil _ ha]
      rw [hA] at hlast
      have : '\n' ∈ a' := List.mem_of_getLast?_eq_some hlast.symm
      exact hnl (by rw [h2]; exact List.mem_append_left _ this)
  · exact ⟨c', h2.symm⟩

theorem all_renamed_insert (A T : CStr) (hA : A.getLast? = some '\n')
    (h : AllRenamed (A ++ T)) : AllRenamed (A ++ (out_decl ++ T)) := by
  intro a b e
  rcases List.append_eq_append_iff.mp e with ⟨a', h1, h2⟩ | ⟨c', h1, h2⟩
  · -- a = A ++ a', out_decl ++ T = a' ++ (gl ++ b)
    rcases List.append_eq_append_iff.mp h2 with ⟨a2, h3, h4⟩ | ⟨c2, h3, h4⟩
    · -- a' = out_decl ++ a2, T = a2 ++ (gl ++ b)
      have h5 := h (A ++ a2) b (by rw [h4]; simp)
      have h6 := suffix_after_newline _ A a2 (by decide) hA h5
      rw [h1, h3]
      exact h6.trans ((List.suffix_append _ _).trans (List.suffix_append _ _))
    · -- out_decl = a' ++ c2, gl ++ b = c2 ++ T
      by_cases hc : c2 = []
      · subst hc
        exfalso
        have h5 := h (A ++ []) b (by simpa using h4.symm)
        simp only [List.append_nil] at h5
        obtain ⟨u, hu⟩ := h5
        have hlast : A.getLast? = some 'm' := by
          rw [← hu, List.getLast?_append_of_ne_nil _ (by decide)]
          rfl
        rw [hA] at hlast
        cases hlast
      · obtain ⟨ea, ec⟩ := take_drop_of_append _ a' c2 h3
        have hp : "gl_FragColor".toList <+: c2 ++ T := ⟨b, h4⟩
        have hcomp := compat_of_prefix_append _ c2 T hp
        have hlen : a'.length < 29 := by
          have := congrArg List.length h3
          simp only [List.length_append] at this
          have h28 : out_decl.length = 28 := by decide
          omega
        have hall := List.all_eq_true.mp rename_overlaps.2 a'.length (List.mem_range.mpr hlen)
        rw [← ec, ← ea, hcomp] at hall
        simp only [Bool.not_true, Bool.false_or, Bool.or_eq_true, beq_iff_eq] at hall
        rcases hall with h5 | h5
        · exact absurd h5 hc
        · rw [h1, h5]
          have h6 : "prism".toList <:+ "out vec4 prism".toList := ⟨"out vec4 ".toList, by decide⟩
          exact h6.trans (List.suffix_append _ _)
  · -- A = a ++ c', gl ++ b = c' ++ (out_decl ++ T)
    have hp : "gl_FragColor".toList <+: c' ++ (out_decl ++ T) := ⟨b, h2⟩
    rcases prefix_append_cases _ c' _ hp with h3 | ⟨x2, hne, ex, hx2⟩
    · obtain ⟨d, hd⟩ := h3
      exact h a (d ++ T) (by rw [h1, ← hd]; simp)
    · exfalso
      have hc := no_start_inside_drop out_decl "gl_FragColor".toList (by decide) c' x2 ex hne
      have hc2 := compat_of_prefix_append x2 out_decl T hx2
      rw [compat_comm, hc] at hc2
      cases hc2

theorem all_renamed_varying (s r : CStr) (h : Repl "\nvarying ".toList "\nin ".toList s r)
    (hs : AllRenamed s) : AllRenamed r := by
  intro a b e
  obtain ⟨a2, b2, e2, hr2⟩ := repl_occurrence_source _ _ "gl_FragColor".toList (by decide)
    (by decide) s r h a b e
  obtain ⟨u, hu⟩ := hs a2 b2 e2
  rw [← hu] at hr2
  obtain ⟨u2, e3⟩ := repl_suffix_kept _ _ (by decide) "prism".toList (by decide) u a hr2
  exact ⟨u2, e3.symm⟩

/-- The only occurrence of `x` in `A ++ x ++ B`, when `x` cannot overlap itself and occurs
neither in `A` nor in `B`, is the one in the middle. -/
theorem unique_occurrence (x A B : CStr) (hself : no_start_inside x x.tail = true)
    (hA : ¬ x <:+: A) (hB : ¬ x <:+: B) (a2 b2 : CStr)
    (e : A ++ (x ++ B) = a2 ++ (x ++ b2)) : a2 = A := by
  rcases List.append_eq_append_iff.mp e with ⟨a', h1, h2⟩ | ⟨c', h1, h2⟩
  · -- a2 = A ++ a', x ++ B = a' ++ (x ++ b2)
    by_cases ha : a' = []
    · subst ha; simpa using h1
    · exfalso
      rcases List.append_eq_append_iff.mp h2 with ⟨a3, h3, h4⟩ | ⟨c3, h3, h4⟩
      · exact hB ⟨a3, b2, by rw [h4]; simp⟩
      · by_cases hc : c3 = []
        · subst hc
          exact hB ⟨[], b2, by simpa using h4⟩
        · have hp : x <+: c3 ++ B := ⟨b2, h4⟩
          have hcomp := compat_of_prefix_append x c3 B hp
          cases a' with
          | nil => exact ha rfl
          | cons x0 a1 =>
            have ht : x.tail = a1 ++ c3 := by rw [h3]; rfl
            have := no_start_inside_drop x x.tail hself a1 c3 ht hc
            rw [this] at hcomp
            cases hcomp
  · -- A = a2 ++ c', x ++ b2 = c' ++ (x ++ B)
    by_cases hc : c' = []
    · subst hc; simpa using h1.symm
    · exfalso
      have hp : x <+: c' ++ (x ++ B) := ⟨b2, h2⟩
      rcases prefix_append_cases x c' _ hp with h3 | ⟨x2, hne, ex, hx2⟩
      · exact hA (h3.isInfix.trans (by rw [h1]; exact (List.suffix_append _ _).isInfix))
      · have hcomp := compat_of_prefix_append x2 x B hx2
        cases c' with
        | nil => exact hc rfl
        | cons c0 c1 =>
          have ht : x.tail = c1 ++ x2 := by rw [ex]; rfl
          have := no_start_inside_drop x x.tail hself c1 x2 ht hne
          rw [compat_comm, this] at hcomp
          cases hcomp

theorem infix_of_append_left (x a b : CStr) (h : x <:+: a) : x <:+: a ++ b :=
  h.trans (List.prefix_append a b).isInfix

theorem infix_of_append_right (x a b : CStr) (h : x <:+: b) : x <:+: a ++ b :=
  h.trans (List.suffix_append a b).isInfix

theorem fragcolor_checks :
    no_overlap "out vec4".toList "prismgl_FragColor".toList = true ∧
    no_overlap "out vec4".toList "\nin ".toList = true ∧
    no_overlap "out vec4".toList precision_header_fragment = true ∧
    no_start_inside "prismgl_FragColor".toList "precision".toList = true ∧
    no_overlap "\nvarying ".toList
      (precision_header_fragment ++ out_decl.dropLast) = true ∧
    no_start_inside out_decl out_decl.tail = true ∧
    nl_ok "gl_FragColor".toList "prismgl_FragColor".toList = true ∧
    precision_header_fragment.getLast? = some '\n' ∧
    out_decl = out_decl.dropLast ++ ['\n'] ∧
    "out vec4".toList <+: out_decl := by
  refine ⟨by decide, by decide, by decide, by decide, by decide, by decide, by decide,
    by decide, by decide, ?_⟩
  rw [← List.isPrefixOf_iff_prefix]; decide

theorem repl_varying_newline (t r : CStr)
    (h : Repl "\nvarying ".toList "\nin ".toList ('\n' :: t) r) : ∃ r2, r = '\n' :: r2 := by
  by_cases hm : "\nvarying ".toList <+: '\n' :: t
  · obtain ⟨t1, e1⟩ := hm
    rw [← e1] at h
    obtain ⟨t2, e2, _⟩ := repl_hit_inv _ _ (by decide) _ _ h
    exact ⟨"in ".toList ++ t2, by rw [e2]; rfl⟩
  · obtain ⟨t2, e2, _⟩ := repl_skip_inv _ _ _ _ _ hm h
    exact ⟨t2, e2⟩

/-- Step 7 on a text that holds the precision prelude after at most one line, in which
`out vec4` does not occur and the prelude is not followed by a line starting with
`precision`. -/
theorem fragcolor_step (w : CStr) (hinv : HeaderInv precision_header_fragment w)
    (ho : ¬ "out vec4".toList <:+: w)
    (hp : ∀ a b, w = a ++ (precision_header_fragment ++ b) → ¬ "precision".toList <+: b) :
    FragColorDeclared (str_replace_all (insert_out_decl
      (str_replace_all w "gl_FragColor".toList "prismgl_FragColor".toList))
      "\nvarying ".toList "\nin ".toList) := by
  obtain ⟨c1, c2, c3, c4, c5, c6, c7, c8, c9, c10⟩ := fragcolor_checks
  obtain ⟨_, _, _, _, _, _, _, hpass⟩ := fragment_header_passes
  obtain ⟨l, t, e, hl⟩ := hinv
  have ht := hp l t e
  -- the renaming pass
  have hR := str_replace_all_repl w "gl_FragColor".toList "prismgl_FragColor".toList (by decide)
  have hQR := all_renamed_repl _ _ hR
  have hoR : ¬ "out vec4".toList <:+: str_replace_all w "gl_FragColor".toList
      "prismgl_FragColor".toList :=
    fun hi => ho (repl_infix_source _ _ _ c1 _ _ hR hi)
  have hx : no_overlap "gl_FragColor".toList precision_header_fragment = true := by
    simp only [pass_ok, Bool.and_eq_true] at hpass; exact hpass.1.2
  rw [e] at hR
  obtain ⟨l2, t2, e2, hl2, ht2⟩ := repl_split _ _ (by decide) _ hx l.length l t _
    (Nat.le_refl _) hR
  rw [← e] at e2
  have hol2 := repl_one_line _ _ (by decide) c7 l l2 hl2 hl
  have hpt2 : ¬ "precision".toList <+: t2 :=
    fun hi => ht (repl_prefix_source _ _ t t2 ht2 _ c4 hi)
  rw [e2] at hQR hoR ⊢
  have hol : ¬ "out vec4".toList <:+: l2 := fun hi => hoR (infix_of_append_left _ _ _ hi)
  have hot : ¬ "out vec4".toList <:+: t2 :=
    fun hi => hoR (infix_of_append_right _ _ _ (infix_of_append_right _ _ _ hi))
  -- the insertion
  rw [insert_out_decl_after_header l2 t2 hol2 hpt2]
  have hQO : AllRenamed (l2 ++ (precision_header_fragment ++ (out_decl ++ t2))) := by
    have hA : (l2 ++ precision_header_fragment).getLast? = some '\n' := by
      rw [List.getLast?_append_of_ne_nil _ (by decide)]; exact c8
    have := all_renamed_insert (l2 ++ precision_header_fragment) t2 hA (by simpa using hQR)
    simpa using this
  -- the last pass
  have hF := str_replace_all_repl (l2 ++ (precision_header_fragment ++ (out_decl ++ t2)))
    "\nvarying ".toList "\nin ".toList (by decide)
  have hQF := all_renamed_varying _ _ hF hQO
  refine ⟨?_, hQF⟩
  have hO : l2 ++ (precision_header_fragment ++ (out_decl ++ t2))
      = l2 ++ ((precision_header_fragment ++ out_decl.dropLast) ++ ('\n' :: t2)) := by
    conv_lhs => rw [c9]
    simp
  rw [hO] at hF
  obtain ⟨l3, t3, e3, hl3, ht3⟩ := repl_split _ _ (by decide) _ c5 l2.length l2 _ _
    (Nat.le_refl _) hF
  obtain ⟨t4, e4⟩ := repl_varying_newline t2 t3 ht3
  have e5 : str_replace_all (l2 ++ (precision_header_fragment ++ (out_decl ++ t2)))
      "\nvarying ".toList "\nin ".toList
      = l3 ++ (precision_header_fragment ++ (out_decl ++ t4)) := by
    rw [hO, e3, e4]
    conv_rhs => rw [c9]
    simp
  rw [e5]
  refine ⟨l3, t4, rfl, ?_⟩
  intro a2 b2 e6
  have hol3 : ¬ "out vec4".toList <:+: l3 :=
    fun hi => hol (repl_infix_source _ _ _ c2 _ _ hl3 hi)
  have hot3 : ¬ "out vec4".toList <:+: t3 := by
    intro hi
    have := repl_infix_source _ _ _ c2 _ _ ht3 hi
    rw [List.infix_cons_iff] at this
    rcases this with h1 | h1
    · obtain ⟨u, hu⟩ := h1
      simp at hu
    · exact hot h1
  have hA : ¬ out_decl <:+: l3 ++ precision_header_fragment := by
    intro hi
    have h1 : "out vec4".toList <:+: l3 ++ (precision_header_fragment ++ []) := by
      simpa using c10.isInfix.trans hi
    rcases infix_around _ _ c3 l3 [] h1 with h2 | h2
    · exact hol3 h2
    · simp at h2
  have hB : ¬ out_decl <:+: t4 := by
    intro hi
    apply hot3
    rw [e4]
    exact (c10.isInfix.trans hi).trans (List.suffix_cons _ _).isInfix
  have e7 : (l3 ++ precision_header_fragment) ++ (out_decl ++ t4) = a2 ++ (out_decl ++ b2) := by
    rw [← e6]; simp
  exact unique_occurrence out_decl _ _ c6 hA hB a2 b2 e7

/-- C6, amended: for a fragment source that is translated (not empty, at most 256 KiB, no ES
version directive) and whose `#version` is at most 120, when in the text after steps 1 to 6
`gl_FragColor` occurs, `out vec4` does not occur (the test of the code for a declared
output) and the precision prelude is not followed by a line that starts with `precision`:
the output holds the declaration `out vec4 prismgl_FragColor;` with its line break directly
after the last line of the precision prelude and nowhere else, and every `gl_FragColor` of
the output is the tail of a `prismgl_FragColor`. -/
theorem translate_fragcolor (source : CStr) (hne : source ≠ [])
    (hl : source.length ≤ MAX_SHADER_SIZE) (hes : NoEsDirective source)
    (hv : shader_detect_version (some source) ≤ 120)
    (hg : "gl_FragColor".toList <:+: translate_steps_1_6 source GL_FRAGMENT_SHADER
      (shader_detect_version (some source)))
    (ho : ¬ "out vec4".toList <:+: translate_steps_1_6 source GL_FRAGMENT_SHADER
      (shader_detect_version (some source)))
    (hp : ¬ (precision_header_fragment ++ "precision".toList) <:+:
      translate_steps_1_6 source GL_FRAGMENT_SHADER (shader_detect_version (some source))) :
    ∃ out, (shader_translate (some source) GL_FRAGMENT_SHADER).translated_source = some out ∧
      FragColorDeclared out := by
  rw [shader_translate_eq source GL_FRAGMENT_SHADER hne hl hes]
  have hinv := header_inv_steps source (shader_detect_version (some source))
  generalize translate_steps_1_6 source GL_FRAGMENT_SHADER
    (shader_detect_version (some source)) = w at hg ho hp hinv
  have hfv : ¬ GL_FRAGMENT_SHADER = GL_VERTEX_SHADER := by decide
  have hcg : contains w "gl_FragColor".toList = true := (contains_iff _ _).mpr hg
  have hco : ¬ contains w "out vec4".toList = true :=
    fun h => ho ((contains_iff _ _).mp h)
  have hleg : translate_legacy w GL_FRAGMENT_SHADER (shader_detect_version (some source))
      = str_replace_all (insert_out_decl
          (str_replace_all w "gl_FragColor".toList "prismgl_FragColor".toList))
          "\nvarying ".toList "\nin ".toList := by
    have hco2 : contains w "out vec4".toList = false := by simpa using hco
    simp only [translate_legacy, hfv, hv, hcg, hco2, and_false, and_true, and_self,
      not_false_eq_true, if_false, if_true, Bool.false_eq_true, ite_true, ite_false,
      Bool.not_false, Bool.not_true, not_true_eq_false, not_false_iff, true_and, if_pos]
  rw [hleg]
  refine ⟨_, rfl, fragcolor_step w hinv ho ?_⟩
  intro a b e hb
  obtain ⟨b2, hb2⟩ := hb
  exact hp ⟨a, b2, by rw [e, ← hb2]; simp⟩

theorem find_override_none (name : CStr) (l : List GLFuncEntry)
    (h : ∀ e ∈ l, e.name ≠ name) : find_override name l = none := by
  induction l with
  | nil => rfl
  | cons e es ih =>
    have h1 : ¬ name = e.name := fun h2 => h e (List.mem_cons_self _ _) h2.symm
    simp only [find_override, h1, if_false]
    exact ih (fun e2 he2 => h e2 (List.mem_cons_of_mem _ he2))

theorem find_override_some (name : CStr) (l : List GLFuncEntry) (f : FuncPtr)
    (h : find_override name l = some f) : ∃ e ∈ l, e.name = name ∧ e.func = f := by
  induction l with
  | nil => cases h
  | cons e es ih =>
    by_cases h1 : name = e.name
    · simp only [find_override, h1, if_true] at h
      exact ⟨e, List.mem_cons_self _ _, h1.symm, Option.some.inj h⟩
    · simp only [find_override, h1, if_false] at h
      obtain ⟨e2, he2, h2⟩ := ih h
      exact ⟨e2, List.mem_cons_of_mem _ he2, h2⟩

theorem driver_lookup_of_es3 (d : Driver) (n : CStr) (p : FuncPtr)
    (h : driver_lookup_es3 d n = some p) : driver_lookup d n = some p := by
  unfold driver_lookup
  unfold driver_lookup_es3 at h
  rw [h]
  cases d.gles2_lib <;> rfl

theorem driver_lookup_es3_none (d : Driver) (n : CStr)
    (h : driver_lookup d n = none) : driver_lookup_es3 d n = none := by
  cases h2 : driver_lookup_es3 d n with
  | none => rfl
  | some p => rw [driver_lookup_of_es3 d n p h2] at h; cases h

/-- The resolver after the override scan found nothing, in terms of the lookups. -/
theorem get_proc_address_unfold (d : Driver) (name : CStr)
    (hov : find_override name g_overrides = none) :
    prismgl_get_proc_address d (some name) =
      match driver_lookup d name with
      | some f => some f
      | none =>
        match driver_lookup_es3 d (snprintf_suffix name "OES".toList) with
        | some f => some f
        | none =>
          match driver_lookup_es3 d (snprintf_suffix name "EXT".toList) with
          | some f => some f
          | none =>
            match find_suffix (name.take 255) with
            | some ext => driver_lookup d ((name.take 255).take ext)
            | none => none := by
  simp only [prismgl_get_proc_address, hov, driver_lookup, driver_lookup_es3]
  cases try_dlsym d.gles2_lib (try_dlsym d.gles_lib (try_egl d none name) name) name with
  | some f => rfl
  | none =>
    cases try_dlsym d.gles_lib (try_egl d none (snprintf_suffix name "OES".toList))
        (snprintf_suffix name "OES".toList) with
    | some f => rfl
    | none =>
      cases try_dlsym d.gles_lib (try_egl d none (snprintf_suffix name "EXT".toList))
          (snprintf_suffix name "EXT".toList) with
      | some f => rfl
      | none => rfl

theorem snprintf_suffix_short (name suffix : CStr) (h : name.length + suffix.length ≤ 255) :
    snprintf_suffix name suffix = name ++ suffix := by
  unfold snprintf_suffix
  exact List.take_of_length_le (by rw [List.length_append]; exact h)

/-- C11, amended: for every name of at most 252 bytes that is not in the override table and
that none of the three driver lookups resolves: if `eglGetProcAddress` or the ES3 library
resolves the name with `OES` appended, `prismgl_get_proc_address` returns that pointer;
otherwise, if one of these two resolves the name with `EXT` appended, it returns that
pointer. The ES2 library is not asked for a name with an appended suffix. -/
theorem get_proc_address_suffix_retry (d : Driver) (name : CStr) (p : FuncPtr)
    (hov : ∀ e ∈ g_overrides, e.name ≠ name) (hlen : name.length ≤ 252)
    (hn : driver_lookup d name = none) :
    (driver_lookup_es3 d (name ++ "OES".toList) = some p →
      prismgl_get_proc_address d (some name) = some p) ∧
    (driver_lookup_es3 d (name ++ "OES".toList) = none →
      driver_lookup_es3 d (name ++ "EXT".toList) = some p →
      prismgl_get_proc_address d (some name) = some p) := by
  have e1 : snprintf_suffix name "OES".toList = name ++ "OES".toList :=
    snprintf_suffix_short name _ (by simp; omega)
  have e2 : snprintf_suffix name "EXT".toList = name ++ "EXT".toList :=
    snprintf_suffix_short name _ (by simp; omega)
  rw [get_proc_address_unfold d name (find_override_none name _ hov), hn, e1, e2]
  constructor
  · intro h
    simp only [h]
  · intro h1 h2
    simp only [h1, h2]

/-- Witness of C11 (amended): a driver whose `eglGetProcAddress` resolves `glFooOES` and
nothing else, asked for `glFoo`; and the same with `glFooEXT`. -/
theorem get_proc_address_suffix_retry_witness :
    driver_lookup (driver_egl_exporting "glFooOES".toList) "glFoo".toList = none ∧
    prismgl_get_proc_address (driver_egl_exporting "glFooOES".toList) (some "glFoo".toList)
      = some (.native 7) ∧
    prismgl_get_proc_address (driver_egl_exporting "glFooEXT".toList) (some "glFoo".toList)
      = some (.native 7) :=
  ⟨by decide,
   (get_proc_address_suffix_retry (driver_egl_exporting "glFooOES".toList) "glFoo".toList
      (.native 7) (by decide) (by decide) (by decide)).1 (by decide),
   (get_proc_address_suffix_retry (driver_egl_exporting "glFooEXT".toList) "glFoo".toList
      (.native 7) (by decide) (by decide) (by decide)).2 (by decide) (by decide)⟩

/-- Counterexample to C11 as stated. The name `glFoo` is not in the override table and no
lookup resolves it. When the ES2 library is the one lookup that resolves `glFooOES`, the
resolver returns `NULL`. And for a name of 253 bytes the text looked up is the name with
`OE` appended, so a driver that resolves the name with `OES` appended is not found. -/
theorem get_proc_address_suffix_retry_counterexample :
    find_override "glFoo".toList g_overrides = none ∧
    driver_lookup (driver_es2_exporting "glFooOES".toList) "glFoo".toList = none ∧
    driver_lookup (driver_es2_exporting "glFooOES".toList) "glFooOES".toList
      = some (.native 7) ∧
    prismgl_get_proc_address (driver_es2_exporting "glFooOES".toList) (some "glFoo".toList)
      = none ∧
    find_override long_name g_overrides = none ∧
    driver_lookup (driver_egl_exporting (long_name ++ "OES".toList)) long_name = none ∧
    driver_lookup (driver_egl_exporting (long_name ++ "OES".toList))
      (long_name ++ "OES".toList) = some (.native 7) ∧
    prismgl_get_proc_address (driver_egl_exporting (long_name ++ "OES".toList))
      (some long_name) = none := by
  decide

theorem strstr_eq_none (hay needle : CStr) (h : ¬ needle <:+: hay) :
    strstr hay needle = none := by
  cases hs : strstr hay needle with
  | none => rfl
  | some k =>
    exact absurd ((strstr_isSome_iff hay needle).mp (by rw [hs]; rfl)) h

theorem strstr_append_at (x b t : CStr) (hx : x <+: t)
    (hb : ∀ a1 a2, b = a1 ++ a2 → a2 ≠ [] → ¬ x <+: a2 ++ t) :
    strstr (b ++ t) x = some b.length := by
  induction b with
  | nil => simpa using strstr_prefix_zero t x hx
  | cons c cs ih =>
    have h1 : ¬ x <+: c :: (cs ++ t) := hb [] (c :: cs) rfl (by simp)
    have h2 : x.isPrefixOf (c :: (cs ++ t)) = false := by
      cases hp : x.isPrefixOf (c :: (cs ++ t)) with
      | false => rfl
      | true => exact absurd (List.isPrefixOf_iff_prefix.mp hp) h1
    have h3 := ih (fun a1 a2 e hne => hb (c :: a1) a2 (by rw [e]; rfl) hne)
    have e : strstr (c :: (cs ++ t)) x = (strstr (cs ++ t) x).map (· + 1) := by
      generalize cs ++ t = u at h2
      simp only [strstr, h2, Bool.false_eq_true, if_false]
    rw [List.cons_append, e, h3]
    rfl

/-- No occurrence of `x` in `b ++ s` starts inside `b`, when `x` does not occur in `b` and
no proper end of `x` begins `s`. -/
theorem no_straddle (x b s : CStr) (hb : ¬ x <:+: b) (hst : no_start_inside s x.tail = true)
    (a1 a2 : CStr) (e : b = a1 ++ a2) (hne : a2 ≠ []) : ¬ x <+: a2 ++ s := by
  intro hp
  rcases prefix_append_cases x a2 s hp with h1 | ⟨x2, hx2, ex, hpx⟩
  · exact hb (h1.isInfix.trans (by rw [e]; exact (List.suffix_append _ _).isInfix))
  · cases a2 with
    | nil => exact hne rfl
    | cons c cs =>
      have ht : x.tail = cs ++ x2 := by rw [ex]; rfl
      have h3 := no_start_inside_drop s x.tail hst cs x2 ht hx2
      have h4 : compat s x2 = true := by
        simp [compat, List.isPrefixOf_iff_prefix.mpr hpx]
      rw [h3] at h4
      cases h4

theorem strstr_append_none (x b s : CStr) (hb : ¬ x <:+: b) (hs : ¬ x <:+: s)
    (hst : no_start_inside s x.tail = true) : strstr (b ++ s) x = none := by
  apply strstr_eq_none
  intro hi
  rcases infix_append_cases x b s hi with ⟨a1, a2, e, hne, hp⟩ | h
  · exact no_straddle x b s hb hst a1 a2 e hne hp
  · exact hs h

theorem find_suffix_append (b s : CStr) (hs : s ∈ vendor_suffixes)
    (hb : ∀ x ∈ vendor_suffixes, ¬ x <:+: b) : find_suffix (b ++ s) = some b.length := by
  have hEXT := hb "EXT".toList (by decide)
  have hARB := hb "ARB".toList (by decide)
  have hNV := hb "NV".toList (by decide)
  have hAMD := hb "AMD".toList (by decide)
  have hOES := hb "OES".toList (by decide)
  have hat : ∀ x : CStr, x ∈ vendor_suffixes → ¬ x <:+: b →
      no_start_inside x x.tail = true → strstr (b ++ x) x = some b.length :=
    fun x _ hxb hself => strstr_append_at x b x (List.prefix_refl x)
      (no_straddle x b x hxb hself)
  have hnone : ∀ x t : CStr, ¬ x <:+: b → contains t x = false →
      no_start_inside t x.tail = true → strstr (b ++ t) x = none :=
    fun x t hxb hc hst => strstr_append_none x b t hxb (not_infix_of_contains_false _ _ hc) hst
  simp only [vendor_suffixes, List.mem_cons, List.mem_singleton, List.not_mem_nil,
    or_false] at hs
  unfold find_suffix
  rcases hs with rfl | rfl | rfl | rfl | rfl
  · rw [hat _ (by decide) hEXT (by decide)]; rfl
  · rw [hnone _ _ hEXT (by decide) (by decide), hat _ (by decide) hARB (by decide)]; rfl
  · rw [hnone _ _ hEXT (by decide) (by decide), hnone _ _ hARB (by decide) (by decide),
      hat _ (by decide) hNV (by decide)]; rfl
  · rw [hnone _ _ hEXT (by decide) (by decide), hnone _ _ hARB (by decide) (by decide),
      hnone _ _ hNV (by decide) (by decide), hat _ (by decide) hAMD (by decide)]; rfl
  · rw [hnone _ _ hEXT (by decide) (by decide), hnone _ _ hARB (by decide) (by decide),
      hnone _ _ hNV (by decide) (by decide), hnone _ _ hAMD (by decide) (by decide),
      hat _ (by decide) hOES (by decide)]; rfl

theorem suffix_free_of_check (b : CStr)
    (h : vendor_suffixes.all (fun x => !contains b x) = true) :
    ∀ x ∈ vendor_suffixes, ¬ x <:+: b := by
  intro x hx
  have h1 := List.all_eq_true.mp h x hx
  apply not_infix_of_contains_false
  simpa using h1

/-- C12, amended: for every base name `b` that contains none of the texts `EXT`, `ARB`,
`NV`, `AMD`, `OES` and every suffix `s` of these five, with `b ++ s` of at most 252 bytes
and not in the override table: if no lookup resolves `b ++ s`, and neither
`eglGetProcAddress` nor the ES3 library resolves `b ++ s` with `OES` or with `EXT`
appended, then `prismgl_get_proc_address (b ++ s)` is what the three lookups give for `b`,
so it returns the pointer of `b` when the driver exports `b`. -/
theorem get_proc_address_base_retry (d : Driver) (b s : CStr) (p : FuncPtr)
    (hs : s ∈ vendor_suffixes) (hb : ∀ x ∈ vendor_suffixes, ¬ x <:+: b)
    (hlen : (b ++ s).length ≤ 252)
    (hov : ∀ e ∈ g_overrides, e.name ≠ b ++ s)
    (h1 : driver_lookup d (b ++ s) = none)
    (h2 : driver_lookup_es3 d (b ++ s ++ "OES".toList) = none)
    (h3 : driver_lookup_es3 d (b ++ s ++ "EXT".toList) = none)
    (hp : driver_lookup d b = some p) :
    prismgl_get_proc_address d (some (b ++ s)) = some p := by
  have hl := hlen
  rw [List.length_append] at hl
  have e1 : snprintf_suffix (b ++ s) "OES".toList = b ++ s ++ "OES".toList :=
    snprintf_suffix_short _ _ (by simp; omega)
  have e2 : snprintf_suffix (b ++ s) "EXT".toList = b ++ s ++ "EXT".toList :=
    snprintf_suffix_short _ _ (by simp; omega)
  have e3 : (b ++ s).take 255 = b ++ s := List.take_of_length_le (by omega)
  rw [get_proc_address_unfold d (b ++ s) (find_override_none _ _ hov), h1, e1, e2, h2, h3,
    e3, find_suffix_append b s hs hb]
  simp only [List.take_left', hp]

/-- Witness of C12 (amended): a driver that exports `glFoo` alone, asked for `glFooEXT`. -/
theorem get_proc_address_base_retry_witness :
    prismgl_get_proc_address (driver_egl_exporting "glFoo".toList) (some "glFooEXT".toList)
      = some (.native 7) :=
  get_proc_address_base_retry (driver_egl_exporting "glFoo".toList) "glFoo".toList
    "EXT".toList (.native 7) (by decide)
    (suffix_free_of_check _ (by decide))
    (by decide) (by decide) (by decide) (by decide) (by decide) (by decide)

/-- Counterexample to C12 as stated: the base name `glFooEXT` with the suffix `ARB`. The
driver exports `glFooEXT` and resolves none of `glFooEXTARB`, `glFooEXTARBOES`,
`glFooEXTARBEXT`; the resolver cuts the name at its first `EXT`, looks up `glFoo` and
returns `NULL`, not the pointer of `glFooEXT`. -/
theorem get_proc_address_base_retry_counterexample :
    "ARB".toList ∈ vendor_suffixes ∧
    find_override ("glFooEXT".toList ++ "ARB".toList) g_overrides = none ∧
    driver_lookup (driver_egl_exporting "glFooEXT".toList) "glFooEXT".toList
      = some (.native 7) ∧
    driver_lookup (driver_egl_exporting "glFooEXT".toList)
      ("glFooEXT".toList ++ "ARB".toList) = none ∧
    driver_lookup (driver_egl_exporting "glFooEXT".toList)
      ("glFooEXT".toList ++ "ARB".toList ++ "OES".toList) = none ∧
    driver_lookup (driver_egl_exporting "glFooEXT".toList)
      ("glFooEXT".toList ++ "ARB".toList ++ "EXT".toList) = none ∧
    candidate_names ("glFooEXT".toList ++ "ARB".toList)
      = ["glFooEXTARB".toList, "glFooEXTARBOES".toList, "glFooEXTARBEXT".toList,
         "glFoo".toList] ∧
    prismgl_get_proc_address (driver_egl_exporting "glFooEXT".toList)
      (some ("glFooEXT".toList ++ "ARB".toList)) = none := by
  decide

/-- C13: `prismgl_get_proc_address` never fabricates a pointer. A `NULL` name yields
`NULL`. For every name that is not in the override table, when none of the three lookups
resolves any of the names the resolver tries, the result is `NULL`. Every pointer it
returns is the table entry of the name or what the lookups return for one of the names it
tries. Against a driver that resolves nothing, the result is not `NULL` if and only if the
name is in the override table. -/
theorem get_proc_address_no_fabrication (d : Driver) :
    prismgl_get_proc_address d none = none ∧
    (∀ name, (∀ e ∈ g_overrides, e.name ≠ name) →
      (∀ n ∈ candidate_names name, driver_lookup d n = none) →
      prismgl_get_proc_address d (some name) = none) ∧
    (∀ name p, prismgl_get_proc_address d (some name) = some p →
      (∃ e ∈ g_overrides, e.name = name ∧ e.func = p) ∨
      (∃ n ∈ candidate_names name, driver_lookup d n = some p)) ∧
    ((∀ n, driver_lookup d n = none) →
      ∀ name, prismgl_get_proc_address d (some name) ≠ none ↔
        ∃ e ∈ g_overrides, e.name = name) := by
  have key : ∀ name p, prismgl_get_proc_address d (some name) = some p →
      (∃ e ∈ g_overrides, e.name = name ∧ e.func = p) ∨
      (∃ n ∈ candidate_names name, driver_lookup d n = some p) := by
    intro name p h
    cases hov : find_override name g_overrides with
    | some f =>
      left
      have h2 : prismgl_get_proc_address d (some name) = some f := by
        simp [prismgl_get_proc_address, hov]
      rw [h2] at h
      cases h
      exact find_override_some name _ _ hov
    | none =>
      right
      rw [get_proc_address_unfold d name hov] at h
      cases h1 : driver_lookup d name with
      | some f =>
        rw [h1] at h
        exact ⟨name, by simp [candidate_names], by rw [h1]; exact h⟩
      | none =>
        rw [h1] at h
        cases h2 : driver_lookup_es3 d (snprintf_suffix name "OES".toList) with
        | some f =>
          rw [h2] at h
          cases h
          exact ⟨_, by simp [candidate_names], driver_lookup_of_es3 d _ _ h2⟩
        | none =>
          rw [h2] at h
          cases h3 : driver_lookup_es3 d (snprintf_suffix name "EXT".toList) with
          | some f =>
            rw [h3] at h
            cases h
            exact ⟨_, by simp [candidate_names], driver_lookup_of_es3 d _ _ h3⟩
          | none =>
            rw [h3] at h
            cases h4 : find_suffix (name.take 255) with
            | none => rw [h4] at h; cases h
            | some ext =>
              rw [h4] at h
              exact ⟨_, by simp [candidate_names, h4], h⟩
  refine ⟨rfl, ?_, key, ?_⟩
  · intro name hov hn
    cases h : prismgl_get_proc_address d (some name) with
    | none => rfl
    | some p =>
      rcases key name p h with ⟨e, he, hname, _⟩ | ⟨n, hn1, hn2⟩
      · exact absurd hname (hov e he)
      · rw [hn n hn1] at hn2
        cases hn2
  · intro hd name
    constructor
    · intro h
      cases h2 : prismgl_get_proc_address d (some name) with
      | none => exact absurd h2 h
      | some p =>
        rcases key name p h2 with ⟨e, he, hname, _⟩ | ⟨n, _, hn2⟩
        · exact ⟨e, he, hname⟩
        · rw [hd n] at hn2
          cases hn2
    · rintro ⟨e, he, rfl⟩
      have h1 := List.all_eq_true.mp find_override_table e he
      have h2 : find_override e.name g_overrides = some e.func := by simpa using h1
      simp [prismgl_get_proc_address, h2]

/-- Witness of C13: against a driver that resolves nothing, the unknown name
`glNoSuchFunctionEXT`, whose candidates are the name, the name with `OES` and with `EXT`
appended and the base name `glNoSuchFunction`, yields `NULL`, and `glBegin` does not. -/
theorem get_proc_address_no_fabrication_witness :
    candidate_names "glNoSuchFunctionEXT".toList
      = ["glNoSuchFunctionEXT".toList, "glNoSuchFunctionEXTOES".toList,
         "glNoSuchFunctionEXTEXT".toList, "glNoSuchFunction".toList] ∧
    prismgl_get_proc_address ⟨none, none, none⟩ (some "glNoSuchFunctionEXT".toList) = none ∧
    prismgl_get_proc_address ⟨none, none, none⟩ (some "glBegin".toList) ≠ none :=
  ⟨by decide,
   (get_proc_address_no_fabrication ⟨none, none, none⟩).2.1 "glNoSuchFunctionEXT".toList
     (by decide) (fun _ _ => rfl),
   ((get_proc_address_no_fabrication ⟨none, none, none⟩).2.2.2 (fun _ => rfl)
     "glBegin".toList).mpr ⟨⟨"glBegin".toList, .impl "prismgl_glBegin"⟩, by decide, rfl⟩⟩

theorem apply_sticky (s : ImmediateState) (c : ImmCall) :
    (c.apply s).sticky = s.sticky.set c := by
  cases c with
  | glBegin gen mode =>
    simp only [ImmCall.apply, prismgl_glBegin, ensure_immediate_buffers, Sticky.set]
    split <;> rfl
  | glEnd =>
    simp only [ImmCall.apply, prismgl_glEnd, Sticky.set]
    split <;> rfl
  | emit e =>
    cases e with
    | vertex3f x y z =>
      simp only [ImmCall.apply, Emit.apply, prismgl_glVertex3f, Sticky.set]
      split <;> rfl
    | vertex2f x y =>
      simp only [ImmCall.apply, Emit.apply, prismgl_glVertex2f, prismgl_glVertex3f,
        Sticky.set]
      split <;> rfl
    | texCoord2f u v => rfl
    | color4f r g b a => rfl
    | color3f r g b => rfl
    | normal3f nx ny nz => rfl
  | vertex3d x y z =>
    simp only [ImmCall.apply, prismgl_glVertex3d, prismgl_glVertex3f, Sticky.set]
    split <;> rfl
  | vertex2d x y =>
    simp only [ImmCall.apply, prismgl_glVertex2d, prismgl_glVertex3f, Sticky.set]
    split <;> rfl
  | texCoord2d u v => rfl
  | color3d r g b => rfl
  | color4d r g b a => rfl
  | color3ub r g b => rfl
  | color4ub r g b a => rfl

theorem run_calls_sticky (cs : List ImmCall) (s : ImmediateState) :
    (run_calls s cs).sticky = cs.foldl Sticky.set s.sticky := by
  induction cs generalizing s with
  | nil => rfl
  | cons c cs ih =>
    simp only [run_calls, List.foldl_cons] at ih ⊢
    rw [ih (c.apply s), apply_sticky]

/-- C14: in every state reached from the initial state by calls of `glBegin`, `glEnd` and
the emitters, a vertex appended by `prismgl_glVertex3f(x, y, z)` (a batch is active and the
count is below the cap) is stored in the next slot with position `(x, y, z)` and with the
color, texture coordinate and normal most recently set by the color, texture-coordinate
and normal emitters, the defaults (1,1,1,1), (0,0), (0,0,1) where none was set; and
`prismgl_glBegin` and `prismgl_glEnd` leave the sticky values of every state unchanged.
The value that a `d` or `ub` emitter sets is its argument as the `float` that the emitter
stores: the `double` rounded to binary32, the byte divided by `255.0f` in binary32. -/
theorem sticky_attributes (cs : List ImmCall) (x y z : GLfloat)
    (ha : (run_calls g_immediate_init cs).active = true)
    (hc : (run_calls g_immediate_init cs).count < MAX_IMMEDIATE_VERTICES) :
    (prismgl_glVertex3f (run_calls g_immediate_init cs) x y z).count
      = (run_calls g_immediate_init cs).count + 1 ∧
    (prismgl_glVertex3f (run_calls g_immediate_init cs) x y z).vertices
        (run_calls g_immediate_init cs).count
      = ⟨x, y, z, (most_recently_set cs).r, (most_recently_set cs).g,
          (most_recently_set cs).b, (most_recently_set cs).a, (most_recently_set cs).s,
          (most_recently_set cs).t, (most_recently_set cs).nx, (most_recently_set cs).ny,
          (most_recently_set cs).nz⟩ ∧
    (∀ s gen mode, (prismgl_glBegin s gen mode).1.sticky = s.sticky) ∧
    (∀ s, (prismgl_glEnd s).1.sticky = s.sticky) := by
  have hk : (run_calls g_immediate_init cs).sticky = most_recently_set cs :=
    run_calls_sticky cs g_immediate_init
  rw [← hk]
  generalize run_calls g_immediate_init cs = s at ha hc
  have hnot : ¬ (s.count ≥ MAX_IMMEDIATE_VERTICES) := by omega
  refine ⟨?_, ?_, fun s gen mode => apply_sticky s (.glBegin gen mode),
    fun s => apply_sticky s .glEnd⟩
  · simp [prismgl_glVertex3f, ha, hnot]
  · simp [prismgl_glVertex3f, ha, hnot, ImmediateState.sticky]

/-- Witness of C14: `glColor4f(0.5, 0.5, 0.5, 1)` once before `glBegin`, then three
`glVertex3f` calls: the three vertices carry that color and the default texture coordinate
and normal. After `glColor3ub(1, 128, 255)` and `glTexCoord2d(0.1, 2^128)` a vertex carries
the binary32 values that these emitters store: the rounded quotients `1 / 255.0f` and
`128 / 255.0f`, the `float` nearest to the `double` `0.1`, and an infinity. -/
theorem sticky_attributes_witness :
    (run_calls g_immediate_init [.emit (.color4f (.finite (1/2)) (.finite (1/2)) (.finite (1/2)) 1),
      .glBegin ⟨1, 2, 3⟩ GL_TRIANGLES, .emit (.vertex3f 0 0 0),
      .emit (.vertex3f 1 0 0)]).count = 2 ∧
    (prismgl_glVertex3f (run_calls g_immediate_init [.emit (.color4f (.finite (1/2)) (.finite (1/2)) (.finite (1/2)) 1),
      .glBegin ⟨1, 2, 3⟩ GL_TRIANGLES, .emit (.vertex3f 0 0 0),
      .emit (.vertex3f 1 0 0)]) 0 1 0).vertices 2
      = ⟨0, 1, 0, .finite (1/2), .finite (1/2), .finite (1/2), 1, 0, 0, 0, 0, 1⟩ ∧
    (prismgl_glVertex3f (run_calls g_immediate_init [.emit (.color4f (.finite (1/2)) (.finite (1/2)) (.finite (1/2)) 1),
      .glBegin ⟨1, 2, 3⟩ GL_TRIANGLES, .emit (.vertex3f 0 0 0),
      .emit (.vertex3f 1 0 0)]) 0 1 0).vertices 1
      = ⟨1, 0, 0, .finite (1/2), .finite (1/2), .finite (1/2), 1, 0, 0, 0, 0, 1⟩ ∧
    (prismgl_glVertex3f (run_calls g_immediate_init [.emit (.color4f (.finite (1/2)) (.finite (1/2)) (.finite (1/2)) 1),
      .glBegin ⟨1, 2, 3⟩ GL_TRIANGLES, .emit (.vertex3f 0 0 0),
      .emit (.vertex3f 1 0 0)]) 0 1 0).vertices 0
      = ⟨0, 0, 0, .finite (1/2), .finite (1/2), .finite (1/2), 1, 0, 0, 0, 0, 1⟩ ∧
    (prismgl_glVertex3f (run_calls g_immediate_init
      [.color3ub 1 128 255,
       .texCoord2d (.finite (3602879701896397 / 36028797018963968)) (.finite (2 ^ 128)),
       .glBegin ⟨1, 2, 3⟩ GL_TRIANGLES]) 0 1 0).vertices 0
      = ⟨0, 1, 0, .finite (8421505 / 2147483648), .finite (8421505 / 16777216), 1, 1,
          .finite (13421773 / 134217728), .infinity false, 0, 0, 1⟩ :=
  ⟨rfl,
   (sticky_attributes [.emit (.color4f (.finite (1/2)) (.finite (1/2)) (.finite (1/2)) 1),
      .glBegin ⟨1, 2, 3⟩ GL_TRIANGLES, .emit (.vertex3f 0 0 0),
      .emit (.vertex3f 1 0 0)] 0 1 0 rfl (by decide)).2.1,
   rfl, rfl, by decide!⟩

/-- C17: when a batch opened with `glBegin(m)`, `m` other than `GL_QUADS`, holds `n ≥ 1`
vertices, `glEnd` issues exactly one draw call, `glDrawArrays(m', 0, n)` with `m'` equal to
`GL_TRIANGLE_STRIP` for `GL_QUAD_STRIP` and to `m` otherwise (so no `glDrawElements`); in a
state with no active batch or with no vertex it issues no call at all; and in every state
it leaves the engine inactive. -/
theorem glEnd_arrays_draw (s0 : ImmediateState) (gen : GenNames) (m : Nat) (es : List Emit)
    (hm : m ≠ GL_QUADS) (hn : 1 ≤ (batch_state s0 gen m es).count) :
    ((prismgl_glEnd (batch_state s0 gen m es)).2.filter GLCall.isDraw
      = [.glDrawArrays (if m = GL_QUAD_STRIP then GL_TRIANGLE_STRIP else m) 0
          ((batch_state s0 gen m es).count : Int)]) ∧
    (∀ s : ImmediateState, s.active = false ∨ s.count = 0 → (prismgl_glEnd s).2 = []) ∧
    (∀ s : ImmediateState, (prismgl_glEnd s).1.active = false) := by
  obtain ⟨ha, hmode, _⟩ := batch_state_inv s0 gen m es
  generalize batch_state s0 gen m es = s at *
  have hne : s.count ≠ 0 := by omega
  refine ⟨?_, ?_, ?_⟩
  · by_cases hq : m = GL_QUAD_STRIP
    · have hqs : ¬ GL_QUAD_STRIP = GL_QUADS := by decide
      subst hq
      simp [prismgl_glEnd, ha, hmode, hne, hqs, GLCall.isDraw]
    · simp [prismgl_glEnd, ha, hmode, hne, hm, hq, GLCall.isDraw]
  · intro s h
    rcases h with h | h
    · simp [prismgl_glEnd, h]
    · simp [prismgl_glEnd, h]
  · intro s
    simp only [prismgl_glEnd]
    split <;> rfl

/-- Witness of C17: `glBegin(GL_TRIANGLES)`, three `glVertex3f` calls and `glEnd` issue one
`glDrawArrays(GL_TRIANGLES, 0, 3)`. -/
theorem glEnd_arrays_draw_witness :
    (batch_state g_immediate_init ⟨1, 2, 3⟩ GL_TRIANGLES
      [.vertex3f 0 0 0, .vertex3f 1 0 0, .vertex3f 0 1 0]).count = 3 ∧
    (prismgl_glEnd (batch_state g_immediate_init ⟨1, 2, 3⟩ GL_TRIANGLES
      [.vertex3f 0 0 0, .vertex3f 1 0 0, .vertex3f 0 1 0])).2.filter GLCall.isDraw
      = [.glDrawArrays GL_TRIANGLES 0 3] :=
  ⟨rfl,
   (glEnd_arrays_draw g_immediate_init ⟨1, 2, 3⟩ GL_TRIANGLES
      [.vertex3f 0 0 0, .vertex3f 1 0 0, .vertex3f 0 1 0] (by decide) (by decide)).1⟩

/-- C18, amended: when a batch opened with `glBegin(GL_QUADS)` holds 1, 2 or 3 vertices,
`glEnd` takes the quad path with zero quads: it uploads one index array, which is empty,
and issues exactly one draw call, `glDrawElements(GL_TRIANGLES, 0, GL_UNSIGNED_SHORT, 0)`,
which draws no primitive; it issues no `glDrawArrays`. -/
theorem glEnd_quads_incomplete (s0 : ImmediateState) (gen : GenNames) (es : List Emit)
    (h1 : 1 ≤ (batch_state s0 gen GL_QUADS es).count)
    (h3 : (batch_state s0 gen GL_QUADS es).count ≤ 3) :
    ((prismgl_glEnd (batch_state s0 gen GL_QUADS es)).2.filter GLCall.isDraw
      = [.glDrawElements GL_TRIANGLES 0 GL_UNSIGNED_SHORT 0]) ∧
    uploaded_indices (prismgl_glEnd (batch_state s0 gen GL_QUADS es)).2 = [[]] := by
  obtain ⟨ha, hmode, _⟩ := batch_state_inv s0 gen GL_QUADS es
  generalize batch_state s0 gen GL_QUADS es = s at *
  have hne : s.count ≠ 0 := by omega
  have hq : s.count / 4 = 0 := by omega
  simp [prismgl_glEnd, ha, hmode, hne, hq, GLCall.isDraw, uploaded_indices, quad_indices]

/-- Witness of C18 (amended): three vertices in a `GL_QUADS` batch. -/
theorem glEnd_quads_incomplete_witness :
    (batch_state g_immediate_init ⟨1, 2, 3⟩ GL_QUADS
      [.vertex3f 0 0 0, .vertex3f 1 0 0, .vertex3f 0 1 0]).count = 3 ∧
    uploaded_indices (prismgl_glEnd (batch_state g_immediate_init ⟨1, 2, 3⟩ GL_QUADS
      [.vertex3f 0 0 0, .vertex3f 1 0 0, .vertex3f 0 1 0])).2 = [[]] :=
  ⟨rfl,
   (glEnd_quads_incomplete g_immediate_init ⟨1, 2, 3⟩
      [.vertex3f 0 0 0, .vertex3f 1 0 0, .vertex3f 0 1 0] (by decide) (by decide)).2⟩

/-- Counterexample to C18 as stated: with three vertices in a `GL_QUADS` batch, `glEnd`
does issue a draw call to the driver, `glDrawElements` with the count 0. -/
theorem glEnd_quads_incomplete_counterexample :
    (batch_state g_immediate_init ⟨1, 2, 3⟩ GL_QUADS
      [.vertex3f 0 0 0, .vertex3f 1 0 0, .vertex3f 0 1 0]).count = 3 ∧
    GLCall.glDrawElements GL_TRIANGLES 0 GL_UNSIGNED_SHORT 0 ∈
      (prismgl_glEnd (batch_state g_immediate_init ⟨1, 2, 3⟩ GL_QUADS
        [.vertex3f 0 0 0, .vertex3f 1 0 0, .vertex3f 0 1 0])).2 ∧
    (prismgl_glEnd (batch_state g_immediate_init ⟨1, 2, 3⟩ GL_QUADS
      [.vertex3f 0 0 0, .vertex3f 1 0 0, .vertex3f 0 1 0])).2.filter GLCall.isDraw ≠ [] := by
  refine ⟨rfl, ?_, ?_⟩
  · simp [prismgl_glEnd, batch_state, prismgl_glBegin, ensure_immediate_buffers,
      g_immediate_init, Emit.apply, prismgl_glVertex3f, MAX_IMMEDIATE_VERTICES, GL_QUADS]
  · simp [prismgl_glEnd, batch_state, prismgl_glBegin, ensure_immediate_buffers,
      g_immediate_init, Emit.apply, prismgl_glVertex3f, MAX_IMMEDIATE_VERTICES, GL_QUADS,
      GLCall.isDraw]

/-! ### Theorems on the state-shadow wrappers -/

/-- C15, amended: for every driver, `prismgl_glGetString_wrapper` returns `4.6.0 PrismGL`
for `GL_VERSION`, `4.60 PrismGL` for `GL_SHADING_LANGUAGE_VERSION` and `PrismGL` for
`GL_VENDOR` without a driver call; for `GL_RENDERER` it asks the driver once and returns
`PrismGL (r)` for every renderer string `r` of at most 501 bytes, the first 511 bytes of
that text for a longer `r`, and `PrismGL` when the driver returns `NULL`. -/
theorem glGetString_synthesized (driver_glGetString : Nat → Option CStr) :
    prismgl_glGetString_wrapper driver_glGetString GL_VERSION
      = (some "4.6.0 PrismGL".toList, []) ∧
    prismgl_glGetString_wrapper driver_glGetString GL_SHADING_LANGUAGE_VERSION
      = (some "4.60 PrismGL".toList, []) ∧
    prismgl_glGetString_wrapper driver_glGetString GL_VENDOR
      = (some "PrismGL".toList, []) ∧
    (∀ r, driver_glGetString GL_RENDERER = some r → r.length ≤ 501 →
      prismgl_glGetString_wrapper driver_glGetString GL_RENDERER
        = (some ("PrismGL (".toList ++ r ++ ")".toList),
           [.glGetString GL_RENDERER (some r)])) ∧
    (∀ r, driver_glGetString GL_RENDERER = some r →
      prismgl_glGetString_wrapper driver_glGetString GL_RENDERER
        = (some (("PrismGL (".toList ++ r ++ ")".toList).take 511),
           [.glGetString GL_RENDERER (some r)])) ∧
    (driver_glGetString GL_RENDERER = none →
      prismgl_glGetString_wrapper driver_glGetString GL_RENDERER
        = (some "PrismGL".toList, [.glGetString GL_RENDERER none])) := by
  have h1 : ¬ GL_SHADING_LANGUAGE_VERSION = GL_VERSION := by decide
  have h2 : ¬ GL_RENDERER = GL_VERSION := by decide
  have h3 : ¬ GL_RENDERER = GL_SHADING_LANGUAGE_VERSION := by decide
  have h4 : ¬ GL_VENDOR = GL_VERSION := by decide
  have h5 : ¬ GL_VENDOR = GL_SHADING_LANGUAGE_VERSION := by decide
  have h6 : ¬ GL_VENDOR = GL_RENDERER := by decide
  refine ⟨?_, ?_, ?_, ?_, ?_, ?_⟩
  · simp only [prismgl_glGetString_wrapper, if_true]
  · simp only [prismgl_glGetString_wrapper, h1, if_false, if_true]
  · simp only [prismgl_glGetString_wrapper, h4, h5, h6, if_false, if_true]
  · intro r hr hlen
    have hfit : ("PrismGL (".toList ++ r ++ ")".toList).take 511
        = "PrismGL (".toList ++ r ++ ")".toList :=
      List.take_of_length_le (by simp; omega)
    simp only [prismgl_glGetString_wrapper, h2, h3, if_false, if_true, hr, format_renderer,
      hfit]
  · intro r hr
    simp only [prismgl_glGetString_wrapper, h2, h3, if_false, if_true, hr, format_renderer]
  · intro hr
    simp only [prismgl_glGetString_wrapper, h2, h3, if_false, if_true, hr]

/-- Witness of C15 (amended): a driver whose renderer string is `Adreno`, and a driver
that returns `NULL`. -/
theorem glGetString_synthesized_witness :
    prismgl_glGetString_wrapper (fun _ => some "Adreno".toList) GL_RENDERER
      = (some "PrismGL (Adreno)".toList, [.glGetString GL_RENDERER (some "Adreno".toList)]) ∧
    prismgl_glGetString_wrapper (fun _ => none) GL_RENDERER
      = (some "PrismGL".toList, [.glGetString GL_RENDERER none]) :=
  ⟨(glGetString_synthesized (fun _ => some "Adreno".toList)).2.2.2.1 "Adreno".toList rfl
      (by decide),
   (glGetString_synthesized (fun _ => none)).2.2.2.2.2 rfl⟩

/-- Counterexample to C15 as stated: for a renderer string of 502 bytes the text returned
for `GL_RENDERER` has 511 bytes and is not `PrismGL (r)`: the closing bracket is cut. -/
theorem glGetString_synthesized_counterexample :
    long_renderer.length = 502 ∧
    (prismgl_glGetString_wrapper (fun _ => some long_renderer) GL_RENDERER).1
      = some ("PrismGL (".toList ++ long_renderer) ∧
    (prismgl_glGetString_wrapper (fun _ => some long_renderer) GL_RENDERER).1
      ≠ some ("PrismGL (".toList ++ long_renderer ++ ")".toList) := by
  decide

theorem to_GLint_of_range (v : Nat) (h : v < 2147483648) : to_GLint v = v := by
  unfold to_GLint
  exact wrap_int32_of_range v (by omega) (by omega)

/-- C16: `prismgl_glPolygonMode(face, m)` issues no driver call, and a following
`prismgl_glGetIntegerv_wrapper(GL_POLYGON_MODE, p)` writes `m`, as a `GLint`, to `*p`
without a driver call; likewise `GL_PROVOKING_VERTEX` is answered with the last mode given
to `prismgl_glProvokingVertex`; in the initial state the answers are `GL_FILL` and
`GL_LAST_VERTEX_CONVENTION`; `GL_MAX_CLIP_DISTANCES` is answered with 8; every other
parameter name is forwarded as one driver `glGetIntegerv`, whose value is what `*p` holds.
The `GLint` written for `m` has the 32 bits of `m` and is `m` itself below `2^31`. With a
`NULL` pointer nothing is written and no call is issued. -/
theorem polygon_mode_shadow (st : ShadowState) (drv : Nat → Int) (face m : Nat) :
    (prismgl_glPolygonMode st face m).2 = [] ∧
    prismgl_glGetIntegerv_wrapper (prismgl_glPolygonMode st face m).1 drv GL_POLYGON_MODE
      true = (some (to_GLint m), []) ∧
    (prismgl_glProvokingVertex st m).2 = [] ∧
    prismgl_glGetIntegerv_wrapper (prismgl_glProvokingVertex st m).1 drv
      GL_PROVOKING_VERTEX true = (some (to_GLint m), []) ∧
    (m < 2147483648 → to_GLint m = m) ∧
    (m < 4294967296 → to_GLint m % 4294967296 = m) ∧
    prismgl_glGetIntegerv_wrapper shadow_state_init drv GL_POLYGON_MODE true
      = (some (GL_FILL : Int), []) ∧
    prismgl_glGetIntegerv_wrapper shadow_state_init drv GL_PROVOKING_VERTEX true
      = (some (GL_LAST_VERTEX_CONVENTION : Int), []) ∧
    prismgl_glGetIntegerv_wrapper st drv GL_MAX_CLIP_DISTANCES true = (some 8, []) ∧
    (∀ pname, pname ≠ GL_MAX_CLIP_DISTANCES → pname ≠ GL_POLYGON_MODE →
      pname ≠ GL_PROVOKING_VERTEX →
      prismgl_glGetIntegerv_wrapper st drv pname true
        = (some (drv pname), [.glGetIntegerv pname (drv pname)])) ∧
    (∀ pname, prismgl_glGetIntegerv_wrapper st drv pname false = (none, [])) := by
  have h1 : ¬ GL_POLYGON_MODE = GL_MAX_CLIP_DISTANCES := by decide
  have h2 : ¬ GL_PROVOKING_VERTEX = GL_MAX_CLIP_DISTANCES := by decide
  have h3 : ¬ GL_PROVOKING_VERTEX = GL_POLYGON_MODE := by decide
  refine ⟨rfl, ?_, rfl, ?_, to_GLint_of_range m, ?_, ?_, ?_, ?_, ?_, ?_⟩
  · simp [prismgl_glGetIntegerv_wrapper, prismgl_glPolygonMode, h1]
  · simp [prismgl_glGetIntegerv_wrapper, prismgl_glProvokingVertex, h2, h3]
  · intro hm
    simp only [to_GLint, wrap_int32]
    omega
  · simp only [prismgl_glGetIntegerv_wrapper, shadow_state_init, h1]
    simp
    decide
  · simp only [prismgl_glGetIntegerv_wrapper, shadow_state_init, h2, h3]
    simp
    decide
  · simp [prismgl_glGetIntegerv_wrapper]
  · intro pname p1 p2 p3
    simp [prismgl_glGetIntegerv_wrapper, p1, p2, p3]
  · intro pname
    simp [prismgl_glGetIntegerv_wrapper]

/-- Witness of C16: `glPolygonMode(GL_FRONT_AND_BACK, GL_LINE)` followed by
`glGetIntegerv(GL_POLYGON_MODE)` gives `GL_LINE`, with no driver call. -/
theorem polygon_mode_shadow_witness :
    prismgl_glGetIntegerv_wrapper
      (prismgl_glPolygonMode shadow_state_init GL_FRONT_AND_BACK GL_LINE).1 (fun _ => 0)
      GL_POLYGON_MODE true = (some (GL_LINE : Int), []) ∧
    prismgl_glGetIntegerv_wrapper shadow_state_init (fun _ => 0) 0x0D33 true
      = (some 0, [.glGetIntegerv 0x0D33 0]) := by
  have h := polygon_mode_shadow shadow_state_init (fun _ => 0) GL_FRONT_AND_BACK GL_LINE
  refine ⟨?_, h.2.2.2.2.2.2.2.2.2.1 0x0D33 (by decide) (by decide) (by decide)⟩
  rw [h.2.1, h.2.2.2.2.1 (by decide)]

/-- C19: `shader_translate(source, stage)` fails, with `success` false and no translated
source, if and only if the source is `NULL`, is empty, or is longer than 262144 bytes (so
a source of exactly 262144 bytes succeeds); the error message is `Empty shader source` in
the first two cases and `Shader too large` in the third; when it does not fail, `success`
is true and there is a translated source; and `target_version` is 320 in every result. -/
theorem translate_failure (source : Option CStr) (shader_type : Nat) :
    (((shader_translate source shader_type).success = false ∧
        (shader_translate source shader_type).translated_source = none) ↔
      (source = none ∨ source = some [] ∨ ∃ s, source = some s ∧ 262144 < s.length)) ∧
    ((source = none ∨ source = some []) →
      (shader_translate source shader_type).error_msg = "Empty shader source".toList) ∧
    (∀ s, source = some s → 262144 < s.length →
      (shader_translate source shader_type).error_msg = "Shader too large".toList) ∧
    (∀ s, source = some s → s ≠ [] → s.length ≤ 262144 →
      (shader_translate source shader_type).success = true ∧
      (shader_translate source shader_type).translated_source ≠ none) ∧
    (shader_translate source shader_type).target_version = 320 := by
  cases source with
  | none => simp [shader_translate]
  | some s =>
    by_cases h0 : s = []
    · subst h0
      simp [shader_translate]
    · have hlen : ¬ s.length = 0 := fun h => h0 (List.length_eq_zero.mp h)
      by_cases h1 : s.length > MAX_SHADER_SIZE
      · have h2 : 262144 < s.length := h1
        simp [shader_translate, hlen, h1, h0, h2]
      · have h2 : ¬ 262144 < s.length := h1
        have h3 : s.length ≤ 262144 := Nat.le_of_not_lt h2
        simp only [shader_translate, hlen, h1, if_false]
        split <;> simp [h0, h2, h3]

theorem replicate_ne_nil (n : Nat) (c : Char) (h : 0 < n) : List.replicate n c ≠ [] := by
  intro e
  have h2 := congrArg List.length e
  rw [List.length_replicate] at h2
  exact absurd h2 (by simpa using Nat.ne_of_gt h)

/-- Witness of C19: a source of exactly 262144 bytes succeeds, one of 262145 bytes fails
with `Shader too large`, and the empty source fails with `Empty shader source`. -/
theorem translate_failure_witness :
    (shader_translate (some (List.replicate 262144 'a')) GL_VERTEX_SHADER).success = true ∧
    (shader_translate (some (List.replicate 262145 'a')) GL_VERTEX_SHADER).success = false ∧
    (shader_translate (some (List.replicate 262145 'a')) GL_VERTEX_SHADER).error_msg
      = "Shader too large".toList ∧
    (shader_translate (some []) GL_VERTEX_SHADER).error_msg
      = "Empty shader source".toList :=
  ⟨((translate_failure (some (List.replicate 262144 'a')) GL_VERTEX_SHADER).2.2.2.1
      (List.replicate 262144 'a') rfl (replicate_ne_nil _ _ (by omega))
      (by rw [List.length_replicate])).1,
   (((translate_failure (some (List.replicate 262145 'a')) GL_VERTEX_SHADER).1).mpr
      (Or.inr (Or.inr ⟨List.replicate 262145 'a', rfl,
        by rw [List.length_replicate]; omega⟩))).1,
   (translate_failure (some (List.replicate 262145 'a')) GL_VERTEX_SHADER).2.2.1
      (List.replicate 262145 'a') rfl (by rw [List.length_replicate]; omega),
   (translate_failure (some []) GL_VERTEX_SHADER).2.1 (Or.inr rfl)⟩

/-! ### The first lines of a translated shader -/

theorem repl_absent_eq (find rep s r : CStr) (h : Repl find rep s r)
    (hn : ¬ find <:+: s) : r = s := by
  induction h with
  | nil => rfl
  | hit t t2 _ _ => exact absurd ⟨[], t, by simp⟩ hn
  | skip c t t2 _ _ ih =>
    rw [ih (fun hi => hn (hi.trans (List.suffix_cons c t).isInfix))]

/-- One pass of `str_replace_all` leaves a first part `l`, in which the pattern does not
occur, and the text `p` after it in place. -/
theorem exact_pass (p find rep : CStr) (hok : pass_ok p (find, rep) = true)
    (l : CStr) (hl : contains l find = false) (t : CStr) :
    ∃ t2, str_replace_all (l ++ (p ++ t)) find rep = l ++ (p ++ t2) := by
  simp only [pass_ok, Bool.and_eq_true, Bool.not_eq_true', List.isEmpty_eq_false] at hok
  obtain ⟨⟨hf, hx⟩, _⟩ := hok
  have hr := str_replace_all_repl (l ++ (p ++ t)) find rep hf
  obtain ⟨l2, t2, e2, hl2, _⟩ := repl_split find rep hf p hx l.length l t _ (Nat.le_refl _) hr
  have e3 := repl_absent_eq find rep l l2 hl2 (not_infix_of_contains_false _ _ hl)
  rw [e3] at e2
  exact ⟨t2, e2⟩

theorem exact_table (p l : CStr) (table : List (CStr × CStr))
    (hok : table.all (pass_ok p) = true)
    (hl : table.all (fun row => !contains l row.1) = true) :
    ∀ t, ∃ t2, replace_table table (l ++ (p ++ t)) = l ++ (p ++ t2) := by
  induction table with
  | nil => intro t; exact ⟨t, rfl⟩
  | cons row rows ih =>
    intro t
    simp only [List.all_cons, Bool.and_eq_true, Bool.not_eq_true'] at hok hl
    obtain ⟨t1, e1⟩ := exact_pass p row.1 row.2 hok.1 l hl.1 t
    obtain ⟨t2, e2⟩ := ih hok.2 (by simpa using hl.2) t1
    refine ⟨t2, ?_⟩
    simp only [replace_table, List.foldl_cons] at e2 ⊢
    rw [e1, e2]

theorem other_header_passes :
    pass_ok precision_header_other ("sampler1D".toList, "sampler2D".toList) = true ∧
    pass_ok precision_header_other ("isampler1D".toList, "isampler2D".toList) = true ∧
    pass_ok precision_header_other ("usampler1D".toList, "usampler2D".toList) = true ∧
    builtin_replacements.all (pass_ok precision_header_other) = true ∧
    pass_ok precision_header_other
      ("noperspective ".toList, "/* noperspective */ ".toList) = true ∧
    pass_ok precision_header_other
      ("noperspective\n".toList, "/* noperspective */\n".toList) = true ∧
    type_replacements.all (pass_ok precision_header_other) = true := by
  decide

theorem version_line_checks :
    contains "#version 320 es\n".toList "sampler1D".toList = false ∧
    contains "#version 320 es\n".toList "isampler1D".toList = false ∧
    contains "#version 320 es\n".toList "usampler1D".toList = false ∧
    builtin_replacements.all (fun row => !contains "#version 320 es\n".toList row.1) = true ∧
    contains "#version 320 es\n".toList "noperspective ".toList = false ∧
    contains "#version 320 es\n".toList "noperspective\n".toList = false ∧
    type_replacements.all (fun row => !contains "#version 320 es\n".toList row.1) = true ∧
    contains "#version 320 es\n".toList "gl_FragColor".toList = false := by
  decide

/-- Steps 4 to 6 leave the directive line and a precision prelude `p` after it in place,
when every pattern of these steps can be applied next to `p`. -/
theorem steps_4_6_exact (p : CStr)
    (h1 : pass_ok p ("sampler1D".toList, "sampler2D".toList) = true)
    (h2 : pass_ok p ("isampler1D".toList, "isampler2D".toList) = true)
    (h3 : pass_ok p ("usampler1D".toList, "usampler2D".toList) = true)
    (h4 : builtin_replacements.all (pass_ok p) = true)
    (h5 : pass_ok p ("noperspective ".toList, "/* noperspective */ ".toList) = true)
    (h6 : pass_ok p ("noperspective\n".toList, "/* noperspective */\n".toList) = true)
    (h7 : type_replacements.all (pass_ok p) = true) (t : CStr) :
    ∃ t2, replace_table type_replacements (shader_patch_builtins (shader_patch_samplers
      ("#version 320 es\n".toList ++ (p ++ t)))) = "#version 320 es\n".toList ++ (p ++ t2) := by
  obtain ⟨c1, c2, c3, c4, c5, c6, c7, _⟩ := version_line_checks
  obtain ⟨t1, e1⟩ := exact_pass p _ _ h1 _ c1 t
  obtain ⟨t2, e2⟩ := exact_pass p _ _ h2 _ c2 t1
  obtain ⟨t3, e3⟩ := exact_pass p _ _ h3 _ c3 t2
  obtain ⟨t4, e4⟩ := exact_table p _ builtin_replacements h4 c4 t3
  obtain ⟨t5, e5⟩ := exact_pass p _ _ h5 _ c5 t4
  obtain ⟨t6, e6⟩ := exact_pass p _ _ h6 _ c6 t5
  obtain ⟨t7, e7⟩ := exact_table p _ type_replacements h7 c7 t6
  refine ⟨t7, ?_⟩
  simp only [shader_patch_samplers, shader_patch_builtins]
  rw [e1, e2, e3, e4, e5, e6, e7]

/-- After steps 1 to 6 the text begins with the directive line and the precision prelude
of the stage, when step 1 leaves the directive line first. -/
theorem steps_exact (source : CStr) (shader_type : Nat) (v : Int)
    (hfirst : "#version 320 es\n".toList <+: replace_version source v) :
    ∃ t, translate_steps_1_6 source shader_type v
      = "#version 320 es\n".toList ++ (precision_header shader_type ++ t) := by
  obtain ⟨r1, e1⟩ := hfirst
  obtain ⟨r2, e2⟩ := replace_table_prefix_kept ext_replacements "#version 320 es\n".toList
    (by decide) r1
  have e3 := patch_precision_version_line r2 shader_type
  rw [List.append_assoc] at e3
  simp only [translate_steps_1_6, ← e1, shader_patch_extensions, e2, e3]
  by_cases hty : shader_type = GL_FRAGMENT_SHADER
  · have hh : precision_header shader_type = precision_header_fragment := by
      simp [precision_header, hty]
    rw [hh]
    obtain ⟨h1, h2, h3, h4, h5, h6, h7, _⟩ := fragment_header_passes
    exact steps_4_6_exact _ h1 h2 h3 h4 h5 h6 h7 r2
  · have hh : precision_header shader_type = precision_header_other := by
      simp [precision_header, hty]
    rw [hh]
    obtain ⟨h1, h2, h3, h4, h5, h6, h7⟩ := other_header_passes
    exact steps_4_6_exact _ h1 h2 h3 h4 h5 h6 h7 r2

/-- A pass whose pattern and replacement both begin with a line break leaves in place a
first part `p0` in which the pattern cannot start, and the line break after it. -/
theorem newline_pass_kept (f r p0 s : CStr)
    (hc : no_start_inside ('\n' :: f) p0 = true) :
    ∃ r2, str_replace_all (p0 ++ '\n' :: s) ('\n' :: f) ('\n' :: r) = p0 ++ '\n' :: r2 := by
  have hr := str_replace_all_repl (p0 ++ '\n' :: s) ('\n' :: f) ('\n' :: r) (by simp)
  obtain ⟨r1, e1, h1⟩ := repl_prefix_kept ('\n' :: f) ('\n' :: r) p0 hc _ _ hr
  rw [e1]
  by_cases hm : ('\n' :: f) <+: '\n' :: s
  · obtain ⟨t1, e2⟩ := hm
    rw [← e2] at h1
    obtain ⟨t2, e3, _⟩ := repl_hit_inv _ _ (by simp) _ _ h1
    exact ⟨r ++ t2, by rw [e3]; rfl⟩
  · obtain ⟨t2, e3, _⟩ := repl_skip_inv _ _ _ _ _ hm h1
    exact ⟨t2, by rw [e3]⟩

theorem pbe_lines_then (lines : List CStr) (hne : lines ≠ [])
    (hl : ∀ ln ∈ lines, '\n' ∉ ln ∧ "precision".toList <+: ln) (t : CStr) :
    precision_block_end (unlines_nl lines ++ t)
      = (unlines_nl lines).length - 1 + precision_block_end ('\n' :: t) := by
  induction lines with
  | nil => exact absurd rfl hne
  | cons ln lns ih =>
    have h1 := hl ln (List.mem_cons_self _ _)
    cases lns with
    | nil =>
      simp only [unlines_nl, List.append_assoc, List.cons_append, List.nil_append]
      rw [pbe_no_newline _ _ h1.1]
      simp
    | cons ln2 lns2 =>
      have h2 := hl ln2 (List.mem_cons_of_mem _ (List.mem_cons_self _ _))
      have hrec := ih (by simp) (fun x hx => hl x (List.mem_cons_of_mem _ hx))
      have hpos := unlines_nl_length_pos ln2 lns2
      have hpre : "precision".toList <+: unlines_nl (ln2 :: lns2) ++ t := by
        simp only [unlines_nl, List.append_assoc]
        exact h2.2.trans (List.prefix_append _ _)
      have e : unlines_nl (ln :: ln2 :: lns2) ++ t
          = ln ++ '\n' :: (unlines_nl (ln2 :: lns2) ++ t) := by
        simp [unlines_nl]
      rw [e, pbe_no_newline _ _ h1.1, pbe_newline_precision _ hpre, hrec]
      have e2 : (unlines_nl (ln :: ln2 :: lns2)).length
          = ln.length + 1 + (unlines_nl (ln2 :: lns2)).length := by
        simp [unlines_nl]; omega
      rw [e2]
      omega

/-- The insertion of the declaration after the directive line and the precision prelude
of a fragment shader, in terms of the text that follows them. -/
theorem insert_out_decl_exact (t : CStr) :
    insert_out_decl ("#version 320 es\n".toList ++ (precision_header_fragment ++ t))
      = "#version 320 es\n".toList ++ (precision_header_fragment ++ insert_after_header t) := by
  by_cases ht : "precision".toList <+: t
  · obtain ⟨hH, hlines, _, _⟩ := fragment_header_lines
    have hk : strstr ("#version 320 es\n".toList ++ (precision_header_fragment ++ t))
        "precision highp".toList = some 16 := by
      have := strstr_append_at "precision highp".toList "#version 320 es\n".toList
        (precision_header_fragment ++ t)
        ((show "precision highp".toList <+: precision_header_fragment from
          ⟨precision_header_fragment.drop 15, by decide⟩).trans (List.prefix_append _ _))
        (not_prefix_inside _ _ _ (by decide))
      simpa using this
    have hwalk : precision_block_end (precision_header_fragment ++ t)
        = precision_header_fragment.length + precision_block_end t := by
      have hlen : 0 < precision_header_fragment.length := by decide
      rw [hH] at hlen ⊢
      rw [pbe_lines_then precision_lines_fragment (by decide) hlines t,
        pbe_newline_precision t ht]
      omega
    have hd : ("#version 320 es\n".toList ++ (precision_header_fragment ++ t)).drop 16
        = precision_header_fragment ++ t := by
      simp
    have e1 : "#version 320 es\n".toList ++ (precision_header_fragment ++ t)
        = ("#version 320 es\n".toList ++ precision_header_fragment) ++ t := by simp
    have e2 : ∀ m, 16 + (precision_header_fragment.length + m)
        = ("#version 320 es\n".toList ++ precision_header_fragment).length + m := by
      intro m
      simp; omega
    have hdrop : ∀ m, ("#version 320 es\n".toList ++ (precision_header_fragment ++ t)).drop
        (16 + (precision_header_fragment.length + m)) = t.drop m := by
      intro m
      rw [e1, e2, List.drop_append]
    have hp : ∀ m, ("#version 320 es\n".toList ++ (precision_header_fragment ++ t)).take
          (16 + (precision_header_fragment.length + m)) ++ out_decl ++
        ("#version 320 es\n".toList ++ (precision_header_fragment ++ t)).drop
          (16 + (precision_header_fragment.length + m))
        = "#version 320 es\n".toList ++ (precision_header_fragment ++
            (t.take m ++ out_decl ++ t.drop m)) := by
      intro m
      rw [hdrop, e1, e2, List.take_append]
      simp
    have hpre : "precision".toList.isPrefixOf t = true := List.isPrefixOf_iff_prefix.mpr ht
    simp only [insert_out_decl, hk, hd, hwalk, insert_after_header, hpre, if_true, hdrop]
    split
    · exact hp (precision_block_end t + 1)
    · exact hp (precision_block_end t)
  · have hpre : "precision".toList.isPrefixOf t = false := by
      cases h : "precision".toList.isPrefixOf t with
      | false => rfl
      | true => exact absurd (List.isPrefixOf_iff_prefix.mp h) ht
    rw [insert_out_decl_after_header "#version 320 es\n".toList t
      (Or.inr ⟨"#version 320 es".toList, rfl, by decide⟩) ht]
    simp only [insert_after_header, hpre, Bool.false_eq_true, if_false]

/-- The insertion of the declaration leaves the directive line and the precision prelude
of a fragment shader in place. -/
theorem insert_out_decl_kept (t : CStr) :
    ∃ r, insert_out_decl ("#version 320 es\n".toList ++ (precision_header_fragment ++ t))
      = "#version 320 es\n".toList ++ (precision_header_fragment ++ r) :=
  ⟨_, insert_out_decl_exact t⟩

theorem header_newline_checks :
    precision_header_fragment = precision_header_fragment.dropLast ++ ['\n'] ∧
    precision_header_other = precision_header_other.dropLast ++ ['\n'] ∧
    no_start_inside "\nvarying ".toList
      ("#version 320 es\n".toList ++ precision_header_fragment.dropLast) = true ∧
    no_start_inside "\nattribute ".toList
      ("#version 320 es\n".toList ++ precision_header_other.dropLast) = true ∧
    no_start_inside "\nvarying ".toList
      ("#version 320 es\n".toList ++ precision_header_other.dropLast) = true := by
  decide

/-- A pass whose pattern and replacement both begin with a line break leaves the directive
line and a precision prelude `p` in place, when the pattern cannot start in them. -/
theorem newline_pass_exact (f r p t : CStr) (hp : p = p.dropLast ++ ['\n'])
    (hc : no_start_inside ('\n' :: f) ("#version 320 es\n".toList ++ p.dropLast) = true) :
    ∃ t2, str_replace_all ("#version 320 es\n".toList ++ (p ++ t)) ('\n' :: f) ('\n' :: r)
      = "#version 320 es\n".toList ++ (p ++ t2) := by
  obtain ⟨r2, e⟩ := newline_pass_kept f r ("#version 320 es\n".toList ++ p.dropLast) t hc
  have e1 : ∀ u : CStr, "#version 320 es\n".toList ++ (p ++ u)
      = ("#version 320 es\n".toList ++ p.dropLast) ++ '\n' :: u := by
    intro u
    conv_lhs => rw [hp]
    simp
  exact ⟨r2, by rw [e1 t, e, e1 r2]⟩

/-- Step 7 and the rewriting of the storage qualifiers leave the directive line and the
precision prelude of the stage in place. -/
theorem legacy_exact (shader_type : Nat) (v : Int) (t : CStr) :
    ∃ r, translate_legacy
        ("#version 320 es\n".toList ++ (precision_header shader_type ++ t)) shader_type v
      = "#version 320 es\n".toList ++ (precision_header shader_type ++ r) := by
  obtain ⟨hf, ho, n1, n2, n3⟩ := header_newline_checks
  have hfv : ¬ GL_FRAGMENT_SHADER = GL_VERTEX_SHADER := by decide
  by_cases hv : v ≤ 120
  · by_cases hty : shader_type = GL_FRAGMENT_SHADER
    · subst hty
      have hh : precision_header GL_FRAGMENT_SHADER = precision_header_fragment := by
        simp [precision_header]
      rw [hh]
      simp only [translate_legacy, hv, hfv, true_and, and_true, and_false, if_true, if_false]
      split
      · obtain ⟨t1, e1⟩ := exact_pass precision_header_fragment "gl_FragColor".toList
          "prismgl_FragColor".toList fragment_header_passes.2.2.2.2.2.2.2
          "#version 320 es\n".toList version_line_checks.2.2.2.2.2.2.2 t
        obtain ⟨t2, e2⟩ := insert_out_decl_kept t1
        obtain ⟨t3, e3⟩ := newline_pass_exact "varying ".toList "in ".toList
          precision_header_fragment t2 hf n1
        exact ⟨t3, by rw [e1, e2]; exact e3⟩
      · exact newline_pass_exact "varying ".toList "in ".toList precision_header_fragment
          t hf n1
    · by_cases hty2 : shader_type = GL_VERTEX_SHADER
      · subst hty2
        have hh : precision_header GL_VERTEX_SHADER = precision_header_other := by
          simp [precision_header, hty]
        rw [hh]
        simp only [translate_legacy, hv, hty, true_and, and_true, and_false, if_true,
          if_false]
        obtain ⟨t1, e1⟩ := newline_pass_exact "attribute ".toList "in ".toList
          precision_header_other t ho n2
        obtain ⟨t2, e2⟩ := newline_pass_exact "varying ".toList "out ".toList
          precision_header_other t1 ho n3
        exact ⟨t2, by
          have e1b : str_replace_all ("#version 320 es\n".toList ++
              (precision_header_other ++ t)) "\nattribute ".toList "\nin ".toList
              = "#version 320 es\n".toList ++ (precision_header_other ++ t1) := e1
          rw [e1b]
          exact e2⟩
      · exact ⟨t, by simp [translate_legacy, hty, hty2]⟩
  · exact ⟨t, by simp [translate_legacy, hv]⟩

/-- The header of the output when the directive stands first: for every source that
`shader_translate` translates (not empty, at most 256 KiB, no ES version directive) and
either stage, when step 1 leaves the line `#version 320 es` first (a source without a
`#version` has it put in front; a source that begins with the directive that step 1
replaces, followed by a line break, has it replaced), the output is that line followed
directly by the precision prelude of the stage: by `precision highp float;` and
`precision highp int;`, and for a fragment stage by the eighteen `highp` lines. -/
theorem translate_header (source : CStr) (shader_type : Nat) (hne : source ≠ [])
    (hl : source.length ≤ MAX_SHADER_SIZE) (hes : NoEsDirective source)
    (hfirst : DirectiveFirst source) :
    (∃ rest, (shader_translate (some source) shader_type).translated_source
      = some ("#version 320 es\n".toList ++ (precision_header shader_type ++ rest))) ∧
    precision_header GL_FRAGMENT_SHADER = unlines_nl precision_lines_fragment ∧
    (shader_type ≠ GL_FRAGMENT_SHADER →
      precision_header shader_type
        = "precision highp float;\nprecision highp int;\n".toList) ∧
    "precision highp float;\nprecision highp int;\n".toList
      <+: precision_header shader_type := by
  refine ⟨?_, ?_, ?_, ?_⟩
  · rw [shader_translate_eq source shader_type hne hl hes]
    obtain ⟨t, e⟩ := steps_exact source shader_type _ hfirst
    obtain ⟨r, e2⟩ := legacy_exact shader_type (shader_detect_version (some source)) t
    exact ⟨r, by rw [e, e2]⟩
  · have hh : precision_header GL_FRAGMENT_SHADER = precision_header_fragment := by
      simp [precision_header]
    rw [hh]
    exact fragment_header_lines.1
  · intro hty
    simp [precision_header, hty, precision_header_other]
  · by_cases hty : shader_type = GL_FRAGMENT_SHADER
    · have hh : precision_header shader_type = precision_header_fragment := by
        simp [precision_header, hty]
      rw [hh, ← List.isPrefixOf_iff_prefix]
      decide
    · have hh : precision_header shader_type = precision_header_other := by
        simp [precision_header, hty]
      rw [hh, ← List.isPrefixOf_iff_prefix]
      decide

theorem directive_first_of_no_version (source : CStr)
    (h : ¬ "#version".toList <:+: source) : DirectiveFirst source := by
  have hs : strstr source "#version".toList = none := strstr_eq_none _ _ h
  have hv : shader_detect_version (some source) = 110 := by
    simp only [shader_detect_version, hs]
  have hno : ∀ x : CStr, "#version".toList <+: x → contains source x = false := by
    intro x hx
    apply contains_false_of_absent
    intro hi
    exact h (hx.isInfix.trans hi)
  unfold DirectiveFirst
  rw [hv]
  simp only [replace_version,
    hno (format_version 110 " core".toList) ⟨" 110 core".toList, by decide⟩,
    hno (format_version 110 " compatibility".toList) ⟨" 110 compatibility".toList, by decide⟩,
    hno (format_version 110 []) ⟨" 110".toList, by decide⟩, Bool.false_eq_true, if_false]
  exact List.prefix_append _ _

/-- Instances of `translate_header`: a source with the directive `#version 330 core` as
its first line, as a fragment shader, and a source without a directive, as a vertex
shader. -/
theorem translate_header_example :
    (∃ rest, (shader_translate (some "#version 330 core\nin vec3 p;".toList)
        GL_FRAGMENT_SHADER).translated_source
      = some ("#version 320 es\n".toList ++ (precision_header GL_FRAGMENT_SHADER ++ rest))) ∧
    (∃ rest, (shader_translate (some "void main(){}".toList)
        GL_VERTEX_SHADER).translated_source
      = some ("#version 320 es\n".toList ++ (precision_header GL_VERTEX_SHADER ++ rest))) :=
  ⟨(translate_header "#version 330 core\nin vec3 p;".toList GL_FRAGMENT_SHADER (by decide)
      (by decide)
      ⟨not_infix_of_contains_false _ _ (by decide), not_infix_of_contains_false _ _ (by decide),
       not_infix_of_contains_false _ _ (by decide)⟩
      (List.isPrefixOf_iff_prefix.mp (by decide))).1,
   (translate_header "void main(){}".toList GL_VERTEX_SHADER (by decide) (by decide)
      ⟨not_infix_of_contains_false _ _ (by decide), not_infix_of_contains_false _ _ (by decide),
       not_infix_of_contains_false _ _ (by decide)⟩
      (directive_first_of_no_version _ (not_infix_of_contains_false _ _ (by decide)))).1⟩

theorem translate_comment_first_shader :
    (shader_translate (some comment_first_shader) GL_VERTEX_SHADER).translated_source
      = some (precision_header_other ++
          "// c\n#version 320 es\nvoid main(){}".toList) :=
  translate_chain comment_first_shader GL_VERTEX_SHADER 330
    (precision_header_other ++ "// c\n#version 320 es\nvoid main(){}".toList) _
    (by decide) (by decide)
    ⟨not_infix_of_contains_false _ _ (by decide), not_infix_of_contains_false _ _ (by decide),
     not_infix_of_contains_false _ _ (by decide)⟩
    (by decide)
    (steps_chain _ _ _ "// c\n#version 320 es\nvoid main(){}".toList _
      (by decide) (by decide) (by decide) (by decide))
    (by decide)

/-- C20: the code at a vertex shader whose `#version 330 core` stands after a comment
line. The shader is translated (it is not empty, short, and holds no ES directive), and the
claim demands `#version 320 es` as the first line of the output, directly followed by the
prelude. The function `shader_patch_precision` looks for the end of the version line only
when its text starts with `#version`, and otherwise writes the prelude in front of the whole
text: the output begins with `precision highp float;`, and `#version 320 es` stands on its
fourth line. -/
theorem translate_header_comment_first :
    comment_first_shader = "// c\n#version 330 core\nvoid main(){}".toList ∧
    comment_first_shader ≠ [] ∧ comment_first_shader.length ≤ MAX_SHADER_SIZE ∧
    contains comment_first_shader "#version 320 es".toList = false ∧
    contains comment_first_shader "#version 310 es".toList = false ∧
    contains comment_first_shader "#version 300 es".toList = false ∧
    (shader_translate (some comment_first_shader) GL_VERTEX_SHADER).translated_source
      = some ("precision highp float;\nprecision highp int;\n".toList ++
          "// c\n#version 320 es\nvoid main(){}".toList) ∧
    ¬ ∃ rest, (shader_translate (some comment_first_shader) GL_VERTEX_SHADER).translated_source
      = some ("#version 320 es\n".toList ++ rest) := by
  refine ⟨rfl, by decide, by decide, by decide, by decide, by decide,
    translate_comment_first_shader, ?_⟩
  rintro ⟨rest, h⟩
  rw [translate_comment_first_shader] at h
  have h2 : (precision_header_other ++ "// c\n#version 320 es\nvoid main(){}".toList).head?
      = ("#version 320 es\n".toList ++ rest).head? :=
    congrArg List.head? (Option.some.inj h)
  exact absurd h2 (by simp [precision_header_other])

/-! ### Evaluating the translation of a fragment shader on the text after the prelude -/

theorem fragment_header_split :
    "#version 320 es\n".toList ++ precision_header_fragment
      = ("#version 320 es\n".toList ++ precision_header_fragment.take 498) ++ header_tail := by
  have h := fragment_header_facts.1
  rw [List.append_assoc, ← h]

/-- Steps 1 to 6 on a fragment shader, from the text `body` that step 1 leaves after the
directive line, when the steps 2, 4, 5 and 6 have nothing to replace. -/
theorem steps_chain_fragment (source : CStr) (v : Int) (body : CStr)
    (h1 : replace_version source v = "#version 320 es\n".toList ++ body)
    (hk1 : keys_absent ("#version 320 es\n".toList ++ body) = true)
    (hk3 : keys_absent (header_tail ++ body) = true) :
    translate_steps_1_6 source GL_FRAGMENT_SHADER v
      = "#version 320 es\n".toList ++ (precision_header_fragment ++ body) := by
  have hh : precision_header GL_FRAGMENT_SHADER = precision_header_fragment := by
    simp [precision_header]
  have h3 : shader_patch_precision ("#version 320 es\n".toList ++ body) GL_FRAGMENT_SHADER
      = "#version 320 es\n".toList ++ (precision_header_fragment ++ body) := by
    rw [patch_precision_version_line, hh, List.append_assoc]
  have hk : keys_absent ("#version 320 es\n".toList ++ (precision_header_fragment ++ body))
      = true := by
    have := keys_absent_after ("#version 320 es\n".toList ++ precision_header_fragment.take 498)
      header_tail body (by decide)
      (by rw [← fragment_header_split]; exact fragment_header_facts.2.1) hk3
    rw [← fragment_header_split, List.append_assoc] at this
    exact this
  exact steps_chain source GL_FRAGMENT_SHADER v _ _ h1 hk1 h3 hk

/-- Step 7 on a fragment shader for GLSL 1.20 or older, from the text `body` after the
precision prelude. -/
theorem legacy_chain_fragment (body b1 b2 : CStr) (v : Int) (hv : v ≤ 120)
    (h1 : (if contains (header_tail ++ body) "gl_FragColor".toList = true ∧
          ¬ contains (header_tail ++ body) "out vec4".toList = true then
        insert_after_header
          (str_replace_all body "gl_FragColor".toList "prismgl_FragColor".toList)
      else body) = b1)
    (h2 : str_replace_all ('\n' :: b1) "\nvarying ".toList "\nin ".toList = '\n' :: b2) :
    translate_legacy ("#version 320 es\n".toList ++ (precision_header_fragment ++ body))
        GL_FRAGMENT_SHADER v
      = "#version 320 es\n".toList ++ (precision_header_fragment ++ b2) := by
  obtain ⟨ht, _, hg, ho, hvar⟩ := fragment_header_facts
  have hfv : ¬ GL_FRAGMENT_SHADER = GL_VERTEX_SHADER := by decide
  have hsplit := fragment_header_split
  have hc : ∀ x : CStr, x.length ≤ 17 →
      contains ("#version 320 es\n".toList ++ precision_header_fragment) x = false →
      contains ("#version 320 es\n".toList ++ (precision_header_fragment ++ body)) x
        = contains (header_tail ++ body) x := by
    intro x hx hcx
    have := contains_after x ("#version 320 es\n".toList ++ precision_header_fragment.take 498)
      header_tail body hx (by rw [← hsplit]; exact hcx)
    rw [← hsplit, List.append_assoc] at this
    exact this
  have hren : str_replace_all
      ("#version 320 es\n".toList ++ (precision_header_fragment ++ body))
      "gl_FragColor".toList "prismgl_FragColor".toList
      = "#version 320 es\n".toList ++ (precision_header_fragment ++
          str_replace_all body "gl_FragColor".toList "prismgl_FragColor".toList) := by
    have hns : no_start_inside "gl_FragColor".toList
        ("#version 320 es\n".toList ++ precision_header_fragment) = true := by
      rw [hsplit]
      exact no_start_inside_of_tail _ _ (by decide) (by decide) _ (by rw [← hsplit]; exact hg)
    have := str_replace_all_after "gl_FragColor".toList "prismgl_FragColor".toList
      ("#version 320 es\n".toList ++ precision_header_fragment) body (by decide) hns
    rw [List.append_assoc] at this
    rw [this, List.append_assoc]
  have hlast : header_tail = header_tail.dropLast ++ ['\n'] := by decide
  have hsplit2 : ∀ u : CStr,
      "#version 320 es\n".toList ++ (precision_header_fragment ++ u)
        = (("#version 320 es\n".toList ++ precision_header_fragment.take 498) ++
            header_tail.dropLast) ++ '\n' :: u := by
    intro u
    rw [← List.append_assoc, hsplit]
    conv_lhs => rw [hlast]
    simp
  have hvarying : ∀ u u2 : CStr,
      str_replace_all ('\n' :: u) "\nvarying ".toList "\nin ".toList = '\n' :: u2 →
      str_replace_all ("#version 320 es\n".toList ++ (precision_header_fragment ++ u))
        "\nvarying ".toList "\nin ".toList
        = "#version 320 es\n".toList ++ (precision_header_fragment ++ u2) := by
    intro u u2 hu
    have hcv : contains (("#version 320 es\n".toList ++ precision_header_fragment.take 498)
        ++ header_tail.dropLast) "\nvarying ".toList = false := by
      apply contains_false_of_absent
      intro hi
      apply not_infix_of_contains_false _ _ hvar
      rw [hsplit]
      conv_rhs => rw [hlast]
      rw [← List.append_assoc]
      exact hi.trans (List.prefix_append _ _).isInfix
    have hns := no_start_inside_of_tail "\nvarying ".toList header_tail.dropLast
      (by decide) (by decide) _ hcv
    rw [hsplit2 u, str_replace_all_after _ _ _ _ (by decide) hns, hu, hsplit2 u2]
  simp only [translate_legacy, hv, hfv, true_and, and_true, and_false, if_true, if_false]
  rw [hc _ (by decide) hg, hc _ (by decide) ho]
  split
  · rename_i hcond
    rw [if_pos hcond] at h1
    rw [hren, insert_out_decl_exact, h1]
    exact hvarying b1 b2 h2
  · rename_i hcond
    rw [if_neg hcond] at h1
    rw [h1]
    exact hvarying b1 b2 h2

theorem translate_qualifier_shader_fragment :
    (shader_translate (some qualifier_shader) GL_FRAGMENT_SHADER).translated_source
      = some ("#version 320 es\n".toList ++ (precision_header_fragment ++
          "attribute vec3 p; varying vec2 t;".toList)) :=
  translate_chain qualifier_shader GL_FRAGMENT_SHADER 120
    ("#version 320 es\n".toList ++ (precision_header_fragment ++
        "attribute vec3 p; varying vec2 t;".toList)) _
    (by decide) (by decide)
    ⟨not_infix_of_contains_false _ _ (by decide), not_infix_of_contains_false _ _ (by decide),
     not_infix_of_contains_false _ _ (by decide)⟩
    (by decide)
    (steps_chain_fragment _ _ _ (by decide) (by decide) (by decide))
    (legacy_chain_fragment _ "attribute vec3 p; varying vec2 t;".toList _ 120 (by decide) (by decide) (by decide))

/-- C5: the code at the input of the spec, `"#version 120\nattribute vec3 p; varying vec2 t;"`
(not empty, at most 256 KiB, no ES version directive, version 120). The claim demands
`in vec3 p` and `out vec2 t` in the output of the vertex stage and `in vec2 t` in the output
of the fragment stage. The code rewrites a qualifier only where it starts a line: the
vertex output holds `in vec3 p` and keeps `varying vec2 t`, so it does not contain
`out vec2 t`; the fragment output keeps both qualifiers and does not contain `in vec2 t`. -/
theorem translate_qualifiers_spec_input :
    qualifier_shader = "#version 120\nattribute vec3 p; varying vec2 t;".toList ∧
    shader_detect_version (some qualifier_shader) = 120 ∧
    (shader_translate (some qualifier_shader) GL_VERTEX_SHADER).translated_source
      = some ("#version 320 es\n".toList ++ (precision_header_other ++
          "in vec3 p; varying vec2 t;".toList)) ∧
    contains ("#version 320 es\n".toList ++ (precision_header_other ++
        "in vec3 p; varying vec2 t;".toList)) "in vec3 p".toList = true ∧
    contains ("#version 320 es\n".toList ++ (precision_header_other ++
        "in vec3 p; varying vec2 t;".toList)) "out vec2 t".toList = false ∧
    (shader_translate (some qualifier_shader) GL_FRAGMENT_SHADER).translated_source
      = some ("#version 320 es\n".toList ++ (precision_header_fragment ++
          "attribute vec3 p; varying vec2 t;".toList)) ∧
    contains ("#version 320 es\n".toList ++ (precision_header_fragment ++
        "attribute vec3 p; varying vec2 t;".toList)) "in vec2 t".toList = false :=
  ⟨rfl, by decide, translate_qualifier_shader_vertex, by decide, by decide,
    translate_qualifier_shader_fragment, by decide⟩

theorem steps_fragcolor_shader :
    translate_steps_1_6 fragcolor_shader GL_FRAGMENT_SHADER
      (shader_detect_version (some fragcolor_shader))
      = "#version 320 es\n".toList ++ (precision_header_fragment ++
          "varying vec2 t;\nvoid main(){gl_FragColor=vec4(1.0);}".toList) := by
  rw [show shader_detect_version (some fragcolor_shader) = 120 by decide]
  exact steps_chain_fragment _ _ _ (by decide) (by decide) (by decide)

theorem translate_out_param_shader :
    (shader_translate (some out_param_shader) GL_FRAGMENT_SHADER).translated_source
      = some ("#version 320 es\n".toList ++ (precision_header_fragment ++
          "void f(out vec4 c){c=vec4(1.0);}\nvoid main(){f(gl_FragColor);}".toList)) :=
  translate_chain out_param_shader GL_FRAGMENT_SHADER 120
    ("#version 320 es\n".toList ++ (precision_header_fragment ++
        "void f(out vec4 c){c=vec4(1.0);}\nvoid main(){f(gl_FragColor);}".toList)) _
    (by decide) (by decide)
    ⟨not_infix_of_contains_false _ _ (by decide), not_infix_of_contains_false _ _ (by decide),
     not_infix_of_contains_false _ _ (by decide)⟩
    (by decide)
    (steps_chain_fragment _ _ _ (by decide) (by decide) (by decide))
    (legacy_chain_fragment _ "void f(out vec4 c){c=vec4(1.0);}\nvoid main(){f(gl_FragColor);}".toList _ 120 (by decide) (by decide) (by decide))

theorem translate_user_precision_shader :
    (shader_translate (some user_precision_shader) GL_FRAGMENT_SHADER).translated_source
      = some ("#version 320 es\n".toList ++ (precision_header_fragment ++
          ("precision mediump float;\n".toList ++ (out_decl ++
            "void main(){prismgl_FragColor=vec4(1.0);}".toList)))) :=
  translate_chain user_precision_shader GL_FRAGMENT_SHADER 110
    ("#version 320 es\n".toList ++ (precision_header_fragment ++
        "precision mediump float;\nvoid main(){gl_FragColor=vec4(1.0);}".toList)) _
    (by decide) (by decide)
    ⟨not_infix_of_contains_false _ _ (by decide), not_infix_of_contains_false _ _ (by decide),
     not_infix_of_contains_false _ _ (by decide)⟩
    (by decide)
    (steps_chain_fragment _ _ _ (by decide) (by decide) (by decide))
    (legacy_chain_fragment _ ("precision mediump float;\n".toList ++ (out_decl ++
      "void main(){prismgl_FragColor=vec4(1.0);}".toList)) _ 110 (by decide) (by decide) (by decide))

/-- Witness of C6 (amended): a fragment shader for GLSL 1.20 that writes `gl_FragColor`. -/
theorem translate_fragcolor_witness :
    ∃ out, (shader_translate (some fragcolor_shader) GL_FRAGMENT_SHADER).translated_source
      = some out ∧ FragColorDeclared out :=
  translate_fragcolor fragcolor_shader (by decide) (by decide)
    ⟨not_infix_of_contains_false _ _ (by decide), not_infix_of_contains_false _ _ (by decide),
     not_infix_of_contains_false _ _ (by decide)⟩
    (by decide)
    (by rw [steps_fragcolor_shader]; exact (contains_iff _ _).mp (by decide))
    (by rw [steps_fragcolor_shader]; exact not_infix_of_contains_false _ _ (by decide))
    (by rw [steps_fragcolor_shader]; exact not_infix_of_contains_false _ _ (by decide))

/-- Counterexample to C6 as stated. A fragment shader for GLSL 1.20 that declares no output
variable and passes `gl_FragColor` to a function with an `out vec4` parameter is left with
its `gl_FragColor` and gets no declaration; and in a shader whose first line is a
`precision` statement the declaration is placed after that line, not directly after the
precision prelude. -/
theorem translate_fragcolor_counterexample :
    shader_detect_version (some out_param_shader) ≤ 120 ∧
    contains out_param_shader "gl_FragColor".toList = true ∧
    (∃ out, (shader_translate (some out_param_shader) GL_FRAGMENT_SHADER).translated_source
        = some out ∧
      contains out "(gl_FragColor)".toList = true ∧
      contains out "out vec4 prismgl_FragColor;".toList = false ∧
      ¬ FragColorDeclared out) ∧
    shader_detect_version (some user_precision_shader) ≤ 120 ∧
    contains user_precision_shader "gl_FragColor".toList = true ∧
    contains user_precision_shader "out vec4".toList = false ∧
    (∃ out, (shader_translate (some user_precision_shader) GL_FRAGMENT_SHADER).translated_source
        = some out ∧
      contains out "precision mediump float;\nout vec4 prismgl_FragColor;\n".toList = true ∧
      ¬ FragColorDeclared out) := by
  refine ⟨by decide, by decide, ⟨_, translate_out_param_shader, by decide, by decide, ?_⟩,
    by decide, by decide, by decide, ⟨_, translate_user_precision_shader, by decide, ?_⟩⟩
  · rintro ⟨⟨a, b, e, _⟩, _⟩
    have hi : (precision_header_fragment ++ out_decl) <:+:
        ("#version 320 es\n".toList ++ (precision_header_fragment ++
          "void f(out vec4 c){c=vec4(1.0);}\nvoid main(){f(gl_FragColor);}".toList)) :=
      ⟨a, b, by rw [e]; simp⟩
    exact not_infix_of_contains_false _ _ (by decide) hi
  · rintro ⟨⟨a, b, e, _⟩, _⟩
    have hi : (precision_header_fragment ++ out_decl) <:+:
        ("#version 320 es\n".toList ++ (precision_header_fragment ++
          ("precision mediump float;\n".toList ++ (out_decl ++
            "void main(){prismgl_FragColor=vec4(1.0);}".toList)))) :=
      ⟨a, b, by rw [e]; simp⟩
    exact not_infix_of_contains_false _ _ (by decide) hi

/-! ### Theorems on the capability, buffer and query wrappers -/

theorem enable_trace (st : ShadowState) (cap : Nat) :
    (prismgl_glEnable_wrapper st cap).2
      = if cap ∈ spec_emulated_caps then [] else [.glEnable cap] := by
  by_cases hm : cap ∈ spec_emulated_caps
  · rw [if_pos hm]
    simp only [spec_emulated_caps, List.mem_cons, List.mem_singleton, List.not_mem_nil,
      or_false] at hm
    rcases hm with h | h | h | h | h | h | h | h | h <;> subst h <;> rfl
  · rw [if_neg hm]
    simp only [spec_emulated_caps, List.mem_cons, List.mem_singleton, List.not_mem_nil,
      or_false, not_or] at hm
    simp [prismgl_glEnable_wrapper, hm]

theorem disable_trace (st : ShadowState) (cap : Nat) :
    (prismgl_glDisable_wrapper st cap).2
      = if cap ∈ spec_emulated_caps then [] else [.glDisable cap] := by
  by_cases hm : cap ∈ spec_emulated_caps
  · rw [if_pos hm]
    simp only [spec_emulated_caps, List.mem_cons, List.mem_singleton, List.not_mem_nil,
      or_false] at hm
    rcases hm with h | h | h | h | h | h | h | h | h <;> subst h <;> rfl
  · rw [if_neg hm]
    simp only [spec_emulated_caps, List.mem_cons, List.mem_singleton, List.not_mem_nil,
      or_false, not_or] at hm
    simp [prismgl_glDisable_wrapper, hm]

theorem enable_state (st : ShadowState) (cap : Nat) (h : cap ≠ GL_DEPTH_CLAMP) :
    (prismgl_glEnable_wrapper st cap).1 = st := by
  unfold prismgl_glEnable_wrapper
  simp only [h, if_false]
  repeat' split
  all_goals rfl

theorem disable_state (st : ShadowState) (cap : Nat) (h : cap ≠ GL_DEPTH_CLAMP) :
    (prismgl_glDisable_wrapper st cap).1 = st := by
  unfold prismgl_glDisable_wrapper
  simp only [h, if_false]
  repeat' split
  all_goals rfl

/-- C23: `prismgl_glEnable_wrapper(cap)` issues exactly the one driver call `glEnable(cap)`
if and only if `cap` is outside the set `GL_DEPTH_CLAMP`, `GL_TEXTURE_CUBE_MAP_SEAMLESS`,
`GL_PROGRAM_POINT_SIZE`, `GL_POINT_SPRITE`, `GL_CLIP_DISTANCE0..3`, `GL_TEXTURE_1D`, and
likewise `prismgl_glDisable_wrapper(cap)` with `glDisable(cap)`; for a `cap` in the set
neither issues a driver call; enabling `GL_DEPTH_CLAMP` sets the depth-clamp shadow flag,
disabling it clears the flag, both leave the other shadow globals as they were; and every
other `cap` leaves the whole shadow state unchanged. -/
theorem enable_disable_wrappers (st : ShadowState) (cap : Nat) :
    ((prismgl_glEnable_wrapper st cap).2 = [.glEnable cap] ↔ cap ∉ spec_emulated_caps) ∧
    ((prismgl_glDisable_wrapper st cap).2 = [.glDisable cap] ↔ cap ∉ spec_emulated_caps) ∧
    (cap ∈ spec_emulated_caps →
      (prismgl_glEnable_wrapper st cap).2 = [] ∧ (prismgl_glDisable_wrapper st cap).2 = []) ∧
    (prismgl_glEnable_wrapper st GL_DEPTH_CLAMP).1
      = { st with g_depth_clamp_enabled := true } ∧
    (prismgl_glDisable_wrapper st GL_DEPTH_CLAMP).1
      = { st with g_depth_clamp_enabled := false } ∧
    (cap ≠ GL_DEPTH_CLAMP →
      (prismgl_glEnable_wrapper st cap).1 = st ∧ (prismgl_glDisable_wrapper st cap).1 = st) := by
  refine ⟨?_, ?_, ?_, ?_, ?_, ?_⟩
  · rw [enable_trace]
    by_cases h : cap ∈ spec_emulated_caps <;> simp [h]
  · rw [disable_trace]
    by_cases h : cap ∈ spec_emulated_caps <;> simp [h]
  · intro h
    rw [enable_trace, disable_trace]
    simp [h]
  · simp [prismgl_glEnable_wrapper]
  · simp [prismgl_glDisable_wrapper]
  · intro h
    exact ⟨enable_state st cap h, disable_state st cap h⟩

/-- Witness of C23: `glEnable(GL_DEPTH_CLAMP)` twice and then `glDisable(GL_DEPTH_CLAMP)`,
from the initial shadow state, issue no driver call and leave the flag `false`; and
`glEnable(GL_BLEND)` (0x0BE2) is forwarded and leaves the shadow state as it was. -/
theorem enable_disable_wrappers_witness :
    (prismgl_glEnable_wrapper shadow_state_init GL_DEPTH_CLAMP).2 = [] ∧
    (prismgl_glEnable_wrapper
      (prismgl_glEnable_wrapper shadow_state_init GL_DEPTH_CLAMP).1 GL_DEPTH_CLAMP).2 = [] ∧
    (prismgl_glDisable_wrapper
      (prismgl_glEnable_wrapper
        (prismgl_glEnable_wrapper shadow_state_init GL_DEPTH_CLAMP).1 GL_DEPTH_CLAMP).1
      GL_DEPTH_CLAMP).2 = [] ∧
    (prismgl_glDisable_wrapper
      (prismgl_glEnable_wrapper
        (prismgl_glEnable_wrapper shadow_state_init GL_DEPTH_CLAMP).1 GL_DEPTH_CLAMP).1
      GL_DEPTH_CLAMP).1.g_depth_clamp_enabled = false ∧
    (prismgl_glEnable_wrapper shadow_state_init GL_DEPTH_CLAMP).1.g_depth_clamp_enabled
      = true ∧
    prismgl_glEnable_wrapper shadow_state_init 0x0BE2
      = (shadow_state_init, [.glEnable 0x0BE2]) := by
  have hin : GL_DEPTH_CLAMP ∈ spec_emulated_caps := by decide
  have hout : (0x0BE2 : Nat) ∉ spec_emulated_caps := by decide
  refine ⟨((enable_disable_wrappers _ GL_DEPTH_CLAMP).2.2.1 hin).1,
    ((enable_disable_wrappers _ GL_DEPTH_CLAMP).2.2.1 hin).1,
    ((enable_disable_wrappers _ GL_DEPTH_CLAMP).2.2.1 hin).2, ?_, ?_, ?_⟩
  · rw [(enable_disable_wrappers _ GL_DEPTH_CLAMP).2.2.2.2.1]
  · rw [(enable_disable_wrappers _ GL_DEPTH_CLAMP).2.2.2.1]
  · exact Prod.ext ((enable_disable_wrappers shadow_state_init 0x0BE2).2.2.2.2.2 (by decide)).1
      ((enable_disable_wrappers shadow_state_init 0x0BE2).1.2 hout)

/-- C24: for every buffer enum `b`, `prismgl_glDrawBuffer(b)` issues exactly one driver
call, `glDrawBuffers(1, {m(b)})`, and `prismgl_glReadBuffer_wrapper(b)` issues exactly one
driver call, `glReadBuffer(m(b))`, where `m` sends `GL_FRONT`, `GL_FRONT_LEFT` and
`GL_BACK_LEFT` to `GL_BACK` and every other value to itself. -/
theorem draw_read_buffer_mapping (b : Nat) :
    prismgl_glDrawBuffer b = [.glDrawBuffers 1 [spec_buffer_map b]] ∧
    prismgl_glReadBuffer_wrapper b = [.glReadBuffer (spec_buffer_map b)] ∧
    spec_buffer_map GL_FRONT = GL_BACK ∧ spec_buffer_map GL_FRONT_LEFT = GL_BACK ∧
    spec_buffer_map GL_BACK_LEFT = GL_BACK ∧
    (b ≠ GL_FRONT → b ≠ GL_FRONT_LEFT → b ≠ GL_BACK_LEFT → spec_buffer_map b = b) := by
  refine ⟨?_, ?_, by decide, by decide, by decide, ?_⟩
  · simp [prismgl_glDrawBuffer, spec_buffer_map]
  · simp [prismgl_glReadBuffer_wrapper, spec_buffer_map]
  · intro h1 h2 h3
    simp [spec_buffer_map, h1, h2, h3]

/-- Witness of C24: `glDrawBuffer(GL_FRONT)` is forwarded as `glDrawBuffers(1, {GL_BACK})`,
`glReadBuffer(GL_BACK_LEFT)` as `glReadBuffer(GL_BACK)`, and the colour attachment 0x8CE0
is forwarded as it is. -/
theorem draw_read_buffer_mapping_witness :
    prismgl_glDrawBuffer GL_FRONT = [.glDrawBuffers 1 [GL_BACK]] ∧
    prismgl_glReadBuffer_wrapper GL_BACK_LEFT = [.glReadBuffer GL_BACK] ∧
    prismgl_glDrawBuffer 0x8CE0 = [.glDrawBuffers 1 [0x8CE0]] := by
  refine ⟨?_, ?_, ?_⟩
  · rw [(draw_read_buffer_mapping GL_FRONT).1, (draw_read_buffer_mapping GL_FRONT).2.2.1]
  · rw [(draw_read_buffer_mapping GL_BACK_LEFT).2.1,
      (draw_read_buffer_mapping GL_BACK_LEFT).2.2.2.2.1]
  · rw [(draw_read_buffer_mapping 0x8CE0).1,
      (draw_read_buffer_mapping 0x8CE0).2.2.2.2.2 (by decide) (by decide) (by decide)]

/-- C27: for every query target `t` and every `id`, `prismgl_glBeginQuery_wrapper(t, id)`
issues exactly `glBeginQuery(r(t), id)` and `prismgl_glEndQuery_wrapper(t)` exactly
`glEndQuery(r(t))`, with the same `r`: `GL_SAMPLES_PASSED` and `GL_PRIMITIVES_GENERATED` go
to `GL_ANY_SAMPLES_PASSED`, every other target to itself. -/
theorem query_target_remap (t id : Nat) :
    prismgl_glBeginQuery_wrapper t id = [.glBeginQuery (spec_query_target t) id] ∧
    prismgl_glEndQuery_wrapper t = [.glEndQuery (spec_query_target t)] ∧
    spec_query_target GL_SAMPLES_PASSED = GL_ANY_SAMPLES_PASSED ∧
    spec_query_target GL_PRIMITIVES_GENERATED = GL_ANY_SAMPLES_PASSED ∧
    (t ≠ GL_SAMPLES_PASSED → t ≠ GL_PRIMITIVES_GENERATED → spec_query_target t = t) := by
  refine ⟨?_, ?_, by decide, by decide, ?_⟩
  · unfold prismgl_glBeginQuery_wrapper spec_query_target
    by_cases h1 : t = GL_SAMPLES_PASSED
    · simp [h1]
    by_cases h2 : t = GL_PRIMITIVES_GENERATED
    · simp [h2]
    simp [h1, h2]
  · unfold prismgl_glEndQuery_wrapper spec_query_target
    by_cases h1 : t = GL_SAMPLES_PASSED
    · simp [h1]
    by_cases h2 : t = GL_PRIMITIVES_GENERATED
    · simp [h2]
    simp [h1, h2]
  · intro h1 h2
    simp [spec_query_target, h1, h2]

/-- Witness of C27: a `GL_PRIMITIVES_GENERATED` query is begun and ended on
`GL_ANY_SAMPLES_PASSED`, a `GL_TIME_ELAPSED` query on `GL_TIME_ELAPSED`. -/
theorem query_target_remap_witness :
    prismgl_glBeginQuery_wrapper GL_PRIMITIVES_GENERATED 5
      = [.glBeginQuery GL_ANY_SAMPLES_PASSED 5] ∧
    prismgl_glEndQuery_wrapper GL_PRIMITIVES_GENERATED = [.glEndQuery GL_ANY_SAMPLES_PASSED] ∧
    prismgl_glBeginQuery_wrapper GL_TIME_ELAPSED 5 = [.glBeginQuery GL_TIME_ELAPSED 5] ∧
    prismgl_glEndQuery_wrapper GL_TIME_ELAPSED = [.glEndQuery GL_TIME_ELAPSED] := by
  have e := (query_target_remap GL_TIME_ELAPSED 5).2.2.2.2 (by decide) (by decide)
  refine ⟨?_, ?_, ?_, ?_⟩
  · rw [(query_target_remap GL_PRIMITIVES_GENERATED 5).1,
      (query_target_remap GL_PRIMITIVES_GENERATED 5).2.2.2.1]
  · rw [(query_target_remap GL_PRIMITIVES_GENERATED 5).2.1,
      (query_target_remap GL_PRIMITIVES_GENERATED 5).2.2.2.1]
  · rw [(query_target_remap GL_TIME_ELAPSED 5).1, e]
  · rw [(query_target_remap GL_TIME_ELAPSED 5).2.1, e]

/-- C28, the behaviour of the code: with `GL_QUERY_RESULT_NO_WAIT`,
`prismgl_glGetQueryObjectuiv_wrapper` first asks the driver for
`GL_QUERY_RESULT_AVAILABLE`; when the answer is zero (or nothing is stored) it writes 0
and issues no further call, otherwise it asks for `GL_QUERY_RESULT` and the driver's value
is what `*params` holds. The 64-bit entry points `prismgl_glGetQueryObjecti64v` and
`prismgl_glGetQueryObjectui64v` do not poll: for every driver, also one on which the
result is not available, their only driver call is `glGetQueryObjectuiv(id,
GL_QUERY_RESULT)`, whose value they write. On the driver `pending_query_driver` the first
writes 0 after the poll alone, the other two ask for `GL_QUERY_RESULT` and write 99. -/
theorem query_result_no_wait (drv : QueryDriver) (id : Nat) (p : Nat) (q : Int) :
    (∀ a, drv id GL_QUERY_RESULT_AVAILABLE = some a → a ≠ 0 →
      prismgl_glGetQueryObjectuiv_wrapper drv id GL_QUERY_RESULT_NO_WAIT p
        = ((drv id GL_QUERY_RESULT).getD p,
           [.glGetQueryObjectuiv id GL_QUERY_RESULT_AVAILABLE (some a),
            .glGetQueryObjectuiv id GL_QUERY_RESULT (drv id GL_QUERY_RESULT)])) ∧
    ((drv id GL_QUERY_RESULT_AVAILABLE).getD 0 = 0 →
      prismgl_glGetQueryObjectuiv_wrapper drv id GL_QUERY_RESULT_NO_WAIT p
        = (0, [.glGetQueryObjectuiv id GL_QUERY_RESULT_AVAILABLE
                (drv id GL_QUERY_RESULT_AVAILABLE)])) ∧
    prismgl_glGetQueryObjecti64v drv id GL_QUERY_RESULT_NO_WAIT (some q)
      = (some (((drv id GL_QUERY_RESULT).getD 0 : Nat) : Int),
         [.glGetQueryObjectuiv id GL_QUERY_RESULT (drv id GL_QUERY_RESULT)]) ∧
    prismgl_glGetQueryObjectui64v drv id GL_QUERY_RESULT_NO_WAIT (some p)
      = (some ((drv id GL_QUERY_RESULT).getD 0),
         [.glGetQueryObjectuiv id GL_QUERY_RESULT (drv id GL_QUERY_RESULT)]) ∧
    prismgl_glGetQueryObjectuiv_wrapper pending_query_driver id GL_QUERY_RESULT_NO_WAIT p
      = (0, [.glGetQueryObjectuiv id GL_QUERY_RESULT_AVAILABLE (some 0)]) ∧
    prismgl_glGetQueryObjecti64v pending_query_driver id GL_QUERY_RESULT_NO_WAIT (some q)
      = (some 99, [.glGetQueryObjectuiv id GL_QUERY_RESULT (some 99)]) ∧
    prismgl_glGetQueryObjectui64v pending_query_driver id GL_QUERY_RESULT_NO_WAIT (some p)
      = (some 99, [.glGetQueryObjectuiv id GL_QUERY_RESULT (some 99)]) := by
  have hne : ¬ GL_QUERY_RESULT = GL_QUERY_RESULT_AVAILABLE := by decide
  refine ⟨?_, ?_, ?_, ?_, ?_, ?_, ?_⟩
  · intro a ha hz
    simp [prismgl_glGetQueryObjectuiv_wrapper, ha, hz]
  · intro hz
    simp [prismgl_glGetQueryObjectuiv_wrapper, hz]
  · simp [prismgl_glGetQueryObjecti64v]
  · simp [prismgl_glGetQueryObjectui64v]
  · simp [prismgl_glGetQueryObjectuiv_wrapper, pending_query_driver]
  · simp [prismgl_glGetQueryObjecti64v, pending_query_driver, hne]
  · simp [prismgl_glGetQueryObjectui64v, pending_query_driver, hne]

/-! ### The translation of a source with an extension directive -/

theorem steps_chain_extension (source : CStr) (shader_type : Nat) (v : Int) (w1 w2 w3 : CStr)
    (row : CStr × CStr) (rows : List (CStr × CStr))
    (h1 : replace_version source v = w1)
    (ht : ext_replacements = row :: rows) (hrows : keyed rows = true)
    (h2 : str_replace_all w1 row.1 row.2 = w2) (hk2 : keys_absent w2 = true)
    (h3 : shader_patch_precision w2 shader_type = w3) (hk3 : keys_absent w3 = true) :
    translate_steps_1_6 source shader_type v = w3 := by
  have e2 : shader_patch_extensions w1 = w2 := by
    simp only [shader_patch_extensions, ht, replace_table, List.foldl_cons, h2]
    exact replace_table_absent rows w2 hk2 hrows
  simp only [translate_steps_1_6]
  rw [h1, e2, h3, (patches_absent w3 hk3).2.1, (patches_absent w3 hk3).2.2.1,
    (patches_absent w3 hk3).2.2.2]

/-- C21: `shader_translate` applied to the `#version 140` vertex source with the directive
`#extension GL_ARB_explicit_attrib_location : enable` succeeds, reports the original
version 140 and the target version 320, has no error message, and returns exactly the text
whose first line is `#version 320 es`, followed by the two precision lines, the comment
that replaces the directive, and the rest of the source unchanged. -/
theorem translate_extension_example :
    shader_translate (some attrib_location_shader) GL_VERTEX_SHADER
      = { translated_source := some attrib_location_translated, success := true,
          error_msg := [], original_version := 140, target_version := 320 } ∧
    attrib_location_translated.take 16 = "#version 320 es\n".toList ∧
    "precision highp float;".toList <:+: attrib_location_translated ∧
    "/* ARB_explicit_attrib_location: native in ES 3.x */".toList
      <:+: attrib_location_translated ∧
    ¬ "#extension".toList <:+: attrib_location_translated := by
  have hv : shader_detect_version (some attrib_location_shader) = 140 := by decide
  have hs : translate_steps_1_6 attrib_location_shader GL_VERTEX_SHADER 140
      = attrib_location_translated :=
    steps_chain_extension attrib_location_shader GL_VERTEX_SHADER 140
      ("#version 320 es\n#extension GL_ARB_explicit_attrib_location : enable\nin vec3 p;\n" ++
        "void main()\x7b gl_Position = vec4(p,1); \x7d").toList
      ("#version 320 es\n/* ARB_explicit_attrib_location: native in ES 3.x */\nin vec3 p;\n" ++
        "void main()\x7b gl_Position = vec4(p,1); \x7d").toList
      attrib_location_translated _ _
      (by decide) rfl (by decide) (by decide) (by decide) (by decide) (by decide)
  have h7 : translate_legacy attrib_location_translated GL_VERTEX_SHADER 140
      = attrib_location_translated := by
    simp [translate_legacy]
  refine ⟨?_, by decide, (contains_iff _ _).mp (by decide), (contains_iff _ _).mp (by decide),
    not_infix_of_contains_false _ _ (by decide)⟩
  rw [shader_translate_eq attrib_location_shader GL_VERTEX_SHADER (by decide) (by decide)
    ⟨not_infix_of_contains_false _ _ (by decide), not_infix_of_contains_false _ _ (by decide),
     not_infix_of_contains_false _ _ (by decide)⟩, hv, hs, h7]

/-! ### The file name of a cache entry -/

theorem hex_char_alphabet : ∀ d, d < 16 →
    hex_char d ∈ spec_hex_alphabet ∧ spec_hex_alphabet.indexOf (hex_char d) = d := by
  decide

theorem hex_digits_alphabet (w n : Nat) : ∀ c ∈ hex_digits w n, c ∈ spec_hex_alphabet := by
  intro c hc
  obtain ⟨d, hd, rfl⟩ := hex_digits_chars w n c hc
  exact (hex_char_alphabet d hd).1

theorem spec_hex_number_digits (w : Nat) : ∀ n, spec_hex_number (hex_digits w n) = n % 16 ^ w := by
  induction w with
  | zero => intro n; simp [hex_digits, spec_hex_number, Nat.mod_one]
  | succ w ih =>
    intro n
    have h1 := ih (n / 16)
    simp only [spec_hex_number] at h1 ⊢
    simp only [hex_digits, List.foldl_append, List.foldl_cons, List.foldl_nil, h1,
      (hex_char_alphabet (n % 16) (Nat.mod_lt _ (by decide))).2]
    rw [pow_succ, Nat.mul_comm (16 ^ w) 16, Nat.mod_mul]
    omega

/-- The directory that a successful `prismgl_shader_cache_init` leaves in `g_cache_dir`. -/
theorem init_cache_dir (st : CacheState) (fs : FileSystem) (cache_dir : CStr)
    (hni : st.g_cache_initialized = false) (hfit : cache_dir.length + 32 ≤ 511)
    (hok : (prismgl_shader_cache_init st fs cache_dir).2.2 = true) :
    (prismgl_shader_cache_init st fs cache_dir).1.g_cache_dir = cache_dir ++ "/shaders".toList ∧
    (prismgl_shader_cache_init st fs cache_dir).1.g_cache_initialized = true := by
  have t1 : cache_dir.take 511 = cache_dir := List.take_of_length_le (by omega)
  have t2 : (cache_dir ++ "/shaders".toList).take 599 = cache_dir ++ "/shaders".toList :=
    List.take_of_length_le (by simp; omega)
  have t3 : (cache_dir ++ "/shaders".toList).take 511 = cache_dir ++ "/shaders".toList :=
    List.take_of_length_le (by simp; omega)
  simp only [prismgl_shader_cache_init, hni, t1, t2, t3, Bool.false_eq_true, if_false] at hok ⊢
  generalize (if fs.stat_ok cache_dir = true then (fs, true) else fs.mkdir cache_dir) = made
    at hok ⊢
  cases hm : made.2 with
  | false => simp [hm] at hok
  | true => simp [hm]

/-- C22: after a successful `prismgl_shader_cache_init(cacheDir)` from the uninitialized
state, with `cacheDir` short enough for the path buffers, the path built for a 64-bit hash
`h` is `cacheDir`, `/shaders/`, a text `x` and `.pglbin`, where `x` consists of exactly 16
lower-case hexadecimal digits that denote `h` (so it is padded with zeros); the name of that
file in the directory is `x.pglbin`, the directory scan of init accepts it (it contains
`.pglbin`) and its `%llx` conversion gives exactly `h`. -/
theorem cache_path_round_trip (st : CacheState) (fs : FileSystem) (cache_dir : CStr) (h : Nat)
    (hni : st.g_cache_initialized = false) (hfit : cache_dir.length + 32 ≤ 511)
    (hh : h < UINT64_MOD)
    (hok : (prismgl_shader_cache_init st fs cache_dir).2.2 = true) :
    ∃ x : CStr,
      cache_build_path (prismgl_shader_cache_init st fs cache_dir).1.g_cache_dir h
        = cache_dir ++ "/shaders/".toList ++ x ++ ".pglbin".toList ∧
      x.length = 16 ∧ (∀ c ∈ x, c ∈ spec_hex_alphabet) ∧ spec_hex_number x = h ∧
      entry_name (prismgl_shader_cache_init st fs cache_dir).1.g_cache_dir
          (cache_build_path (prismgl_shader_cache_init st fs cache_dir).1.g_cache_dir h)
        = some (x ++ ".pglbin".toList) ∧
      contains (x ++ ".pglbin".toList) CACHE_FILE_EXT = true ∧
      sscanf_llx (x ++ ".pglbin".toList) = some h := by
  have hdir := (init_cache_dir st fs cache_dir hni hfit hok).1
  have hp := cache_build_path_fits cache_dir h hfit
  have hmod : h % UINT64_MOD = h := Nat.mod_eq_of_lt hh
  refine ⟨format_016llx h, ?_, hex_digits_length _ _, hex_digits_alphabet _ _, ?_, ?_, ?_,
    sscanf_llx_canonical h hh⟩
  · rw [hdir, hp]
    simp [CACHE_FILE_EXT]
  · simp only [format_016llx]
    rw [spec_hex_number_digits, hmod]
    exact Nat.mod_eq_of_lt hh
  · rw [hdir, hp]
    exact entry_name_canonical _ h
  · exact (contains_iff _ _).mpr ⟨format_016llx h, [], by simp [CACHE_FILE_EXT]⟩

/-- Witness of C22: the hash 0x0123456789ABCDEF under `/data/app/cache` has the path
`/data/app/cache/shaders/0123456789abcdef.pglbin`, and the name
`0123456789abcdef.pglbin` is read back as that hash. -/
theorem cache_path_round_trip_witness :
    cache_build_path
        (prismgl_shader_cache_init cache_state_init demo_fs demo_cache_dir).1.g_cache_dir
        demo_hash
      = "/data/app/cache/shaders/0123456789abcdef.pglbin".toList ∧
    sscanf_llx "0123456789abcdef.pglbin".toList = some 0x0123456789ABCDEF ∧
    ∃ x : CStr,
      cache_build_path
          (prismgl_shader_cache_init cache_state_init demo_fs demo_cache_dir).1.g_cache_dir
          demo_hash
        = demo_cache_dir ++ "/shaders/".toList ++ x ++ ".pglbin".toList ∧
      x.length = 16 ∧ spec_hex_number x = demo_hash := by
  obtain ⟨x, h1, h2, _, h4, _, _, _⟩ := cache_path_round_trip cache_state_init demo_fs
    demo_cache_dir demo_hash rfl (by decide) (by decide) (by decide)
  exact ⟨by decide, by decide, x, h1, h2, h4⟩

/-! ### Batching preserves the vertices drawn -/

theorem expand_draw_add (m : Nat) (f t c : Int) (ht : 0 ≤ t) (hc : 0 ≤ c) :
    expand_draw m f (t + c) = expand_draw m f t ++ expand_draw m (f + t) c := by
  unfold expand_draw
  rw [Int.toNat_add ht hc, List.range_add, List.map_append, List.map_map]
  congr 1
  apply List.map_congr_left
  intro i _
  simp only [Function.comp, Nat.cast_add, Int.toNat_of_nonneg ht]
  rw [Int.add_assoc]

theorem expand_calls_cons_draw (m : Nat) (f c : Int) (cs : List GLCall) :
    expand_calls (.glDrawArrays m f c :: cs) = expand_draw m f c ++ expand_calls cs := by
  simp [expand_calls]

theorem expand_calls_append (a b : List GLCall) :
    expand_calls (a ++ b) = expand_calls a ++ expand_calls b := by
  simp [expand_calls]

theorem expand_submissions_cons (e : BatchDraw) (es : List BatchDraw) :
    expand_submissions (e :: es) = expand_draw e.mode e.first e.count ++ expand_submissions es := by
  simp [expand_submissions]

theorem expand_submissions_append (a b : List BatchDraw) :
    expand_submissions (a ++ b) = expand_submissions a ++ expand_submissions b := by
  simp [expand_submissions]

theorem expand_spec_runs_from (es : List BatchDraw) :
    ∀ (m : Nat) (f t : Int), 0 ≤ t → (∀ e ∈ es, 0 ≤ e.count) →
      expand_calls (spec_runs_from m f t es) = expand_draw m f t ++ expand_submissions es := by
  induction es with
  | nil =>
    intro m f t _ _
    simp [spec_runs_from, expand_calls, expand_submissions]
  | cons e es ih =>
    intro m f t ht hnn
    have hc : 0 ≤ e.count := hnn e (List.mem_cons_self _ _)
    have hrest : ∀ e2 ∈ es, 0 ≤ e2.count := fun e2 h2 => hnn e2 (List.mem_cons_of_mem _ h2)
    by_cases hcond : e.mode = m ∧ e.first = f + t
    · simp only [spec_runs_from, hcond, and_self, if_true]
      rw [ih m f (t + e.count) (by omega) hrest, expand_draw_add m f t e.count ht hc,
        expand_submissions_cons, hcond.1, hcond.2, List.append_assoc]
    · simp only [spec_runs_from, hcond, if_false]
      rw [expand_calls_cons_draw, ih e.mode e.first e.count hc hrest, expand_submissions_cons]

theorem expand_spec_runs (q : List BatchDraw) (hnn : ∀ e ∈ q, 0 ≤ e.count) :
    expand_calls (spec_runs q) = expand_submissions q := by
  cases q with
  | nil => rfl
  | cons e es =>
    simp only [spec_runs]
    rw [expand_spec_runs_from es e.mode e.first e.count (hnn e (List.mem_cons_self _ _))
      (fun e2 h2 => hnn e2 (List.mem_cons_of_mem _ h2)), expand_submissions_cons]

theorem expand_direct (es : List BatchDraw) :
    expand_calls (es.map fun e => GLCall.glDrawArrays e.mode e.first e.count)
      = expand_submissions es := by
  induction es with
  | nil => rfl
  | cons e es ih => rw [List.map_cons, expand_calls_cons_draw, ih, expand_submissions_cons]

/-- A queue of at most 256 entries: `prismgl_batch_draw` issues no call while it fills, and
the flush issues the greedy runs. -/
theorem fill_then_flush (b0 : BatchState) (q : List BatchDraw)
    (hk : q.length ≤ MAX_BATCH_DRAWS) (hr : flush_in_range q = true) :
    (batch_fill b0 q).2 = [] ∧ (batch_fill b0 q).1.active = true ∧
    (batch_fill b0 q).1.count = q.length ∧
    (prismgl_batch_flush (batch_fill b0 q).1).2 = spec_runs q ∧
    (prismgl_batch_flush (batch_fill b0 q).1).1.active = false := by
  have hfill := batch_fill_fold q (prismgl_batch_begin b0, []) rfl
    (by simp only [prismgl_batch_begin]; omega)
  simp only at hfill
  obtain ⟨f1, f2, f3, f4⟩ := hfill
  have hq : q = (List.range (batch_fill b0 q).1.count).map (batch_fill b0 q).1.draws := by
    unfold batch_fill
    rw [f4]; simp [prismgl_batch_begin]
  have hcount : (batch_fill b0 q).1.count = q.length := by
    unfold batch_fill
    rw [f3]; simp [prismgl_batch_begin]
  have hact : (batch_fill b0 q).1.active = true := f2
  have f1a : (batch_fill b0 q).2 = [] := f1
  refine ⟨f1a, hact, hcount, ?_⟩
  clear f1 f2 f3 f4 f1a
  generalize (batch_fill b0 q).1 = b at hq hcount hact ⊢
  by_cases h0 : b.count = 0
  · have hnil : q = [] := List.length_eq_zero.mp (by omega)
    simp [prismgl_batch_flush, h0, hnil, spec_runs]
  · have hloop := batch_flush_loop_spec b q hq b.count 0 (by omega)
      (by rw [List.drop_zero]; exact hr)
    simp only [List.drop_zero] at hloop
    simp [prismgl_batch_flush, hact, h0, hloop]

theorem batch_flush_inactive (b : BatchState) (h : b.active = false) :
    (prismgl_batch_flush b).2 = [] := by
  simp [prismgl_batch_flush, h]

theorem batch_draw_inactive (b : BatchState) (m : Nat) (f c : Int) (h : b.active = false) :
    prismgl_batch_draw b m f c = (b, [.glDrawArrays m f c]) := by
  simp [prismgl_batch_draw, h]

theorem batch_fold_inactive (es : List BatchDraw) :
    ∀ st : BatchState × List GLCall, st.1.active = false →
      es.foldl (fun st e =>
          let r := prismgl_batch_draw st.1 e.mode e.first e.count
          (r.1, st.2 ++ r.2)) st
        = (st.1, st.2 ++ es.map fun e => GLCall.glDrawArrays e.mode e.first e.count) := by
  induction es with
  | nil => intro st _; simp
  | cons e es ih =>
    intro st h
    have h2 := ih (st.1, st.2 ++ [GLCall.glDrawArrays e.mode e.first e.count]) h
    simp only [List.foldl_cons, batch_draw_inactive st.1 e.mode e.first e.count h] at h2 ⊢
    rw [h2]
    simp

/-- The driver calls of a whole session: the greedy runs of the first 256 submissions, then
one direct call for each further submission. -/
theorem batch_session_calls (b0 : BatchState) (q : List BatchDraw)
    (hr : flush_in_range (q.take MAX_BATCH_DRAWS) = true) :
    batch_session b0 q = spec_runs (q.take MAX_BATCH_DRAWS) ++
      (q.drop MAX_BATCH_DRAWS).map fun e => GLCall.glDrawArrays e.mode e.first e.count := by
  have hlen : (q.take MAX_BATCH_DRAWS).length ≤ MAX_BATCH_DRAWS := by
    rw [List.length_take]; omega
  obtain ⟨p1, p2, p3, p4, p5⟩ := fill_then_flush b0 (q.take MAX_BATCH_DRAWS) hlen hr
  cases hd : q.drop MAX_BATCH_DRAWS with
  | nil =>
    have hq : q.take MAX_BATCH_DRAWS = q := by
      have := List.take_append_drop MAX_BATCH_DRAWS q
      rw [hd, List.append_nil] at this
      exact this
    rw [hq] at p1 p4
    simp [batch_session, p1, p4, hq]
  | cons e r =>
    have hfull : (q.take MAX_BATCH_DRAWS).length = MAX_BATCH_DRAWS := by
      rw [List.length_take]
      have : (q.drop MAX_BATCH_DRAWS).length ≠ 0 := by rw [hd]; simp
      rw [List.length_drop] at this
      omega
    have hsplit : batch_fill b0 q
        = (e :: r).foldl (fun st e =>
            let r := prismgl_batch_draw st.1 e.mode e.first e.count
            (r.1, st.2 ++ r.2)) (batch_fill b0 (q.take MAX_BATCH_DRAWS)) := by
      conv_lhs => rw [← List.take_append_drop MAX_BATCH_DRAWS q, hd]
      unfold batch_fill
      rw [List.foldl_append]
    have hstep : prismgl_batch_draw (batch_fill b0 (q.take MAX_BATCH_DRAWS)).1 e.mode e.first
        e.count
        = ((prismgl_batch_flush (batch_fill b0 (q.take MAX_BATCH_DRAWS)).1).1,
           spec_runs (q.take MAX_BATCH_DRAWS) ++ [.glDrawArrays e.mode e.first e.count]) := by
      have hge : (batch_fill b0 (q.take MAX_BATCH_DRAWS)).1.count ≥ MAX_BATCH_DRAWS := by
        rw [p3, hfull]
      simp only [prismgl_batch_draw, p2, hge, Bool.not_true, Bool.false_or, decide_True,
        if_true, p4]
    have hfold := batch_fold_inactive r
      ((prismgl_batch_flush (batch_fill b0 (q.take MAX_BATCH_DRAWS)).1).1,
        (batch_fill b0 (q.take MAX_BATCH_DRAWS)).2 ++
          (spec_runs (q.take MAX_BATCH_DRAWS) ++ [.glDrawArrays e.mode e.first e.count])) p5
    have hall : batch_fill b0 q
        = ((prismgl_batch_flush (batch_fill b0 (q.take MAX_BATCH_DRAWS)).1).1,
           spec_runs (q.take MAX_BATCH_DRAWS) ++
             (GLCall.glDrawArrays e.mode e.first e.count ::
               r.map fun e => GLCall.glDrawArrays e.mode e.first e.count)) := by
      rw [hsplit]
      simp only [List.foldl_cons, hstep] at hfold ⊢
      rw [hfold, p1]
      simp
    have hlast : (prismgl_batch_flush (batch_fill b0 q).1).2 = [] := by
      rw [hall]
      exact batch_flush_inactive _ p5
    simp only [batch_session, hlast, List.append_nil]
    rw [hall]
    simp

/-- C25, amended: batching preserves what is drawn and in what order. For every number of
submissions with counts `c_i >= 0` (also more than 256, where the queue overflows, is
flushed and the further draws are forwarded at once), on which no `int` sum of the flush of
the queued entries overflows (`flush_in_range` of the first 256), the vertices drawn by the
driver calls of `prismgl_batch_begin`, the `prismgl_batch_draw` calls and the final
`prismgl_batch_flush`, taken in issue order, are the vertices of the submissions in
submission order. -/
theorem batch_preserves_vertices (b0 : BatchState) (q : List BatchDraw)
    (hnn : ∀ e ∈ q, 0 ≤ e.count)
    (hr : flush_in_range (q.take MAX_BATCH_DRAWS) = true) :
    expand_calls (batch_session b0 q) = expand_submissions q := by
  rw [batch_session_calls b0 q hr, expand_calls_append, expand_direct,
    expand_spec_runs _ (fun e he => hnn e (List.mem_of_mem_take he)),
    ← expand_submissions_append, List.take_append_drop]

theorem replicate_in_range (n : Nat) :
    flush_in_range_from GL_TRIANGLES 0 3
      (List.replicate n (⟨GL_TRIANGLES, 0, 3⟩ : BatchDraw)) = true := by
  induction n with
  | zero => rfl
  | succ n ih =>
    rw [List.replicate_succ]
    have h : ((0 : Int) = 0 + 3) = False := by decide
    simp only [flush_in_range_from, if_true, h, if_false, ih, Bool.and_true]
    decide

/-- Witness of C25: three submissions that the flush merges into one call draw the same 15
vertices; and 257 submissions, of which the last overflows the queue, draw the vertices of
all 257 in submission order. -/
theorem batch_preserves_vertices_witness :
    batch_session g_batch_init
      [⟨GL_TRIANGLES, 0, 6⟩, ⟨GL_TRIANGLES, 6, 6⟩, ⟨GL_TRIANGLES, 12, 3⟩]
      = [.glDrawArrays GL_TRIANGLES 0 15] ∧
    expand_calls [.glDrawArrays GL_TRIANGLES 0 15]
      = expand_submissions
          [⟨GL_TRIANGLES, 0, 6⟩, ⟨GL_TRIANGLES, 6, 6⟩, ⟨GL_TRIANGLES, 12, 3⟩] ∧
    (List.replicate 257 (⟨GL_TRIANGLES, 0, 3⟩ : BatchDraw)).length = 257 ∧
    (∀ e ∈ List.replicate 257 (⟨GL_TRIANGLES, 0, 3⟩ : BatchDraw), 0 ≤ e.count) ∧
    flush_in_range
      ((List.replicate 257 (⟨GL_TRIANGLES, 0, 3⟩ : BatchDraw)).take MAX_BATCH_DRAWS) = true ∧
    expand_calls (batch_session g_batch_init (List.replicate 257 ⟨GL_TRIANGLES, 0, 3⟩))
      = expand_submissions (List.replicate 257 ⟨GL_TRIANGLES, 0, 3⟩) := by
  have hnn : ∀ e ∈ List.replicate 257 (⟨GL_TRIANGLES, 0, 3⟩ : BatchDraw), 0 ≤ e.count := by
    intro e he
    have h1 := List.eq_of_mem_replicate he
    subst h1
    decide
  have hr : flush_in_range
      ((List.replicate 257 (⟨GL_TRIANGLES, 0, 3⟩ : BatchDraw)).take MAX_BATCH_DRAWS)
      = true := by
    rw [List.take_replicate]
    exact replicate_in_range 255
  have h3 : batch_session g_batch_init
      [⟨GL_TRIANGLES, 0, 6⟩, ⟨GL_TRIANGLES, 6, 6⟩, ⟨GL_TRIANGLES, 12, 3⟩]
      = [.glDrawArrays GL_TRIANGLES 0 15] := by decide
  refine ⟨h3, ?_, List.length_replicate _ _, hnn, hr,
    batch_preserves_vertices g_batch_init _ hnn hr⟩
  rw [← h3]
  exact batch_preserves_vertices g_batch_init _ (by
    intro e he
    simp only [List.mem_cons, List.mem_singleton, List.not_mem_nil, or_false] at he
    rcases he with h | h | h <;> subst h <;> decide) (by decide)

/-- Counterexample of C25 as stated: the submissions `(TRIANGLES, 0, 2147483647)`,
`(TRIANGLES, 2147483647, 1)` have counts `>= 0`, and the flush issues the one call
`glDrawArrays(TRIANGLES, 0, -2147483648)`, which draws no vertex of the submissions. The
submissions `(TRIANGLES, 2147483647, 1)`, `(TRIANGLES, -2147483648, 1)` are merged into one
call that draws the vertex `2147483648` where the second submission has `-2147483648`. -/
theorem batch_preserves_vertices_counterexample :
    (∀ e ∈ ([⟨GL_TRIANGLES, 0, 2147483647⟩, ⟨GL_TRIANGLES, 2147483647, 1⟩] :
      List BatchDraw), 0 ≤ e.count) ∧
    batch_session g_batch_init [⟨GL_TRIANGLES, 0, 2147483647⟩, ⟨GL_TRIANGLES, 2147483647, 1⟩]
      = [.glDrawArrays GL_TRIANGLES 0 (-2147483648)] ∧
    expand_calls (batch_session g_batch_init
      [⟨GL_TRIANGLES, 0, 2147483647⟩, ⟨GL_TRIANGLES, 2147483647, 1⟩]) = [] ∧
    (GL_TRIANGLES, (0 : Int)) ∈ expand_submissions
      [⟨GL_TRIANGLES, 0, 2147483647⟩, ⟨GL_TRIANGLES, 2147483647, 1⟩] ∧
    expand_calls (batch_session g_batch_init
      [⟨GL_TRIANGLES, 2147483647, 1⟩, ⟨GL_TRIANGLES, -2147483648, 1⟩])
      = [(GL_TRIANGLES, 2147483647), (GL_TRIANGLES, 2147483648)] ∧
    expand_submissions [⟨GL_TRIANGLES, 2147483647, 1⟩, ⟨GL_TRIANGLES, -2147483648, 1⟩]
      = [(GL_TRIANGLES, 2147483647), (GL_TRIANGLES, -2147483648)] := by
  refine ⟨by decide, by decide, by decide, ?_, by decide, by decide⟩
  simp only [expand_submissions, expand_draw, List.map_cons, List.map_nil, List.flatten_cons,
    List.flatten_nil, List.append_nil, List.mem_append, List.mem_map, List.mem_range]
  exact Or.inl ⟨0, by decide, by simp⟩

/-! ### The vertex cap of the immediate-mode engine -/

theorem vertex3f_appends (s : ImmediateState) (x y z : GLfloat) (ha : s.active = true)
    (hc : s.count < MAX_IMMEDIATE_VERTICES) :
    (prismgl_glVertex3f s x y z).count = s.count + 1 ∧
    (prismgl_glVertex3f s x y z).active = true ∧
    (prismgl_glVertex3f s x y z).sticky = s.sticky ∧
    (prismgl_glVertex3f s x y z).stored = s.stored ++
      [⟨x, y, z, s.cur_r, s.cur_g, s.cur_b, s.cur_a, s.cur_s, s.cur_t, s.cur_nx, s.cur_ny,
        s.cur_nz⟩] := by
  have hnot : ¬ (s.count ≥ MAX_IMMEDIATE_VERTICES) := by omega
  refine ⟨by simp [prismgl_glVertex3f, ha, hnot], by simp [prismgl_glVertex3f, ha, hnot],
    by simp [prismgl_glVertex3f, ha, hnot, ImmediateState.sticky], ?_⟩
  simp only [ImmediateState.stored, prismgl_glVertex3f, ha, hnot, Bool.not_true,
    Bool.false_or, decide_False, Bool.false_eq_true, if_false, List.range_succ, List.map_append,
    List.map_cons, List.map_nil, Function.update_same]
  congr 1
  apply List.map_congr_left
  intro i hi
  rw [List.mem_range] at hi
  exact Function.update_noteq (by omega) _ _

theorem vertex3f_ignored (s : ImmediateState) (x y z : GLfloat)
    (h : ¬ (s.active = true ∧ s.count < MAX_IMMEDIATE_VERTICES)) :
    prismgl_glVertex3f s x y z = s := by
  unfold prismgl_glVertex3f
  by_cases ha : s.active = true
  · have hc : s.count ≥ MAX_IMMEDIATE_VERTICES := by
      by_contra hlt
      exact h ⟨ha, by omega⟩
    simp [hc]
  · simp [ha]

theorem stored_length (s : ImmediateState) : s.stored.length = s.count := by
  simp [ImmediateState.stored]

theorem emit_fold_stored (es : List Emit) :
    ∀ s : ImmediateState, s.active = true → s.count ≤ MAX_IMMEDIATE_VERTICES →
      (es.foldl Emit.apply s).stored
        = (s.stored ++ spec_received s.sticky es).take MAX_IMMEDIATE_VERTICES := by
  induction es with
  | nil =>
    intro s _ hc
    simp only [List.foldl_nil, spec_received, List.append_nil]
    exact (List.take_of_length_le (by rw [stored_length]; exact hc)).symm
  | cons e es ih =>
    intro s ha hc
    have hvertex : ∀ x y z : GLfloat,
        (es.foldl Emit.apply (prismgl_glVertex3f s x y z)).stored
          = (s.stored ++ (⟨x, y, z, s.sticky.r, s.sticky.g, s.sticky.b, s.sticky.a,
              s.sticky.s, s.sticky.t, s.sticky.nx, s.sticky.ny, s.sticky.nz⟩
              :: spec_received s.sticky es)).take MAX_IMMEDIATE_VERTICES := by
      intro x y z
      by_cases hlt : s.count < MAX_IMMEDIATE_VERTICES
      · obtain ⟨h1, h2, h3, h4⟩ := vertex3f_appends s x y z ha hlt
        rw [ih _ h2 (by omega), h3, h4, List.append_assoc]
        rfl
      · have heq : s.count = MAX_IMMEDIATE_VERTICES := by omega
        rw [vertex3f_ignored s x y z (fun h => hlt h.2), ih s ha hc]
        have hl : s.stored.length = MAX_IMMEDIATE_VERTICES := by rw [stored_length, heq]
        rw [← hl, List.take_left, List.take_left]
    have hattr : ∀ s1 : ImmediateState, s1.active = true → s1.count = s.count →
        s1.vertices = s.vertices →
        (es.foldl Emit.apply s1).stored
          = (s.stored ++ spec_received s1.sticky es).take MAX_IMMEDIATE_VERTICES := by
      intro s1 h1 h2 h3
      rw [ih s1 h1 (by omega)]
      simp only [ImmediateState.stored, h2, h3]
    cases e with
    | vertex3f x y z => exact hvertex x y z
    | vertex2f x y => exact hvertex x y 0
    | texCoord2f u v => exact hattr _ ha rfl rfl
    | color4f r g b a => exact hattr _ ha rfl rfl
    | color3f r g b => exact hattr _ ha rfl rfl
    | normal3f nx ny nz => exact hattr _ ha rfl rfl

theorem apply_count_le (s : ImmediateState) (c : ImmCall)
    (h : s.count ≤ MAX_IMMEDIATE_VERTICES) : (c.apply s).count ≤ MAX_IMMEDIATE_VERTICES := by
  have hv : ∀ x y z : GLfloat, (prismgl_glVertex3f s x y z).count ≤ MAX_IMMEDIATE_VERTICES := by
    intro x y z
    by_cases hc : s.active = true ∧ s.count < MAX_IMMEDIATE_VERTICES
    · rw [(vertex3f_appends s x y z hc.1 hc.2).1]
      omega
    · rw [vertex3f_ignored s x y z hc]
      exact h
  cases c with
  | glBegin gen mode =>
    simp only [ImmCall.apply, prismgl_glBegin, ensure_immediate_buffers]
    exact Nat.zero_le _
  | glEnd =>
    simp only [ImmCall.apply, prismgl_glEnd]
    split <;> exact h
  | emit e =>
    cases e with
    | vertex3f x y z => exact hv x y z
    | vertex2f x y => exact hv x y 0
    | texCoord2f u v => exact h
    | color4f r g b a => exact h
    | color3f r g b => exact h
    | normal3f nx ny nz => exact h
  | vertex3d x y z => exact hv (to_GLfloat x) (to_GLfloat y) (to_GLfloat z)
  | vertex2d x y => exact hv (to_GLfloat x) (to_GLfloat y) 0
  | texCoord2d u v => exact h
  | color3d r g b => exact h
  | color4d r g b a => exact h
  | color3ub r g b => exact h
  | color4ub r g b a => exact h

theorem run_calls_count_le (cs : List ImmCall) :
    ∀ s : ImmediateState, s.count ≤ MAX_IMMEDIATE_VERTICES →
      (run_calls s cs).count ≤ MAX_IMMEDIATE_VERTICES := by
  induction cs with
  | nil => intro s h; exact h
  | cons c cs ih =>
    intro s h
    simp only [run_calls, List.foldl_cons] at ih ⊢
    exact ih _ (apply_count_le s c h)

theorem spec_received_replicate (k : Sticky) (x y z : GLfloat) (n : Nat) :
    spec_received k (List.replicate n (.vertex3f x y z))
      = List.replicate n ⟨x, y, z, k.r, k.g, k.b, k.a, k.s, k.t, k.nx, k.ny, k.nz⟩ := by
  induction n with
  | zero => rfl
  | succ n ih => rw [List.replicate_succ, spec_received, ih, List.replicate_succ]

/-- C26: `prismgl_glVertex3f` raises the vertex count by one if and only if a batch is
active and the count is below 65536; then the new vertex is stored after the vertices held
so far, which stay as they were, and the flag and the sticky attributes are unchanged;
otherwise the whole state of the engine is unchanged. In every state reached from the
initial one by calls of `glBegin`, `glEnd` and the emitters the count is at most 65536; the
vertices a batch holds after `glBegin` and any emitter calls are exactly the first 65536 of
the vertices it received, in order; and `prismgl_glVertex2f(x, y)` is
`prismgl_glVertex3f(x, y, 0)`. -/
theorem vertex_cap (s : ImmediateState) (x y z : GLfloat) (cs : List ImmCall)
    (s0 : ImmediateState) (gen : GenNames) (mode : Nat) (es : List Emit) :
    ((prismgl_glVertex3f s x y z).count = s.count + 1 ↔
      (s.active = true ∧ s.count < MAX_IMMEDIATE_VERTICES)) ∧
    (s.active = true ∧ s.count < MAX_IMMEDIATE_VERTICES →
      (prismgl_glVertex3f s x y z).stored = s.stored ++
        [⟨x, y, z, s.cur_r, s.cur_g, s.cur_b, s.cur_a, s.cur_s, s.cur_t, s.cur_nx, s.cur_ny,
          s.cur_nz⟩] ∧
      (prismgl_glVertex3f s x y z).active = true ∧
      (prismgl_glVertex3f s x y z).sticky = s.sticky) ∧
    (¬ (s.active = true ∧ s.count < MAX_IMMEDIATE_VERTICES) →
      prismgl_glVertex3f s x y z = s) ∧
    (run_calls g_immediate_init cs).count ≤ 65536 ∧
    (batch_state s0 gen mode es).stored = (spec_received s0.sticky es).take 65536 ∧
    (batch_state s0 gen mode es).count = min (spec_received s0.sticky es).length 65536 ∧
    prismgl_glVertex2f s x y = prismgl_glVertex3f s x y 0 := by
  have hb : (batch_state s0 gen mode es).stored = (spec_received s0.sticky es).take 65536 := by
    have h1 : (prismgl_glBegin s0 gen mode).1.active = true := by
      simp only [prismgl_glBegin, ensure_immediate_buffers]
    have h2 : (prismgl_glBegin s0 gen mode).1.count = 0 := by
      simp only [prismgl_glBegin, ensure_immediate_buffers]
    have h3 : (prismgl_glBegin s0 gen mode).1.sticky = s0.sticky :=
      apply_sticky s0 (.glBegin gen mode)
    have h4 : (prismgl_glBegin s0 gen mode).1.stored = [] := by
      simp [ImmediateState.stored, h2]
    have h5 := emit_fold_stored es (prismgl_glBegin s0 gen mode).1 h1 (by rw [h2]; omega)
    rw [h3, h4, List.nil_append] at h5
    exact h5
  refine ⟨⟨?_, fun h => (vertex3f_appends s x y z h.1 h.2).1⟩, ?_, vertex3f_ignored s x y z,
    run_calls_count_le cs g_immediate_init (by decide), hb, ?_, rfl⟩
  · intro h
    by_contra hn
    rw [vertex3f_ignored s x y z hn] at h
    omega
  · intro h
    obtain ⟨_, h2, h3, h4⟩ := vertex3f_appends s x y z h.1 h.2
    exact ⟨h4, h2, h3⟩
  · rw [← stored_length, hb, List.length_take, Nat.min_comm]

/-- Witness of C26: a batch that receives 65537 vertices holds 65536 of them, and a further
`glVertex3f` leaves the state as it is; a batch that receives two vertices, the second by
`glVertex2f`, holds both, the second with z = 0. -/
theorem vertex_cap_witness :
    (batch_state g_immediate_init ⟨1, 2, 3⟩ GL_TRIANGLES
      (List.replicate 65537 (.vertex3f 1 2 3))).count = 65536 ∧
    prismgl_glVertex3f (batch_state g_immediate_init ⟨1, 2, 3⟩ GL_TRIANGLES
      (List.replicate 65537 (.vertex3f 1 2 3))) 4 5 6
      = batch_state g_immediate_init ⟨1, 2, 3⟩ GL_TRIANGLES
          (List.replicate 65537 (.vertex3f 1 2 3)) ∧
    (batch_state g_immediate_init ⟨1, 2, 3⟩ GL_TRIANGLES
      [.vertex3f 1 2 3, .vertex2f 4 5]).stored
      = [⟨1, 2, 3, 1, 1, 1, 1, 0, 0, 0, 0, 1⟩, ⟨4, 5, 0, 1, 1, 1, 1, 0, 0, 0, 0, 1⟩] := by
  have hc : (batch_state g_immediate_init ⟨1, 2, 3⟩ GL_TRIANGLES
      (List.replicate 65537 (.vertex3f 1 2 3))).count = 65536 := by
    rw [(vertex_cap g_immediate_init 0 0 0 [] g_immediate_init ⟨1, 2, 3⟩ GL_TRIANGLES
      (List.replicate 65537 (.vertex3f 1 2 3))).2.2.2.2.2.1, spec_received_replicate,
      List.length_replicate]
    decide
  refine ⟨hc, ?_, ?_⟩
  · apply (vertex_cap _ 4 5 6 [] g_immediate_init ⟨1, 2, 3⟩ GL_TRIANGLES []).2.2.1
    rw [hc]
    intro h
    exact absurd h.2 (by decide)
  · rw [(vertex_cap g_immediate_init 0 0 0 [] g_immediate_init ⟨1, 2, 3⟩ GL_TRIANGLES
      [.vertex3f 1 2 3, .vertex2f 4 5]).2.2.2.2.1]
    rfl

/-! ### Completeness of the override table -/

theorem nodup_set_fresh {α : Type} (a : α) :
    ∀ (l : List α) (i : Nat), l.Nodup → a ∉ l → (l.set i a).Nodup := by
  intro l
  induction l with
  | nil => intro i _ _; simp
  | cons x xs ih =>
    intro i hn ha
    rw [List.nodup_cons] at hn
    rw [List.mem_cons, not_or] at ha
    cases i with
    | zero =>
      rw [List.set_cons_zero, List.nodup_cons]
      exact ⟨ha.2, hn.2⟩
    | succ i =>
      rw [List.set_cons_succ, List.nodup_cons]
      refine ⟨fun hx => ?_, ih i hn.2 ha.2⟩
      rcases List.mem_or_eq_of_mem_set hx with h | h
      · exact hn.1 h
      · exact ha.1 h.symm

theorem map_hash_set_same (e2 : ShaderCacheEntry) :
    ∀ (g : List ShaderCacheEntry) (i : Nat) (e : ShaderCacheEntry), g.get? i = some e →
      e2.hash = e.hash → (g.set i e2).map (fun e => e.hash) = g.map (fun e => e.hash) := by
  intro g
  induction g with
  | nil => intro i e h; simp at h
  | cons x xs ih =>
    intro i e h h2
    cases i with
    | zero =>
      simp only [List.get?_cons_zero, Option.some.injEq] at h
      simp [h, h2]
    | succ i =>
      simp only [List.get?_cons_succ] at h
      simp only [List.set_cons_succ, List.map_cons, ih i e h h2]

theorem evict_slot_hashes (g : List ShaderCacheEntry) (i : Nat)
    (hn : (g.map (fun e => e.hash)).Nodup) :
    ((evict_slot g i).map (fun e => e.hash)).Nodup ∧ (evict_slot g i).length ≤ g.length := by
  cases hl : g.getLast? with
  | none =>
    simp only [evict_slot, hl]
    exact ⟨hn, Nat.le_refl _⟩
  | some last =>
    simp only [evict_slot, hl]
    have hg : g = g.dropLast ++ [last] := (List.dropLast_append_getLast? last hl).symm
    refine ⟨?_, by simp⟩
    rw [hg] at hn
    simp only [List.map_append, List.map_cons, List.map_nil] at hn
    have hn2 := List.nodup_append.mp hn
    have hfresh : last.hash ∉ g.dropLast.map (fun e => e.hash) := by
      intro hmem
      exact hn2.2.2 hmem (List.mem_singleton_self _)
    by_cases hi : i < g.dropLast.length
    · have e1 : (g.set i last).dropLast = g.dropLast.set i last := by
        conv_lhs => rw [hg, List.set_append_left _ _ hi, List.dropLast_concat]
      rw [e1, List.map_set]
      exact nodup_set_fresh _ _ _ hn2.1 hfresh
    · have e1 : (g.set i last).dropLast = g.dropLast := by
        by_cases hi2 : i = g.dropLast.length
        · conv_lhs => rw [hg, hi2, List.set_append_right _ _ (Nat.le_refl _)]
          simp
        · have hlen : g.length ≤ i := by
            have : g.length = g.dropLast.length + 1 := by
              conv_lhs => rw [hg]
              simp
            omega
          rw [(List.set_eq_of_length_le hlen)]
      rw [e1]
      exact hn2.1

theorem find_entry_none_fresh (h : Nat) (g : List ShaderCacheEntry)
    (hf : find_entry h g = none) : h ∉ g.map (fun e => e.hash) := by
  intro hm
  rw [List.mem_map] at hm
  obtain ⟨e, he, heh⟩ := hm
  obtain ⟨i, e2, h1, _, _⟩ := find_entry_of_mem h g ⟨e, he, heh⟩
  rw [hf] at h1
  cases h1

theorem scan_directory_hashes (dir : CStr) :
    ∀ (names : List CStr) (g : List ShaderCacheEntry),
      (scan_directory dir names g).map (fun e => e.hash)
        <+: g.map (fun e => e.hash) ++ listing_hashes names := by
  intro names
  induction names with
  | nil => intro g; simp [scan_directory, listing_hashes]
  | cons n ns ih =>
    intro g
    unfold scan_directory
    by_cases hlen : g.length < MAX_CACHE_ENTRIES
    · simp only [hlen, if_true]
      by_cases hc : contains n CACHE_FILE_EXT = true
      · simp only [hc, if_true]
        cases hs : sscanf_llx n with
        | none =>
          have e : listing_hashes (n :: ns) = listing_hashes ns := by
            simp [listing_hashes, hc, hs]
          rw [e]
          exact ih g
        | some hash =>
          have e : listing_hashes (n :: ns) = hash :: listing_hashes ns := by
            simp [listing_hashes, hc, hs]
          rw [e]
          have h1 := ih (g ++ [⟨hash, 0, cache_build_path dir hash, false⟩])
          simpa using h1
      · have e : listing_hashes (n :: ns) = listing_hashes ns := by
          simp [listing_hashes, hc]
        simp only [hc, Bool.false_eq_true, if_false]
        rw [e]
        exact ih g
    · simp only [hlen, if_false]
      exact List.prefix_append _ _

theorem scan_directory_length (dir : CStr) :
    ∀ (names : List CStr) (g : List ShaderCacheEntry), g.length ≤ MAX_CACHE_ENTRIES →
      (scan_directory dir names g).length ≤ MAX_CACHE_ENTRIES := by
  intro names
  induction names with
  | nil => intro g h; simpa [scan_directory] using h
  | cons n ns ih =>
    intro g h
    unfold scan_directory
    by_cases hlen : g.length < MAX_CACHE_ENTRIES
    · simp only [hlen, if_true]
      split
      · split
        · exact ih _ (by simp; omega)
        · exact ih _ h
      · exact ih _ h
    · simp only [hlen, if_false]
      exact h

/-- The outcomes of `prismgl_shader_cache_init` on a cache that is not initialized: a
failed `mkdir` changes the directory name alone; otherwise the index is the scan of the
listing of the new directory, or is unchanged when the directory cannot be opened. -/
theorem init_outcomes (st : CacheState) (fs : FileSystem) (cache_dir : CStr)
    (hf : st.g_cache_initialized = false) :
    (prismgl_shader_cache_init st fs cache_dir).1
        = ⟨st.g_cache, cache_dir.take 511, false⟩ ∨
    (∃ dir fs2, prismgl_shader_cache_init st fs cache_dir
        = (⟨scan_directory dir (fs2.readdir dir) st.g_cache, dir, true⟩, fs2, true)) ∨
    (∃ dir fs2, prismgl_shader_cache_init st fs cache_dir
        = (⟨st.g_cache, dir, true⟩, fs2, true)) := by
  unfold prismgl_shader_cache_init
  simp only [hf, Bool.false_eq_true, if_false]
  generalize (if fs.stat_ok (cache_dir.take 511) = true then (fs, true)
    else fs.mkdir (cache_dir.take 511)) = made
  cases hm : made.2 with
  | false => exact Or.inl (by simp)
  | true =>
    right
    simp only [Bool.not_true, Bool.false_eq_true, if_false]
    generalize (if made.1.stat_ok ((cache_dir.take 511 ++ "/shaders".toList).take 599) = true
      then made.1
      else (made.1.mkdir ((cache_dir.take 511 ++ "/shaders".toList).take 599)).1) = fs2
    by_cases hdir : fs2.dirs.contains
        (((cache_dir.take 511 ++ "/shaders".toList).take 599).take 511) = true
    · exact Or.inl ⟨((cache_dir.take 511 ++ "/shaders".toList).take 599).take 511, fs2,
        by simp only [hdir, if_true]⟩
    · exact Or.inr ⟨((cache_dir.take 511 ++ "/shaders".toList).take 599).take 511, fs2,
        by simp only [hdir, if_false, Bool.false_eq_true]⟩

/-- The outcomes of `prismgl_shader_cache_put` for the index: it is unchanged, or the
cache is initialized, the index has room and no entry for the hash, and one entry for the
hash is appended. -/
theorem put_outcomes (st : CacheState) (fs : FileSystem) (drv : ProgramBinary)
    (hash program : Nat) :
    (prismgl_shader_cache_put st fs drv hash program).state = st ∨
    (st.g_cache_initialized = true ∧ st.g_cache.length < MAX_CACHE_ENTRIES ∧
      find_entry hash st.g_cache = none ∧
      (prismgl_shader_cache_put st fs drv hash program).state
        = { st with g_cache := st.g_cache ++
              [⟨hash, program, (cache_build_path st.g_cache_dir hash).take 511, true⟩] }) := by
  unfold prismgl_shader_cache_put
  by_cases h1 : (!st.g_cache_initialized) = true
  · exact Or.inl (by simp only [h1, if_true])
  by_cases h2 : st.g_cache.length ≥ MAX_CACHE_ENTRIES
  · exact Or.inl (by simp only [h1, h2, if_true, if_false, Bool.false_eq_true])
  by_cases h3 : (find_entry hash st.g_cache).isSome = true
  · exact Or.inl (by simp only [h1, h2, h3, if_true, if_false, Bool.false_eq_true])
  by_cases h4 : drv.binary_length ≤ 0
  · exact Or.inl (by simp only [h1, h2, h3, h4, if_true, if_false, Bool.false_eq_true])
  by_cases h5 : fs.writable (cache_build_path st.g_cache_dir hash) = true
  · refine Or.inr ⟨by simpa using h1, by omega, by simpa using h3, ?_⟩
    simp only [h1, h2, h3, h4, h5, if_true, if_false, Bool.false_eq_true]
  · exact Or.inl (by simp only [h1, h2, h3, h4, h5, if_false, Bool.false_eq_true])

/-- The invariant of the index: one entry per hash at most, no more than 2048 entries, and
no entry while the cache is not initialized. -/
theorem cache_invariant (st : CacheState) (hr : CacheReachableDistinct st) :
    UniqueHashes st ∧ st.g_cache.length ≤ MAX_CACHE_ENTRIES ∧
    (st.g_cache_initialized = false → st.g_cache = []) := by
  induction hr with
  | start => exact ⟨List.nodup_nil, by decide, fun _ => rfl⟩
  | init st fs cache_dir _ hd ih =>
    obtain ⟨i1, i2, i3⟩ := ih
    by_cases hi : st.g_cache_initialized = true
    · have h : (prismgl_shader_cache_init st fs cache_dir).1 = st := by
        simp only [prismgl_shader_cache_init, hi, if_true]
      rw [h]
      exact ⟨i1, i2, i3⟩
    · have hf : st.g_cache_initialized = false := by simpa using hi
      rcases init_outcomes st fs cache_dir hf with h | ⟨dir, fs2, h⟩ | ⟨dir, fs2, h⟩
      · rw [h]
        exact ⟨i1, i2, fun _ => i3 hf⟩
      · rw [h] at hd ⊢
        simp only [i3 hf] at hd ⊢
        refine ⟨?_, scan_directory_length _ _ _ (by decide), fun h2 => by cases h2⟩
        have hp := scan_directory_hashes dir (fs2.readdir dir) []
        rw [List.map_nil, List.nil_append] at hp
        exact List.Sublist.nodup hp.sublist hd
      · rw [h]
        exact ⟨i1, i2, fun h2 => by cases h2⟩
  | get st fs drv hash _ ih =>
    obtain ⟨i1, i2, i3⟩ := ih
    unfold prismgl_shader_cache_get
    cases hi : st.g_cache_initialized with
    | false => simpa [hi, UniqueHashes] using ⟨i1, i2, i3 hi⟩
    | true =>
      have keep : UniqueHashes st ∧ st.g_cache.length ≤ MAX_CACHE_ENTRIES ∧
          (st.g_cache_initialized = false → st.g_cache = []) := ⟨i1, i2, i3⟩
      simp only [Bool.not_true, Bool.false_eq_true, if_false]
      split
      · exact keep
      · rename_i i hfind
        split
        · exact keep
        · rename_i entry hget
          split
          · exact keep
          · split
            · exact keep
            · split
              · exact keep
              · split
                · have hev := evict_slot_hashes st.g_cache i i1
                  exact ⟨hev.1, by simp only; omega, fun h => by simp [hi] at h⟩
                · refine ⟨?_, by simp only [List.length_set]; exact i2,
                    fun h => by simp [hi] at h⟩
                  simp only [UniqueHashes]
                  rw [map_hash_set_same ⟨entry.hash, drv.new_program, entry.filepath, true⟩ _ i entry hget
                    rfl]
                  exact i1
  | put st fs drv hash program _ ih =>
    obtain ⟨i1, i2, i3⟩ := ih
    rcases put_outcomes st fs drv hash program with h | ⟨hinit, hlen, hnone, h⟩
    · rw [h]
      exact ⟨i1, i2, i3⟩
    · rw [h]
      have hfresh := find_entry_none_fresh hash st.g_cache hnone
      refine ⟨?_, by simp only [List.length_append, List.length_singleton]; omega,
        fun h2 => by simp [hinit] at h2⟩
      simp only [UniqueHashes, List.map_append, List.map_cons, List.map_nil]
      rw [List.nodup_append]
      refine ⟨i1, List.nodup_singleton _, ?_⟩
      intro a ha hb
      rw [List.mem_singleton] at hb
      exact hfresh (hb ▸ ha)
  | shutdown st _ ih =>
    obtain ⟨i1, i2, i3⟩ := ih
    unfold prismgl_shader_cache_shutdown
    cases hi : st.g_cache_initialized with
    | false => simpa [hi, UniqueHashes] using ⟨i1, i2, i3 hi⟩
    | true =>
      simp only [Bool.not_true, Bool.false_eq_true, if_false, UniqueHashes]
      exact ⟨List.nodup_nil, by decide, fun _ => trivial⟩

/-- The names that `prismgl_shader_cache_put` gives to its files are read back as their
hashes: a listing of such names, one per hash, gives pairwise distinct hashes. -/
theorem listing_hashes_canonical (hs : List Nat) (hlt : ∀ h ∈ hs, h < UINT64_MOD) :
    listing_hashes (hs.map fun h => format_016llx h ++ CACHE_FILE_EXT) = hs := by
  induction hs with
  | nil => rfl
  | cons h hs ih =>
    have hc : contains (format_016llx h ++ CACHE_FILE_EXT) CACHE_FILE_EXT = true :=
      (contains_iff _ _).mpr ⟨format_016llx h, [], by simp⟩
    have hs2 := sscanf_llx_canonical h (hlt h (List.mem_cons_self _ _))
    have ih2 := ih (fun k hk => hlt k (List.mem_cons_of_mem _ hk))
    simp only [listing_hashes] at ih2 ⊢
    simp only [List.map_cons, List.filterMap_cons, hc, if_true, hs2, ih2]

/-- C30, amended: in every state of the cache reachable through
`prismgl_shader_cache_init`, `prismgl_shader_cache_get`, `prismgl_shader_cache_put` and
`prismgl_shader_cache_shutdown`, where each init finds a directory listing whose names give
pairwise distinct hashes, the index holds at most one entry per hash and at most 2048
entries; and `put(h, p)` changes neither the index nor the file system, and issues no
driver call, when `h` is already present or the index holds 2048 entries. -/
theorem cache_unique_hash (st : CacheState) (hr : CacheReachableDistinct st) :
    UniqueHashes st ∧ st.g_cache.length ≤ MAX_CACHE_ENTRIES ∧
    ∀ (fs : FileSystem) (drv : ProgramBinary) (h p : Nat),
      (h ∈ st.g_cache.map (fun e => e.hash) ∨ st.g_cache.length = MAX_CACHE_ENTRIES) →
      prismgl_shader_cache_put st fs drv h p = ⟨st, fs, [], 0⟩ := by
  obtain ⟨i1, i2, _⟩ := cache_invariant st hr
  refine ⟨i1, i2, ?_⟩
  intro fs drv h p hcase
  unfold prismgl_shader_cache_put
  by_cases h1 : (!st.g_cache_initialized) = true
  · simp only [h1, if_true]
  by_cases h2 : st.g_cache.length ≥ MAX_CACHE_ENTRIES
  · simp only [h1, h2, if_true, if_false, Bool.false_eq_true]
  rcases hcase with hmem | hfull
  · rw [List.mem_map] at hmem
    obtain ⟨e, he, heh⟩ := hmem
    obtain ⟨i, e2, hf, _, _⟩ := find_entry_of_mem h st.g_cache ⟨e, he, heh⟩
    simp only [h1, h2, hf, Option.isSome_some, if_true, if_false, Bool.false_eq_true]
  · exact absurd (by omega) h2

/-- Witness of C30 (amended): after init on a directory that holds the cache file of one
hash, the index has one entry for that hash, and a `put` of the same hash changes nothing
and issues no driver call. -/
theorem cache_unique_hash_witness :
    CacheReachableDistinct (prismgl_shader_cache_init cache_state_init stored_fs
      demo_cache_dir).1 ∧
    (prismgl_shader_cache_init cache_state_init stored_fs demo_cache_dir).1.g_cache.map
      (fun e => e.hash) = [demo_hash] ∧
    UniqueHashes (prismgl_shader_cache_init cache_state_init stored_fs demo_cache_dir).1 ∧
    prismgl_shader_cache_put
        (prismgl_shader_cache_init cache_state_init stored_fs demo_cache_dir).1 stored_fs
        ⟨5, 1, [9, 9, 9, 9, 9]⟩ demo_hash 7
      = ⟨(prismgl_shader_cache_init cache_state_init stored_fs demo_cache_dir).1, stored_fs,
          [], 0⟩ := by
  have hr : CacheReachableDistinct (prismgl_shader_cache_init cache_state_init stored_fs
      demo_cache_dir).1 :=
    CacheReachableDistinct.init _ _ _ CacheReachableDistinct.start (by decide)
  have hh : (prismgl_shader_cache_init cache_state_init stored_fs demo_cache_dir).1.g_cache.map
      (fun e => e.hash) = [demo_hash] := by decide
  exact ⟨hr, hh, (cache_unique_hash _ hr).1,
    (cache_unique_hash _ hr).2.2 stored_fs ⟨5, 1, [9, 9, 9, 9, 9]⟩ demo_hash 7
      (Or.inl (by rw [hh]; exact List.mem_singleton_self _))⟩

/-- Counterexample to C30 as stated: in a directory that holds a cache file and a backup
copy of it, both names contain `.pglbin` and start with the same hexadecimal number, so
init registers two entries for one hash. -/
theorem cache_unique_hash_counterexample :
    CacheReachable (prismgl_shader_cache_init cache_state_init backup_fs demo_cache_dir).1 ∧
    (prismgl_shader_cache_init cache_state_init backup_fs demo_cache_dir).1.g_cache.map
      (fun e => e.hash) = [demo_hash, demo_hash] ∧
    ¬ UniqueHashes (prismgl_shader_cache_init cache_state_init backup_fs demo_cache_dir).1 := by
  have hh : (prismgl_shader_cache_init cache_state_init backup_fs demo_cache_dir).1.g_cache.map
      (fun e => e.hash) = [demo_hash, demo_hash] := by decide
  refine ⟨CacheReachable.init _ _ _ CacheReachable.start, hh, ?_⟩
  unfold UniqueHashes
  rw [hh]
  decide

/-! ### The framebuffer bindings around `prismgl_glGetTexImage` -/

theorem to_GLuint_to_GLint (n : Nat) (h : n < 4294967296) : to_GLuint (to_GLint n) = n := by
  simp only [to_GLuint, to_GLint, wrap_int32]
  omega

/-- C35, the behaviour of the code. With a `NULL` pointer `prismgl_glGetTexImage` issues no
call, and for an unsupported target or when no texture is bound it only asks the driver for
values, so both framebuffer bindings are as before. On the paths that create the scratch
framebuffer (a supported target with a texture bound, whether the framebuffer turns out
complete or not) the function saves the binding `GL_FRAMEBUFFER_BINDING`, which is the one
for drawing, and at the end binds it to `GL_FRAMEBUFFER`, that is for drawing and for
reading: afterwards the draw binding is as before, the scratch framebuffer is deleted, and
the read binding holds the former draw binding, whatever it held before. In the state with
draw binding 0 and read binding 5 the read binding is 0 after the call. -/
theorem getTexImage_framebuffer_bindings (d : FramebufferState) (drv : ReadbackAnswers)
    (target : Nat) (level : Int) (format type : Nat) :
    prismgl_glGetTexImage drv target level format type false = [] ∧
    (target ≠ GL_TEXTURE_2D → target ≠ GL_TEXTURE_CUBE_MAP_POSITIVE_X →
      target ≠ GL_TEXTURE_CUBE_MAP_NEGATIVE_X → target ≠ GL_TEXTURE_CUBE_MAP_POSITIVE_Y →
      target ≠ GL_TEXTURE_CUBE_MAP_NEGATIVE_Y → target ≠ GL_TEXTURE_CUBE_MAP_POSITIVE_Z →
      target ≠ GL_TEXTURE_CUBE_MAP_NEGATIVE_Z →
      prismgl_glGetTexImage drv target level format type true
        = [.glGetIntegerv GL_FRAMEBUFFER_BINDING drv.framebuffer_binding] ∧
      d.run (prismgl_glGetTexImage drv target level format type true) = d) ∧
    (∀ binding,
      (target = GL_TEXTURE_2D ∧ binding = GL_TEXTURE_BINDING_2D ∨
       (target = GL_TEXTURE_CUBE_MAP_POSITIVE_X ∨ target = GL_TEXTURE_CUBE_MAP_NEGATIVE_X ∨
        target = GL_TEXTURE_CUBE_MAP_POSITIVE_Y ∨ target = GL_TEXTURE_CUBE_MAP_NEGATIVE_Y ∨
        target = GL_TEXTURE_CUBE_MAP_POSITIVE_Z ∨ target = GL_TEXTURE_CUBE_MAP_NEGATIVE_Z) ∧
        binding = GL_TEXTURE_BINDING_CUBE_MAP) →
      drv.texture_binding binding = 0 →
      prismgl_glGetTexImage drv target level format type true
        = [.glGetIntegerv GL_FRAMEBUFFER_BINDING drv.framebuffer_binding,
           .glGetIntegerv binding 0] ∧
      d.run (prismgl_glGetTexImage drv target level format type true) = d) ∧
    (∀ binding,
      (target = GL_TEXTURE_2D ∧ binding = GL_TEXTURE_BINDING_2D ∨
       (target = GL_TEXTURE_CUBE_MAP_POSITIVE_X ∨ target = GL_TEXTURE_CUBE_MAP_NEGATIVE_X ∨
        target = GL_TEXTURE_CUBE_MAP_POSITIVE_Y ∨ target = GL_TEXTURE_CUBE_MAP_NEGATIVE_Y ∨
        target = GL_TEXTURE_CUBE_MAP_POSITIVE_Z ∨ target = GL_TEXTURE_CUBE_MAP_NEGATIVE_Z) ∧
        binding = GL_TEXTURE_BINDING_CUBE_MAP) →
      drv.texture_binding binding ≠ 0 →
      drv.framebuffer_binding = to_GLint d.draw_framebuffer →
      d.draw_framebuffer < 4294967296 → drv.fbo ≠ d.draw_framebuffer →
      drv.fbo ∉ d.framebuffers →
      (d.run (prismgl_glGetTexImage drv target level format type true)).draw_framebuffer
        = d.draw_framebuffer ∧
      (d.run (prismgl_glGetTexImage drv target level format type true)).read_framebuffer
        = d.draw_framebuffer ∧
      (d.run (prismgl_glGetTexImage drv target level format type true)).framebuffers
        = d.framebuffers) ∧
    (FramebufferState.run ⟨0, 5, [5]⟩
      (prismgl_glGetTexImage readback_answers GL_TEXTURE_2D 0 0x1908 0x1401 true))
      = ⟨0, 0, [5]⟩ := by
  have hbind : ∀ binding,
      (target = GL_TEXTURE_2D ∧ binding = GL_TEXTURE_BINDING_2D ∨
       (target = GL_TEXTURE_CUBE_MAP_POSITIVE_X ∨ target = GL_TEXTURE_CUBE_MAP_NEGATIVE_X ∨
        target = GL_TEXTURE_CUBE_MAP_POSITIVE_Y ∨ target = GL_TEXTURE_CUBE_MAP_NEGATIVE_Y ∨
        target = GL_TEXTURE_CUBE_MAP_POSITIVE_Z ∨ target = GL_TEXTURE_CUBE_MAP_NEGATIVE_Z) ∧
        binding = GL_TEXTURE_BINDING_CUBE_MAP) →
      (if target = GL_TEXTURE_2D then some GL_TEXTURE_BINDING_2D
        else if target = GL_TEXTURE_CUBE_MAP_POSITIVE_X ∨
            target = GL_TEXTURE_CUBE_MAP_NEGATIVE_X ∨
            target = GL_TEXTURE_CUBE_MAP_POSITIVE_Y ∨ target = GL_TEXTURE_CUBE_MAP_NEGATIVE_Y ∨
            target = GL_TEXTURE_CUBE_MAP_POSITIVE_Z ∨ target = GL_TEXTURE_CUBE_MAP_NEGATIVE_Z
          then some GL_TEXTURE_BINDING_CUBE_MAP else none) = some binding := by
    intro binding hb
    rcases hb with ⟨h1, h2⟩ | ⟨h1, h2⟩
    · rw [if_pos h1, h2]
    · have hn : ¬ target = GL_TEXTURE_2D := by
        rcases h1 with h | h | h | h | h | h <;> rw [h] <;> decide
      rw [if_neg hn, if_pos h1, h2]
  refine ⟨rfl, ?_, ?_, ?_, by decide⟩
  · intro h1 h2 h3 h4 h5 h6 h7
    have e : prismgl_glGetTexImage drv target level format type true
        = [.glGetIntegerv GL_FRAMEBUFFER_BINDING drv.framebuffer_binding] := by
      simp [prismgl_glGetTexImage, h1, h2, h3, h4, h5, h6, h7]
    rw [e]
    exact ⟨rfl, rfl⟩
  · intro binding hb htex
    have e : prismgl_glGetTexImage drv target level format type true
        = [.glGetIntegerv GL_FRAMEBUFFER_BINDING drv.framebuffer_binding,
           .glGetIntegerv binding 0] := by
      simp [prismgl_glGetTexImage, hbind binding hb, htex]
    rw [e]
    exact ⟨rfl, rfl⟩
  · intro binding hb htex hprev hlt hne hfresh
    have hback : to_GLuint drv.framebuffer_binding = d.draw_framebuffer := by
      rw [hprev]
      exact to_GLuint_to_GLint _ hlt
    have hb2 := hbind binding hb
    have hfilter : (drv.fbo :: d.framebuffers).filter (fun f => decide (f ∉ [drv.fbo]))
        = d.framebuffers := by
      rw [List.filter_cons]
      simp only [List.mem_singleton, not_true_eq_false, decide_False, Bool.false_eq_true,
        if_false]
      rw [List.filter_eq_self]
      intro a ha
      have : a ≠ drv.fbo := fun e => hfresh (e ▸ ha)
      simpa using this
    have hne2 : ¬ d.draw_framebuffer = drv.fbo := fun e => hne e.symm
    have hall : ∀ a ∈ d.framebuffers, ¬ a = drv.fbo := fun a ha e => hfresh (e ▸ ha)
    by_cases hst : drv.status = GL_FRAMEBUFFER_COMPLETE
    · simp [prismgl_glGetTexImage, hb2, htex, hst, FramebufferState.run,
        FramebufferState.apply, hback, hne2, hfilter]
      exact hall
    · simp [prismgl_glGetTexImage, hb2, htex, hst, FramebufferState.run,
        FramebufferState.apply, hback, hne2, hfilter]
      exact hall

/-! ### The indices of the quad path stay in range -/

theorem mem_quad_indices (q v : Nat) (hq : 4 * q ≤ 65536) :
    v ∈ quad_indices q ↔ ∃ i k, i < q ∧ k < 4 ∧ v = 4 * i + k := by
  rw [quad_indices_eq_spec q hq]
  simp only [spec_quad_indices, List.mem_flatten, List.mem_map, List.mem_range]
  constructor
  · rintro ⟨l, ⟨i, hi, rfl⟩, hv⟩
    simp only [List.mem_cons, List.mem_singleton, List.not_mem_nil, or_false] at hv
    rcases hv with h | h | h | h | h | h
    · exact ⟨i, 0, hi, by omega, by omega⟩
    · exact ⟨i, 1, hi, by omega, by omega⟩
    · exact ⟨i, 2, hi, by omega, by omega⟩
    · exact ⟨i, 0, hi, by omega, by omega⟩
    · exact ⟨i, 2, hi, by omega, by omega⟩
    · exact ⟨i, 3, hi, by omega, by omega⟩
  · rintro ⟨i, k, hi, hk, rfl⟩
    refine ⟨_, ⟨i, hi, rfl⟩, ?_⟩
    simp only [List.mem_cons, List.mem_singleton, List.not_mem_nil, or_false]
    have : k = 0 ∨ k = 1 ∨ k = 2 ∨ k = 3 := by omega
    rcases this with h | h | h | h <;> subst h <;> simp

/-- C36: in every state reached from the initial one by calls of `glBegin`, `glEnd` and the
emitters in which a `GL_QUADS` batch with `n ≥ 1` vertices is open, `n` is at most 65536,
and `prismgl_glEnd` uploads one index array in which every index has the form `4i + k`
with `i < n / 4` and `k < 4`; every such index is at most `n - 1` and at most 65535, so the
cast to `GLushort` returns it unchanged; and the vertices from `n - n mod 4` on, those of an
incomplete last quad, are not in the array. -/
theorem quad_indices_in_range (cs : List ImmCall)
    (ha : (run_calls g_immediate_init cs).active = true)
    (hm : (run_calls g_immediate_init cs).mode = GL_QUADS)
    (hn : 1 ≤ (run_calls g_immediate_init cs).count) :
    (run_calls g_immediate_init cs).count ≤ 65536 ∧
    uploaded_indices (prismgl_glEnd (run_calls g_immediate_init cs)).2
      = [quad_indices ((run_calls g_immediate_init cs).count / 4)] ∧
    (∀ v, v ∈ quad_indices ((run_calls g_immediate_init cs).count / 4) ↔
      ∃ i k, i < (run_calls g_immediate_init cs).count / 4 ∧ k < 4 ∧ v = 4 * i + k) ∧
    (∀ i k, i < (run_calls g_immediate_init cs).count / 4 → k < 4 →
      4 * i + k ≤ (run_calls g_immediate_init cs).count - 1 ∧ 4 * i + k ≤ 65535 ∧
      to_GLushort (i * 4 + k) = 4 * i + k) ∧
    (∀ j, (run_calls g_immediate_init cs).count - (run_calls g_immediate_init cs).count % 4 ≤ j →
      j ∉ quad_indices ((run_calls g_immediate_init cs).count / 4)) := by
  have hc : (run_calls g_immediate_init cs).count ≤ MAX_IMMEDIATE_VERTICES :=
    run_calls_count_le cs g_immediate_init (by decide)
  generalize run_calls g_immediate_init cs = s at *
  simp only [MAX_IMMEDIATE_VERTICES] at hc
  have hq : 4 * (s.count / 4) ≤ 65536 := by omega
  have hne : s.count ≠ 0 := by omega
  refine ⟨hc, ?_, fun v => mem_quad_indices _ v hq, ?_, ?_⟩
  · simp [prismgl_glEnd, ha, hm, hne, uploaded_indices]
  · intro i k hi hk
    refine ⟨by omega, by omega, ?_⟩
    simp only [to_GLushort]
    omega
  · intro j hj hmem
    obtain ⟨i, k, hi, hk, rfl⟩ := (mem_quad_indices _ _ hq).mp hmem
    omega

/-- Witness of C36: a `GL_QUADS` batch with five vertices. The index array is that of one
quad; its indices are at most 3, and vertex 4 is not referenced. -/
theorem quad_indices_in_range_witness :
    (run_calls g_immediate_init [.glBegin ⟨1, 2, 3⟩ GL_QUADS, .emit (.vertex3f 0 0 0),
      .emit (.vertex3f 1 0 0), .emit (.vertex3f 1 1 0), .emit (.vertex3f 0 1 0),
      .emit (.vertex3f 2 2 0)]).count = 5 ∧
    uploaded_indices (prismgl_glEnd (run_calls g_immediate_init
      [.glBegin ⟨1, 2, 3⟩ GL_QUADS, .emit (.vertex3f 0 0 0),
      .emit (.vertex3f 1 0 0), .emit (.vertex3f 1 1 0), .emit (.vertex3f 0 1 0),
      .emit (.vertex3f 2 2 0)])).2 = [[0, 1, 2, 0, 2, 3]] ∧
    4 ∉ quad_indices ((run_calls g_immediate_init [.glBegin ⟨1, 2, 3⟩ GL_QUADS,
      .emit (.vertex3f 0 0 0), .emit (.vertex3f 1 0 0), .emit (.vertex3f 1 1 0),
      .emit (.vertex3f 0 1 0), .emit (.vertex3f 2 2 0)]).count / 4) := by
  have h := quad_indices_in_range [.glBegin ⟨1, 2, 3⟩ GL_QUADS, .emit (.vertex3f 0 0 0),
      .emit (.vertex3f 1 0 0), .emit (.vertex3f 1 1 0), .emit (.vertex3f 0 1 0),
      .emit (.vertex3f 2 2 0)] rfl rfl (by decide)
  refine ⟨rfl, ?_, h.2.2.2.2 4 (by decide)⟩
  rw [h.2.1]
  rfl

/-! ### Adaptive resolution when the frame rate is on target -/

theorem fps_history_sum_ge (h : Nat → Rat) (t : Rat) :
    ∀ n, (∀ i, i < n → t ≤ h i) → (n : Rat) * t ≤ fps_history_sum h n := by
  intro n
  induction n with
  | zero => intro _; simp [fps_history_sum]
  | succ n ih =>
    intro hall
    have h1 := ih (fun i hi => hall i (by omega))
    have h2 := hall n (by omega)
    simp only [fps_history_sum, Nat.cast_succ]
    linarith

/-- One call with a sample at least `target_fps`, in a state whose samples are all at
least `target_fps`: the scale does not decrease, and the samples stay so. -/
theorem adaptive_step (st : AdaptiveState) (c t : Rat) (ht : 0 < t)
    (hw : HistoryAtTarget st t) (hc : t ≤ c) :
    st.g_resolution_scale ≤ (prismgl_update_adaptive_resolution st c t).g_resolution_scale ∧
    HistoryAtTarget (prismgl_update_adaptive_resolution st c t) t ∧
    (st.g_resolution_scale = 1 →
      (prismgl_update_adaptive_resolution st c t).g_resolution_scale = 1) := by
  obtain ⟨hidx, hall⟩ := hw
  have hall2 : ∀ i, i < 60 →
      t ≤ Function.update st.g_fps_history st.g_fps_history_index c i := by
    intro i hi
    by_cases e : i = st.g_fps_history_index
    · rw [e, Function.update_same]
      exact hc
    · rw [Function.update_noteq e]
      exact hall i hi
  have hsum := fps_history_sum_ge _ t 60 hall2
  have havg : ¬ (fps_history_sum
      (Function.update st.g_fps_history st.g_fps_history_index c) 60 / 60
        < t * (85 / 100)) := by
    rw [not_lt, le_div_iff₀ (by norm_num)]
    push_cast at hsum
    nlinarith
  refine ⟨?_, ⟨Nat.mod_lt _ (by decide), hall2⟩, ?_⟩
  · simp only [prismgl_update_adaptive_resolution, havg, if_false]
    split
    · split
      · rename_i h1 _
        exact le_of_lt h1.2
      · linarith
    · exact le_refl _
  · intro h1
    simp only [prismgl_update_adaptive_resolution, havg, if_false, h1, lt_irrefl, and_false]

theorem run_adaptive_append (st : AdaptiveState) (t : Rat) (a b : List Rat) :
    run_adaptive st t (a ++ b) = run_adaptive (run_adaptive st t a) t b := by
  simp [run_adaptive, List.foldl_append]

theorem adaptive_run (t : Rat) (ht : 0 < t) (fs : List Rat) :
    ∀ st : AdaptiveState, HistoryAtTarget st t → (∀ c ∈ fs, t ≤ c) →
      st.g_resolution_scale ≤ (run_adaptive st t fs).g_resolution_scale ∧
      HistoryAtTarget (run_adaptive st t fs) t ∧
      (st.g_resolution_scale = 1 → (run_adaptive st t fs).g_resolution_scale = 1) := by
  induction fs with
  | nil => intro st hw _; exact ⟨le_refl _, hw, fun h => h⟩
  | cons c fs ih =>
    intro st hw hfs
    obtain ⟨s1, s2, s3⟩ := adaptive_step st c t ht hw (hfs c (List.mem_cons_self _ _))
    obtain ⟨r1, r2, r3⟩ := ih _ s2 (fun c2 h2 => hfs c2 (List.mem_cons_of_mem _ h2))
    simp only [run_adaptive, List.foldl_cons] at r1 r2 r3 ⊢
    exact ⟨le_trans s1 r1, r2, fun h => r3 (s3 h)⟩

/-- After `k` calls the slots below `k` hold the samples of these calls. -/
theorem adaptive_fill (t : Rat) (fs : List Rat) :
    ∀ (st : AdaptiveState) (k : Nat), st.g_fps_history_index = k % 60 →
      (∀ i, i < 60 → i < k → t ≤ st.g_fps_history i) → (∀ c ∈ fs, t ≤ c) →
      (run_adaptive st t fs).g_fps_history_index = (k + fs.length) % 60 ∧
      ∀ i, i < 60 → i < k + fs.length → t ≤ (run_adaptive st t fs).g_fps_history i := by
  induction fs with
  | nil => intro st k hk hall _; exact ⟨by simpa using hk, by simpa using hall⟩
  | cons c fs ih =>
    intro st k hk hall hfs
    have hc := hfs c (List.mem_cons_self _ _)
    have h1 := ih (prismgl_update_adaptive_resolution st c t) (k + 1)
      (by simp only [prismgl_update_adaptive_resolution, hk]; omega)
      (by
        intro i hi hik
        simp only [prismgl_update_adaptive_resolution]
        by_cases e : i = st.g_fps_history_index
        · rw [e, Function.update_same]
          exact hc
        · rw [Function.update_noteq e]
          exact hall i hi (by rw [hk] at e; omega))
      (fun c2 h2 => hfs c2 (List.mem_cons_of_mem _ h2))
    simp only [run_adaptive, List.foldl_cons, List.length_cons] at h1 ⊢
    refine ⟨by rw [h1.1]; congr 1; omega, fun i hi hik => h1.2 i hi (by omega)⟩

/-- The behaviour of `prismgl_update_adaptive_resolution` once the history is filled: for
every `target_fps > 0` and every sequence of calls in which each `current_fps` is at least
`target_fps`, from a state whose sixty history samples are all at least `target_fps` the
resolution scale never decreases, and it stays 1.0 when it is 1.0; from the initial state
(scale 1.0, all samples zero) the history is in that condition after the first sixty
calls. -/
theorem adaptive_after_warmup (st : AdaptiveState) (target_fps : Rat)
    (first later more : List Rat) (ht : 0 < target_fps)
    (hfirst : ∀ c ∈ first, target_fps ≤ c) (hlater : ∀ c ∈ later, target_fps ≤ c)
    (hmore : ∀ c ∈ more, target_fps ≤ c) :
    (HistoryAtTarget st target_fps →
      (run_adaptive st target_fps later).g_resolution_scale
        ≤ (run_adaptive st target_fps (later ++ more)).g_resolution_scale ∧
      (st.g_resolution_scale = 1 →
        (run_adaptive st target_fps later).g_resolution_scale = 1)) ∧
    (60 ≤ first.length →
      HistoryAtTarget (run_adaptive adaptive_state_init target_fps first) target_fps ∧
      (run_adaptive adaptive_state_init target_fps (first ++ later)).g_resolution_scale
        ≤ (run_adaptive adaptive_state_init target_fps
            (first ++ later ++ more)).g_resolution_scale) := by
  have key : ∀ s : AdaptiveState, HistoryAtTarget s target_fps →
      (run_adaptive s target_fps later).g_resolution_scale
        ≤ (run_adaptive s target_fps (later ++ more)).g_resolution_scale := by
    intro s hs
    rw [run_adaptive_append]
    exact (adaptive_run target_fps ht more _
      (adaptive_run target_fps ht later s hs hlater).2.1 hmore).1
  refine ⟨fun hw => ⟨key st hw, (adaptive_run target_fps ht later st hw hlater).2.2⟩, ?_⟩
  intro hlen
  have hfill := adaptive_fill target_fps first adaptive_state_init 0 rfl
    (fun i _ hi => absurd hi (Nat.not_lt_zero _)) hfirst
  have hw : HistoryAtTarget (run_adaptive adaptive_state_init target_fps first) target_fps :=
    ⟨by rw [hfill.1]; exact Nat.mod_lt _ (by decide), fun i hi => hfill.2 i hi (by omega)⟩
  refine ⟨hw, ?_⟩
  rw [List.append_assoc, run_adaptive_append, run_adaptive_append _ _ first (later ++ more)]
  exact key _ hw

/-- With target 60, in the state whose samples are all 60 and whose scale is 1.0, three
calls at 60, 75 and 61 frames per second leave the scale at 1.0; and sixty calls at 60 from
the initial state fill the history. -/
theorem adaptive_after_warmup_example :
    HistoryAtTarget ⟨1, fun _ => 60, 0⟩ 60 ∧
    (run_adaptive ⟨1, fun _ => 60, 0⟩ 60 [60, 75, 61]).g_resolution_scale = 1 ∧
    HistoryAtTarget (run_adaptive adaptive_state_init 60 (List.replicate 60 60)) 60 := by
  have hw : HistoryAtTarget ⟨1, fun _ => 60, 0⟩ 60 := ⟨by decide, fun _ _ => le_refl _⟩
  have hall : ∀ c ∈ ([60, 75, 61] : List Rat), (60 : Rat) ≤ c := by
    intro c hc
    simp only [List.mem_cons, List.mem_singleton, List.not_mem_nil, or_false] at hc
    rcases hc with h | h | h <;> subst h <;> norm_num
  have h := adaptive_after_warmup ⟨1, fun _ => 60, 0⟩ 60 (List.replicate 60 60)
    [60, 75, 61] [] (by norm_num)
    (fun c hc => le_of_eq (List.eq_of_mem_replicate hc).symm) hall
    (fun c hc => absurd hc (List.not_mem_nil c))
  exact ⟨hw, (h.1 hw).2 rfl, (h.2 (by rw [List.length_replicate])).1⟩

theorem fps_history_sum_filled (k : Nat) :
    ∀ n, fps_history_sum (fun i => if i < k then (60 : Rat) else 0) n = 60 * (min n k : Nat) := by
  intro n
  induction n with
  | zero => simp [fps_history_sum]
  | succ n ih =>
    simp only [fps_history_sum, ih]
    by_cases h : n < k
    · have h1 : min n k = n := Nat.min_eq_left (by omega)
      have h2 : min (n + 1) k = n + 1 := Nat.min_eq_left (by omega)
      rw [h1, h2, if_pos h]
      push_cast
      ring
    · have h1 : min n k = k := Nat.min_eq_right (by omega)
      have h2 : min (n + 1) k = k := Nat.min_eq_right (by omega)
      rw [h1, h2, if_neg h]
      ring

/-- One call at 60 frames per second with target 60, in the state in which the first `j`
slots of the history hold 60 and the others zero: the average is `j + 1`, and the scale is
lowered by 0.02 (not below 0.25) as long as `j + 1` is below 51. -/
theorem adaptive_warmup_step (j : Nat) (hj : j < 60) (s : Rat) :
    prismgl_update_adaptive_resolution ⟨s, fun i => if i < j then 60 else 0, j⟩ 60 60
      = ⟨if j + 1 < 51 then max (s - 1 / 50) (1 / 4) else s,
          fun i => if i < j + 1 then 60 else 0, (j + 1) % 60⟩ := by
  have hupd : Function.update (fun i => if i < j then (60 : Rat) else 0) j 60
      = fun i => if i < j + 1 then 60 else 0 := by
    funext i
    by_cases e : i = j
    · subst e; simp
    · rw [Function.update_noteq e]
      by_cases h : i < j
      · rw [if_pos h, if_pos (by omega)]
      · rw [if_neg h, if_neg (by omega)]
  have hsum : fps_history_sum (fun i => if i < j + 1 then (60 : Rat) else 0) 60 / 60
      = ((j + 1 : Nat) : Rat) := by
    rw [fps_history_sum_filled (j + 1) 60, Nat.min_eq_right (by omega)]
    push_cast
    ring
  simp only [prismgl_update_adaptive_resolution, hupd, hsum]
  congr 1
  by_cases h : j + 1 < 51
  · have h1 : ((j + 1 : Nat) : Rat) < 60 * (85 / 100) := by
      have : ((j + 1 : Nat) : Rat) < 51 := by exact_mod_cast h
      linarith
    rw [if_pos h1, if_pos h]
    by_cases h2 : s - 2 / 100 < 1 / 4
    · rw [if_pos h2, max_eq_right (by linarith)]
    · rw [if_neg h2, max_eq_left (by linarith)]
      ring
  · have h1 : ¬ ((j + 1 : Nat) : Rat) < 60 * (85 / 100) := by
      have : (51 : Rat) ≤ ((j + 1 : Nat) : Rat) := by exact_mod_cast (by omega : 51 ≤ j + 1)
      intro hlt
      linarith
    have h3 : ¬ (((j + 1 : Nat) : Rat) > 60 * (11 / 10) ∧ s < 1) := by
      have : ((j + 1 : Nat) : Rat) ≤ 60 := by exact_mod_cast (by omega : j + 1 ≤ 60)
      intro hgt
      linarith [hgt.1]
    rw [if_neg h1, if_neg h3, if_neg h]

/-- The state after `j` calls at 60 frames per second with target 60 from the initial
state, for `j` up to 60: the scale is `1 - j/50`, not below 0.25, until the fiftieth call
and stays as it is afterwards. -/
theorem adaptive_warmup_run (j : Nat) (hj : j ≤ 60) :
    (run_adaptive adaptive_state_init 60 (List.replicate j 60)).g_resolution_scale
      = max (1 - ((min j 50 : Nat) : Rat) / 50) (1 / 4) ∧
    (run_adaptive adaptive_state_init 60 (List.replicate j 60)).g_fps_history
      = (fun i => if i < j then 60 else 0) ∧
    (run_adaptive adaptive_state_init 60 (List.replicate j 60)).g_fps_history_index
      = j % 60 := by
  induction j with
  | zero =>
    refine ⟨?_, ?_, rfl⟩
    · simp only [run_adaptive, List.replicate, List.foldl_nil, adaptive_state_init]
      norm_num
    · funext i; simp [run_adaptive, adaptive_state_init]
  | succ j ih =>
    obtain ⟨h1, h2, h3⟩ := ih (by omega)
    have hrun : run_adaptive adaptive_state_init 60 (List.replicate (j + 1) 60)
        = prismgl_update_adaptive_resolution
            (run_adaptive adaptive_state_init 60 (List.replicate j 60)) 60 60 := by
      rw [List.replicate_succ', run_adaptive_append]
      rfl
    rw [hrun]
    generalize run_adaptive adaptive_state_init 60 (List.replicate j 60) = st at h1 h2 h3
    obtain ⟨s0, hist, idx⟩ := st
    simp only at h1 h2 h3
    rw [Nat.mod_eq_of_lt (by omega)] at h3
    have h3b := h3.symm
    subst h2 h3b
    rw [adaptive_warmup_step j (by omega)]
    refine ⟨?_, rfl, rfl⟩
    show (if j + 1 < 51 then _ else _) = _
    by_cases h : j + 1 < 51
    · rw [if_pos h, h1, Nat.min_eq_left (by omega), Nat.min_eq_left (by omega)]
      push_cast
      have e : (1 : Rat) - (j + 1) / 50 = 1 - j / 50 - 1 / 50 := by ring
      rw [e]
      rcases le_total (1 - (j : Rat) / 50) (1 / 4) with hle | hle
      · rw [max_eq_right hle, max_eq_right (by linarith), max_eq_right (by linarith)]
      · rw [max_eq_left hle]
    · rw [if_neg h, h1, Nat.min_eq_right (by omega), Nat.min_eq_right (by omega)]

/-- C38, the behaviour of the code at the failing input: from the initial state, with
`target_fps = 60` and every `current_fps = 60`, the first call gives the average 1 over the
sixty slots, of which fifty-nine still hold the initial zero; the average is below 51, and
the scale drops from 1.0 to 0.98 although the frame rate is at the target. After sixty such
calls the scale is at its floor 0.25. -/
theorem adaptive_warmup_decrease :
    (60 : Rat) ≤ 60 ∧ adaptive_state_init.g_resolution_scale = 1 ∧
    (run_adaptive adaptive_state_init 60 [60]).g_resolution_scale = 49 / 50 ∧
    (run_adaptive adaptive_state_init 60 [60]).g_resolution_scale
      < adaptive_state_init.g_resolution_scale ∧
    (run_adaptive adaptive_state_init 60 (List.replicate 60 60)).g_resolution_scale = 1 / 4 := by
  have h1 := (adaptive_warmup_run 1 (by omega)).1
  have h60 := (adaptive_warmup_run 60 (by omega)).1
  have e1 : (run_adaptive adaptive_state_init 60 [60]).g_resolution_scale = 49 / 50 := by
    have : ([60] : List Rat) = List.replicate 1 60 := rfl
    rw [this, h1]
    norm_num
  refine ⟨le_refl _, rfl, e1, ?_, ?_⟩
  · rw [e1]
    show (49 : Rat) / 50 < 1
    norm_num
  · rw [h60]
    norm_num

/-! ### The extension check -/

theorem strstr_some_prefix (x : CStr) :
    ∀ (s : CStr) (k : Nat), strstr s x = some k → x <+: s.drop k ∧ k ≤ s.length := by
  intro s
  induction s with
  | nil =>
    intro k h
    simp only [strstr] at h
    split at h
    · rename_i hp
      cases h
      exact ⟨List.isPrefixOf_iff_prefix.mp hp, Nat.le_refl _⟩
    · cases h
  | cons c cs ih =>
    intro k h
    simp only [strstr] at h
    split at h
    · rename_i hp
      cases h
      exact ⟨List.isPrefixOf_iff_prefix.mp hp, Nat.zero_le _⟩
    · rw [Option.map_eq_some'] at h
      obtain ⟨k2, h2, rfl⟩ := h
      obtain ⟨i1, i2⟩ := ih k2 h2
      exact ⟨by simpa using i1, by simp only [List.length_cons]; omega⟩

theorem get_of_prefix_drop (x E : CStr) (p i : Nat) (h : x <+: E.drop p) (hi : i < x.length) :
    E[p + i]? = x[i]? := by
  obtain ⟨t, ht⟩ := h
  rw [← List.getElem?_drop, ← ht, List.getElem?_append_left hi]

theorem spec_tokens_ne_nil (E : CStr) : spec_tokens E ≠ [] := by
  cases E with
  | nil => simp [spec_tokens]
  | cons c cs =>
    simp only [spec_tokens]
    split
    · simp
    · split <;> simp

theorem spec_tokens_no_space (x : CStr) (h : ' ' ∉ x) : spec_tokens x = [x] := by
  induction x with
  | nil => rfl
  | cons c cs ih =>
    rw [List.mem_cons, not_or] at h
    have hc : ¬ c = ' ' := fun e => h.1 e.symm
    simp only [spec_tokens, hc, if_false, ih h.2]

theorem spec_tokens_append_space (a b : CStr) :
    spec_tokens (a ++ ' ' :: b) = spec_tokens a ++ spec_tokens b := by
  induction a with
  | nil => simp [spec_tokens]
  | cons c cs ih =>
    have e : ∀ l : CStr, spec_tokens (c :: l)
        = if c = ' ' then [] :: spec_tokens l
          else match spec_tokens l with
            | [] => [[c]]
            | t :: ts => (c :: t) :: ts := fun l => rfl
    rw [List.cons_append, e, e, ih]
    by_cases hc : c = ' '
    · simp only [hc, if_true, List.cons_append]
    · simp only [hc, if_false]
      cases hs : spec_tokens cs with
      | nil => exact absurd hs (spec_tokens_ne_nil cs)
      | cons t ts => rfl

theorem spec_tokens_head (E : CStr) :
    ∀ (h : CStr) (tl : List CStr), spec_tokens E = h :: tl →
      ∃ b, E = h ++ b ∧ (b = [] ∨ ∃ b2, b = ' ' :: b2) := by
  induction E with
  | nil =>
    intro h tl e
    simp only [spec_tokens, List.cons.injEq] at e
    exact ⟨[], by simp [← e.1], Or.inl rfl⟩
  | cons c cs ih =>
    intro h tl e
    by_cases hc : c = ' '
    · simp only [spec_tokens, hc, if_true, List.cons.injEq] at e
      exact ⟨' ' :: cs, by simp [← e.1, hc], Or.inr ⟨cs, rfl⟩⟩
    · simp only [spec_tokens, hc, if_false] at e
      cases hs : spec_tokens cs with
      | nil => exact absurd hs (spec_tokens_ne_nil cs)
      | cons t ts =>
        rw [hs] at e
        simp only [List.cons.injEq] at e
        obtain ⟨b, hb, hb2⟩ := ih t ts hs
        exact ⟨b, by rw [← e.1, List.cons_append, ← hb], hb2⟩

theorem spec_tokens_tail (E : CStr) :
    ∀ t, t ∈ (spec_tokens E).tail →
      ∃ a b, E = a ++ ' ' :: (t ++ b) ∧ (b = [] ∨ ∃ b2, b = ' ' :: b2) := by
  induction E with
  | nil => intro t h; simp [spec_tokens] at h
  | cons c cs ih =>
    intro t h
    by_cases hc : c = ' '
    · simp only [spec_tokens, hc, if_true, List.tail_cons] at h
      cases hs : spec_tokens cs with
      | nil => exact absurd hs (spec_tokens_ne_nil cs)
      | cons t0 ts =>
        rw [hs, List.mem_cons] at h
        rcases h with h | h
        · obtain ⟨b, hb, hb2⟩ := spec_tokens_head cs t0 ts hs
          exact ⟨[], b, by rw [hc, h, List.nil_append, ← hb], hb2⟩
        · obtain ⟨a, b, hab, hb2⟩ := ih t (by rw [hs]; exact h)
          exact ⟨' ' :: a, b, by rw [hc, List.cons_append, ← hab], hb2⟩
    · simp only [spec_tokens, hc, if_false] at h
      cases hs : spec_tokens cs with
      | nil => exact absurd hs (spec_tokens_ne_nil cs)
      | cons t0 ts =>
        rw [hs] at h
        simp only [List.tail_cons] at h
        obtain ⟨a, b, hab, hb2⟩ := ih t (by rw [hs]; exact h)
        exact ⟨c :: a, b, by rw [List.cons_append, ← hab], hb2⟩

/-- A text without a space is a token of `E` if and only if it stands in `E` between the
start or a space and a space or the end. -/
theorem mem_spec_tokens_iff (E x : CStr) (hsp : ' ' ∉ x) :
    x ∈ spec_tokens E ↔
      ∃ a b, E = a ++ (x ++ b) ∧ (a = [] ∨ ∃ a2, a = a2 ++ [' ']) ∧
        (b = [] ∨ ∃ b2, b = ' ' :: b2) := by
  constructor
  · intro h
    cases hs : spec_tokens E with
    | nil => exact absurd hs (spec_tokens_ne_nil E)
    | cons t0 ts =>
      rw [hs, List.mem_cons] at h
      rcases h with h | h
      · obtain ⟨b, hb, hb2⟩ := spec_tokens_head E t0 ts hs
        exact ⟨[], b, by rw [h, List.nil_append, ← hb], Or.inl rfl, hb2⟩
      · obtain ⟨a, b, hab, hb2⟩ := spec_tokens_tail E x (by rw [hs]; exact h)
        exact ⟨a ++ [' '], b, by rw [hab]; simp, Or.inr ⟨a, rfl⟩, hb2⟩
  · rintro ⟨a, b, e, ha, hb⟩
    have hx := spec_tokens_no_space x hsp
    rcases ha with ha | ⟨a2, ha⟩ <;> rcases hb with hb | ⟨b2, hb⟩ <;> subst ha <;> subst hb
    · simp [e, hx]
    · rw [e, List.nil_append, spec_tokens_append_space, hx]
      simp
    · rw [e, List.append_nil, List.append_assoc, List.singleton_append,
        spec_tokens_append_space, hx]
      simp
    · rw [e, List.append_assoc, List.singleton_append, spec_tokens_append_space,
        spec_tokens_append_space, hx]
      simp

theorem delimited_iff (E x : CStr) :
    (∃ q, DelimitedAt E x q) ↔
      ∃ a b, E = a ++ (x ++ b) ∧ (a = [] ∨ ∃ a2, a = a2 ++ [' ']) ∧
        (b = [] ∨ ∃ b2, b = ' ' :: b2) := by
  constructor
  · rintro ⟨q, ⟨b, hb⟩, hl, hr⟩
    have hq : q ≤ E.length := by
      by_contra hgt
      have : E.drop q = [] := List.drop_eq_nil_of_le (by omega)
      rw [this] at hb
      have hx : x = [] := (List.append_eq_nil.mp hb).1
      subst hx
      rcases hl with h | h
      · omega
      · rw [List.getElem?_eq_none (by omega)] at h
        cases h
    have hE : E = E.take q ++ (x ++ b) := by rw [hb, List.take_append_drop]
    have hlen : (E.take q).length = q := by rw [List.length_take]; omega
    refine ⟨E.take q, b, hE, ?_, ?_⟩
    · rcases hl with h | h
      · left; rw [h, List.take_zero]
      · by_cases h0 : q = 0
        · left; rw [h0, List.take_zero]
        · right
          refine ⟨E.take (q - 1), ?_⟩
          have e1 : q = (q - 1) + 1 := by omega
          conv_lhs => rw [e1, List.take_succ, h]
          rfl
    · have hg : E[q + x.length]? = b.head? := by
        conv_lhs => rw [hE]
        rw [List.getElem?_append_right (by rw [hlen]; omega), hlen,
          List.getElem?_append_right (by omega)]
        have : q + x.length - q - x.length = 0 := by omega
        rw [this]
        cases b <;> simp
      rw [hg] at hr
      cases b with
      | nil => exact Or.inl rfl
      | cons c b2 =>
        right
        rcases hr with h | h
        · simp only [List.head?_cons, Option.some.injEq] at h
          exact ⟨b2, by rw [h]⟩
        · cases h
  · rintro ⟨a, b, e, ha, hb⟩
    refine ⟨a.length, ⟨b, by rw [e, List.drop_left]⟩, ?_, ?_⟩
    · rcases ha with ha | ⟨a2, ha⟩
      · left; rw [ha]; rfl
      · right
        rw [e, ha, List.length_append, List.length_singleton, Nat.add_sub_cancel,
          List.append_assoc, List.getElem?_append_right (Nat.le_refl _), Nat.sub_self]
        simp
    · have hg : E[a.length + x.length]? = b.head? := by
        rw [e, List.getElem?_append_right (by omega), List.getElem?_append_right (by omega)]
        have : a.length + x.length - a.length - x.length = 0 := by omega
        rw [this]
        cases b <;> simp
      rw [hg]
      rcases hb with hb | ⟨b2, hb⟩
      · right; rw [hb]; rfl
      · left; rw [hb]; rfl

/-- The loop returns within `fuel` rounds, and it returns true exactly when the text stands
delimited at some offset from `p` on. -/
theorem check_extension_loop_spec (E x : CStr) (hx : x ≠ []) (hsp : ' ' ∉ x) :
    ∀ (fuel p : Nat), p ≤ E.length → E.length + 1 ≤ fuel + p →
      ∃ b, check_extension_loop E x fuel p = some b ∧
        (b = true ↔ ∃ q, p ≤ q ∧ DelimitedAt E x q) := by
  have hlen : 0 < x.length := List.length_pos.mpr hx
  intro fuel
  induction fuel with
  | zero => intro p hp hf; omega
  | succ fuel ih =>
    intro p hp hf
    cases hs : strstr (E.drop p) x with
    | none =>
      refine ⟨false, by simp only [check_extension_loop, hs], ?_⟩
      constructor
      · intro h; cases h
      · rintro ⟨q, hq, hd, _⟩
        exfalso
        have hi : x <:+: E.drop p := by
          have e : E.drop q = (E.drop p).drop (q - p) := by
            rw [List.drop_drop]
            congr 1
            omega
          rw [e] at hd
          exact hd.isInfix.trans (List.drop_suffix _ _).isInfix
        have := (strstr_isSome_iff _ _).mpr hi
        rw [hs] at this
        cases this
    | some k =>
      obtain ⟨hpre, hk⟩ := strstr_some_prefix x (E.drop p) k hs
      rw [List.drop_drop] at hpre
      rw [List.length_drop] at hk
      have hfit : p + k + x.length ≤ E.length := by
        have h1 := hpre.length_le
        rw [List.length_drop] at h1
        omega
      by_cases hcond : (p + k = 0 ∨ E[p + k - 1]? = some ' ') ∧
          (E[p + k + x.length]? = some ' ' ∨ E[p + k + x.length]? = none)
      · refine ⟨true, by simp only [check_extension_loop, hs, hcond, and_self, if_true], ?_⟩
        exact ⟨fun _ => ⟨p + k, by omega, hpre, hcond.1, hcond.2⟩, fun _ => rfl⟩
      · obtain ⟨b, hb, hiff⟩ := ih (p + k + x.length) hfit (by omega)
        refine ⟨b, by simp only [check_extension_loop, hs, hcond, if_false]; exact hb, ?_⟩
        rw [hiff]
        constructor
        · rintro ⟨q, hq, hd⟩
          exact ⟨q, by omega, hd⟩
        · rintro ⟨q, hq, hd⟩
          refine ⟨q, ?_, hd⟩
          by_contra hlt
          by_cases h1 : q < p + k
          · have e : E.drop q = (E.drop p).drop (q - p) := by
              rw [List.drop_drop]
              congr 1
              omega
            have hd1 := hd.1
            rw [e] at hd1
            obtain ⟨k2, hk2, hle⟩ := strstr_le x (E.drop p) (q - p)
              (by rw [List.length_drop]; have := hd.1.length_le; rw [List.length_drop] at this
                  omega) hd1
            rw [hs] at hk2
            cases hk2
            omega
          · by_cases h2 : q = p + k
            · rw [h2] at hd
              exact hcond ⟨hd.2.1, hd.2.2⟩
            · have hq0 : q ≠ 0 := by omega
              have hsp2 : E[q - 1]? = some ' ' := by
                rcases hd.2.1 with h | h
                · exact absurd h hq0
                · exact h
              have hi : q - 1 - (p + k) < x.length := by omega
              have hg := get_of_prefix_drop x E (p + k) (q - 1 - (p + k)) hpre hi
              have e2 : p + k + (q - 1 - (p + k)) = q - 1 := by omega
              rw [e2, hsp2] at hg
              exact hsp (List.getElem?_mem hg.symm)

/-- C39, amended: for every extension list `E` and every query text `x` that is not empty
and contains no space, `check_extension(E, x)` returns within `strlen(E) + 1` rounds of its
loop, and it returns true if and only if `x` is equal to one of the space-separated tokens
of `E`. -/
theorem check_extension_tokens (E x : CStr) (fuel : Nat) (hx : x ≠ []) (hsp : ' ' ∉ x)
    (hfuel : E.length + 1 ≤ fuel) :
    ∃ b, check_extension (some E) (some x) fuel = some b ∧ (b = true ↔ x ∈ spec_tokens E) := by
  obtain ⟨b, hb, hiff⟩ := check_extension_loop_spec E x hx hsp fuel 0 (Nat.zero_le _)
    (by omega)
  refine ⟨b, hb, ?_⟩
  rw [hiff, mem_spec_tokens_iff E x hsp, ← delimited_iff]
  exact ⟨fun ⟨q, _, hd⟩ => ⟨q, hd⟩, fun ⟨q, hd⟩ => ⟨q, Nat.zero_le _, hd⟩⟩

/-- Witness of C39 (amended): in a list of three extensions, a whole token is found, and a
proper substring of a token, a token with one more char and an absent name are not. -/
theorem check_extension_tokens_witness :
    check_extension (some "GL_OES_depth24 GL_EXT_texture_rg GL_OES_rgb8_rgba8".toList)
      (some "GL_EXT_texture_rg".toList) 60 = some true ∧
    check_extension (some "GL_OES_depth24 GL_EXT_texture_rg GL_OES_rgb8_rgba8".toList)
      (some "GL_OES_depth".toList) 60 = some false ∧
    "GL_OES_depth".toList ∉
      spec_tokens "GL_OES_depth24 GL_EXT_texture_rg GL_OES_rgb8_rgba8".toList ∧
    ∃ b, check_extension (some "GL_OES_depth24 GL_EXT_texture_rg GL_OES_rgb8_rgba8".toList)
        (some "GL_OES_rgb8".toList) 60 = some b ∧
      (b = true ↔ "GL_OES_rgb8".toList ∈
        spec_tokens "GL_OES_depth24 GL_EXT_texture_rg GL_OES_rgb8_rgba8".toList) :=
  ⟨by decide, by decide, by decide,
   check_extension_tokens "GL_OES_depth24 GL_EXT_texture_rg GL_OES_rgb8_rgba8".toList
     "GL_OES_rgb8".toList 60 (by decide) (by decide) (by decide)⟩

theorem check_extension_empty_query (E : CStr) (c : Char) (hc : c ≠ ' ') :
    ∀ fuel, check_extension_loop (c :: E) [] fuel 0 = none := by
  intro fuel
  induction fuel with
  | zero => rfl
  | succ fuel ih =>
    have hs : strstr (c :: E) [] = some 0 := by simp [strstr]
    simp only [check_extension_loop, List.drop_zero, hs, Nat.add_zero, List.length_nil,
      List.getElem?_cons_zero, Option.some.injEq, hc, or_self, and_false, if_false]
    exact ih

/-- Counterexample to C39 as stated: the query `a b` is not one of the tokens `a`, `b`, `c`
of the list `a b c`, and `check_extension` returns true for it; and for the empty query on
the list `GL_OES_depth24` the loop does not return, however many rounds it is given. -/
theorem check_extension_tokens_counterexample :
    check_extension (some "a b c".toList) (some "a b".toList) 6 = some true ∧
    spec_tokens "a b c".toList = ["a".toList, "b".toList, "c".toList] ∧
    "a b".toList ∉ spec_tokens "a b c".toList ∧
    (∀ fuel, check_extension (some "GL_OES_depth24".toList) (some []) fuel = none) :=
  ⟨by decide, by decide, by decide,
   fun fuel => check_extension_empty_query "L_OES_depth24".toList 'G' (by decide) fuel⟩

/-! ### Passes of `str_replace_all` and absent texts -/

theorem replace_keeps_absent (x find rep s : CStr) (hx : no_overlap x rep = true)
    (h : ¬ x <:+: s) : ¬ x <:+: str_replace_all s find rep := by
  by_cases hf : find = []
  · subst hf
    simpa [str_replace_all] using h
  · intro hi
    exact h (repl_infix_source find rep x hx s _ (str_replace_all_repl s find rep hf) hi)

theorem replace_removes (find rep s : CStr) (hf : find ≠ [])
    (hx : no_overlap find rep = true) : ¬ find <:+: str_replace_all s find rep :=
  repl_no_find find rep hf hx s _ (str_replace_all_repl s find rep hf)

theorem replace_absent_of_part (w key find rep : CStr) (hk : key <:+: find)
    (h : ¬ key <:+: w) : str_replace_all w find rep = w :=
  str_replace_all_absent w find rep
    (contains_false_of_absent w find (fun hi => h (hk.trans hi)))

theorem repl_length_eq (find rep : CStr) (hl : rep.length = find.length) (s r : CStr)
    (h : Repl find rep s r) : r.length = s.length := by
  induction h with
  | nil => rfl
  | hit t t2 _ ih => simp only [List.length_append, ih, hl]
  | skip c t t2 _ _ ih => simp only [List.length_cons, ih]

/-- C31: `shader_patch_samplers` is the single pass that replaces `sampler1D` by
`sampler2D`, the passes for `isampler1D` and `usampler1D` changing nothing after it; its
result has the length of the source and contains none of `sampler1D`, `isampler1D` and
`usampler1D`. -/
theorem patch_samplers_single_pass (s : CStr) :
    shader_patch_samplers s = str_replace_all s "sampler1D".toList "sampler2D".toList ∧
    Repl "sampler1D".toList "sampler2D".toList s (shader_patch_samplers s) ∧
    str_replace_all (str_replace_all s "sampler1D".toList "sampler2D".toList)
        "isampler1D".toList "isampler2D".toList
      = str_replace_all s "sampler1D".toList "sampler2D".toList ∧
    str_replace_all (str_replace_all s "sampler1D".toList "sampler2D".toList)
        "usampler1D".toList "usampler2D".toList
      = str_replace_all s "sampler1D".toList "sampler2D".toList ∧
    (shader_patch_samplers s).length = s.length ∧
    ¬ "sampler1D".toList <:+: shader_patch_samplers s ∧
    ¬ "isampler1D".toList <:+: shader_patch_samplers s ∧
    ¬ "usampler1D".toList <:+: shader_patch_samplers s := by
  have hf : "sampler1D".toList ≠ [] := by decide
  have hr := str_replace_all_repl s "sampler1D".toList "sampler2D".toList hf
  have habs : ¬ "sampler1D".toList <:+: str_replace_all s "sampler1D".toList "sampler2D".toList :=
    replace_removes _ _ s hf (by decide)
  have hi : "sampler1D".toList <:+: "isampler1D".toList := ⟨['i'], [], rfl⟩
  have hu : "sampler1D".toList <:+: "usampler1D".toList := ⟨['u'], [], rfl⟩
  have e2 := replace_absent_of_part _ _ "isampler1D".toList "isampler2D".toList hi habs
  have e3 := replace_absent_of_part _ _ "usampler1D".toList "usampler2D".toList hu habs
  have e : shader_patch_samplers s = str_replace_all s "sampler1D".toList "sampler2D".toList := by
    simp only [shader_patch_samplers, e2, e3]
  rw [e]
  exact ⟨rfl, hr, e2, e3, repl_length_eq "sampler1D".toList "sampler2D".toList (by decide) s _ hr, habs, fun h => habs (hi.trans h),
    fun h => habs (hu.trans h)⟩

theorem row_keeps_absent (x : CStr) (row : CStr × CStr)
    (h : (no_overlap x row.2 || contains row.1 x) = true) (s : CStr) (hs : ¬ x <:+: s) :
    ¬ x <:+: str_replace_all s row.1 row.2 := by
  rcases Bool.or_eq_true_iff.mp h with h1 | h1
  · exact replace_keeps_absent x row.1 row.2 s h1 hs
  · rw [replace_absent_of_part s x row.1 row.2 ((contains_iff _ _).mp h1) hs]
    exact hs

theorem table_keeps_absent (x : CStr) (table : List (CStr × CStr))
    (h : kept_absent_by x table = true) :
    ∀ s, ¬ x <:+: s → ¬ x <:+: replace_table table s := by
  induction table with
  | nil => intro s hs; exact hs
  | cons row rows ih =>
    intro s hs
    have hall := List.all_eq_true.mp h
    have hrows : kept_absent_by x rows = true :=
      List.all_eq_true.mpr (fun r hr => hall r (List.mem_cons_of_mem _ hr))
    exact ih hrows _ (row_keeps_absent x row (hall row (List.mem_cons_self _ _)) s hs)

theorem table_removes (x : CStr) (table : List (CStr × CStr))
    (h : removed_by x table = true) : ∀ s, ¬ x <:+: replace_table table s := by
  induction table with
  | nil => cases h
  | cons row rows ih =>
    intro s
    simp only [removed_by, Bool.or_eq_true, Bool.and_eq_true, beq_iff_eq, Bool.not_eq_true',
      List.isEmpty_eq_false] at h
    rcases h with ⟨⟨⟨e, hne⟩, hno⟩, hk⟩ | h
    · have h1 : ¬ x <:+: str_replace_all s row.1 row.2 := by
        rw [e]; exact replace_removes x row.2 s hne hno
      exact table_keeps_absent x rows hk _ h1
    · exact ih h _

theorem insert_out_decl_keeps_absent (x w : CStr)
    (hx : no_overlap x "out vec4 prismgl_FragColor;\n".toList = true) (h : ¬ x <:+: w) :
    ¬ x <:+: insert_out_decl w := by
  unfold insert_out_decl
  cases strstr w "precision highp".toList with
  | none => exact h
  | some k =>
    intro hi
    simp only [List.append_assoc] at hi
    rcases infix_around x _ hx _ _ hi with h1 | h1
    · exact h (h1.trans (List.take_prefix _ w).isInfix)
    · exact h (h1.trans (List.drop_suffix _ w).isInfix)

theorem legacy_keeps_absent (x w : CStr) (shader_type : Nat) (v : Int)
    (hx : kept_absent_by x legacy_replacements = true) (h : ¬ x <:+: w) :
    ¬ x <:+: translate_legacy w shader_type v := by
  have h0 : ¬ x <:+: w := h
  have hall := List.all_eq_true.mp hx
  have h1 := row_keeps_absent x _
    (hall ("gl_FragColor".toList, "prismgl_FragColor".toList) (by decide))
  have h2 : no_overlap x "out vec4 prismgl_FragColor;\n".toList = true := by
    have := hall ([], "out vec4 prismgl_FragColor;\n".toList) (by decide)
    rcases Bool.or_eq_true_iff.mp this with h | h
    · exact h
    · have hx : x = [] := by
        have := (contains_iff _ _).mp h
        exact List.eq_nil_of_infix_nil this
      exact absurd (hx ▸ List.nil_infix) h0
  have h3 := row_keeps_absent x _ (hall ("\nvarying ".toList, "\nin ".toList) (by decide))
  have h3b := row_keeps_absent x _ (hall ("\nattribute ".toList, "\nin ".toList) (by decide))
  have h4 := row_keeps_absent x _ (hall ("\nvarying ".toList, "\nout ".toList) (by decide))
  have hfrag : ¬ x <:+: (if v ≤ 120 ∧ shader_type = GL_FRAGMENT_SHADER then
      str_replace_all
        (if contains w "gl_FragColor".toList ∧ ¬ contains w "out vec4".toList then
          insert_out_decl (str_replace_all w "gl_FragColor".toList "prismgl_FragColor".toList)
        else w) "\nvarying ".toList "\nin ".toList
      else w) := by
    split
    · apply h3
      split
      · exact insert_out_decl_keeps_absent x _ h2 (h1 _ h)
      · exact h
    · exact h
  simp only [translate_legacy]
  split
  · exact h4 _ (h3b _ hfrag)
  · exact hfrag

theorem absent_after_builtins (x : CStr) (hx : kept_absent_after_builtins x = true)
    (w : CStr) (shader_type : Nat) (v : Int)
    (h : ¬ x <:+: replace_table builtin_replacements w) :
    ¬ x <:+: translate_legacy (replace_table type_replacements (shader_patch_builtins w))
      shader_type v := by
  simp only [kept_absent_after_builtins, Bool.and_eq_true] at hx
  obtain ⟨⟨hn, ht⟩, hl⟩ := hx
  apply legacy_keeps_absent x _ _ _ hl
  apply table_keeps_absent x _ ht
  have e : shader_patch_builtins w
      = replace_table noperspective_replacements (replace_table builtin_replacements w) := by
    simp only [shader_patch_builtins, noperspective_replacements, replace_table,
      List.foldl_cons, List.foldl_nil]
  rw [e]
  exact table_keeps_absent x noperspective_replacements hn _ h

theorem legacy_calls_checked :
    spec_legacy_calls.all (fun x => removed_by x builtin_replacements &&
      kept_absent_after_builtins x) = true := by decide

/-- C32: the translation of a translated source (not empty, at most 256 KiB, without
ES version directive), for either stage, succeeds with an output that contains none of the
ten legacy built-in calls. -/
theorem legacy_calls_removed (source : CStr) (shader_type : Nat) (hne : source ≠ [])
    (hl : source.length ≤ MAX_SHADER_SIZE) (hes : NoEsDirective source) :
    (shader_translate (some source) shader_type).success = true ∧
    ∃ out, (shader_translate (some source) shader_type).translated_source = some out ∧
      ∀ x ∈ spec_legacy_calls, ¬ x <:+: out := by
  rw [shader_translate_eq source shader_type hne hl hes]
  refine ⟨rfl, _, rfl, ?_⟩
  intro x hx
  have hc := List.all_eq_true.mp legacy_calls_checked x hx
  simp only [Bool.and_eq_true] at hc
  simp only [translate_steps_1_6]
  exact absent_after_builtins x hc.2 _ _ _ (table_removes x _ hc.1 _)

/-- Witness of C32: a GLSL 1.20 fragment shader that calls `texture2D` and `shadow2D`. -/
theorem legacy_calls_removed_witness :
    legacy_call_shader ≠ [] ∧ legacy_call_shader.length ≤ MAX_SHADER_SIZE ∧
    NoEsDirective legacy_call_shader ∧
    "texture2D(".toList <:+: legacy_call_shader ∧
    (shader_translate (some legacy_call_shader) GL_FRAGMENT_SHADER).success = true ∧
    ∃ out, (shader_translate (some legacy_call_shader) GL_FRAGMENT_SHADER).translated_source
        = some out ∧ ∀ x ∈ spec_legacy_calls, ¬ x <:+: out :=
  have hes : NoEsDirective legacy_call_shader :=
    ⟨not_infix_of_contains_false _ _ (by decide), not_infix_of_contains_false _ _ (by decide),
      not_infix_of_contains_false _ _ (by decide)⟩
  ⟨by decide, by decide, hes, (contains_iff _ _).mp (by decide),
    legacy_calls_removed legacy_call_shader GL_FRAGMENT_SHADER (by decide) (by decide) hes⟩

/-! ### Passes of `str_replace_all` and texts that stay -/

theorem repl_hit_exists (find rep : CStr) (hf : find ≠ []) (s r : CStr)
    (h : Repl find rep s r) : find <:+: s → rep <:+: r := by
  induction h with
  | nil =>
    intro hi
    exact absurd (List.eq_nil_of_infix_nil hi) hf
  | hit t t2 _ _ => intro _; exact ⟨[], t2, by simp⟩
  | skip c t t2 hn _ ih =>
    intro hi
    rcases List.infix_cons_iff.mp hi with h1 | h1
    · exact absurd h1 hn
    · exact (ih h1).trans (List.suffix_cons c t2).isInfix

theorem replace_keeps_present (p find rep s : CStr)
    (h : (find.isEmpty || no_overlap find p) = true) (hp : p <:+: s) :
    p <:+: str_replace_all s find rep := by
  by_cases hf : find = []
  · subst hf
    simpa [str_replace_all] using hp
  · have h2 : no_overlap find p = true := by
      rcases Bool.or_eq_true_iff.mp h with h1 | h1
      · exact absurd (List.isEmpty_iff.mp h1) hf
      · exact h1
    exact repl_infix_kept find rep p h2 s _ (str_replace_all_repl s find rep hf) hp

theorem infix_insert_after_newline (p a b ins : CStr) (hp : '\n' ∉ p)
    (ha : a = [] ∨ b = [] ∨ ∃ a0, a = a0 ++ ['\n']) (h : p <:+: a ++ b) :
    p <:+: a ++ (ins ++ b) := by
  have hb : p <:+: b → p <:+: a ++ (ins ++ b) := fun hb =>
    hb.trans ((List.suffix_append ins b).isInfix.trans (List.suffix_append a _).isInfix)
  have hl : p <:+: a → p <:+: a ++ (ins ++ b) := fun hl =>
    hl.trans (List.prefix_append a _).isInfix
  rcases infix_append_cases p a b h with ⟨a1, a2, e, hne, hpre⟩ | h2
  · rcases prefix_append_cases p a2 b hpre with h3 | ⟨x2, hx2, e2, hx2b⟩
    · apply hl
      rw [e]
      exact h3.isInfix.trans (List.suffix_append a1 a2).isInfix
    · rcases ha with ha | ha | ⟨a0, ha⟩
      · subst ha
        have : a2 = [] := (List.append_eq_nil.mp e.symm).2
        exact absurd this hne
      · subst ha
        have : x2 = [] := List.eq_nil_of_prefix_nil hx2b
        exact absurd this hx2
      · exfalso
        apply hp
        have hlast : a2.getLast? = some '\n' := by
          have h1 : (a1 ++ a2).getLast? = some '\n' := by
            rw [← e, ha]; simp
          rw [List.getLast?_append_of_ne_nil _ hne] at h1
          exact h1
        rw [e2]
        exact List.mem_append_left _ (List.mem_of_getLast?_eq_some hlast)
  · exact hb h2

theorem precision_block_end_spec (u : CStr) :
    precision_block_end u ≤ u.length ∧
    (precision_block_end u = u.length ∨ u[precision_block_end u]? = some '\n') := by
  induction u with
  | nil => exact ⟨Nat.le_refl _, Or.inl rfl⟩
  | cons c cs ih =>
    simp only [precision_block_end]
    split
    · rename_i h
      refine ⟨Nat.zero_le _, Or.inr ?_⟩
      rw [h.1]; simp
    · refine ⟨by simp only [List.length_cons]; omega, ?_⟩
      rcases ih.2 with h | h
      · exact Or.inl (by simp only [List.length_cons, h])
      · exact Or.inr (by simpa using h)

theorem take_succ_newline (w : CStr) (k : Nat) (h : w[k]? = some '\n') :
    w.take (k + 1) = w.take k ++ ['\n'] := by
  rw [List.take_succ, h]; rfl

theorem precision_insertion_shape (w : CStr) (shader_type : Nat) :
    ∃ a b, w = a ++ b ∧
      shader_patch_precision w shader_type = a ++ (precision_header shader_type ++ b) ∧
      (a = [] ∨ ∃ a0, a = a0 ++ ['\n']) := by
  unfold shader_patch_precision
  cases hn : strstr w "\n".toList with
  | none => exact ⟨[], w, rfl, rfl, Or.inl rfl⟩
  | some k =>
    simp only
    split
    · obtain ⟨l0, t, e, _, hk⟩ := strstr_newline w k hn
      have hget : w[k]? = some '\n' := by
        rw [e, ← hk, List.getElem?_append_right (Nat.le_refl _)]; simp
      refine ⟨w.take (k + 1), w.drop (k + 1), (List.take_append_drop _ _).symm, ?_,
        Or.inr ⟨w.take k, take_succ_newline w k hget⟩⟩
      simp only [List.append_assoc]
    · exact ⟨[], w, rfl, rfl, Or.inl rfl⟩

theorem insert_out_decl_shape (w : CStr) :
    insert_out_decl w = w ∨
    ∃ a b, w = a ++ b ∧
      insert_out_decl w = a ++ ("out vec4 prismgl_FragColor;\n".toList ++ b) ∧
      (b = [] ∨ ∃ a0, a = a0 ++ ['\n']) := by
  unfold insert_out_decl
  cases strstr w "precision highp".toList with
  | none => exact Or.inl rfl
  | some k =>
    right
    simp only
    obtain ⟨hle, hor⟩ := precision_block_end_spec (w.drop k)
    generalize precision_block_end (w.drop k) = e at hle hor
    split
    · rename_i hh
      have hget : w[k + e]? = some '\n' := by
        have : (w.drop (k + e))[0]? = some '\n' := by
          rw [← List.head?_eq_getElem?]; exact hh
        rw [List.getElem?_drop] at this
        simpa using this
      exact ⟨w.take (k + e + 1), w.drop (k + e + 1), (List.take_append_drop _ _).symm,
        by simp only [List.append_assoc], Or.inr ⟨w.take (k + e), take_succ_newline w _ hget⟩⟩
    · rename_i hh
      refine ⟨w.take (k + e), w.drop (k + e), (List.take_append_drop _ _).symm,
        by simp only [List.append_assoc], Or.inl ?_⟩
      rcases hor with h | h
      · apply List.drop_eq_nil_of_le
        rw [List.length_drop] at h hle
        omega
      · exfalso
        apply hh
        rw [List.head?_eq_getElem?, List.getElem?_drop]
        rw [List.getElem?_drop] at h
        simpa using h

theorem repl_keeps_directive (find rep p0 : CStr) (c : Char) (hf : find ≠ [])
    (hx : no_overlap find p0 = true) (s r : CStr) (h : Repl find rep s r)
    (hp : (p0 ++ [c]) <:+: s)
    (hcase : rep.head? = some c ∨ ¬ (p0 ++ find) <:+: s) : (p0 ++ [c]) <:+: r := by
  obtain ⟨l, t, e⟩ := hp
  have e2 : s = l ++ (p0 ++ (c :: t)) := by
    rw [← e]; simp only [List.append_assoc, List.singleton_append]
  rw [e2] at h
  obtain ⟨l2, t2, er, _, ht⟩ := repl_split find rep hf p0 hx l.length l (c :: t) r
    (Nat.le_refl _) h
  have hgoal : ∀ t3, t2 = c :: t3 → (p0 ++ [c]) <:+: r := by
    intro t3 e3
    refine ⟨l2, t3, ?_⟩
    rw [er, e3]; simp only [List.append_assoc, List.singleton_append]
  by_cases hpre : find <+: c :: t
  · obtain ⟨t1, e1⟩ := hpre
    rw [← e1] at ht
    obtain ⟨t3, e3, _⟩ := repl_hit_inv find rep hf t1 t2 ht
    rcases hcase with hc | hc
    · cases rep with
      | nil => cases hc
      | cons d rep1 =>
        simp only [List.head?_cons, Option.some.injEq] at hc
        subst hc
        exact hgoal (rep1 ++ t3) (by rw [e3]; rfl)
    · exfalso
      apply hc
      refine ⟨l, t1, ?_⟩
      rw [e2, ← e1]; simp only [List.append_assoc]
  · obtain ⟨t3, e3, _⟩ := repl_skip_inv find rep c t t2 hpre ht
    exact hgoal t3 e3

theorem row_keeps_kept (p0 : CStr) (c : Char) (watch : List CStr) (row : CStr × CStr)
    (h : row_keeps p0 c watch row = true) (s : CStr) (hs : DirectiveKept p0 c watch s) :
    DirectiveKept p0 c watch (str_replace_all s row.1 row.2) := by
  simp only [row_keeps, Bool.and_eq_true] at h
  obtain ⟨hw, hrow⟩ := h
  refine ⟨?_, fun x hx => row_keeps_absent x row (List.all_eq_true.mp hw x hx) s (hs.2 x hx)⟩
  rcases Bool.or_eq_true_iff.mp hrow with h1 | h1
  · exact replace_keeps_present _ row.1 row.2 s h1 hs.1
  · simp only [Bool.and_eq_true, Bool.or_eq_true, beq_iff_eq] at h1
    obtain ⟨⟨hno, hhead⟩, hrep⟩ := h1
    have hf : row.1 ≠ [] := by
      intro h0; rw [h0] at hhead; cases hhead
    apply repl_keeps_directive row.1 row.2 p0 c hf hno s _
      (str_replace_all_repl s row.1 row.2 hf) hs.1
    rcases hrep with h2 | h2
    · exact Or.inl h2
    · exact Or.inr (hs.2 _ (List.mem_of_elem_eq_true h2))

theorem table_keeps_kept (p0 : CStr) (c : Char) (watch : List CStr)
    (table : List (CStr × CStr)) (h : table.all (row_keeps p0 c watch) = true) :
    ∀ s, DirectiveKept p0 c watch s → DirectiveKept p0 c watch (replace_table table s) := by
  induction table with
  | nil => intro s hs; exact hs
  | cons row rows ih =>
    intro s hs
    have hall := List.all_eq_true.mp h
    exact ih (List.all_eq_true.mpr (fun r hr => hall r (List.mem_cons_of_mem _ hr))) _
      (row_keeps_kept p0 c watch row (hall row (List.mem_cons_self _ _)) s hs)

theorem insertion_keeps_kept (p0 : CStr) (c : Char) (watch : List CStr) (ins : CStr)
    (h : insertion_keeps p0 c watch ins = true) (a b : CStr)
    (ha : a = [] ∨ b = [] ∨ ∃ a0, a = a0 ++ ['\n'])
    (hs : DirectiveKept p0 c watch (a ++ b)) : DirectiveKept p0 c watch (a ++ (ins ++ b)) := by
  simp only [insertion_keeps, Bool.and_eq_true, Bool.not_eq_true', List.all_eq_true] at h
  obtain ⟨hp, hw⟩ := h
  have hp2 : '\n' ∉ p0 ++ [c] := by
    intro hm
    have : (p0 ++ [c]).contains '\n' = true := List.elem_eq_true_of_mem hm
    rw [hp] at this; cases this
  refine ⟨infix_insert_after_newline _ a b ins hp2 ha hs.1, ?_⟩
  intro x hx hi
  have hx2 := hw x hx
  rcases infix_around x ins hx2.2 a b hi with h1 | h1
  · exact hs.2 x hx (h1.trans (List.prefix_append a b).isInfix)
  · exact hs.2 x hx (h1.trans (List.suffix_append a b).isInfix)

theorem samplers_eq_table (w : CStr) :
    shader_patch_samplers w = replace_table sampler_replacements w := by
  simp only [shader_patch_samplers, sampler_replacements, replace_table, List.foldl_cons,
    List.foldl_nil]

theorem builtins_eq_table (w : CStr) :
    shader_patch_builtins w
      = replace_table noperspective_replacements (replace_table builtin_replacements w) := by
  simp only [shader_patch_builtins, noperspective_replacements, replace_table,
    List.foldl_cons, List.foldl_nil]

theorem precision_keeps_kept (p0 : CStr) (c : Char) (watch : List CStr)
    (hf : insertion_keeps p0 c watch precision_header_fragment = true)
    (ho : insertion_keeps p0 c watch precision_header_other = true)
    (w : CStr) (shader_type : Nat) (hs : DirectiveKept p0 c watch w) :
    DirectiveKept p0 c watch (shader_patch_precision w shader_type) := by
  obtain ⟨a, b, e, e2, ha⟩ := precision_insertion_shape w shader_type
  have ha2 : a = [] ∨ b = [] ∨ ∃ a0, a = a0 ++ ['\n'] := by
    rcases ha with h | h
    · exact Or.inl h
    · exact Or.inr (Or.inr h)
  rw [e2]
  rw [e] at hs
  unfold precision_header
  split
  · exact insertion_keeps_kept p0 c watch _ hf a b ha2 hs
  · exact insertion_keeps_kept p0 c watch _ ho a b ha2 hs

theorem insert_out_decl_keeps_kept (p0 : CStr) (c : Char) (watch : List CStr)
    (h : insertion_keeps p0 c watch "out vec4 prismgl_FragColor;\n".toList = true)
    (w : CStr) (hs : DirectiveKept p0 c watch w) :
    DirectiveKept p0 c watch (insert_out_decl w) := by
  rcases insert_out_decl_shape w with e | ⟨a, b, e, e2, ha⟩
  · rw [e]; exact hs
  · rw [e2]
    rw [e] at hs
    exact insertion_keeps_kept p0 c watch _ h a b (Or.inr ha) hs

theorem legacy_keeps_kept (p0 : CStr) (c : Char) (watch : List CStr)
    (hl : legacy_replacements.all (row_keeps p0 c watch) = true)
    (hi : insertion_keeps p0 c watch "out vec4 prismgl_FragColor;\n".toList = true)
    (w : CStr) (shader_type : Nat) (v : Int) (hs : DirectiveKept p0 c watch w) :
    DirectiveKept p0 c watch (translate_legacy w shader_type v) := by
  have hall := List.all_eq_true.mp hl
  have h1 := row_keeps_kept p0 c watch _
    (hall ("gl_FragColor".toList, "prismgl_FragColor".toList) (by decide))
  have h3 := row_keeps_kept p0 c watch _
    (hall ("\nvarying ".toList, "\nin ".toList) (by decide))
  have h3b := row_keeps_kept p0 c watch _
    (hall ("\nattribute ".toList, "\nin ".toList) (by decide))
  have h4 := row_keeps_kept p0 c watch _
    (hall ("\nvarying ".toList, "\nout ".toList) (by decide))
  have hfrag : DirectiveKept p0 c watch (if v ≤ 120 ∧ shader_type = GL_FRAGMENT_SHADER then
      str_replace_all
        (if contains w "gl_FragColor".toList ∧ ¬ contains w "out vec4".toList then
          insert_out_decl (str_replace_all w "gl_FragColor".toList "prismgl_FragColor".toList)
        else w) "\nvarying ".toList "\nin ".toList
      else w) := by
    split
    · apply h3
      split
      · exact insert_out_decl_keeps_kept p0 c watch hi _ (h1 _ hs)
      · exact hs
    · exact hs
  simp only [translate_legacy]
  split
  · exact h4 _ (h3b _ hfrag)
  · exact hfrag

theorem pipeline_keeps_kept (p0 : CStr) (c : Char) (watch : List CStr)
    (h : pipeline_keeps p0 c watch = true) (w : CStr) (shader_type : Nat) (v : Int)
    (hs : DirectiveKept p0 c watch w) :
    DirectiveKept p0 c watch (translate_legacy (replace_table type_replacements
      (shader_patch_builtins (shader_patch_samplers (shader_patch_precision w shader_type))))
      shader_type v) := by
  simp only [pipeline_keeps, Bool.and_eq_true] at h
  obtain ⟨⟨⟨⟨⟨⟨⟨hf, ho⟩, hsam⟩, hbu⟩, hnp⟩, hty⟩, hleg⟩, hins⟩ := h
  apply legacy_keeps_kept p0 c watch hleg hins
  apply table_keeps_kept p0 c watch _ hty
  rw [builtins_eq_table]
  apply table_keeps_kept p0 c watch _ hnp
  apply table_keeps_kept p0 c watch _ hbu
  rw [samplers_eq_table]
  apply table_keeps_kept p0 c watch _ hsam
  exact precision_keeps_kept p0 c watch hf ho w shader_type hs

theorem format_version_ne_nil (v : Int) (suffix : CStr) : format_version v suffix ≠ [] := by
  intro h
  have := congrArg List.length h
  simp [format_version] at this

theorem repl_followed_at (find rep y : CStr)
    (h1 : no_start_inside rep y = true) (h2 : no_start_inside rep rep.tail = true)
    (s r : CStr) (h : Repl find rep s r) (hs : ¬ rep <:+: s) :
    (rep ++ y) <+: r → (find ++ y) <+: s := by
  intro hp
  cases h with
  | nil =>
    have : rep ++ y = [] := List.eq_nil_of_prefix_nil hp
    have hr : rep = [] := (List.append_eq_nil.mp this).1
    exact absurd (hr ▸ List.nil_infix) hs
  | hit t t2 ht =>
    have hy : y <+: t2 := (List.prefix_append_right_inj rep).mp hp
    have := repl_prefix_source find rep t t2 ht y h1 hy
    exact (List.prefix_append_right_inj find).mpr this
  | skip c t t2 hn ht =>
    exfalso
    cases rep with
    | nil => exact hs List.nil_infix
    | cons d rep1 =>
      rw [List.cons_append] at hp
      obtain ⟨u, hu⟩ := hp
      simp only [List.cons_append, List.cons.injEq] at hu
      obtain ⟨hd, hu2⟩ := hu
      have hp1 : rep1 <+: t2 := ⟨y ++ u, by rw [← hu2]; simp only [List.append_assoc]⟩
      have := repl_prefix_source find (d :: rep1) t t2 ht rep1 h2 hp1
      apply hs
      rw [hd]
      exact ((List.cons_prefix_cons).mpr ⟨rfl, this⟩).isInfix

theorem repl_followed (find rep y : CStr)
    (h1 : no_start_inside rep y = true) (h2 : no_start_inside rep rep.tail = true)
    (h3 : no_start_inside (rep ++ y) rep.tail = true)
    (s r : CStr) (h : Repl find rep s r) :
    ¬ rep <:+: s → (rep ++ y) <:+: r → (find ++ y) <:+: s := by
  induction h with
  | nil =>
    intro hs hi
    have : rep ++ y = [] := List.eq_nil_of_infix_nil hi
    have hr : rep = [] := (List.append_eq_nil.mp this).1
    exact absurd (hr ▸ List.nil_infix) hs
  | hit t t2 ht ih =>
    intro hs hi
    cases rep with
    | nil => exact absurd List.nil_infix hs
    | cons d rep1 =>
      have hst : ¬ (d :: rep1) <:+: t := fun hh =>
        hs (hh.trans (List.suffix_append find t).isInfix)
      rw [List.cons_append d rep1 t2] at hi
      rcases List.infix_cons_iff.mp hi with hp | hp
      · exact (repl_followed_at find (d :: rep1) y h1 h2 (find ++ t) (d :: rep1 ++ t2)
          (Repl.hit t t2 ht) hs hp).isInfix
      · rcases infix_append_cases _ rep1 t2 hp with ⟨a1, a2, e, hne, hpre⟩ | hp2
        · exact absurd hpre (not_prefix_inside _ rep1 t2 h3 a1 a2 e hne)
        · exact (ih hst hp2).trans (List.suffix_append find t).isInfix
  | skip c t t2 hn ht ih =>
    intro hs hi
    have hst : ¬ rep <:+: t := fun hh => hs (hh.trans (List.suffix_cons c t).isInfix)
    rcases List.infix_cons_iff.mp hi with hp | hp
    · exact (repl_followed_at find rep y h1 h2 (c :: t) (c :: t2)
        (Repl.skip c t t2 hn ht) hs hp).isInfix
    · exact (ih hst hp).trans (List.suffix_cons c t).isInfix

theorem version_step_kept (source : CStr) (v : Int)
    (hes : ¬ "#version 320 es".toList <:+: source)
    (hsrc : ∀ d ∈ version_directives v, ∀ y ∈ shadow_tails, ¬ (d ++ y) <:+: source) :
    DirectiveKept "#version 320 e".toList 's' shadowed_directives
      (replace_version source v) := by
  have hrep : ∀ find, find ∈ version_directives v → contains source find = true →
      DirectiveKept "#version 320 e".toList 's' shadowed_directives
        (str_replace_all source find "#version 320 es".toList) := by
    intro find hm hc
    have hf : find ≠ [] := by
      simp only [version_directives, List.mem_cons, List.mem_singleton, List.not_mem_nil,
        or_false] at hm
      rcases hm with h | h | h <;> rw [h] <;> exact format_version_ne_nil _ _
    have hr := str_replace_all_repl source find "#version 320 es".toList hf
    refine ⟨repl_hit_exists find _ hf source _ hr ((contains_iff _ _).mp hc), ?_⟩
    intro x hx hi
    simp only [shadowed_directives, List.mem_cons, List.mem_singleton, List.not_mem_nil,
      or_false] at hx
    rcases hx with hx | hx
    · subst hx
      exact hsrc find hm "hadow2D(".toList (by decide)
        (repl_followed find "#version 320 es".toList "hadow2D(".toList (by decide)
          (by decide) (by decide) source _ hr hes hi)
    · subst hx
      exact hsrc find hm "hadow2DProj(".toList (by decide)
        (repl_followed find "#version 320 es".toList "hadow2DProj(".toList (by decide)
          (by decide) (by decide) source _ hr hes hi)
  simp only [replace_version]
  split
  · rename_i hc
    exact hrep _ (by simp [version_directives]) hc
  · split
    · rename_i hc
      exact hrep _ (by simp [version_directives]) hc
    · split
      · rename_i hc
        exact hrep _ (by simp [version_directives]) hc
      · refine ⟨⟨[], '\n' :: source, rfl⟩, ?_⟩
        intro x hx hi
        have hno : no_overlap x "#version 320 es\n".toList = true := by
          simp only [shadowed_directives, List.mem_cons, List.mem_singleton,
            List.not_mem_nil, or_false] at hx
          rcases hx with hx | hx <;> subst hx <;> decide
        have hpre : "#version 320 es".toList <+: x := by
          simp only [shadowed_directives, List.mem_cons, List.mem_singleton,
            List.not_mem_nil, or_false] at hx
          rcases hx with hx | hx <;> subst hx
          · exact ⟨"hadow2D(".toList, rfl⟩
          · exact ⟨"hadow2DProj(".toList, rfl⟩
        have hi2 : x <:+: [] ++ ("#version 320 es\n".toList ++ source) := hi
        rcases infix_around x _ hno [] source hi2 with h | h
        · have := List.eq_nil_of_infix_nil (hpre.isInfix.trans h)
          cases this
        · exact hes (hpre.isInfix.trans h)

theorem translate_es_contained (o : CStr) (shader_type : Nat) (hne : o ≠ [])
    (hl : o.length ≤ MAX_SHADER_SIZE)
    (hes : "#version 320 es".toList <:+: o ∨ "#version 310 es".toList <:+: o ∨
      "#version 300 es".toList <:+: o) :
    shader_translate (some o) shader_type
      = { translated_source := some o, success := true, error_msg := [],
          original_version := shader_detect_version (some o), target_version := 320 } := by
  have h0 : o.length ≠ 0 := fun h => hne (List.length_eq_zero.mp h)
  have hnl : ¬ o.length > MAX_SHADER_SIZE := by omega
  have hes2 : contains o "#version 320 es".toList = true ∨
      contains o "#version 310 es".toList = true ∨
      contains o "#version 300 es".toList = true := by
    rcases hes with h | h | h
    · exact Or.inl ((contains_iff _ _).mpr h)
    · exact Or.inr (Or.inl ((contains_iff _ _).mpr h))
    · exact Or.inr (Or.inr ((contains_iff _ _).mpr h))
  simp only [shader_translate, h0, hnl, hes2, if_true, if_false]

theorem translate_failures (s : CStr) (shader_type : Nat)
    (h : s = [] ∨ MAX_SHADER_SIZE < s.length) :
    (shader_translate (some s) shader_type).translated_source = none := by
  rcases h with h | h
  · subst h
    simp [shader_translate]
  · have h0 : s.length ≠ 0 := by
      have : 0 < MAX_SHADER_SIZE := by decide
      omega
    have hnl : s.length > MAX_SHADER_SIZE := h
    simp only [shader_translate, h0, hnl, if_true, if_false]

theorem translate_output_success (s o : CStr) (shader_type : Nat)
    (ho : (shader_translate (some s) shader_type).translated_source = some o) :
    (shader_translate (some s) shader_type).success = true := by
  by_cases hbad : s = [] ∨ MAX_SHADER_SIZE < s.length
  · rw [translate_failures s shader_type hbad] at ho
    cases ho
  · have hne : s ≠ [] := fun h => hbad (Or.inl h)
    have hls : s.length ≤ MAX_SHADER_SIZE := by
      have : ¬ MAX_SHADER_SIZE < s.length := fun h => hbad (Or.inr h)
      omega
    by_cases hes : NoEsDirective s
    · rw [shader_translate_eq s shader_type hne hls hes]
    · have hes2 : "#version 320 es".toList <:+: s ∨ "#version 310 es".toList <:+: s ∨
          "#version 300 es".toList <:+: s := by
        unfold NoEsDirective at hes
        by_contra hcon
        exact hes ⟨fun h => hcon (Or.inl h), fun h => hcon (Or.inr (Or.inl h)),
          fun h => hcon (Or.inr (Or.inr h))⟩
      rw [translate_es_contained s shader_type hne hls hes2]

theorem directives_checked :
    pipeline_keeps "#version 320 e".toList 's' shadowed_directives = true ∧
    ext_replacements.all (row_keeps "#version 320 e".toList 's' shadowed_directives) = true := by
  constructor <;> decide

/-- C37, amended: `shader_translate` is idempotent on every source that holds an ES version
directive, and on every other source in which none of the version directives that step 1
looks for is directly followed by `hadow2D(` or `hadow2DProj(`: when `shader_translate(s, t)`
returns the output `o` and `o` is at most 256 KiB long, then it has succeeded, `o` contains
an ES version directive, and `shader_translate(o, t2)` succeeds and returns `o`
unchanged. -/
theorem translate_idempotent (s o : CStr) (t t2 : Nat)
    (hsrc : NoEsDirective s →
      ∀ d ∈ version_directives (shader_detect_version (some s)), ∀ y ∈ shadow_tails,
        ¬ (d ++ y) <:+: s)
    (ho : (shader_translate (some s) t).translated_source = some o)
    (hl : o.length ≤ MAX_SHADER_SIZE) :
    (shader_translate (some s) t).success = true ∧
    ("#version 320 es".toList <:+: o ∨ "#version 310 es".toList <:+: o ∨
      "#version 300 es".toList <:+: o) ∧
    (shader_translate (some o) t2).success = true ∧
    (shader_translate (some o) t2).translated_source = some o := by
  have hfin : ∀ (hes : "#version 320 es".toList <:+: o ∨ "#version 310 es".toList <:+: o ∨
      "#version 300 es".toList <:+: o), o ≠ [] →
      (shader_translate (some o) t2).success = true ∧
      (shader_translate (some o) t2).translated_source = some o := by
    intro hes hne
    rw [translate_es_contained o t2 hne hl hes]
    exact ⟨rfl, rfl⟩
  by_cases hbad : s = [] ∨ MAX_SHADER_SIZE < s.length
  · rw [translate_failures s t hbad] at ho
    cases ho
  · have hne : s ≠ [] := fun h => hbad (Or.inl h)
    have hls : s.length ≤ MAX_SHADER_SIZE := by
      have : ¬ MAX_SHADER_SIZE < s.length := fun h => hbad (Or.inr h)
      omega
    by_cases hes : NoEsDirective s
    · rw [shader_translate_eq s t hne hls hes] at ho ⊢
      simp only [Option.some.injEq] at ho
      have hk1 := version_step_kept s (shader_detect_version (some s)) hes.1 (hsrc hes)
      have hk2 := table_keeps_kept _ _ _ ext_replacements directives_checked.2 _ hk1
      have hk3 := pipeline_keeps_kept _ _ _ directives_checked.1 _ t
        (shader_detect_version (some s)) hk2
      have hin : "#version 320 es".toList <:+: o := by
        rw [← ho]
        exact hk3.1
      have hone : o ≠ [] := by
        intro h
        rw [h] at hin
        have := List.eq_nil_of_infix_nil hin
        cases this
      exact ⟨rfl, Or.inl hin, hfin (Or.inl hin) hone⟩
    · have hes2 : "#version 320 es".toList <:+: s ∨ "#version 310 es".toList <:+: s ∨
          "#version 300 es".toList <:+: s := by
        unfold NoEsDirective at hes
        by_contra hcon
        exact hes ⟨fun h => hcon (Or.inl h), fun h => hcon (Or.inr (Or.inl h)),
          fun h => hcon (Or.inr (Or.inr h))⟩
      rw [translate_es_contained s t hne hls hes2] at ho ⊢
      simp only [Option.some.injEq] at ho
      subst ho
      exact ⟨rfl, hes2, hfin hes2 hne⟩

/-! ### Evaluation of the translation step by step -/

theorem replace_table_keys (keys : List CStr) (table : List (CStr × CStr)) (w : CStr)
    (hw : keys.all (fun key => !contains w key) = true)
    (ht : table.all (fun row => keys.any (fun key => contains row.1 key)) = true) :
    replace_table table w = w := by
  unfold replace_table
  induction table with
  | nil => rfl
  | cons row rows ih =>
    have h := List.all_eq_true.mp ht
    obtain ⟨key, hmem, hkey⟩ := List.any_eq_true.mp (h row (List.mem_cons_self _ _))
    have hk : ¬ key <:+: w := by
      have := List.all_eq_true.mp hw key hmem
      simp only [Bool.not_eq_true'] at this
      exact not_infix_of_contains_false _ _ this
    rw [List.foldl_cons, replace_absent_of_part w key row.1 row.2 ((contains_iff _ _).mp hkey) hk]
    exact ih (List.all_eq_true.mpr (fun r hr => h r (List.mem_cons_of_mem _ hr)))

theorem extensions_unchanged (w : CStr) (h : contains w "#extension GL_ARB_".toList = false) :
    shader_patch_extensions w = w :=
  replace_table_keys ["#extension GL_ARB_".toList] ext_replacements w
    (by simp only [List.all_cons, List.all_nil, h]; rfl) (by decide)

theorem samplers_unchanged (w : CStr) (h : contains w "sampler1D".toList = false) :
    shader_patch_samplers w = w := by
  rw [samplers_eq_table]
  exact replace_table_keys ["sampler1D".toList] sampler_replacements w
    (by simp only [List.all_cons, List.all_nil, h]; rfl) (by decide)

theorem builtins_unchanged (w : CStr)
    (h : ["2D".toList, "3D".toList, "Cube".toList, "noperspective".toList].all
      (fun key => !contains w key) = true) : shader_patch_builtins w = w := by
  rw [builtins_eq_table, replace_table_keys _ builtin_replacements w h (by decide)]
  exact replace_table_keys _ noperspective_replacements w h (by decide)

theorem types_unchanged (w : CStr)
    (h : ["dvec".toList, "dmat".toList].all (fun key => !contains w key) = true) :
    replace_table type_replacements w = w :=
  replace_table_keys _ type_replacements w h (by decide)

theorem steps_eval (source : CStr) (shader_type : Nat) (v : Int) (w1 w2 w3 w4 w5 w6 : CStr)
    (h1 : replace_version source v = w1) (h2 : shader_patch_extensions w1 = w2)
    (h3 : shader_patch_precision w2 shader_type = w3) (h4 : shader_patch_samplers w3 = w4)
    (h5 : shader_patch_builtins w4 = w5) (h6 : replace_table type_replacements w5 = w6) :
    translate_steps_1_6 source shader_type v = w6 := by
  simp only [translate_steps_1_6]
  rw [h1, h2, h3, h4, h5, h6]

theorem legacy_modern (w : CStr) (shader_type : Nat) (v : Int) (hv : 120 < v) :
    translate_legacy w shader_type v = w := by
  have : ¬ v ≤ 120 := by omega
  simp only [translate_legacy, this, false_and, if_false]

theorem followed_absent (s : CStr) (v : Int)
    (h : (version_directives v).all
      (fun d => shadow_tails.all (fun y => !contains s (d ++ y))) = true) :
    ∀ d ∈ version_directives v, ∀ y ∈ shadow_tails, ¬ (d ++ y) <:+: s := by
  intro d hd y hy
  have h1 := List.all_eq_true.mp (List.all_eq_true.mp h d hd) y hy
  simp only [Bool.not_eq_true'] at h1
  exact not_infix_of_contains_false _ _ h1

/-- Witness of C37 (amended): a vertex shader for GLSL 1.20, translated again as a fragment
shader. -/
theorem translate_idempotent_witness :
    NoEsDirective qualifier_shader ∧
    (∀ d ∈ version_directives (shader_detect_version (some qualifier_shader)),
      ∀ y ∈ shadow_tails, ¬ (d ++ y) <:+: qualifier_shader) ∧
    (shader_translate (some qualifier_shader) GL_VERTEX_SHADER).translated_source
      = some ("#version 320 es\n".toList ++ (precision_header_other ++
          "in vec3 p; varying vec2 t;".toList)) ∧
    (shader_translate (some ("#version 320 es\n".toList ++ (precision_header_other ++
        "in vec3 p; varying vec2 t;".toList))) GL_FRAGMENT_SHADER).translated_source
      = some ("#version 320 es\n".toList ++ (precision_header_other ++
          "in vec3 p; varying vec2 t;".toList)) :=
  have hv : shader_detect_version (some qualifier_shader) = 120 := by decide
  have hsrc : ∀ d ∈ version_directives (shader_detect_version (some qualifier_shader)),
      ∀ y ∈ shadow_tails, ¬ (d ++ y) <:+: qualifier_shader := by
    rw [hv]
    exact followed_absent qualifier_shader 120 (by decide)
  ⟨⟨not_infix_of_contains_false _ _ (by decide), not_infix_of_contains_false _ _ (by decide),
      not_infix_of_contains_false _ _ (by decide)⟩,
    hsrc, translate_qualifier_shader_vertex,
    (translate_idempotent qualifier_shader _ GL_VERTEX_SHADER GL_FRAGMENT_SHADER
      (fun _ => hsrc) translate_qualifier_shader_vertex (by decide)).2.2.2⟩

theorem translate_shadowed_shader :
    (shader_translate (some shadowed_shader) GL_VERTEX_SHADER).translated_source
      = some shadowed_output :=
  translate_chain shadowed_shader GL_VERTEX_SHADER 330 shadowed_output shadowed_output
    (by decide) (by decide)
    ⟨not_infix_of_contains_false _ _ (by decide), not_infix_of_contains_false _ _ (by decide),
     not_infix_of_contains_false _ _ (by decide)⟩
    (by decide)
    (steps_eval shadowed_shader GL_VERTEX_SHADER 330
      "#version 320 eshadow2D(x)".toList "#version 320 eshadow2D(x)".toList
      (precision_header_other ++ "#version 320 eshadow2D(x)".toList)
      (precision_header_other ++ "#version 320 eshadow2D(x)".toList)
      shadowed_output shadowed_output
      (by decide) (extensions_unchanged _ (by decide)) (by decide)
      (samplers_unchanged _ (by decide)) (by decide) (types_unchanged _ (by decide)))
    (legacy_modern _ _ _ (by decide))

theorem translate_shadowed_output :
    (shader_translate (some shadowed_output) GL_VERTEX_SHADER).translated_source
      = some shadowed_output_again :=
  translate_chain shadowed_output GL_VERTEX_SHADER 320 shadowed_output_again
    shadowed_output_again
    (by decide) (by decide)
    ⟨not_infix_of_contains_false _ _ (by decide), not_infix_of_contains_false _ _ (by decide),
     not_infix_of_contains_false _ _ (by decide)⟩
    (by decide)
    (steps_eval shadowed_output GL_VERTEX_SHADER 320
      (precision_header_other ++ "#version 320 es etexture(x)".toList)
      (precision_header_other ++ "#version 320 es etexture(x)".toList)
      shadowed_output_again shadowed_output_again shadowed_output_again shadowed_output_again
      (by decide) (extensions_unchanged _ (by decide)) (by decide)
      (samplers_unchanged _ (by decide)) (builtins_unchanged _ (by decide))
      (types_unchanged _ (by decide)))
    (legacy_modern _ _ _ (by decide))

/-- Counterexample to C37 as stated: the vertex shader `#version 330hadow2D(x)` is
translated with success to a text in which the pass for `shadow2D(` has
consumed the `s` of the directive `#version 320 es`; translating this output again changes
it. -/
theorem translate_idempotent_counterexample :
    (shader_translate (some shadowed_shader) GL_VERTEX_SHADER).success = true ∧
    (shader_translate (some shadowed_shader) GL_VERTEX_SHADER).translated_source
      = some shadowed_output ∧
    shadowed_output.length ≤ MAX_SHADER_SIZE ∧
    (shader_translate (some shadowed_output) GL_VERTEX_SHADER).success = true ∧
    (shader_translate (some shadowed_output) GL_VERTEX_SHADER).translated_source
      = some shadowed_output_again ∧
    (shader_translate (some shadowed_output) GL_VERTEX_SHADER).translated_source
      ≠ some shadowed_output := by
  refine ⟨translate_output_success _ _ _ translate_shadowed_shader, translate_shadowed_shader,
    by decide, translate_output_success _ _ _ translate_shadowed_output,
    translate_shadowed_output, ?_⟩
  rw [translate_shadowed_output]
  decide

theorem table_keeps_present (p : CStr) (table : List (CStr × CStr))
    (h : table.all (fun r => r.1.isEmpty || no_overlap r.1 p) = true) :
    ∀ s, p <:+: s → p <:+: replace_table table s := by
  induction table with
  | nil => intro s hs; exact hs
  | cons row rows ih =>
    intro s hs
    have hall := List.all_eq_true.mp h
    exact ih (List.all_eq_true.mpr (fun r hr => hall r (List.mem_cons_of_mem _ hr))) _
      (replace_keeps_present p row.1 row.2 s (hall row (List.mem_cons_self _ _)) hs)

theorem table_rewrites (x y : CStr) (table : List (CStr × CStr))
    (h : rewritten_by x y table = true) :
    ∀ s, x <:+: s → y <:+: replace_table table s := by
  induction table with
  | nil => cases h
  | cons row rows ih =>
    intro s hs
    simp only [rewritten_by, Bool.or_eq_true, Bool.and_eq_true, beq_iff_eq,
      Bool.not_eq_true', List.isEmpty_eq_false] at h
    rcases h with ⟨⟨⟨e1, e2⟩, hne⟩, hrows⟩ | ⟨hrow, hrest⟩
    · have h1 : y <:+: str_replace_all s row.1 row.2 := by
        rw [e1, e2]
        exact repl_hit_exists x y hne s _ (str_replace_all_repl s x y hne) hs
      exact table_keeps_present y rows hrows _ h1
    · have h1 : x <:+: str_replace_all s row.1 row.2 :=
        replace_keeps_present x row.1 row.2 s (by simpa using hrow) hs
      exact ih hrest _ h1

theorem replace_table_unchanged (table : List (CStr × CStr)) (w : CStr)
    (h : ∀ row ∈ table, ¬ row.1 <:+: w) : replace_table table w = w := by
  unfold replace_table
  induction table with
  | nil => rfl
  | cons row rows ih =>
    rw [List.foldl_cons, str_replace_all_absent w row.1 row.2
      (contains_false_of_absent w row.1 (h row (List.mem_cons_self _ _)))]
    exact ih (fun r hr => h r (List.mem_cons_of_mem _ hr))

theorem version_keeps_absent (x source : CStr) (v : Int) (hx : x ≠ [])
    (h1 : no_overlap x "#version 320 es".toList = true)
    (h2 : no_overlap x "#version 320 es\n".toList = true) (h : ¬ x <:+: source) :
    ¬ x <:+: replace_version source v := by
  simp only [replace_version]
  split
  · exact replace_keeps_absent x _ _ source h1 h
  · split
    · exact replace_keeps_absent x _ _ source h1 h
    · split
      · exact replace_keeps_absent x _ _ source h1 h
      · intro hi
        have hi2 : x <:+: [] ++ ("#version 320 es\n".toList ++ source) := hi
        rcases infix_around x _ h2 [] source hi2 with h3 | h3
        · exact hx (List.eq_nil_of_infix_nil h3)
        · exact h h3

theorem precision_keeps_absent (x w : CStr) (shader_type : Nat)
    (hf : no_overlap x precision_header_fragment = true)
    (ho : no_overlap x precision_header_other = true) (h : ¬ x <:+: w) :
    ¬ x <:+: shader_patch_precision w shader_type := by
  obtain ⟨a, b, e, e2, _⟩ := precision_insertion_shape w shader_type
  rw [e2]
  intro hi
  have hno : no_overlap x (precision_header shader_type) = true := by
    unfold precision_header
    split
    · exact hf
    · exact ho
  rw [e] at h
  rcases infix_around x _ hno a b hi with h1 | h1
  · exact h (h1.trans (List.prefix_append a b).isInfix)
  · exact h (h1.trans (List.suffix_append a b).isInfix)

theorem absent_after_extensions (x : CStr) (h1 : kept_absent_by_prelude x = true)
    (h2 : kept_absent_after_builtins x = true) (w : CStr) (shader_type : Nat) (v : Int)
    (h : ¬ x <:+: w) :
    ¬ x <:+: translate_legacy (replace_table type_replacements (shader_patch_builtins
      (shader_patch_samplers (shader_patch_precision w shader_type)))) shader_type v := by
  simp only [kept_absent_by_prelude, Bool.and_eq_true] at h1
  obtain ⟨⟨⟨hf, ho⟩, hs⟩, hb⟩ := h1
  apply absent_after_builtins x h2
  apply table_keeps_absent x _ hb
  rw [samplers_eq_table]
  apply table_keeps_absent x _ hs
  exact precision_keeps_absent x w shader_type hf ho h

theorem renames_checked :
    spec_extension_renames.all (fun row =>
      removed_by row.1 ext_replacements && rewritten_by row.1 row.2 ext_replacements &&
      kept_absent_by_prelude row.1 && kept_absent_after_builtins row.1) = true := by decide

theorem patterns_checked :
    ext_replacements.all (fun row => !row.1.isEmpty &&
      no_overlap row.1 "#version 320 es".toList &&
      no_overlap row.1 "#version 320 es\n".toList) = true := by decide

/-- C34, amended: in the translation of a translated source, for either stage, the
step `shader_patch_extensions` rewrites the texts `#extension GL_ARB_texture_gather :
enable`, `#extension GL_ARB_tessellation_shader : enable` and `#extension
GL_ARB_geometry_shader4 : enable` to the directives of `GL_EXT_texture_gather`,
`GL_EXT_tessellation_shader` and `GL_EXT_geometry_shader`: its result contains none of the
three texts and contains the new directive whenever its input contains the old one, and
the output of the translation contains none of the three texts. A text that contains no
pattern of the table passes the step unchanged, also within the translation. -/
theorem extension_renames (source : CStr) (shader_type : Nat) (hne : source ≠ [])
    (hl : source.length ≤ MAX_SHADER_SIZE) (hes : NoEsDirective source) :
    (∃ out, (shader_translate (some source) shader_type).translated_source = some out ∧
      ∀ row ∈ spec_extension_renames, ¬ row.1 <:+: out) ∧
    (∀ w, ∀ row ∈ spec_extension_renames, ¬ row.1 <:+: shader_patch_extensions w ∧
      (row.1 <:+: w → row.2 <:+: shader_patch_extensions w)) ∧
    (∀ w, (∀ row ∈ ext_replacements, ¬ row.1 <:+: w) → shader_patch_extensions w = w) ∧
    ((∀ row ∈ ext_replacements, ¬ row.1 <:+: source) →
      shader_patch_extensions (replace_version source (shader_detect_version (some source)))
        = replace_version source (shader_detect_version (some source))) := by
  have hc := List.all_eq_true.mp renames_checked
  refine ⟨?_, ?_, fun w h => replace_table_unchanged ext_replacements w h, ?_⟩
  · rw [shader_translate_eq source shader_type hne hl hes]
    refine ⟨_, rfl, ?_⟩
    intro row hrow
    have h := hc row hrow
    simp only [Bool.and_eq_true] at h
    simp only [translate_steps_1_6]
    exact absent_after_extensions row.1 h.1.2 h.2 _ _ _ (table_removes row.1 _ h.1.1.1 _)
  · intro w row hrow
    have h := hc row hrow
    simp only [Bool.and_eq_true] at h
    exact ⟨table_removes row.1 _ h.1.1.1 w, table_rewrites row.1 row.2 _ h.1.1.2 w⟩
  · intro h
    apply replace_table_unchanged
    intro row hrow
    have hp := List.all_eq_true.mp patterns_checked row hrow
    simp only [Bool.and_eq_true, Bool.not_eq_true', List.isEmpty_eq_false] at hp
    exact version_keeps_absent row.1 source _ hp.1.1 hp.1.2 hp.2 (h row hrow)

/-- Witness of C34 (amended): a vertex shader that enables `GL_ARB_texture_gather`. -/
theorem extension_renames_witness :
    gather_enable_shader ≠ [] ∧ gather_enable_shader.length ≤ MAX_SHADER_SIZE ∧
    NoEsDirective gather_enable_shader ∧
    "#extension GL_ARB_texture_gather : enable".toList <:+: gather_enable_shader ∧
    ∃ out, (shader_translate (some gather_enable_shader) GL_VERTEX_SHADER).translated_source
        = some out ∧ ∀ row ∈ spec_extension_renames, ¬ row.1 <:+: out :=
  have hes : NoEsDirective gather_enable_shader :=
    ⟨not_infix_of_contains_false _ _ (by decide), not_infix_of_contains_false _ _ (by decide),
      not_infix_of_contains_false _ _ (by decide)⟩
  ⟨by decide, by decide, hes, (contains_iff _ _).mp (by decide),
    (extension_renames gather_enable_shader GL_VERTEX_SHADER (by decide) (by decide) hes).1⟩

theorem translate_gather_require :
    (shader_translate (some gather_require_shader) GL_VERTEX_SHADER).translated_source
      = some gather_require_output :=
  translate_chain gather_require_shader GL_VERTEX_SHADER 330 gather_require_output
    gather_require_output
    (by decide) (by decide)
    ⟨not_infix_of_contains_false _ _ (by decide), not_infix_of_contains_false _ _ (by decide),
     not_infix_of_contains_false _ _ (by decide)⟩
    (by decide)
    (steps_eval gather_require_shader GL_VERTEX_SHADER 330
      ("#version 320 es\n".toList ++
        "#extension GL_ARB_texture_gather : require\nvoid main()\x7b\x7d".toList)
      ("#version 320 es\n".toList ++
        "#extension GL_ARB_texture_gather : require\nvoid main()\x7b\x7d".toList)
      gather_require_output gather_require_output gather_require_output gather_require_output
      (by decide) (by decide) (patch_precision_version_line _ _)
      (samplers_unchanged _ (by decide)) (builtins_unchanged _ (by decide))
      (types_unchanged _ (by decide)))
    (legacy_modern _ _ _ (by decide))

/-- Counterexample to C34 as stated: the directive `#extension GL_ARB_texture_gather :
require` of a translated vertex shader is not rewritten; it stands in the output as it
stood in the source, and the output does not name `GL_EXT_texture_gather`. -/
theorem extension_renames_counterexample :
    gather_require_shader ≠ [] ∧ gather_require_shader.length ≤ MAX_SHADER_SIZE ∧
    NoEsDirective gather_require_shader ∧
    (shader_translate (some gather_require_shader) GL_VERTEX_SHADER).translated_source
      = some gather_require_output ∧
    "#extension GL_ARB_texture_gather : require".toList <:+: gather_require_output ∧
    ¬ "GL_EXT_texture_gather".toList <:+: gather_require_output :=
  ⟨by decide, by decide,
    ⟨not_infix_of_contains_false _ _ (by decide), not_infix_of_contains_false _ _ (by decide),
      not_infix_of_contains_false _ _ (by decide)⟩,
    translate_gather_require, (contains_iff _ _).mp (by decide),
    not_infix_of_contains_false _ _ (by decide)⟩

theorem repl_rest_start (c : Char) (rest : CStr)
    (h3 : no_start_inside rest rest.tail = true) (t t2 : CStr)
    (h : Repl (c :: rest) rest t t2) : rest <+: t2 → (c :: rest) <+: t ∨ rest <+: t := by
  intro hp
  cases h with
  | nil => exact Or.inr hp
  | hit u u2 _ => exact Or.inl ⟨u, rfl⟩
  | skip d u u2 _ hu =>
    right
    cases rest with
    | nil => exact List.nil_prefix
    | cons e rest1 =>
      obtain ⟨hd, hp1⟩ := List.cons_prefix_cons.mp hp
      have := repl_prefix_source (c :: e :: rest1) (e :: rest1) u u2 hu rest1 h3 hp1
      exact List.cons_prefix_cons.mpr ⟨hd, this⟩

theorem repl_doubled_at (c : Char) (rest : CStr) (h2 : compat (c :: rest) rest = false)
    (h3 : no_start_inside rest rest.tail = true) (s r : CStr)
    (h : Repl (c :: rest) rest s r) : (c :: rest) <+: r → (c :: c :: rest) <+: s := by
  intro hp
  cases h with
  | nil => cases List.eq_nil_of_prefix_nil hp
  | hit t t2 _ =>
    have := compat_of_prefix_append (c :: rest) rest t2 hp
    rw [h2] at this
    cases this
  | skip d t t2 hn ht =>
    obtain ⟨hd, hp1⟩ := List.cons_prefix_cons.mp hp
    subst hd
    rcases repl_rest_start c rest h3 t t2 ht hp1 with h4 | h4
    · exact List.cons_prefix_cons.mpr ⟨rfl, h4⟩
    · exact absurd (List.cons_prefix_cons.mpr ⟨rfl, h4⟩) hn

theorem repl_doubled (c : Char) (rest : CStr)
    (h1 : no_start_inside (c :: rest) rest = true) (h2 : compat (c :: rest) rest = false)
    (h3 : no_start_inside rest rest.tail = true) (s r : CStr)
    (h : Repl (c :: rest) rest s r) : (c :: rest) <:+: r → (c :: c :: rest) <:+: s := by
  induction h with
  | nil => intro hi; cases List.eq_nil_of_infix_nil hi
  | hit t t2 ht ih =>
    intro hi
    rcases infix_append_cases _ rest t2 hi with ⟨a1, a2, e, hne, hpre⟩ | hi2
    · exact absurd hpre (not_prefix_inside _ rest t2 h1 a1 a2 e hne)
    · exact (ih hi2).trans (List.suffix_append (c :: rest) t).isInfix
  | skip d t t2 hn ht ih =>
    intro hi
    rcases List.infix_cons_iff.mp hi with hp | hp
    · exact (repl_doubled_at c rest h2 h3 (d :: t) (d :: t2) (Repl.skip d t t2 hn ht)
        hp).isInfix
    · exact (ih hp).trans (List.suffix_cons d t).isInfix

theorem table_removes_unless_doubled (c : Char) (rest : CStr) (table : List (CStr × CStr))
    (h : removed_unless_doubled c rest table = true) :
    ∀ s, ¬ (c :: c :: rest) <:+: s → ¬ (c :: rest) <:+: replace_table table s := by
  induction table with
  | nil => cases h
  | cons row rows ih =>
    intro s hs
    simp only [removed_unless_doubled, Bool.or_eq_true, Bool.and_eq_true, beq_iff_eq,
      Bool.not_eq_true'] at h
    rcases h with ⟨⟨⟨⟨⟨e1, e2⟩, h1⟩, h2⟩, h3⟩, hk⟩ | ⟨hrow, hrest⟩
    · have hr : ¬ (c :: rest) <:+: str_replace_all s row.1 row.2 := by
        rw [e1, e2]
        intro hi
        exact hs (repl_doubled c rest h1 h2 h3 s _
          (str_replace_all_repl s (c :: rest) rest (by simp)) hi)
      exact table_keeps_absent (c :: rest) rows hk _ hr
    · exact ih hrest _ (row_keeps_absent (c :: c :: rest) row
        (Bool.or_eq_true_iff.mpr hrow) s hs)

theorem absent_before_types (x : CStr) (h : kept_absent_before_types x = true)
    (source : CStr) (shader_type : Nat) (v : Int) (hs : ¬ x <:+: source) :
    ¬ x <:+: shader_patch_builtins (shader_patch_samplers (shader_patch_precision
      (shader_patch_extensions (replace_version source v)) shader_type)) := by
  simp only [kept_absent_before_types, kept_absent_by_prelude, Bool.and_eq_true,
    Bool.not_eq_true', List.isEmpty_eq_false] at h
  obtain ⟨⟨⟨⟨⟨hne, hv1⟩, hv2⟩, hext⟩, ⟨⟨⟨hf, ho⟩, hsam⟩, hbu⟩⟩, hnp⟩ := h
  rw [builtins_eq_table]
  apply table_keeps_absent x _ hnp
  apply table_keeps_absent x _ hbu
  rw [samplers_eq_table]
  apply table_keeps_absent x _ hsam
  apply precision_keeps_absent x _ shader_type hf ho
  apply table_keeps_absent x _ hext
  exact version_keeps_absent x source v hne hv1 hv2 hs

theorem double_types_checked :
    spec_double_types.all (fun x =>
      kept_absent_before_types ('d' :: x) &&
      removed_unless_doubled 'd' x.tail type_replacements &&
      kept_absent_by x legacy_replacements) = true := by decide

theorem type_patterns_checked :
    type_replacements.all (fun row =>
      spec_double_types.any (fun x => contains row.1 x)) = true := by decide

/-- C33, amended: the translation of a translated source (not empty, at most 256 KiB,
without ES version directive) in which none of `dvec2`, `dvec3`, `dvec4`, `dmat2`, `dmat3`,
`dmat4` stands directly after the letter `d`, for either stage, succeeds with an output
that contains none of the six names, and so no pattern of `type_replacements`. -/
theorem double_types_removed (source : CStr) (shader_type : Nat) (hne : source ≠ [])
    (hl : source.length ≤ MAX_SHADER_SIZE) (hes : NoEsDirective source)
    (hd : ∀ x ∈ spec_double_types, ¬ ('d' :: x) <:+: source) :
    (shader_translate (some source) shader_type).success = true ∧
    ∃ out, (shader_translate (some source) shader_type).translated_source = some out ∧
      (∀ x ∈ spec_double_types, ¬ x <:+: out) ∧
      ∀ row ∈ type_replacements, ¬ row.1 <:+: out := by
  rw [shader_translate_eq source shader_type hne hl hes]
  have hsix : ∀ x ∈ spec_double_types, ¬ x <:+: translate_legacy
      (translate_steps_1_6 source shader_type (shader_detect_version (some source)))
      shader_type (shader_detect_version (some source)) := by
    intro x hx
    have hc := List.all_eq_true.mp double_types_checked x hx
    simp only [Bool.and_eq_true] at hc
    obtain ⟨⟨hc1, hc2⟩, hc3⟩ := hc
    have hx2 : x = 'd' :: x.tail := by
      simp only [spec_double_types, List.mem_cons, List.mem_singleton, List.not_mem_nil,
        or_false] at hx
      rcases hx with h | h | h | h | h | h <;> subst h <;> rfl
    have h1 := absent_before_types ('d' :: x) hc1 source shader_type
      (shader_detect_version (some source)) (hd x hx)
    rw [hx2] at h1
    have h2 := table_removes_unless_doubled 'd' x.tail type_replacements hc2 _ h1
    rw [← hx2] at h2
    simp only [translate_steps_1_6]
    exact legacy_keeps_absent x _ shader_type _ hc3 h2
  refine ⟨rfl, _, rfl, hsix, ?_⟩
  intro row hrow hi
  obtain ⟨x, hx, hxc⟩ := List.any_eq_true.mp
    (List.all_eq_true.mp type_patterns_checked row hrow)
  exact hsix x hx (((contains_iff _ _).mp hxc).trans hi)

theorem doubled_absent (s : CStr)
    (h : spec_double_types.all (fun x => !contains s ('d' :: x)) = true) :
    ∀ x ∈ spec_double_types, ¬ ('d' :: x) <:+: s := by
  intro x hx
  have h1 := List.all_eq_true.mp h x hx
  simp only [Bool.not_eq_true'] at h1
  exact not_infix_of_contains_false _ _ h1

/-- Witness of C33 (amended): a fragment shader for GLSL 4.00 with the types `dmat4`, `dvec3`
and `dmat2x3`. -/
theorem double_types_removed_witness :
    double_shader ≠ [] ∧ double_shader.length ≤ MAX_SHADER_SIZE ∧
    NoEsDirective double_shader ∧
    (∀ x ∈ spec_double_types, ¬ ('d' :: x) <:+: double_shader) ∧
    "dmat2x3".toList <:+: double_shader ∧
    (shader_translate (some double_shader) GL_FRAGMENT_SHADER).success = true ∧
    ∃ out, (shader_translate (some double_shader) GL_FRAGMENT_SHADER).translated_source
        = some out ∧ (∀ x ∈ spec_double_types, ¬ x <:+: out) ∧
      ∀ row ∈ type_replacements, ¬ row.1 <:+: out :=
  have hes : NoEsDirective double_shader :=
    ⟨not_infix_of_contains_false _ _ (by decide), not_infix_of_contains_false _ _ (by decide),
      not_infix_of_contains_false _ _ (by decide)⟩
  have hd := doubled_absent double_shader (by decide)
  ⟨by decide, by decide, hes, hd, (contains_iff _ _).mp (by decide),
    double_types_removed double_shader GL_FRAGMENT_SHADER (by decide) (by decide) hes hd⟩

theorem translate_doubled_shader :
    (shader_translate (some doubled_shader) GL_VERTEX_SHADER).translated_source
      = some doubled_output :=
  translate_chain doubled_shader GL_VERTEX_SHADER 110 doubled_output doubled_output
    (by decide) (by decide)
    ⟨not_infix_of_contains_false _ _ (by decide), not_infix_of_contains_false _ _ (by decide),
     not_infix_of_contains_false _ _ (by decide)⟩
    (by decide)
    (steps_eval doubled_shader GL_VERTEX_SHADER 110
      ("#version 320 es\n".toList ++ "ddvec2 x;".toList)
      ("#version 320 es\n".toList ++ "ddvec2 x;".toList)
      ("#version 320 es\n".toList ++ precision_header GL_VERTEX_SHADER ++ "ddvec2 x;".toList)
      ("#version 320 es\n".toList ++ precision_header GL_VERTEX_SHADER ++ "ddvec2 x;".toList)
      ("#version 320 es\n".toList ++ precision_header GL_VERTEX_SHADER ++ "ddvec2 x;".toList)
      doubled_output
      (by decide) (extensions_unchanged _ (by decide)) (patch_precision_version_line _ _)
      (samplers_unchanged _ (by decide)) (builtins_unchanged _ (by decide)) (by decide))
    (by decide)

/-- Counterexample to C33 as stated: the vertex shader `ddvec2 x;` is translated, and its
output contains the type name `dvec2`: the single pass for `dvec2` removes the occurrence
that follows the first `d`, which then stands before `vec2`. -/
theorem double_types_removed_counterexample :
    doubled_shader ≠ [] ∧ doubled_shader.length ≤ MAX_SHADER_SIZE ∧
    NoEsDirective doubled_shader ∧
    (shader_translate (some doubled_shader) GL_VERTEX_SHADER).translated_source
      = some doubled_output ∧
    "dvec2".toList <:+: doubled_output :=
  ⟨by decide, by decide,
    ⟨not_infix_of_contains_false _ _ (by decide), not_infix_of_contains_false _ _ (by decide),
      not_infix_of_contains_false _ _ (by decide)⟩,
    translate_doubled_shader, (contains_iff _ _).mp (by decide)⟩

end PrismGL
